import Mathlib

/-!
# 8cc code generator: a shallow embedding of `gen.c`

The emitter functions of `gen.c` are translated to Lean functions over an explicit
generator state `Gen` (the file-level statics `stackpos`, `numgp`, `numfp`, `lbreak`,
`lcontinue`, `lswitch`, together with the emitted text).  Every `emit(...)` call
appends one structured instruction; the trailing `# caller:line` comment that
`emitf` prints is diagnostic only and is not represented.

C `int` quantities (sizes, offsets, `stackpos`) are `Int`; they stay far inside the
32-bit range for any real translation unit.  Machine words of the executed code are
`Nat` reduced modulo `2^64`.
-/

namespace Cc8

/-! ## Types of the AST -/

/-- Modelled from the spec: the `kind` tag of a `Ctype` (the enum lives in 8cc.h,
which is not part of the sources); the names are the `CTYPE_*` constants that
gen.c and debug.c switch on. -/
inductive CtypeKind where
  | VOID | BOOL | CHAR | SHORT | INT | LONG | LLONG | FLOAT | DOUBLE | LDOUBLE
  | ARRAY | PTR | STRUCT | FUNC
  deriving DecidableEq, Repr

/-- Modelled from the spec: the `Ctype` record of 8cc.h, restricted to the fields
that gen.c reads: `type`, `size`, `ptr` (pointee or element type, NULL when
absent), `offset` (of a struct field inside its struct), `isstatic`, `hasva` and
`params` (parameter types of a function type). -/
inductive Ctype where
  | mk (type : CtypeKind) (size : Int) (ptr : Option Ctype) (offset : Int)
      (isstatic : Bool) (hasva : Bool) (params : List Ctype) : Ctype

namespace Ctype

def type : Ctype → CtypeKind
  | mk t _ _ _ _ _ _ => t

def size : Ctype → Int
  | mk _ s _ _ _ _ _ => s

def ptr : Ctype → Option Ctype
  | mk _ _ p _ _ _ _ => p

def offset : Ctype → Int
  | mk _ _ _ o _ _ _ => o

def isstatic : Ctype → Bool
  | mk _ _ _ _ b _ _ => b

def hasva : Ctype → Bool
  | mk _ _ _ _ _ b _ => b

def params : Ctype → List Ctype
  | mk _ _ _ _ _ _ ps => ps

/-- A scalar type of the given kind and size, with every other field zero. -/
def scalar (k : CtypeKind) (sz : Int) : Ctype := mk k sz none 0 false false []

/-- A pointer to `t` (8 bytes). -/
def pointerTo (t : Ctype) : Ctype := mk .PTR 8 (some t) 0 false false []

/-- The type `t` seen as a struct field placed at byte offset `off`. -/
def fieldAt (t : Ctype) (off : Int) : Ctype :=
  mk t.type t.size t.ptr off t.isstatic t.hasva t.params

end Ctype

/-- Modelled from the spec: the global `ctype_int` of parse.c (not under src/);
`int` is four bytes on SysV AMD64. -/
def ctype_int : Ctype := Ctype.scalar .INT 4

/-- Modelled from the spec: `is_inttype` of parse.c (not under src/) classifies
the integer scalar kinds. -/
def is_inttype (t : Ctype) : Bool :=
  match t.type with
  | .BOOL | .CHAR | .SHORT | .INT | .LONG | .LLONG => true
  | _ => false

/-- Modelled from the spec: `is_flotype` of parse.c (not under src/) classifies
the floating kinds `float`, `double`, `long double`. -/
def is_flotype (t : Ctype) : Bool :=
  match t.type with
  | .FLOAT | .DOUBLE | .LDOUBLE => true
  | _ => false

/-- Modelled from the spec: `result_type` of parse.c (not under src/), the usual
arithmetic conversions: a pointer operand keeps the pointer type, mixed
integer/float promotes to the float, and among integers the higher-ranked
(here: the larger, at least `int`) type wins. -/
def result_type (a b : Ctype) : Ctype :=
  if a.type = .PTR ∨ a.type = .ARRAY then a
  else if b.type = .PTR ∨ b.type = .ARRAY then b
  else if is_flotype a then a
  else if is_flotype b then b
  else if a.size > b.size ∧ a.size > 4 then a
  else if b.size > 4 then b
  else ctype_int

/-- Assembler labels: a symbol taken from the source program, or a generated
local label `.L<n>`. -/
inductive Label where
  | name (s : String)
  | L (n : Nat)
  deriving DecidableEq, Repr

/-- Modelled from the spec: the values of `node->type` (8cc.h is not part of the
sources).  Character-valued kinds carry the C character in their comment. -/
inductive NodeType where
  | AST_ADDR | AST_DEREF
  | OP_PRE_INC | OP_PRE_DEC | OP_POST_INC | OP_POST_DEC | OP_CAST
  | OP_LOGAND | OP_LOGOR | OP_EQ | OP_NE | OP_GE | OP_LE | OP_LSH | OP_RSH
  | not     -- '!'
  | tilde   -- '~'
  | amp     -- '&'
  | bar     -- '|'
  | comma   -- ','
  | assign  -- '='
  | lt      -- '<'
  | gt      -- '>'
  | plus    -- '+'
  | minus   -- '-'
  | star    -- '*'
  | caret   -- '^'
  | slash   -- '/'
  | percent -- '%'
  | other (code : Nat)
  deriving DecidableEq, Repr

/-- Modelled from the spec: the AST `Node` of 8cc.h (not under src/) as a tagged
variant, one constructor per group of `node->type` values with the fields gen.c
reads.  Nullable pointers are `Option`.  The `id` of literal, string and local
variable nodes stands for the identity of the C object: gen.c mutates those nodes
(`flabel`, `slabel`, `lvarinit`), and every reference to one variable or literal
shares the node. -/
inductive Node where
  | literal (ctype : Ctype) (ival : Int) (fval : Nat) (id : Nat)
  | string (ctype : Ctype) (sval : String) (id : Nat)
  | lvar (ctype : Ctype) (varname : String) (loff : Int)
      (lvarinit : Option (List Node)) (id : Nat)
  | gvar (ctype : Ctype) (varname : String) (glabel : Label)
  | funcall (ctype : Ctype) (fname : String) (args : List Node) (ftype : Ctype)
  | funcptr_call (ctype : Ctype) (fptr : Node) (args : List Node)
  | decl (declvar : Node) (declinit : Option (List Node))
  | init (initval : Node) (initoff : Int) (totype : Ctype)
  | unary (type : NodeType) (ctype : Ctype) (operand : Node)
  | binary (type : NodeType) (ctype : Ctype) (left : Node) (right : Node)
  | ternary (ctype : Option Ctype) (cond : Node) (thn : Option Node) (els : Option Node)
  | for_ (forinit forcond forstep forbody : Option Node)
  | while_ (forcond : Node) (forbody : Option Node)
  | do_ (forcond : Node) (forbody : Option Node)
  | switch (switchexpr : Node) (switchbody : Option Node)
  | case (casebeg caseend : Int)
  | default
  | goto (newlabel : Label)
  | label (newlabel : Option Label)
  | ret (ctype : Ctype) (retval : Option Node)
  | break_
  | continue_
  | compound_stmt (stmts : List Node)
  | struct_ref (ctype : Ctype) (struc : Node)
  | va_start (ap : Node)
  | va_arg (ctype : Ctype) (ap : Node)

namespace Node

/-- The field `node->ctype`; statement nodes have none. -/
def ctype : Node → Option Ctype
  | literal t _ _ _ => some t
  | string t _ _ => some t
  | lvar t _ _ _ _ => some t
  | gvar t _ _ => some t
  | funcall t _ _ _ => some t
  | funcptr_call t _ _ => some t
  | unary _ t _ => some t
  | binary _ t _ _ => some t
  | ternary t _ _ _ => t
  | ret t _ => some t
  | struct_ref t _ => some t
  | va_arg t _ => some t
  | _ => none

end Node

/-! ## Emitted assembly -/

/-- Register names as they are printed after `%`. -/
inductive Reg where
  | rax | rbx | rcx | rdx | rsi | rdi | rbp | rsp | r8 | r9 | r11
  | eax | ebx | ecx | edx
  | ax | cx
  | al | cl
  | xmm (n : Int)
  deriving DecidableEq, Repr

/-- Operands in AT&T syntax. -/
inductive Operand where
  /-- Register `%r`. -/
  | reg (r : Reg)
  /-- Immediate `$n`. -/
  | imm (n : Int)
  /-- Immediate `$n` where `n` is the 32-bit pattern of `(float)d` for the double
  with bit pattern `fval`; the conversion is kept symbolic. -/
  | immf (fval : Nat)
  /-- Memory `disp(%base)`. -/
  | mem (disp : Int) (base : Reg)
  /-- Memory `(%base)`, printed without displacement. -/
  | ind (base : Reg)
  /-- Memory `label+disp(%rip)`. -/
  | ripd (l : Label) (disp : Int)
  /-- Memory `label(%rip)`. -/
  | rip (l : Label)
  /-- Indirect target `*%r`. -/
  | star (r : Reg)
  /-- Bare label (jump or call target). -/
  | target (l : Label)
  deriving DecidableEq, Repr

/-- Instruction mnemonics that gen.c prints. -/
inductive Mn where
  | mov | movb | movw | movl | movq | movsbq | movswq | movslq | movzb
  | movsd | movss | lea | push | pop
  | add | sub | imul | idiv | cqo | xor | sal | sar | and | or | not
  | test | cmp | sete | setne | setl | setg | setle | setge
  | jmp | je | jne | jl | jg | jz | call | leave | ret | nop
  | cvttsd2si | cvtsi2sd | cvtsi2ss | cvtps2pd | cvtpd2ps | unpcklpd | ucomisd
  | addsd | subsd | mulsd | divsd
  deriving DecidableEq, Repr

/-- One line of emitted text. -/
inductive Instr where
  /-- Mnemonic with its operands, source first. -/
  | ins (m : Mn) (ops : List Operand)
  /-- Label definition `l:`. -/
  | label (l : Label)
  /-- Directive `.data`, or `.data n` with a subsection number. -/
  | data (n : Option Int)
  /-- Directive `.text`. -/
  | text
  /-- Directive `.global name`. -/
  | global (name : String)
  /-- Directive `.lcomm name, size`. -/
  | lcomm (name : String) (size : Int)
  /-- Directive `.string "s"`. -/
  | string (s : String)
  /-- Directives `.byte n`, `.short n`, `.long n`, `.quad n` by width in bytes. -/
  | word (width : Nat) (n : Int)
  /-- Directive `.long n` where `n` is the 32-bit pattern of `(float)d` for the
  double with bit pattern `fval`; the conversion is kept symbolic. -/
  | longf (fval : Nat)
  /-- Directive `.quad label`. -/
  | quadl (l : Label)
  deriving DecidableEq, Repr

/-- An instruction without operands. -/
def i0 (m : Mn) : Instr := .ins m []

/-- An instruction with one operand. -/
def i1 (m : Mn) (a : Operand) : Instr := .ins m [a]

/-- An instruction with source and destination. -/
def i2 (m : Mn) (a b : Operand) : Instr := .ins m [a, b]

/-! ## Generator state -/

/-- Ways in which the generator stops without an output. -/
inductive Fatal where
  /-- A call of `error(...)`: the fatal diagnostic. -/
  | error (msg : String)
  /-- A failing `assert`. -/
  | assertion
  /-- A NULL dereference or an index outside `REGS`: no defined behaviour. -/
  | undefined
  deriving DecidableEq, Repr

/-- The statics of gen.c, the emitted text, the counter behind `make_label`
and the mutable node fields recorded by node identity. -/
structure Gen where
  out : List Instr := []
  stackpos : Int := 0
  numgp : Int := 0
  numfp : Int := 0
  lbreak : Option Label := none
  lcontinue : Option Label := none
  lswitch : Option Label := none
  /-- Counter of `make_label`. -/
  labelseq : Nat := 0
  /-- The `flabel` or `slabel` assigned so far, by node `id`. -/
  labels : List (Nat × Label) := []
  /-- The `id`s of local variables whose `lvarinit` has been set to NULL. -/
  lvarinit_null : List Nat := []
  deriving DecidableEq, Repr

abbrev Emit := Except Fatal Gen

instance : DecidableEq (Except Fatal Gen) := fun a b =>
  match a, b with
  | .ok x, .ok y => if h : x = y then isTrue (by rw [h]) else isFalse (by intro e; cases e; exact h rfl)
  | .error x, .error y => if h : x = y then isTrue (by rw [h]) else isFalse (by intro e; cases e; exact h rfl)
  | .ok _, .error _ => isFalse (by intro e; cases e)
  | .error _, .ok _ => isFalse (by intro e; cases e)

/-- The register table `REGS`. -/
def REGS : List Reg := [.rdi, .rsi, .rdx, .rcx, .r8, .r9]

def REGAREA_SIZE : Int := 304

/-- The macro `emit(...)`: append one line to the output. -/
def emit (i : Instr) (g : Gen) : Gen := { g with out := g.out ++ [i] }

/-- Modelled from the spec: `make_label` of parse.c (not under src/): labels are
`.L<n>` with a monotonically increasing counter, unique per compilation. -/
def make_label (g : Gen) : Label × Gen := (.L g.labelseq, { g with labelseq := g.labelseq + 1 })

/-- Indexing `REGS[i]`. -/
def regAt (i : Int) : Except Fatal Reg :=
  if i < 0 then .error .undefined
  else match REGS.get? i.toNat with
    | some r => .ok r
    | none => .error .undefined

def get_int_reg (ctype : Ctype) (r : Char) : Except Fatal Reg :=
  if r ≠ 'a' ∧ r ≠ 'c' then .error .assertion
  else if ctype.size = 1 then .ok (if r = 'a' then .al else .cl)
  else if ctype.size = 2 then .ok (if r = 'a' then .ax else .cx)
  else if ctype.size = 4 then .ok (if r = 'a' then .eax else .ecx)
  else if ctype.size = 8 then .ok (if r = 'a' then .rax else .rcx)
  else .error (.error "Unknown data size")

def get_load_inst (ctype : Ctype) : Except Fatal Mn :=
  if ctype.size = 1 then .ok .movsbq
  else if ctype.size = 2 then .ok .movswq
  else if ctype.size = 4 then .ok .movslq
  else if ctype.size = 8 then .ok .mov
  else .error (.error "Unknown data size")

def push_xmm (reg : Int) (g : Gen) : Gen :=
  let g := emit (i2 .sub (.imm 8) (.reg .rsp)) g
  let g := emit (i2 .movsd (.reg (.xmm reg)) (.ind .rsp)) g
  { g with stackpos := g.stackpos + 8 }

def pop_xmm (reg : Int) (g : Gen) : Emit :=
  let g := emit (i2 .movsd (.ind .rsp) (.reg (.xmm reg))) g
  let g := emit (i2 .add (.imm 8) (.reg .rsp)) g
  let g := { g with stackpos := g.stackpos - 8 }
  if g.stackpos ≥ 0 then .ok g else .error .assertion

def push (reg : Reg) (g : Gen) : Gen :=
  let g := emit (i1 .push (.reg reg)) g
  { g with stackpos := g.stackpos + 8 }

def pop (reg : Reg) (g : Gen) : Emit :=
  let g := emit (i1 .pop (.reg reg)) g
  let g := { g with stackpos := g.stackpos - 8 }
  if g.stackpos ≥ 0 then .ok g else .error .assertion

def emit_gload (ctype : Ctype) (label : Label) (off : Int) (g : Gen) : Emit :=
  if ctype.type = .ARRAY then
    if off ≠ 0 then .ok (emit (i2 .lea (.ripd label off) (.reg .rax)) g)
    else .ok (emit (i2 .lea (.rip label) (.reg .rax)) g)
  else do
    let inst ← get_load_inst ctype
    pure (emit (i2 inst (.ripd label off) (.reg .rax)) g)

def emit_toint (ctype : Ctype) (g : Gen) : Gen :=
  if !is_flotype ctype then g
  else emit (i2 .cvttsd2si (.reg (.xmm 0)) (.reg .eax)) g

def emit_todouble (ctype : Ctype) (g : Gen) : Gen :=
  if is_flotype ctype then g
  else emit (i2 .cvtsi2sd (.reg .eax) (.reg (.xmm 0))) g

def emit_lload (ctype : Ctype) (base : Reg) (off : Int) (g : Gen) : Emit :=
  if ctype.type = .ARRAY then
    .ok (emit (i2 .lea (.mem off base) (.reg .rax)) g)
  else if ctype.type = .FLOAT then
    .ok (emit (i2 .cvtps2pd (.mem off base) (.reg (.xmm 0))) g)
  else if ctype.type = .DOUBLE ∨ ctype.type = .LDOUBLE then
    .ok (emit (i2 .movsd (.mem off base) (.reg (.xmm 0))) g)
  else do
    let inst ← get_load_inst ctype
    pure (emit (i2 inst (.mem off base) (.reg .rax)) g)

def maybe_convert_bool (ctype : Ctype) (g : Gen) : Gen :=
  if ctype.type = .BOOL then
    let g := emit (i2 .test (.reg .rax) (.reg .rax)) g
    emit (i1 .setne (.reg .al)) g
  else g

def emit_gsave (varname : Label) (ctype : Ctype) (off : Int) (g : Gen) : Emit :=
  if ctype.type = .ARRAY then .error .assertion
  else do
    let g := maybe_convert_bool ctype g
    let reg ← get_int_reg ctype 'a'
    if off ≠ 0 then pure (emit (i2 .mov (.reg reg) (.ripd varname off)) g)
    else pure (emit (i2 .mov (.reg reg) (.rip varname)) g)

def emit_lsave (ctype : Ctype) (off : Int) (g : Gen) : Emit :=
  if ctype.type = .FLOAT then
    let g := push_xmm 0 g
    let g := emit (i2 .unpcklpd (.reg (.xmm 0)) (.reg (.xmm 0))) g
    let g := emit (i2 .cvtpd2ps (.reg (.xmm 0)) (.reg (.xmm 0))) g
    let g := emit (i2 .movss (.reg (.xmm 0)) (.mem off .rbp)) g
    pop_xmm 0 g
  else if ctype.type = .DOUBLE ∨ ctype.type = .LDOUBLE then
    .ok (emit (i2 .movsd (.reg (.xmm 0)) (.mem off .rbp)) g)
  else do
    let g := maybe_convert_bool ctype g
    let reg ← get_int_reg ctype 'a'
    pure (emit (i2 .mov (.reg reg) (.mem off .rbp)) g)

def emit_assign_deref_int (ctype : Ctype) (off : Int) (g : Gen) : Emit := do
  let g := emit (i2 .mov (.ind .rsp) (.reg .rcx)) g
  let reg ← get_int_reg ctype 'c'
  let g := if off ≠ 0 then emit (i2 .mov (.reg reg) (.mem off .rax)) g
    else emit (i2 .mov (.reg reg) (.ind .rax)) g
  pop .rax g

/-- What `printf("%d", v)` prints for a `long` argument: its low 32 bits as a
signed number. -/
def fmt_d (v : Int) : Int := (v + 2 ^ 31) % 2 ^ 32 - 2 ^ 31

/-- What `printf("%lu", v)` prints for a `long` argument: the value modulo `2^64`. -/
def fmt_lu (v : Int) : Int := v % 2 ^ 64

/-- The field `left->ctype->ptr` and similar chains; a NULL link has no defined
behaviour. -/
def deref_ptr (t : Option Ctype) : Except Fatal Ctype :=
  match t with
  | some c => match c.ptr with
    | some p => .ok p
    | none => .error .undefined
  | none => .error .undefined

/-- Reading `node->ctype` where the code dereferences it. -/
def the_ctype (t : Option Ctype) : Except Fatal Ctype :=
  match t with
  | some c => .ok c
  | none => .error .undefined

/-- First loop of `emit_zero_filler`: `for (; start <= end - 4; start += 4)`;
`n` bounds the number of iterations.  Returns the final `start`. -/
def emit_zero_filler_l : Nat → Int → Int → Gen → Int × Gen
  | 0, start, _, g => (start, g)
  | n + 1, start, end_, g =>
    if start ≤ end_ - 4 then
      emit_zero_filler_l n (start + 4) end_ (emit (i2 .movl (.imm 0) (.mem start .rbp)) g)
    else (start, g)

/-- Second loop of `emit_zero_filler`: `for (; start < end; start++)`. -/
def emit_zero_filler_b : Nat → Int → Int → Gen → Gen
  | 0, _, _, g => g
  | n + 1, start, end_, g =>
    if start < end_ then
      emit_zero_filler_b n (start + 1) end_ (emit (i2 .movb (.imm 0) (.mem start .rbp)) g)
    else g

def emit_zero_filler (start end_ : Int) (g : Gen) : Gen :=
  let r := emit_zero_filler_l (end_ - start).toNat start end_ g
  emit_zero_filler_b (end_ - r.1).toNat r.1 end_ r.2

/-- The body of `ensure_lvar_init` for a local variable node: `init` is
`emit_decl_init(node->lvarinit, node->loff)` when `lvarinit` was given by the
parser; the assignment `node->lvarinit = NULL` is recorded under the node `id`. -/
def ensure_lvar_init (id : Nat) (init : Option (Gen → Emit)) (g : Gen) : Emit :=
  match init with
  | some run =>
    if id ∈ g.lvarinit_null then .ok g
    else do
      let g ← run g
      pure { g with lvarinit_null := id :: g.lvarinit_null }
  | none => .ok g

/-- The function `emit_assign_deref(var)`; `eo` is `emit_expr(var->operand)`. -/
def emit_assign_deref (operand : Node) (eo : Gen → Emit) (g : Gen) : Emit := do
  let g := push .rax g
  let g ← eo g
  let t ← deref_ptr operand.ctype
  emit_assign_deref_int t 0 g

/-- The function `emit_pointer_arith(op, left, right)`; `el` and `er` are
`emit_expr(left)` and `emit_expr(right)`. -/
def emit_pointer_arith (_op : NodeType) (left _right : Node) (el er : Gen → Emit)
    (g : Gen) : Emit := do
  let g ← el g
  let g := push .rax g
  let g ← er g
  let t ← deref_ptr left.ctype
  let size := t.size
  let g := if size > 1 then emit (i2 .imul (.imm size) (.reg .rax)) g else g
  let g := emit (i2 .mov (.reg .rax) (.reg .rcx)) g
  let g ← pop .rax g
  pure (emit (i2 .add (.reg .rcx) (.reg .rax)) g)

/-- The function `emit_comp(inst, node)` for `node` with operands `left`, `right`. -/
def emit_comp (inst : Mn) (left right : Node) (el er : Gen → Emit) (g : Gen) : Emit := do
  let lt ← the_ctype left.ctype
  let rt ← the_ctype right.ctype
  let g ← if is_flotype lt || is_flotype rt then do
      let g ← el g
      let g := emit_todouble lt g
      let g := push_xmm 0 g
      let g ← er g
      let g := emit_todouble rt g
      let g ← pop_xmm 1 g
      pure (emit (i2 .ucomisd (.reg (.xmm 0)) (.reg (.xmm 1))) g)
    else do
      let g ← el g
      let g := emit_toint lt g
      let g := push .rax g
      let g ← er g
      let g := emit_toint rt g
      let g ← pop .rcx g
      pure (emit (i2 .cmp (.reg .rax) (.reg .rcx)) g)
  let g := emit (i1 inst (.reg .al)) g
  pure (emit (i2 .movzb (.reg .al) (.reg .eax)) g)

/-- The `switch` of `emit_binop_int_arith` that selects the mnemonic; `none` is
`op = NULL` for division and modulo. -/
def int_arith_op (type : NodeType) : Except Fatal (Option Mn) :=
  match type with
  | .plus => .ok (some .add)
  | .minus => .ok (some .sub)
  | .star => .ok (some .imul)
  | .caret => .ok (some .xor)
  | .OP_LSH => .ok (some .sal)
  | .OP_RSH => .ok (some .sar)
  | .slash => .ok none
  | .percent => .ok none
  | _ => .error (.error "invalid operator")

def emit_binop_int_arith (type : NodeType) (left right : Node) (el er : Gen → Emit)
    (g : Gen) : Emit := do
  let op ← int_arith_op type
  let g ← el g
  let lt ← the_ctype left.ctype
  let g := emit_toint lt g
  let g := push .rax g
  let g ← er g
  let rt ← the_ctype right.ctype
  let g := emit_toint rt g
  let g := emit (i2 .mov (.reg .rax) (.reg .rcx)) g
  let g ← pop .rax g
  if type = .slash ∨ type = .percent then
    let g := emit (i0 .cqo) g
    let g := emit (i1 .idiv (.reg .rcx)) g
    if type = .percent then pure (emit (i2 .mov (.reg .edx) (.reg .eax)) g)
    else pure g
  else match op with
    | some m =>
      if type = .OP_LSH ∨ type = .OP_RSH then pure (emit (i2 m (.reg .cl) (.reg .rax)) g)
      else pure (emit (i2 m (.reg .rcx) (.reg .rax)) g)
    | none => .error .undefined

/-- The `switch` of `emit_binop_float_arith` that selects the mnemonic. -/
def float_arith_op (type : NodeType) : Except Fatal Mn :=
  match type with
  | .plus => .ok .addsd
  | .minus => .ok .subsd
  | .star => .ok .mulsd
  | .slash => .ok .divsd
  | _ => .error (.error "invalid operator")

def emit_binop_float_arith (type : NodeType) (left right : Node) (el er : Gen → Emit)
    (g : Gen) : Emit := do
  let op ← float_arith_op type
  let g ← el g
  let lt ← the_ctype left.ctype
  let g := emit_todouble lt g
  let g := push_xmm 0 g
  let g ← er g
  let rt ← the_ctype right.ctype
  let g := emit_todouble rt g
  let g := emit (i2 .movsd (.reg (.xmm 0)) (.reg (.xmm 1))) g
  let g ← pop_xmm 0 g
  pure (emit (i2 op (.reg (.xmm 1)) (.reg (.xmm 0))) g)

def emit_load_convert (to_ from_ : Ctype) (g : Gen) : Gen :=
  if is_flotype to_ then emit_todouble from_ g
  else maybe_convert_bool to_ (emit_toint from_ g)

def emit_save_convert (to_ from_ : Ctype) (g : Gen) : Gen :=
  if is_inttype from_ && to_.type = .FLOAT then
    emit (i2 .cvtsi2ss (.reg .eax) (.reg (.xmm 0))) g
  else if is_flotype from_ && to_.type = .FLOAT then
    emit (i2 .cvtpd2ps (.reg (.xmm 0)) (.reg (.xmm 0))) g
  else if is_inttype from_ && (to_.type = .DOUBLE || to_.type = .LDOUBLE) then
    emit (i2 .cvtsi2sd (.reg .eax) (.reg (.xmm 0))) g
  else if !(is_flotype from_ && (to_.type = .DOUBLE || to_.type = .LDOUBLE)) then
    emit_load_convert to_ from_ g
  else g

def emit_ret (g : Gen) : Gen :=
  emit (i0 .ret) (emit (i0 .leave) g)

/-- The function `emit_binop(node)` for `node` of kind `type`, result type `ctype`
and operands `left`, `right`. -/
def emit_binop (type : NodeType) (ctype : Ctype) (left right : Node) (el er : Gen → Emit)
    (g : Gen) : Emit :=
  if ctype.type = .PTR then emit_pointer_arith type left right el er g
  else match type with
    | .lt => emit_comp .setl left right el er g
    | .gt => emit_comp .setg left right el er g
    | .OP_EQ => emit_comp .sete left right el er g
    | .OP_GE => emit_comp .setge left right el er g
    | .OP_LE => emit_comp .setle left right el er g
    | .OP_NE => emit_comp .setne left right el er g
    | _ =>
      if is_inttype ctype then emit_binop_int_arith type left right el er g
      else if is_flotype ctype then emit_binop_float_arith type left right el er g
      else .error (.error "internal error")

/-- The function `emit_save_literal(node, totype, off)` for a literal node with
payloads `ival` and `fval` (the bit pattern of the double). -/
def emit_save_literal (ival : Int) (fval : Nat) (totype : Ctype) (off : Int) (g : Gen) : Emit :=
  match totype.type with
  | .BOOL => .ok (emit (i2 .movb (.imm (if ival ≠ 0 then 1 else 0)) (.mem off .rbp)) g)
  | .CHAR => .ok (emit (i2 .movb (.imm (fmt_d ival)) (.mem off .rbp)) g)
  | .SHORT => .ok (emit (i2 .movw (.imm (fmt_d ival)) (.mem off .rbp)) g)
  | .INT => .ok (emit (i2 .movl (.imm (fmt_d ival)) (.mem off .rbp)) g)
  | .LONG | .LLONG | .PTR =>
    let u : Int := ival % 2 ^ 64
    let g := emit (i2 .movl (.imm (fmt_lu (u % 2 ^ 32))) (.mem off .rbp)) g
    .ok (emit (i2 .movl (.imm (fmt_lu (u / 2 ^ 32))) (.mem (off + 4) .rbp)) g)
  | .FLOAT => .ok (emit (i2 .movl (.immf fval) (.mem off .rbp)) g)
  | .DOUBLE =>
    let p : Int := if fval % 2 ^ 64 < 2 ^ 63 then fval % 2 ^ 64 else (fval % 2 ^ 64 : Nat) - 2 ^ 64
    let g := emit (i2 .movl (.imm (fmt_lu (p % 2 ^ 32))) (.mem off .rbp)) g
    .ok (emit (i2 .movl (.imm (fmt_lu (p / 2 ^ 32))) (.mem (off + 4) .rbp)) g)
  | _ => .error (.error "internal error")

/-- The three copy loops of `emit_copy_struct`: `for (; i < size; i += step)`. -/
def emit_copy_loop (m : Mn) (step : Int) : Nat → Int → Int → Gen → Int × Gen
  | 0, i, _, g => (i, g)
  | n + 1, i, size, g =>
    if i < size then
      let g := emit (i2 m (.mem i .rcx) (.reg .r11)) g
      let g := emit (i2 m (.reg .r11) (.mem i .rax)) g
      emit_copy_loop m step n (i + step) size g
    else (i, g)

/-- The function `emit_copy_struct(left, right)`; `al` and `ar` are
`emit_addr(left)` and `emit_addr(right)`. -/
def emit_copy_struct (left : Node) (al ar : Gen → Emit) (g : Gen) : Emit := do
  let g := push .rcx g
  let g := push .r11 g
  let g ← ar g
  let g := emit (i2 .mov (.reg .rax) (.reg .rcx)) g
  let g ← al g
  let t ← the_ctype left.ctype
  let r := emit_copy_loop .movq 8 t.size.toNat 0 t.size g
  let r := emit_copy_loop .movl 4 t.size.toNat r.1 t.size r.2
  let r := emit_copy_loop .movb 1 t.size.toNat r.1 t.size r.2
  let g ← pop .r11 r.2
  pop .rcx g

/-- The function `emit_pre_inc_dec(node, op)`; `eo` and `so` are
`emit_expr(node->operand)` and `emit_store(node->operand)`. -/
def emit_pre_inc_dec (op : Mn) (eo so : Gen → Emit) (g : Gen) : Emit := do
  let g ← eo g
  let g := emit (i2 op (.imm 1) (.reg .rax)) g
  so g

def emit_post_inc_dec (op : Mn) (eo so : Gen → Emit) (g : Gen) : Emit := do
  let g ← eo g
  let g := push .rax g
  let g := emit (i2 op (.imm 1) (.reg .rax)) g
  let g ← so g
  pop .rax g

/-- The function `get_arg_types(params, args)`: it is called with the argument
nodes as `params` and the declared parameter types as `args`; an argument past
the declared ones is passed as `result_type('=', v->ctype, ctype_int)`. -/
def get_arg_types : List Node → List Ctype → Except Fatal (List Ctype)
  | [], _ => .ok []
  | v :: vs, [] => do
    let t ← the_ctype v.ctype
    let r ← get_arg_types vs []
    pure (result_type t ctype_int :: r)
  | _ :: vs, p :: ps => do
    let r ← get_arg_types vs ps
    pure (p :: r)

/-- The loop of `set_reg_nums`. -/
def set_reg_nums_loop : List Node → Gen → Except Fatal Gen
  | [], g => .ok g
  | arg :: rest, g => do
    let t ← the_ctype arg.ctype
    if is_flotype t then set_reg_nums_loop rest { g with numfp := g.numfp + 1 }
    else set_reg_nums_loop rest { g with numgp := g.numgp + 1 }

def set_reg_nums (args : List Node) (g : Gen) : Except Fatal Gen :=
  set_reg_nums_loop args { g with numgp := 0, numfp := 0 }

def emit_je (label : Label) (g : Gen) : Gen :=
  emit (i1 .je (.target label)) (emit (i2 .test (.reg .rax) (.reg .rax)) g)

def emit_label (label : Label) (g : Gen) : Gen := emit (.label label) g

def emit_jmp (label : Label) (g : Gen) : Gen := emit (i1 .jmp (.target label)) g

/-- The function `emit_literal(node)` for a literal node; `node->flabel` is looked
up under the node `id`. -/
def emit_literal (ctype : Ctype) (ival : Int) (fval : Nat) (id : Nat) (g : Gen) : Emit :=
  match ctype.type with
  | .BOOL | .CHAR => .ok (emit (i2 .mov (.imm (fmt_d ival)) (.reg .rax)) g)
  | .INT => .ok (emit (i2 .mov (.imm (fmt_d ival)) (.reg .rax)) g)
  | .LONG | .LLONG => .ok (emit (i2 .mov (.imm (fmt_lu ival)) (.reg .rax)) g)
  | .FLOAT | .DOUBLE | .LDOUBLE =>
    match g.labels.lookup id with
    | some flabel => .ok (emit (i2 .movsd (.rip flabel) (.reg (.xmm 0))) g)
    | none =>
      let (flabel, g) := make_label g
      let g := { g with labels := (id, flabel) :: g.labels }
      let g := emit (.data none) g
      let g := emit_label flabel g
      let g := emit (.word 4 (fmt_d (fval % 2 ^ 32))) g
      let g := emit (.word 4 (fmt_d (fval / 2 ^ 32))) g
      let g := emit .text g
      .ok (emit (i2 .movsd (.rip flabel) (.reg (.xmm 0))) g)
  | _ => .error (.error "internal error")

def emit_literal_string (sval : String) (id : Nat) (g : Gen) : Gen :=
  match g.labels.lookup id with
  | some slabel => emit (i2 .lea (.rip slabel) (.reg .rax)) g
  | none =>
    let (slabel, g) := make_label g
    let g := { g with labels := (id, slabel) :: g.labels }
    let g := emit (.data none) g
    let g := emit_label slabel g
    let g := emit (.string sval) g
    let g := emit .text g
    emit (i2 .lea (.rip slabel) (.reg .rax)) g

/-- The function `emit_lvar(node)`; `init` is the pending `lvarinit` emission. -/
def emit_lvar (ctype : Ctype) (loff : Int) (id : Nat) (init : Option (Gen → Emit))
    (g : Gen) : Emit := do
  let g ← ensure_lvar_init id init g
  emit_lload ctype .rbp loff g

def emit_gvar (ctype : Ctype) (glabel : Label) (g : Gen) : Emit :=
  emit_gload ctype glabel 0 g

/-- First loop of `emit_func_call`: save the argument registers in use. -/
def func_call_save : List Ctype → Int → Int → Gen → Except Fatal (Int × Int × Gen)
  | [], ireg, xreg, g => .ok (ireg, xreg, g)
  | t :: ts, ireg, xreg, g =>
    if is_flotype t then
      func_call_save ts ireg (xreg + 1) (if xreg > 0 then push_xmm xreg g else g)
    else do
      let r ← regAt ireg
      func_call_save ts (ireg + 1) xreg (push r g)

/-- Third loop of `emit_func_call`, over the reversed argument types: pop the
pushed argument values into the argument registers. -/
def func_call_pop : List Ctype → Int → Int → Gen → Except Fatal (Int × Int × Gen)
  | [], ir, xr, g => .ok (ir, xr, g)
  | t :: ts, ir, xr, g =>
    if is_flotype t then do
      let g ← pop_xmm (xr - 1) g
      func_call_pop ts ir (xr - 1) g
    else do
      let r ← regAt (ir - 1)
      let g ← pop r g
      func_call_pop ts (ir - 1) xr g

/-- Last loop of `emit_func_call`, over the reversed argument types: restore the
saved argument registers. -/
def func_call_restore : List Ctype → Int → Int → Gen → Except Fatal (Int × Int × Gen)
  | [], ireg, xreg, g => .ok (ireg, xreg, g)
  | t :: ts, ireg, xreg, g =>
    if is_flotype t then
      if xreg ≠ 1 then do
        let g ← pop_xmm (xreg - 1) g
        func_call_restore ts ireg (xreg - 1) g
      else func_call_restore ts ireg xreg g
    else do
      let r ← regAt (ireg - 1)
      let g ← pop r g
      func_call_restore ts (ireg - 1) xreg g

/-- The function `emit_func_call(node)`: `isptr` tells `AST_FUNCPTR_CALL`,
`argtypes` is the result of `get_arg_types`, `efptr` is `emit_expr(node->fptr)`
and `eargs` is the loop that evaluates and pushes the arguments. -/
def emit_func_call (isptr : Bool) (ctype : Ctype) (fname : String)
    (argtypes : Except Fatal (List Ctype)) (efptr : Gen → Emit)
    (eargs : List Ctype → Gen → Emit) (g : Gen) : Emit := do
  let argtypes ← argtypes
  let (ireg, xreg, g) ← func_call_save argtypes 0 0 g
  let g ← if isptr then do
      let g ← efptr g
      pure (push .rax g)
    else pure g
  let g ← eargs argtypes g
  let (_, _, g) ← func_call_pop argtypes.reverse ireg xreg g
  let g ← if isptr then pop .rbx g else pure g
  let g := emit (i2 .mov (.imm xreg) (.reg .eax)) g
  let g := if g.stackpos.tmod 16 ≠ 0 then emit (i2 .sub (.imm 8) (.reg .rsp)) g else g
  let g := if isptr then emit (i1 .call (.star .rbx)) g
    else emit (i1 .call (.target (.name fname))) g
  let g := if g.stackpos.tmod 16 ≠ 0 then emit (i2 .add (.imm 8) (.reg .rsp)) g else g
  let (_, _, g) ← func_call_restore argtypes.reverse ireg xreg g
  if ctype.type = .FLOAT then
    pure (emit (i2 .cvtps2pd (.reg (.xmm 0)) (.reg (.xmm 0))) g)
  else pure g

/-- The function `emit_decl(node)`; `init` is `emit_decl_init(node->declinit, ·)`
when `declinit` is set. -/
def emit_decl (declvar : Node) (init : Option (Int → Gen → Emit)) (g : Gen) : Emit :=
  match init with
  | none => .ok g
  | some run =>
    match declvar with
    | .lvar ctype _ loff _ _ => run loff (emit_zero_filler loff (loff + ctype.size) g)
    | _ => .error .undefined

/-- The function `emit_deref(node)`; `eo` is `emit_expr(node->operand)`. -/
def emit_deref (ctype : Ctype) (operand : Node) (eo : Gen → Emit) (g : Gen) : Emit := do
  let g ← eo g
  let t ← deref_ptr operand.ctype
  let g ← emit_lload t .rax 0 g
  pure (emit_load_convert ctype t g)

/-- The function `emit_ternary(node)`; `ec`, `et`, `ee` emit `cond`, `then`, `els`. -/
def emit_ternary (ec : Gen → Emit) (et ee : Option (Gen → Emit)) (g : Gen) : Emit := do
  let g ← ec g
  let (ne, g) := make_label g
  let g := emit_je ne g
  let g ← match et with
    | some run => run g
    | none => pure g
  match ee with
  | some run =>
    let (end_, g) := make_label g
    let g := emit_jmp end_ g
    let g := emit_label ne g
    let g ← run g
    pure (emit_label end_ g)
  | none => pure (emit_label ne g)

/-- Emission of an optional statement: `if (p) emit_expr(p);`. -/
def emit_opt (e : Option (Gen → Emit)) (g : Gen) : Emit :=
  match e with
  | some run => run g
  | none => .ok g

def emit_for (einit econd estep ebody : Option (Gen → Emit)) (g : Gen) : Emit := do
  let g ← emit_opt einit g
  let (begin_, g) := make_label g
  let (step, g) := make_label g
  let (end_, g) := make_label g
  let obreak := g.lbreak
  let ocontinue := g.lcontinue
  let g := { g with lbreak := some end_, lcontinue := some step }
  let g := emit_label begin_ g
  let g ← match econd with
    | some run => do
      let g ← run g
      pure (emit_je end_ g)
    | none => pure g
  let g ← emit_opt ebody g
  let g := emit_label step g
  let g ← emit_opt estep g
  let g := emit_jmp begin_ g
  let g := emit_label end_ g
  pure { g with lbreak := obreak, lcontinue := ocontinue }

def emit_while (econd : Gen → Emit) (ebody : Option (Gen → Emit)) (g : Gen) : Emit := do
  let (begin_, g) := make_label g
  let (end_, g) := make_label g
  let obreak := g.lbreak
  let ocontinue := g.lcontinue
  let g := { g with lbreak := some end_, lcontinue := some begin_ }
  let g := emit_label begin_ g
  let g ← econd g
  let g := emit_je end_ g
  let g ← emit_opt ebody g
  let g := emit_jmp begin_ g
  let g := emit_label end_ g
  pure { g with lbreak := obreak, lcontinue := ocontinue }

def emit_do (econd : Gen → Emit) (ebody : Option (Gen → Emit)) (g : Gen) : Emit := do
  let (begin_, g) := make_label g
  let (end_, g) := make_label g
  let obreak := g.lbreak
  let ocontinue := g.lcontinue
  let g := { g with lbreak := some end_, lcontinue := some begin_ }
  let g := emit_label begin_ g
  let g ← emit_opt ebody g
  let g ← econd g
  let g := emit_je end_ g
  let g := emit_jmp begin_ g
  let g := emit_label end_ g
  pure { g with lbreak := obreak, lcontinue := ocontinue }

def emit_switch (eexpr : Gen → Emit) (ebody : Option (Gen → Emit)) (g : Gen) : Emit := do
  let oswitch := g.lswitch
  let obreak := g.lbreak
  let g ← eexpr g
  let (l1, g) := make_label g
  let g := { g with lswitch := some l1 }
  let (l2, g) := make_label g
  let g := { g with lbreak := some l2 }
  let g := emit_jmp l1 g
  let g ← emit_opt ebody g
  let lswitch ← match g.lswitch with
    | some l => pure l
    | none => .error .undefined
  let g := emit_label lswitch g
  let lbreak ← match g.lbreak with
    | some l => pure l
    | none => .error .undefined
  let g := emit_label lbreak g
  pure { g with lswitch := oswitch, lbreak := obreak }

def emit_case (casebeg caseend : Int) (g : Gen) : Emit :=
  match g.lswitch with
  | none => .error (.error "stray case label")
  | some lswitch =>
    let (skip, g) := make_label g
    let g := emit_jmp skip g
    let g := emit_label lswitch g
    let (next, g) := make_label g
    let g := { g with lswitch := some next }
    let g := emit (i2 .cmp (.imm casebeg) (.reg .eax)) g
    let g := if casebeg = caseend then emit (i1 .jne (.target next)) g
      else
        let g := emit (i1 .jl (.target next)) g
        let g := emit (i2 .cmp (.imm caseend) (.reg .eax)) g
        emit (i1 .jg (.target next)) g
    .ok (emit_label skip g)

def emit_default (g : Gen) : Emit :=
  match g.lswitch with
  | none => .error (.error "stray case label")
  | some lswitch =>
    let g := emit_label lswitch g
    let (next, g) := make_label g
    .ok { g with lswitch := some next }

def emit_goto (newlabel : Label) (g : Gen) : Gen := emit_jmp newlabel g

/-- The function `emit_return(node)`; `eret` is `emit_expr(node->retval)`. -/
def emit_return (ctype : Ctype) (retval : Option Node) (eret : Option (Gen → Emit))
    (g : Gen) : Emit := do
  let g ← match retval, eret with
    | some v, some run => do
      let g ← run g
      let t ← the_ctype v.ctype
      pure (emit_save_convert ctype t g)
    | _, _ => pure g
  pure (emit_ret g)

def emit_break (g : Gen) : Emit :=
  match g.lbreak with
  | none => .error (.error "stray break statement")
  | some l => .ok (emit_jmp l g)

def emit_continue (g : Gen) : Emit :=
  match g.lcontinue with
  | none => .error (.error "stray continue statement")
  | some l => .ok (emit_jmp l g)

/-- The function `emit_va_start(node)`; `eap` is `emit_expr(node->ap)`. -/
def emit_va_start (eap : Gen → Emit) (g : Gen) : Emit := do
  let g ← eap g
  let g := push .rcx g
  let g := emit (i2 .movl (.imm (g.numgp * 8)) (.ind .rax)) g
  let g := emit (i2 .movl (.imm (48 + g.numfp * 16)) (.mem 4 .rax)) g
  let g := emit (i2 .lea (.mem (-REGAREA_SIZE) .rbp) (.reg .rcx)) g
  let g := emit (i2 .mov (.reg .rcx) (.mem 16 .rax)) g
  pop .rcx g

/-- The function `emit_va_arg(node)`; `eap` is `emit_expr(node->ap)`. -/
def emit_va_arg (ctype : Ctype) (eap : Gen → Emit) (g : Gen) : Emit := do
  let g ← eap g
  let g := emit (i0 .nop) g
  let g := push .rcx g
  let g := push .rbx g
  let g := emit (i2 .mov (.mem 16 .rax) (.reg .rcx)) g
  let g :=
    if is_flotype ctype then
      let g := emit (i2 .mov (.mem 4 .rax) (.reg .ebx)) g
      let g := emit (i2 .add (.reg .rbx) (.reg .rcx)) g
      let g := emit (i2 .add (.imm 16) (.reg .ebx)) g
      let g := emit (i2 .mov (.reg .ebx) (.mem 4 .rax)) g
      emit (i2 .movsd (.ind .rcx) (.reg (.xmm 0))) g
    else
      let g := emit (i2 .mov (.ind .rax) (.reg .ebx)) g
      let g := emit (i2 .add (.reg .rbx) (.reg .rcx)) g
      let g := emit (i2 .add (.imm 8) (.reg .ebx)) g
      let g := emit (i2 .mov (.reg .rbx) (.ind .rax)) g
      emit (i2 .mov (.ind .rcx) (.reg .rax)) g
  let g ← pop .rbx g
  pop .rcx g

/-- The function `emit_logand(node)`; `el`, `er` emit the operands. -/
def emit_logand (el er : Gen → Emit) (g : Gen) : Emit := do
  let (end_, g) := make_label g
  let g ← el g
  let g := emit (i2 .test (.reg .rax) (.reg .rax)) g
  let g := emit (i2 .mov (.imm 0) (.reg .rax)) g
  let g := emit (i1 .je (.target end_)) g
  let g ← er g
  let g := emit (i2 .test (.reg .rax) (.reg .rax)) g
  let g := emit (i2 .mov (.imm 0) (.reg .rax)) g
  let g := emit (i1 .je (.target end_)) g
  let g := emit (i2 .mov (.imm 1) (.reg .rax)) g
  pure (emit_label end_ g)

/-- The function `emit_logor(node)`; `el`, `er` emit the operands. -/
def emit_logor (el er : Gen → Emit) (g : Gen) : Emit := do
  let (end_, g) := make_label g
  let g ← el g
  let g := emit (i2 .test (.reg .rax) (.reg .rax)) g
  let g := emit (i2 .mov (.imm 1) (.reg .rax)) g
  let g := emit (i1 .jne (.target end_)) g
  let g ← er g
  let g := emit (i2 .test (.reg .rax) (.reg .rax)) g
  let g := emit (i2 .mov (.imm 1) (.reg .rax)) g
  let g := emit (i1 .jne (.target end_)) g
  let g := emit (i2 .mov (.imm 0) (.reg .rax)) g
  pure (emit_label end_ g)

def emit_lognot (eo : Gen → Emit) (g : Gen) : Emit := do
  let g ← eo g
  let g := emit (i2 .cmp (.imm 0) (.reg .rax)) g
  let g := emit (i1 .sete (.reg .al)) g
  pure (emit (i2 .movzb (.reg .al) (.reg .eax)) g)

def emit_bitand (el er : Gen → Emit) (g : Gen) : Emit := do
  let g ← el g
  let g := push .rax g
  let g ← er g
  let g ← pop .rcx g
  pure (emit (i2 .and (.reg .rcx) (.reg .rax)) g)

def emit_bitor (el er : Gen → Emit) (g : Gen) : Emit := do
  let g ← el g
  let g := push .rax g
  let g ← er g
  let g ← pop .rcx g
  pure (emit (i2 .or (.reg .rcx) (.reg .rax)) g)

/-- The function `emit_bitnot(node)`; it emits `node->left`, which shares its
storage with `node->operand`. -/
def emit_bitnot (el : Gen → Emit) (g : Gen) : Emit := do
  let g ← el g
  pure (emit (i1 .not (.reg .rax)) g)

def emit_cast (ctype : Ctype) (operand : Node) (eo : Gen → Emit) (g : Gen) : Emit := do
  let g ← eo g
  let t ← the_ctype operand.ctype
  pure (emit_load_convert ctype t g)

def emit_comma (el er : Gen → Emit) (g : Gen) : Emit := do
  let g ← el g
  er g

/-- The function `emit_assign(node)`; `er` is `emit_expr(node->right)`, `sl` is
`emit_store(node->left)`, `al` and `ar` are `emit_addr` of the operands. -/
def emit_assign (ctype : Ctype) (left right : Node) (er sl al ar : Gen → Emit)
    (g : Gen) : Emit := do
  let lt ← the_ctype left.ctype
  if lt.type = .STRUCT ∧ lt.size > 8 then
    emit_copy_struct left al ar g
  else do
    let g ← er g
    let rt ← the_ctype right.ctype
    let g := emit_load_convert ctype rt g
    sl g

/-! ## The tree walk

`emit_expr` and the functions that recurse with it.  A node kind stored in the
wrong variant (a one-operand kind in `Node.binary`, or the reverse) makes the C
code read a union member that was never written, which is `Fatal.undefined`. -/

mutual

def emit_decl_init : List Node → Int → Gen → Emit
  | [], _, g => .ok g
  | node :: rest, off, g =>
    match node with
    | .init initval initoff totype => do
      let g ← match initval with
        | .literal _ ival fval _ => emit_save_literal ival fval totype (initoff + off) g
        | _ => do
          let g ← emit_expr initval g
          emit_lsave totype (initoff + off) g
      emit_decl_init rest off g
    | _ => .error .assertion

def emit_assign_struct_ref : Node → Ctype → Int → Gen → Emit
  | .lvar _ _ loff lvarinit id, field, off, g => do
    let g ← ensure_lvar_init id
      (match lvarinit with
        | some l => some (emit_decl_init l loff)
        | none => none) g
    emit_lsave field (loff + field.offset + off) g
  | .gvar _ varname _, field, off, g =>
    emit_gsave (.name varname) field (field.offset + off) g
  | .struct_ref ctype struc, field, off, g =>
    emit_assign_struct_ref struc field (off + ctype.offset) g
  | .unary .AST_DEREF _ operand, field, off, g => do
    let g := push .rax g
    let g ← emit_expr operand g
    emit_assign_deref_int field (field.offset + off) g
  | _, _, _, _ => .error (.error "internal error")

def emit_load_struct_ref : Node → Ctype → Int → Gen → Emit
  | .lvar _ _ loff lvarinit id, field, off, g => do
    let g ← ensure_lvar_init id
      (match lvarinit with
        | some l => some (emit_decl_init l loff)
        | none => none) g
    emit_lload field .rbp (loff + field.offset + off) g
  | .gvar _ varname _, field, off, g =>
    emit_gload field (.name varname) (field.offset + off) g
  | .struct_ref ctype struc, field, off, g =>
    emit_load_struct_ref struc field (ctype.offset + off) g
  | .unary .AST_DEREF _ operand, field, off, g => do
    let g ← emit_expr operand g
    emit_lload field .rax (field.offset + off) g
  | _, _, _, _ => .error (.error "internal error")

def emit_store : Node → Gen → Emit
  | .unary .AST_DEREF _ operand, g => emit_assign_deref operand (emit_expr operand) g
  | .struct_ref ctype struc, g => emit_assign_struct_ref struc ctype 0 g
  | .lvar ctype _ loff lvarinit id, g => do
    let g ← ensure_lvar_init id
      (match lvarinit with
        | some l => some (emit_decl_init l loff)
        | none => none) g
    emit_lsave ctype loff g
  | .gvar ctype varname _, g => emit_gsave (.name varname) ctype 0 g
  | _, _ => .error (.error "internal error")

def emit_addr : Node → Gen → Emit
  | .lvar _ _ loff lvarinit id, g => do
    let g ← ensure_lvar_init id
      (match lvarinit with
        | some l => some (emit_decl_init l loff)
        | none => none) g
    pure (emit (i2 .lea (.mem loff .rbp) (.reg .rax)) g)
  | .gvar _ _ glabel, g => .ok (emit (i2 .lea (.rip glabel) (.reg .rax)) g)
  | .unary .AST_DEREF _ operand, g => emit_expr operand g
  | .struct_ref ctype struc, g => do
    let g ← emit_addr struc g
    pure (emit (i2 .add (.imm ctype.offset) (.reg .rax)) g)
  | _, _ => .error (.error "internal error")

/-- The middle block of `emit_func_call`: evaluate, convert and push every
argument, walking the arguments and their passing types together. -/
def emit_func_call_args : List Node → List Ctype → Gen → Emit
  | [], _, g => .ok g
  | v :: vs, ts, g => do
    let g ← emit_expr v g
    let ptype ← match ts with
      | t :: _ => pure t
      | [] => .error .undefined
    let vt ← the_ctype v.ctype
    let g := emit_save_convert ptype vt g
    let g := if is_flotype ptype then push_xmm 0 g else push .rax g
    emit_func_call_args vs ts.tail g

def emit_compound_stmt : List Node → Gen → Emit
  | [], g => .ok g
  | n :: rest, g => do
    let g ← emit_expr n g
    emit_compound_stmt rest g

def emit_expr : Node → Gen → Emit
  | .literal ctype ival fval id, g => emit_literal ctype ival fval id g
  | .string _ sval id, g => .ok (emit_literal_string sval id g)
  | .lvar ctype _ loff lvarinit id, g =>
    emit_lvar ctype loff id
      (match lvarinit with
        | some l => some (emit_decl_init l loff)
        | none => none) g
  | .gvar ctype _ glabel, g => emit_gvar ctype glabel g
  | .funcall ctype fname args ftype, g =>
    emit_func_call false ctype fname (get_arg_types args ftype.params)
      (fun g => .ok g) (emit_func_call_args args) g
  | .funcptr_call ctype fptr args, g =>
    emit_func_call true ctype ""
      (do
        let t ← deref_ptr fptr.ctype
        get_arg_types args t.params)
      (emit_expr fptr) (emit_func_call_args args) g
  | .decl declvar declinit, g =>
    emit_decl declvar
      (match declinit with
        | some l => some (emit_decl_init l)
        | none => none) g
  | .init _ _ _, _ => .error .undefined
  | .unary type ctype operand, g =>
    match type with
    | .AST_ADDR => emit_addr operand g
    | .AST_DEREF => emit_deref ctype operand (emit_expr operand) g
    | .OP_PRE_INC => emit_pre_inc_dec .add (emit_expr operand) (emit_store operand) g
    | .OP_PRE_DEC => emit_pre_inc_dec .sub (emit_expr operand) (emit_store operand) g
    | .OP_POST_INC => emit_post_inc_dec .add (emit_expr operand) (emit_store operand) g
    | .OP_POST_DEC => emit_post_inc_dec .sub (emit_expr operand) (emit_store operand) g
    | .not => emit_lognot (emit_expr operand) g
    | .tilde => emit_bitnot (emit_expr operand) g
    | .OP_CAST => emit_cast ctype operand (emit_expr operand) g
    | _ => .error .undefined
  | .binary type ctype left right, g =>
    match type with
    | .amp => emit_bitand (emit_expr left) (emit_expr right) g
    | .bar => emit_bitor (emit_expr left) (emit_expr right) g
    | .OP_LOGAND => emit_logand (emit_expr left) (emit_expr right) g
    | .OP_LOGOR => emit_logor (emit_expr left) (emit_expr right) g
    | .comma => emit_comma (emit_expr left) (emit_expr right) g
    | .assign =>
      emit_assign ctype left right (emit_expr right) (emit_store left)
        (emit_addr left) (emit_addr right) g
    | .AST_ADDR | .AST_DEREF | .OP_PRE_INC | .OP_PRE_DEC | .OP_POST_INC | .OP_POST_DEC
    | .not | .tilde | .OP_CAST => .error .undefined
    | _ => emit_binop type ctype left right (emit_expr left) (emit_expr right) g
  | .ternary _ cond thn els, g =>
    emit_ternary (emit_expr cond)
      (match thn with
        | some n => some (emit_expr n)
        | none => none)
      (match els with
        | some n => some (emit_expr n)
        | none => none) g
  | .for_ forinit forcond forstep forbody, g =>
    emit_for
      (match forinit with
        | some n => some (emit_expr n)
        | none => none)
      (match forcond with
        | some n => some (emit_expr n)
        | none => none)
      (match forstep with
        | some n => some (emit_expr n)
        | none => none)
      (match forbody with
        | some n => some (emit_expr n)
        | none => none) g
  | .while_ forcond forbody, g =>
    emit_while (emit_expr forcond)
      (match forbody with
        | some n => some (emit_expr n)
        | none => none) g
  | .do_ forcond forbody, g =>
    emit_do (emit_expr forcond)
      (match forbody with
        | some n => some (emit_expr n)
        | none => none) g
  | .switch switchexpr switchbody, g =>
    emit_switch (emit_expr switchexpr)
      (match switchbody with
        | some n => some (emit_expr n)
        | none => none) g
  | .case casebeg caseend, g => emit_case casebeg caseend g
  | .default, g => emit_default g
  | .goto newlabel, g => .ok (emit_goto newlabel g)
  | .label newlabel, g =>
    match newlabel with
    | some l => .ok (emit_label l g)
    | none => .ok g
  | .ret ctype retval, g =>
    emit_return ctype retval
      (match retval with
        | some n => some (emit_expr n)
        | none => none) g
  | .break_, g => emit_break g
  | .continue_, g => emit_continue g
  | .compound_stmt stmts, g => emit_compound_stmt stmts g
  | .struct_ref ctype struc, g => emit_load_struct_ref struc ctype 0 g
  | .va_start ap, g => emit_va_start (emit_expr ap) g
  | .va_arg ctype ap, g => emit_va_arg ctype (emit_expr ap) g

end

/-! ## Function prologue -/

/-- Modelled from the spec: the `AST_FUNC` variant of `Node` (8cc.h is not under
src/): name, function type, parameters and local variables (local variable
nodes), body. -/
structure Func where
  fname : String
  ctype : Ctype
  params : List Node
  localvars : List Node
  body : Node

def align (n m : Int) : Int :=
  let rem := n.tmod m
  if rem = 0 then n else n - rem + m

/-- The loop of `emit_regsave_area`: `for (int i = 0; i < 16; i++)`, with `n`
iterations left; `pos` is pre-incremented by 16 in every iteration. -/
def emit_regsave_loop : Nat → Int → Int → Label → Gen → Gen
  | 0, _, _, _, g => g
  | n + 1, i, pos, end_, g =>
    let g := emit (i2 .test (.reg .al) (.reg .al)) g
    let g := emit (i1 .jz (.target end_)) g
    let g := emit (i2 .movsd (.reg (.xmm i)) (.mem (pos + 16) .rsp)) g
    let g := emit (i2 .sub (.imm 1) (.reg .al)) g
    emit_regsave_loop n (i + 1) (pos + 16) end_ g

def emit_regsave_area (g : Gen) : Int × Gen :=
  let pos : Int := -REGAREA_SIZE
  let g := emit (i2 .mov (.reg .rdi) (.mem pos .rsp)) g
  let pos := pos + 8
  let g := emit (i2 .mov (.reg .rsi) (.mem pos .rsp)) g
  let pos := pos + 8
  let g := emit (i2 .mov (.reg .rdx) (.mem pos .rsp)) g
  let pos := pos + 8
  let g := emit (i2 .mov (.reg .rcx) (.mem pos .rsp)) g
  let pos := pos + 8
  let g := emit (i2 .mov (.reg .r8) (.mem pos .rsp)) g
  let g := emit (i2 .mov (.reg .r9) (.mem (pos + 8) .rsp)) g
  let (end_, g) := make_label g
  let g := emit_regsave_loop 16 0 pos end_ g
  let g := emit_label end_ g
  let g := emit (i2 .sub (.imm REGAREA_SIZE) (.reg .rsp)) g
  (REGAREA_SIZE, g)

/-- The assignment `v->loff = off` on a local variable node. -/
def set_loff (v : Node) (off : Int) : Except Fatal Node :=
  match v with
  | .lvar ctype varname _ lvarinit id => .ok (.lvar ctype varname off lvarinit id)
  | _ => .error .undefined

/-- The parameter loop of `emit_func_prologue`; returns the parameters with their
`loff` assigned and the final `off`. -/
def prologue_params : List Node → Int → Int → Int → Gen → Except Fatal (List Node × Int × Gen)
  | [], off, _, _, g => .ok ([], off, g)
  | v :: vs, off, ireg, xreg, g => do
    let t ← the_ctype v.ctype
    let (g, ireg, xreg) ←
      if t.type = .FLOAT then pure (push_xmm xreg g, ireg, xreg + 1)
      else if t.type = .DOUBLE ∨ t.type = .LDOUBLE then pure (push_xmm xreg g, ireg, xreg + 1)
      else do
        let r ← regAt ireg
        pure (push r g, ireg + 1, xreg)
    let off := off - align t.size 8
    let v ← set_loff v off
    let (vs, off, g) ← prologue_params vs off ireg xreg g
    pure (v :: vs, off, g)

/-- The local-variable loop of `emit_func_prologue`; returns the variables with
their `loff` assigned, the final `off` and the final `localarea`. -/
def prologue_locals : List Node → Int → Int → Except Fatal (List Node × Int × Int)
  | [], off, localarea => .ok ([], off, localarea)
  | v :: vs, off, localarea => do
    let t ← the_ctype v.ctype
    let off := off - align t.size 8
    let v ← set_loff v off
    let localarea := localarea + off
    let (vs, off, localarea) ← prologue_locals vs off localarea
    pure (v :: vs, off, localarea)

/-- The function `emit_func_prologue(func)`; the result carries the parameter and
local variable nodes after the assignments to `loff`. -/
def emit_func_prologue (func : Func) (g : Gen) : Except Fatal (List Node × List Node × Gen) := do
  let g := emit .text g
  let g := if !func.ctype.isstatic then emit (.global func.fname) g else g
  let g := emit (.label (.name func.fname)) g
  let g := emit (i0 .nop) g
  let g := push .rbp g
  let g := emit (i2 .mov (.reg .rsp) (.reg .rbp)) g
  let off : Int := 0
  let (off, g) ←
    if func.ctype.hasva then do
      let g ← set_reg_nums func.params g
      let r := emit_regsave_area g
      pure (off - r.1, r.2)
    else pure (off, g)
  let (params, off, g) ← prologue_params func.params off 0 0 g
  let (localvars, off, localarea) ← prologue_locals func.localvars off 0
  let g := if localarea ≠ 0 then emit (i2 .sub (.imm (-localarea)) (.reg .rsp)) g else g
  pure (params, localvars, { g with stackpos := g.stackpos + -(off - 8) })

/-- The `AST_FUNC` branch of `emit_toplevel(v)`.  The body refers to the
parameter and local variable nodes; their `loff` fields are those the prologue
assigns. -/
def emit_toplevel (v : Func) (g : Gen) : Emit := do
  let g := { g with stackpos := 0 }
  let (_, _, g) ← emit_func_prologue v g
  let g ← emit_expr v.body g
  pure (emit_ret g)

/-- The text of a successful emission. -/
def Emit.text (e : Emit) : Option (List Instr) :=
  match e with
  | .ok g => some g.out
  | .error _ => none

/-! ## Execution of emitted code

A small-step semantics for the part of x86-64 that the claims below are about:
integer moves, loads and stores of 1, 2, 4 and 8 bytes (little-endian),
`lea`, `push`/`pop`, `add`/`sub`/`imul`, the logical operations, `test`/`cmp` with
the conditional jumps and `set`cc that read their flags, and `movsd` as a move of
the low 64 bits of an xmm register.  Anything else (calls, conversions, division,
data directives, symbol addresses) stops the execution with `none`. -/

/-- The 64-bit general registers the generator uses. -/
inductive R64 where
  | rax | rbx | rcx | rdx | rsi | rdi | rbp | rsp | r8 | r9 | r11
  deriving DecidableEq, Repr

/-- Machine state: registers (values below `2^64`), low quadwords of the xmm
registers, byte-addressed memory, and the flags `ZF` and `SF ≠ OF` (unknown
after an instruction that leaves them undefined or that is not modelled). -/
structure Machine where
  reg : R64 → Nat
  xmm : Int → Nat
  mem : Nat → Nat
  zf : Option Bool
  lt : Option Bool

/-- The 64-bit register a register name is a view of, and the width of the view
in bytes. -/
def Reg.view : Reg → Option (R64 × Nat)
  | .rax => some (.rax, 8) | .rbx => some (.rbx, 8) | .rcx => some (.rcx, 8)
  | .rdx => some (.rdx, 8) | .rsi => some (.rsi, 8) | .rdi => some (.rdi, 8)
  | .rbp => some (.rbp, 8) | .rsp => some (.rsp, 8) | .r8 => some (.r8, 8)
  | .r9 => some (.r9, 8) | .r11 => some (.r11, 8)
  | .eax => some (.rax, 4) | .ebx => some (.rbx, 4) | .ecx => some (.rcx, 4)
  | .edx => some (.rdx, 4)
  | .ax => some (.rax, 2) | .cx => some (.rcx, 2)
  | .al => some (.rax, 1) | .cl => some (.rcx, 1)
  | .xmm _ => none

/-- Number of values of a `w`-byte word. -/
def wordMod (w : Nat) : Nat := 2 ^ (8 * w)

/-- Little-endian load of `n` bytes at address `a`. -/
def load (mem : Nat → Nat) : Nat → Nat → Nat
  | 0, _ => 0
  | n + 1, a => mem a % 256 + 256 * load mem n (a + 1)

/-- Little-endian store of the low `n` bytes of `v` at address `a`. -/
def store (mem : Nat → Nat) : Nat → Nat → Nat → Nat → Nat
  | 0, _, _ => mem
  | n + 1, a, v => fun x => if x = a then v % 256 else store mem n (a + 1) (v / 256) x

/-- Sign extension of a `w`-byte value to 64 bits. -/
def sext (w : Nat) (v : Nat) : Nat :=
  if v % wordMod w < wordMod w / 2 then v % wordMod w
  else v % wordMod w + (wordMod 8 - wordMod w)

namespace Machine

/-- Read the low `w` bytes of a register. -/
def get (m : Machine) (r : R64) (w : Nat) : Nat := m.reg r % wordMod w

/-- Write a `w`-byte view of a register: a 32-bit write clears the upper half,
8- and 16-bit writes keep the remaining bits. -/
def set (m : Machine) (r : R64) (w : Nat) (v : Nat) : Machine :=
  { m with reg := fun x =>
      if x = r then
        (if w = 8 ∨ w = 4 then v % wordMod w
         else m.reg r - m.reg r % wordMod w + v % wordMod w)
      else m.reg x }

/-- Replace the flags. -/
def flags (m : Machine) (z l : Option Bool) : Machine := { m with zf := z, lt := l }

/-- Replace the memory. -/
def setMem (m : Machine) (mem : Nat → Nat) : Machine := { m with mem := mem }

/-- Write the low quadword of `%xmm b`. -/
def setXmm (m : Machine) (b : Int) (v : Nat) : Machine :=
  { m with xmm := fun x => if x = b then v else m.xmm x }

/-- Effective address `disp(%base)`. -/
def ea (m : Machine) (base : R64) (disp : Int) : Nat :=
  (((m.reg base : Int) + disp) % (2 : Int) ^ 64).toNat

/-- The address an operand names, when it is a memory operand over a 64-bit
base register. -/
def addrOf (m : Machine) : Operand → Option Nat
  | .mem d b => match b.view with
    | some (r, 8) => some (m.ea r d)
    | _ => none
  | .ind b => match b.view with
    | some (r, 8) => some (m.ea r 0)
    | _ => none
  | _ => none

/-- Value of a source operand read as a `w`-byte word. -/
def read (m : Machine) (w : Nat) (o : Operand) : Option Nat :=
  match o with
  | .reg r => match r.view with
    | some (p, _) => some (m.get p w)
    | none => none
  | .imm n => some (n % (wordMod w : Int)).toNat
  | _ => match m.addrOf o with
    | some a => some (load m.mem w a)
    | none => none

/-- Write a `w`-byte word to a destination operand. -/
def write (m : Machine) (w : Nat) (o : Operand) (v : Nat) : Option Machine :=
  match o with
  | .reg r => match r.view with
    | some (p, _) => some (m.set p w v)
    | none => none
  | .imm _ => none
  | _ => match m.addrOf o with
    | some a => some (m.setMem (store m.mem w a v))
    | none => none

end Machine

/-- Width in bytes of an operand that is a general register. -/
def Operand.width : Operand → Option Nat
  | .reg r => match r.view with
    | some (_, w) => some w
    | none => none
  | _ => none

/-- Operand size of a two-operand instruction without size suffix: that of its
register operand (the destination first). -/
def width2 (src dst : Operand) : Option Nat :=
  match dst.width with
  | some w => some w
  | none => src.width

/-- Result of one instruction: the new state and, when control is transferred,
the label it goes to. -/
abbrev Step := Option (Machine × Option Label)

/-- A move of `w` bytes. -/
def stepMov (w : Nat) (src dst : Operand) (m : Machine) : Step :=
  match m.read w src with
  | some v => match m.write w dst v with
    | some m1 => some (m1, none)
    | none => none
  | none => none

/-- A sign-extending load of `w` bytes into a 64-bit register. -/
def stepMovs (w : Nat) (src dst : Operand) (m : Machine) : Step :=
  match m.read w src with
  | some v => match m.write 8 dst (sext w v) with
    | some m1 => some (m1, none)
    | none => none
  | none => none

/-- Two-operand arithmetic `dst := f dst src` on `w` bytes; `ZF` is set from the
result, the other flags are not tracked. -/
def stepArith (f : Nat → Nat → Nat) (src dst : Operand) (m : Machine) : Step :=
  match width2 src dst with
  | some w => match m.read w src, m.read w dst with
    | some a, some b =>
      let r := f b a % wordMod w
      match m.write w dst r with
      | some m1 => some (m1.flags (some (decide (r = 0))) none, none)
      | none => none
    | _, _ => none
  | none => none

/-- Conditional or unconditional transfer to `l`. -/
def stepJump (cond : Option Bool) (l : Label) (m : Machine) : Step :=
  match cond with
  | some true => some (m, some l)
  | some false => some (m, none)
  | none => none

/-- The instruction `set`cc `%al`-style byte write of a condition. -/
def stepSet (cond : Option Bool) (dst : Operand) (m : Machine) : Step :=
  match cond with
  | some c => match m.write 1 dst (if c then 1 else 0) with
    | some m1 => some (m1, none)
    | none => none
  | none => none

/-- Subtraction modulo the word size, as `sub` and `cmp` compute it. -/
def subMod (w : Nat) (b a : Nat) : Nat := (b + wordMod w - a % wordMod w) % wordMod w

/-- Signed reading of a `w`-byte word. -/
def signedOf (w : Nat) (v : Nat) : Int :=
  if v % wordMod w < wordMod w / 2 then (v % wordMod w : Nat) else (v % wordMod w : Nat) - (wordMod w : Int)

/-- Execute one line of emitted text. -/
def step (i : Instr) (m : Machine) : Step :=
  match i with
  | .label _ => some (m, none)
  | .text => some (m, none)
  | .global _ => some (m, none)
  | .ins mn ops =>
    match mn, ops with
    | .nop, [] => some (m, none)
    | .mov, [src, dst] => match width2 src dst with
      | some w => stepMov w src dst m
      | none => none
    | .movb, [src, dst] => stepMov 1 src dst m
    | .movw, [src, dst] => stepMov 2 src dst m
    | .movl, [src, dst] => stepMov 4 src dst m
    | .movq, [src, dst] => stepMov 8 src dst m
    | .movsbq, [src, dst] => stepMovs 1 src dst m
    | .movswq, [src, dst] => stepMovs 2 src dst m
    | .movslq, [src, dst] => stepMovs 4 src dst m
    | .movzb, [.reg .al, .reg .eax] => some (m.set .rax 4 (m.get .rax 1), none)
    | .lea, [src, dst] => match m.addrOf src with
      | some a => match m.write 8 dst a with
        | some m1 => some (m1, none)
        | none => none
      | none => none
    | .push, [.reg r] => match r.view with
      | some (p, 8) =>
        let sp := m.ea .rsp (-8)
        some ((m.set .rsp 8 sp).setMem (store m.mem 8 sp (m.get p 8)), none)
      | _ => none
    | .pop, [.reg r] => match r.view with
      | some (p, 8) =>
        let v := load m.mem 8 (m.get .rsp 8)
        some ((m.set .rsp 8 (m.ea .rsp 8)).set p 8 v, none)
      | _ => none
    | .add, [src, dst] => stepArith (fun b a => b + a) src dst m
    | .sub, [src, dst] => match width2 src dst with
      | some w => stepArith (fun b a => subMod w b a) src dst m
      | none => none
    | .and, [src, dst] => stepArith (fun b a => b &&& a) src dst m
    | .or, [src, dst] => stepArith (fun b a => b ||| a) src dst m
    | .xor, [src, dst] => stepArith (fun b a => b ^^^ a) src dst m
    | .imul, [src, dst] => match stepArith (fun b a => b * a) src dst m with
      | some (m1, _) => some (m1.flags none none, none)
      | none => none
    | .not, [dst] => match dst.width with
      | some w => match m.read w dst with
        | some v => match m.write w dst (wordMod w - 1 - v) with
          | some m1 => some (m1, none)
          | none => none
        | none => none
      | none => none
    | .test, [src, dst] => match width2 src dst with
      | some w => match m.read w src, m.read w dst with
        | some a, some b =>
          some (m.flags (some (decide ((b &&& a) = 0)))
            (some (decide (wordMod w / 2 ≤ (b &&& a)))), none)
        | _, _ => none
      | none => none
    | .cmp, [src, dst] => match width2 src dst with
      | some w => match m.read w src, m.read w dst with
        | some a, some b =>
          some (m.flags (some (decide (b = a)))
            (some (decide (signedOf w b < signedOf w a))), none)
        | _, _ => none
      | none => none
    | .sete, [dst] => stepSet m.zf dst m
    | .setne, [dst] => stepSet (m.zf.map (!·)) dst m
    | .setl, [dst] => stepSet m.lt dst m
    | .setge, [dst] => stepSet (m.lt.map (!·)) dst m
    | .jmp, [.target l] => some (m, some l)
    | .je, [.target l] => stepJump m.zf l m
    | .jz, [.target l] => stepJump m.zf l m
    | .jne, [.target l] => stepJump (m.zf.map (!·)) l m
    | .jl, [.target l] => stepJump m.lt l m
    | .jg, [.target l] => stepJump
        (match m.zf, m.lt with
          | some z, some l => some (!z && !l)
          | _, _ => none) l m
    | .movsd, [.reg (.xmm a), .reg (.xmm b)] =>
      some (m.setXmm b (m.xmm a % wordMod 8), none)
    | .movsd, [.reg (.xmm a), dst] => match m.addrOf dst with
      | some ad => some (m.setMem (store m.mem 8 ad (m.xmm a)), none)
      | none => none
    | .movsd, [src, .reg (.xmm b)] => match m.addrOf src with
      | some ad =>
        some (m.setXmm b (load m.mem 8 ad), none)
      | none => none
    | _, _ => none
  | _ => none

/-- Execute straight-line text until it ends or control is transferred. -/
def run : List Instr → Machine → Step
  | [], m => some (m, none)
  | i :: rest, m =>
    match step i m with
    | some (m1, none) => run rest m1
    | r => r

/-- Position of the definition of label `l` in a program. -/
def labelIndex (prog : List Instr) (l : Label) : Option Nat :=
  let k := prog.indexOf (.label l)
  if k < prog.length then some k else none

/-- Execute a program from position `pc` for at most `fuel` instructions, following
jumps to their labels; the result is the state when control runs off the end. -/
def exec (prog : List Instr) : Nat → Nat → Machine → Option Machine
  | 0, _, _ => none
  | fuel + 1, pc, m =>
    match prog.get? pc with
    | none => some m
    | some i =>
      match step i m with
      | none => none
      | some (m1, none) => exec prog fuel (pc + 1) m1
      | some (m1, some l) =>
        match labelIndex prog l with
        | some k => exec prog fuel k m1
        | none => none

/-! ## Sample programs and states -/

def tChar : Ctype := Ctype.scalar .CHAR 1
def tShort : Ctype := Ctype.scalar .SHORT 2
def tInt : Ctype := Ctype.scalar .INT 4
def tBool : Ctype := Ctype.scalar .BOOL 1
def tDouble : Ctype := Ctype.scalar .DOUBLE 8
def tFunc : Ctype := .mk .FUNC 0 none 0 false false []

/-- The type `va_list`: an array of one 24-byte structure. -/
def tVaList : Ctype := .mk .ARRAY 24 (some (Ctype.scalar .STRUCT 24)) 0 false false []

/-- The state at function entry used in the executions below: `%rsp` is congruent
to 8 modulo 16 as just after a `call`, `%rdi = 1`, `%rsi = 7`, `%al = 1` and
`%xmm0` holds the double 2.5. -/
def entry_state : Machine :=
  { reg := fun r =>
      match r with
      | .rsp => 0x10008
      | .rdi => 1
      | .rsi => 7
      | .rax => 1
      | _ => 0,
    xmm := fun i => if i = 0 then 0x4004000000000000 else 0,
    mem := fun _ => 0, zf := none, lt := none }

/-- The text of a function: prologue and body, without the final `leave; ret`. -/
def func_text (f : Func) : Option (List Instr) :=
  match emit_func_prologue f { stackpos := 0 } with
  | .ok (_, _, g) => (emit_expr f.body g).text
  | .error _ => none

/-- The offsets `loff` that the prologue assigns to the local variables. -/
def local_offsets (f : Func) : Option (List Int) :=
  match emit_func_prologue f { stackpos := 0 } with
  | .ok (_, ls, _) => some (ls.map fun v =>
      match v with
      | .lvar _ _ loff _ _ => loff
      | _ => 0)
  | .error _ => none

/-- Sum of the sizes of the parameters and local variables of a function, each
rounded up to a multiple of 8. -/
def frame_size (f : Func) : Int :=
  ((f.params ++ f.localvars).map fun v =>
    match v.ctype with
    | some t => align t.size 8
    | none => 0).sum

/-- The text that precedes the first `call` instruction. -/
def before_call (t : List Instr) : List Instr :=
  t.takeWhile fun i =>
    match i with
    | .ins .call _ => false
    | _ => true

/-- The function `void f(void) { int a; int b; }`. -/
def two_locals : Func :=
  { fname := "f", ctype := tFunc, params := [],
    localvars := [.lvar tInt "a" 0 none 1, .lvar tInt "b" 0 none 2],
    body := .compound_stmt [] }

/-- The function `int f(int x) { g(); }`. -/
def one_param_call : Func :=
  { fname := "f", ctype := tFunc, params := [.lvar tInt "x" 0 none 1], localvars := [],
    body := .funcall tInt "g" [] tFunc }

/-- The local variable `va_list ap` at the frame offset the prologue of
`va_int_double` gives it. -/
def va_ap : Node := .lvar tVaList "ap" (-336) none 2

/-- The function
`void f(int n, ...) { va_list ap; va_start(ap, n); va_arg(ap, int); va_arg(ap, double); }`,
with the body cut after its first `k` statements. -/
def va_int_double (k : Nat) : Func :=
  { fname := "f", ctype := .mk .FUNC 0 none 0 false true [tInt],
    params := [.lvar tInt "n" 0 none 1],
    localvars := [.lvar tVaList "ap" 0 none 2],
    body := .compound_stmt
      ([Node.va_start va_ap, .va_arg tInt va_ap, .va_arg tDouble va_ap].take k) }

/-- The local variable `int *p` at `-8(%rbp)`. -/
def ptr_p : Node := .lvar (Ctype.pointerTo tInt) "p" (-8) none 1

/-- The expression `p - 2` for `int *p`. -/
def p_minus_2 : Node :=
  .binary .minus (Ctype.pointerTo tInt) ptr_p (.literal tInt 2 0 3)

/-- A state with `%rbp = 0x10000`, `%rsp = 0xff00` and the quadword `v` stored
at `-8(%rbp)`. -/
def frame_state (v : Nat) : Machine :=
  { reg := fun r =>
      match r with
      | .rbp => 0x10000
      | .rsp => 0xff00
      | _ => 0,
    xmm := fun _ => 0,
    mem := store (fun _ => 0) 8 0xfff8 v, zf := none, lt := none }

/-- A structure object `s` that is a static local variable: an `AST_GVAR` node
whose assembler label `.L9` differs from its source name. -/
def static_struct : Node := .gvar (Ctype.scalar .STRUCT 8) "s" (.L 9)

/-- The member access `s.f` for an `int` field at offset 4. -/
def static_struct_f : Node := .struct_ref (tInt.fieldAt 4) static_struct

/-- The node kinds for which the `switch` of `emit_expr` reaches its default
case, `emit_binop`. -/
def is_binop (t : NodeType) : Bool :=
  match t with
  | .AST_ADDR | .AST_DEREF | .OP_PRE_INC | .OP_PRE_DEC | .OP_POST_INC | .OP_POST_DEC
  | .OP_CAST | .OP_LOGAND | .OP_LOGOR | .not | .tilde | .amp | .bar | .comma | .assign => false
  | _ => true

/-- The expression `p + 2` for `int *p`. -/
def p_plus_2 : Node :=
  .binary .plus (Ctype.pointerTo tInt) ptr_p (.literal tInt 2 0 3)

/-- The register `creg` is the `n`-byte view of `%rcx`: a move from it to `(%rax)`
stores `n` bytes. -/
def StoresBytes (creg : Reg) (n : Nat) : Prop :=
  ∀ m : Machine, step (i2 .mov (.reg creg) (.ind .rax)) m =
    some (m.setMem (store m.mem n (m.ea .rax 0) (m.get .rcx n)), none)

/-- The mnemonic `inst` loads `n` bytes into `%rax` with sign extension. -/
def LoadsBytes (inst : Mn) (n : Nat) : Prop :=
  ∀ (m : Machine) (d : Int) (b : Reg) (r : R64), b.view = some (r, 8) →
    ∃ m', step (i2 inst (.mem d b) (.reg .rax)) m = some (m', none) ∧ m'.mem = m.mem ∧
      m'.get .rax 8 = sext n (load m.mem n (m.ea r d))

/-- The kinds `char`, `short`, `int`, `long`, `long long`: the integer types other
than `_Bool`. -/
def is_plain_int (t : Ctype) : Bool :=
  match t.type with
  | .CHAR | .SHORT | .INT | .LONG | .LLONG => true
  | _ => false

/-- The local variable `_Bool *q` at `-8(%rbp)`. -/
def ptr_q : Node := .lvar (Ctype.pointerTo tBool) "q" (-8) none 1

/-- The statements `*q = 2;` and `*q;` for `_Bool *q`. -/
def bool_write_read : Node :=
  .compound_stmt
    [.binary .assign tBool (.unary .AST_DEREF tBool ptr_q) (.literal tInt 2 0 3),
     .unary .AST_DEREF tBool ptr_q]

/-- The local variable `int a` at `-8(%rbp)`. -/
def int_a : Node := .lvar tInt "a" (-8) none 1

/-- The text that `emit_func_call` places between the pops that load the
argument registers and the pops that restore the saved ones: the count of xmm
arguments in `%eax`, the `call`, and around it the `sub`/`add` of 8 when
`stackpos` is not a multiple of 16. -/
def call_text (isptr : Bool) (fname : String) (xreg : Int) (stackpos : Int) : List Instr :=
  [i2 .mov (.imm xreg) (.reg .eax)] ++
    (if stackpos.tmod 16 ≠ 0 then [i2 .sub (.imm 8) (.reg .rsp)] else []) ++
    [if isptr then i1 .call (.star .rbx) else i1 .call (.target (.name fname))] ++
    (if stackpos.tmod 16 ≠ 0 then [i2 .add (.imm 8) (.reg .rsp)] else [])

/-- The argument list of a call node. -/
def call_args : Node → Option (List Node)
  | .funcall _ _ args _ => some args
  | .funcptr_call _ _ args => some args
  | _ => none

/-- The passing types `argtypes` that `emit_func_call` computes for a call node. -/
def call_argtypes : Node → Except Fatal (List Ctype)
  | .funcall _ _ args ftype => get_arg_types args ftype.params
  | .funcptr_call _ fptr args => do
    let t ← deref_ptr fptr.ctype
    get_arg_types args t.params
  | _ => .error .undefined

/-- Whether a call node is `AST_FUNCPTR_CALL`. -/
def call_isptr : Node → Bool
  | .funcptr_call _ _ _ => true
  | _ => false

/-- The operand of the `call` instruction of a call node. -/
def call_target : Node → Operand
  | .funcall _ fname _ _ => .target (.name fname)
  | _ => .star .rbx

/-- The call `f(1, 2.5, 3)` of `int f(int, ...)`: the second and third arguments
are passed by their promoted types. -/
def call_f : Node :=
  .funcall tInt "f"
    [.literal tInt 1 0 1, .literal tDouble 0 0x4004000000000000 2, .literal tInt 3 0 3]
    (.mk .FUNC 0 none 0 false true [tInt])

/-- The generator state after emitting `call_f` from the initial state. -/
def call_f_result : Gen :=
  match emit_expr call_f {} with
  | .ok g => g
  | .error _ => {}

/-- The statement `switch (1) { default: 10; break; case 1: 20; break; }`. -/
def switch_default_first : Node :=
  .switch (.literal tInt 1 0 1)
    (some (.compound_stmt
      [.default, .literal tInt 10 0 2, .break_, .case 1 1, .literal tInt 20 0 3, .break_]))

/-- The statement `switch (1) { case 1: 20; break; default: 10; break; }`. -/
def switch_default_last : Node :=
  .switch (.literal tInt 1 0 1)
    (some (.compound_stmt
      [.case 1 1, .literal tInt 20 0 3, .break_, .default, .literal tInt 10 0 2, .break_]))

/-- The statement `do { continue; } while (0);`. -/
def do_continue : Node :=
  .do_ (.literal tInt 0 0 1) (some (.compound_stmt [.continue_]))

/-- The statement `while (0) { continue; }`. -/
def while_continue : Node :=
  .while_ (.literal tInt 0 0 1) (some (.compound_stmt [.continue_]))

/-- A structure type of 12 bytes. -/
def tStruct12 : Ctype := Ctype.scalar .STRUCT 12

/-- The assignment `a = b` of two local structures of 12 bytes, `a` at
`-16(%rbp)` and `b` at `-32(%rbp)`. -/
def struct12_assign : Node :=
  .binary .assign tStruct12 (.lvar tStruct12 "a" (-16) none 1) (.lvar tStruct12 "b" (-32) none 2)

/-- A state with `%rbp = 0x10000`, `%rsp = 0xff00` and memory zero except for
the byte 0xAA at `-20(%rbp)`, the first byte after the 12 bytes of `b`. -/
def copy_state : Machine :=
  { reg := fun r =>
      match r with
      | .rbp => 0x10000
      | .rsp => 0xff00
      | _ => 0,
    xmm := fun _ => 0,
    mem := fun x => if x = 0xffec then 0xAA else 0, zf := none, lt := none }

def tLDouble : Ctype := Ctype.scalar .LDOUBLE 8

/-- The declaration `t x = 1.0;` of a local variable at `-8(%rbp)`, for a
floating type `t`. -/
def float_decl (t : Ctype) : Node :=
  .decl (.lvar t "x" (-8) none 1) (some [.init (.literal t 0 0x3ff0000000000000 2) 0 t])

/-- The global variable `d` of type `t`. -/
def global_d (t : Ctype) : Node := .gvar t "d" (.name "d")

/-! ## Global variables -/

/-- Modelled from the spec: `eval_intexpr` of parse.c (not under src/) gives the
value of an integer constant expression as a C `int`; a literal has the value
`ival`.  Other constant expressions are not represented. -/
def eval_intexpr (node : Node) : Except Fatal Int :=
  match node with
  | .literal _ ival _ _ => .ok (fmt_d ival)
  | _ => .error (.error "Integer expression expected")

/-- One loop of `emit_zero`: `for (; size >= w; size -= w) emit(<w zero bytes>)`,
with `n` bounding the number of iterations; returns the final `size`. -/
def emit_zero_loop (w : Nat) : Nat → Int → Gen → Int × Gen
  | 0, size, g => (size, g)
  | n + 1, size, g =>
    if size ≥ w then emit_zero_loop w n (size - w) (emit (.word w 0) g)
    else (size, g)

/-- The function `emit_zero(size)`: `.quad 0` while 8 bytes remain, `.long 0`
while 4 remain, `.byte 0` for the rest. -/
def emit_zero (size : Int) (g : Gen) : Gen :=
  let r := emit_zero_loop 8 size.toNat size g
  let r := emit_zero_loop 4 r.1.toNat r.1 r.2
  (emit_zero_loop 1 r.1.toNat r.1 r.2).2

/-- The function `emit_padding(node, off)` for an initializer at `initoff`. -/
def emit_padding (initoff off : Int) (g : Gen) : Emit :=
  let diff := initoff - off
  if diff ≥ 0 then .ok (emit_zero diff g) else .error .assertion

/-- The final `switch (node->totype->type)` of the loop of `emit_data_int`. -/
def emit_data_scalar (initval : Node) (totype : Ctype) (g : Gen) : Emit :=
  match totype.type with
  | .FLOAT =>
    match initval with
    | .literal _ _ fval _ => .ok (emit (.longf fval) g)
    | _ => .error .undefined
  | .DOUBLE =>
    match initval with
    | .literal _ _ fval _ =>
      .ok (emit (.word 8 (if fval % 2 ^ 64 < 2 ^ 63 then fval % 2 ^ 64
        else (fval % 2 ^ 64 : Nat) - 2 ^ 64)) g)
    | _ => .error .undefined
  | .BOOL => do
    let v ← eval_intexpr initval
    pure (emit (.word 1 (if v ≠ 0 then 1 else 0)) g)
  | .CHAR => do
    let v ← eval_intexpr initval
    pure (emit (.word 1 v) g)
  | .SHORT => do
    let v ← eval_intexpr initval
    pure (emit (.word 2 v) g)
  | .INT => do
    let v ← eval_intexpr initval
    pure (emit (.word 4 v) g)
  | .LONG | .LLONG | .PTR => do
    let v ← eval_intexpr initval
    pure (emit (.word 8 v) g)
  | _ => .error (.error "don't know how to handle")

/-- The test `v->ctype->type == CTYPE_ARRAY && v->ctype->ptr->type == CTYPE_CHAR`
of `emit_data_int`. -/
def is_char_ptr (t : Option Ctype) : Except Fatal Bool :=
  match t with
  | none => .error .undefined
  | some ct =>
    if ct.type = .ARRAY then
      match ct.ptr with
      | some p => .ok (decide (p.type = .CHAR))
      | none => .error .undefined
    else .ok false

/-- The fields `initoff` and `totype` of an `AST_INIT` node. -/
def init_fields (node : Node) : Except Fatal (Int × Ctype) :=
  match node with
  | .init _ initoff totype => .ok (initoff, totype)
  | _ => .error .undefined

mutual

/-- The function `emit_data_int(inits, size, off, depth)`: the loop
`while (!iter_end(i) && 0 < size)` followed by `emit_zero(size)`. -/
def emit_data_int : List Node → Int → Int → Int → Gen → Emit
  | [], size, _, _, g => .ok (emit_zero size g)
  | node :: rest, size, off, depth, g =>
    if 0 < size then do
      let (initoff, totype) ← init_fields node
      let g ← emit_padding initoff off g
      let off := off + totype.size
      let size := size - totype.size
      let g ← emit_data_init node depth g
      emit_data_int rest size off depth g
    else .ok (emit_zero size g)

/-- The body of the loop of `emit_data_int` after the padding, for the
initializer `node`. -/
def emit_data_init : Node → Int → Gen → Emit
  | .init v _ totype, depth, g => emit_data_val v totype depth g
  | _, _, _ => .error .undefined

/-- The cases of the loop body of `emit_data_int` on `v = node->initval`: an
address, a local variable whose `lvarinit` is set, a string for an array of
`char`, and the scalar kinds.  A node other than a string that passes the test
for an array of `char` makes the C code read a `sval` that was never written. -/
def emit_data_val : Node → Ctype → Int → Gen → Emit
  | .unary .AST_ADDR _ operand, _, depth, g => do
    let (label, g) := make_label g
    let g := emit (.data (some (depth + 1))) g
    let g := emit_label label g
    let g ← emit_data_operand operand (depth + 1) g
    let g := emit (.data (some depth)) g
    pure (emit (.quadl label) g)
  | .lvar ct varname loff lvarinit id, totype, depth, g =>
    match lvarinit with
    | some inits =>
      if id ∈ g.lvarinit_null then do
        let cp ← is_char_ptr (some ct)
        if cp then .error .undefined
        else emit_data_scalar (.lvar ct varname loff none id) totype g
      else emit_data_int inits ct.size 0 depth g
    | none => do
      let cp ← is_char_ptr (some ct)
      if cp then .error .undefined
      else emit_data_scalar (.lvar ct varname loff none id) totype g
  | .string ct sval id, totype, depth, g => do
    let cp ← is_char_ptr (some ct)
    if cp then
      let (label, g) := make_label g
      let g := emit (.data (some (depth + 1))) g
      let g := emit_label label g
      let g := emit (.string sval) g
      let g := emit (.data (some depth)) g
      pure (emit (.quadl label) g)
    else emit_data_scalar (.string ct sval id) totype g
  | v, totype, _, g => do
    let cp ← is_char_ptr v.ctype
    if cp then .error .undefined
    else emit_data_scalar v totype g

/-- The call `emit_data_int(v->operand->lvarinit, v->operand->ctype->size, 0,
depth + 1)` for the operand of an address initializer: the operand must be a
local variable node with an init-list, the only shape whose `lvarinit` the C code
can read. -/
def emit_data_operand : Node → Int → Gen → Emit
  | .lvar ct _ _ lvarinit id, depth, g =>
    match lvarinit with
    | some inits =>
      if id ∈ g.lvarinit_null then .error .undefined
      else emit_data_int inits ct.size 0 depth g
    | none => .error .undefined
  | _, _, _ => .error .undefined

end

/-- The function `emit_data(v, off, depth)` for the declaration of the global
variable `declvar` with the init-list `declinit`. -/
def emit_data (declvar : Node) (declinit : List Node) (off depth : Int) (g : Gen) : Emit :=
  match declvar with
  | .gvar ctype varname _ =>
    let g := emit (.data (some depth)) g
    let g := if !ctype.isstatic then emit (.global varname) g else g
    let g := emit (.label (.name varname)) g
    emit_data_int declinit ctype.size off depth g
  | _ => .error .undefined

/-- The function `emit_bss(v)`. -/
def emit_bss (declvar : Node) (g : Gen) : Emit :=
  match declvar with
  | .gvar ctype varname _ =>
    .ok (emit (.lcomm varname ctype.size) (emit (.data none) g))
  | _ => .error .undefined

/-- The function `emit_global_var(v)` for an `AST_DECL` node. -/
def emit_global_var (v : Node) (g : Gen) : Emit :=
  match v with
  | .decl declvar (some declinit) => emit_data declvar declinit 0 0 g
  | .decl declvar none => emit_bss declvar g
  | _ => .error .undefined

/-- Number of bytes that a line of emitted text places in the data section. -/
def Instr.dataBytes : Instr → Nat
  | .word w _ => w
  | .longf _ => 4
  | .quadl _ => 8
  | _ => 0

/-- Number of bytes that a text places in the data section after its last label. -/
def data_size (t : List Instr) : Nat :=
  ((t.reverse.takeWhile fun i =>
    match i with
    | .label _ => false
    | _ => true).map Instr.dataBytes).sum

/-- Byte offset, from the last label, at which the `k`-th line after that label
starts. -/
def data_offset (t : List Instr) (k : Nat) : Nat :=
  (((t.reverse.takeWhile fun i =>
    match i with
    | .label _ => false
    | _ => true).reverse.take k).map Instr.dataBytes).sum

/-- The global `struct { char a; int b; int c; } g = { 1, 2, 3 };` of 12 bytes,
with the fields at the offsets 0, 4 and 8. -/
def global_struct : Node :=
  .decl (.gvar (Ctype.scalar .STRUCT 12) "g" (.name "g"))
    (some [.init (.literal tChar 1 0 1) 0 tChar, .init (.literal tInt 2 0 2) 4 tInt,
           .init (.literal tInt 3 0 3) 8 tInt])

/-- The global `t g = 1.0;` for a floating type `t`. -/
def global_float (t : Ctype) : Node :=
  .decl (.gvar t "g" (.name "g")) (some [.init (.literal t 0 0x3ff0000000000000 1) 0 t])

/-- The field `loff` of a local variable node. -/
def loff_of : Node → Int
  | .lvar _ _ loff _ _ => loff
  | _ => 0

/-- The offsets `loff` that the prologue assigns to the parameters followed by
the local variables. -/
def frame_offsets (f : Func) : Option (List Int) :=
  match emit_func_prologue f { stackpos := 0 } with
  | .ok (ps, ls, _) => some ((ps ++ ls).map loff_of)
  | .error _ => none

/-- The function `void f(void) { int b; char a[0]; }`: the array has no
elements and its size is 0. -/
def zero_size_local : Func :=
  { fname := "f", ctype := tFunc, params := [],
    localvars := [.lvar tInt "b" 0 none 1,
                  .lvar (.mk .ARRAY 0 (some tChar) 0 false false []) "a" 0 none 2],
    body := .compound_stmt [] }

/-- The function `void f(void) { char a[0]; }`. -/
def only_zero_size_local : Func :=
  { fname := "f", ctype := tFunc, params := [],
    localvars := [.lvar (.mk .ARRAY 0 (some tChar) 0 false false []) "a" 0 none 1],
    body := .compound_stmt [] }

/-- The function `void f(int x, double y) { int a; char b; }`. -/
def params_and_locals : Func :=
  { fname := "f", ctype := tFunc,
    params := [.lvar tInt "x" 0 none 1, .lvar tDouble "y" 0 none 2],
    localvars := [.lvar tInt "a" 0 none 3, .lvar tChar "b" 0 none 4],
    body := .compound_stmt [] }

/-- The node `id` of a literal that is emitted through a data-section label: a
literal of floating type, or a string. -/
def label_literal_id : Node → Option Nat
  | .literal ct _ _ id => if is_flotype ct then some id else none
  | .string _ _ id => some id
  | _ => none

/-- The label definition and data directive of a floating or string literal,
between `.data` and `.text`. -/
def literal_def (n : Node) (l : Label) : List Instr :=
  match n with
  | .literal _ _ fval _ =>
    [.data none, .label l, .word 4 (fmt_d (fval % 2 ^ 32)), .word 4 (fmt_d (fval / 2 ^ 32)),
     .text]
  | .string _ sval _ => [.data none, .label l, .string sval, .text]
  | _ => []

/-- The load of a floating or string literal from its label. -/
def literal_load (n : Node) (l : Label) : Instr :=
  match n with
  | .string _ _ _ => i2 .lea (.rip l) (.reg .rax)
  | _ => i2 .movsd (.rip l) (.reg (.xmm 0))

/-- The literal `2.5` of type `double`. -/
def lit_2_5 : Node := .literal tDouble 0 0x4004000000000000 7

/-! ## Lexer: a shallow embedding of `lex.c`

The lexer reads characters through `readc`/`unreadc` of the file stack (file.c,
not under src/) and builds `Token` records (8cc.h, not under src/).  A character
read is `Option Char`, `none` standing for `EOF`.  Loops that read until a
terminating character take their bound from the number of characters left. -/

/-- Modelled from the spec: the `kind` tag of a token (the enum lives in 8cc.h);
the names are the constants lex.c uses. -/
inductive TokenKind where
  | TIDENT | TKEYWORD | TNUMBER | TCHAR | TSTRING | TNEWLINE | TSPACE | TMACRO_PARAM
  deriving DecidableEq, Repr

/-- Modelled from the spec: the encodings of character and string literals, with
the names of the `ENC_*` constants lex.c uses. -/
inductive Enc where
  | ENC_NONE | ENC_CHAR16 | ENC_CHAR32 | ENC_UTF8 | ENC_WCHAR
  deriving DecidableEq, Repr

/-- Modelled from the spec: the keyword id of a `TKEYWORD` token.  A punctuator
of one character has that character as its id; the other punctuators have the
constants of keyword.h (not under src/) that lex.c names. -/
inductive KeywordId where
  | ch (c : Char)
  | OP_ARROW | OP_A_ADD | OP_A_AND | OP_A_DIV | OP_A_MOD | OP_A_MUL | OP_A_OR
  | OP_A_SAL | OP_A_SAR | OP_A_SUB | OP_A_XOR | OP_DEC | OP_EQ | OP_GE | OP_INC
  | OP_LE | OP_LOGAND | OP_LOGOR | OP_NE | OP_SAL | OP_SAR
  | KELLIPSIS | KSHARPSHARP
  deriving DecidableEq, Repr

/-- Modelled from the spec: the `Token` record of 8cc.h with the fields lex.c
writes.  The payload members of the C union are separate fields here: `sval`
(the C string of an identifier, number or string), `id` (keyword), `c`
(character constant); `file` is the name of the `File` the token points to.  The
`hideset` is a fresh empty map on creation and is not represented. -/
structure Token where
  kind : TokenKind
  file : String := ""
  line : Nat := 0
  column : Nat := 0
  space : Bool := false
  bol : Bool := false
  count : Nat := 0
  sval : List Char := []
  id : Option KeywordId := none
  c : Int := 0
  enc : Enc := .ENC_NONE
  deriving DecidableEq, Repr

/-- A `Token *` as the lexer returns it: `NULL`, a token made by `make_token`,
or the address of one of the two static tokens `space_token` and
`newline_token`, which every space and every newline share. -/
inductive TokPtr where
  | null
  | fresh (t : Token)
  | space_static
  | newline_static
  deriving DecidableEq, Repr

/-- Modelled from the spec: the top entry of the file stack of file.c (not under
src/): the characters not yet read, the pushback (last pushed first), the
current line (1-based), the current column (0-based, 0 at the beginning of a
line) and the token count.  `warnings` collects what `warn` prints while the
file is read. -/
structure File where
  name : String := ""
  input : List Char := []
  buf : List Char := []
  line : Nat := 1
  column : Nat := 0
  ntok : Nat := 0
  warnings : List String := []
  deriving DecidableEq, Repr

/-- Number of characters a file can still deliver. -/
def File.remaining (f : File) : Nat := f.buf.length + f.input.length

/-- The position after the character `c` has been read. -/
def File.advance (f : File) (c : Char) : File :=
  if c = '\n' then { f with line := f.line + 1, column := 0 }
  else { f with column := f.column + 1 }

/-- Modelled from the spec: `readc` of file.c returns the next physical
character, a pushed-back one first, and advances the position; at the end of
the input it returns `EOF`. -/
def readc (f : File) : Option Char × File :=
  match f.buf with
  | c :: rest => (some c, { f with buf := rest }.advance c)
  | [] =>
    match f.input with
    | c :: rest => (some c, { f with input := rest }.advance c)
    | [] => (none, f)

/-- Modelled from the spec: `unreadc(c)` of file.c pushes one character back and
steps the position back; `EOF` is not pushed. -/
def unreadc (c : Option Char) (f : File) : File :=
  match c with
  | none => f
  | some c =>
    if c = '\n' then { f with buf := c :: f.buf, line := f.line - 1, column := 0 }
    else { f with buf := c :: f.buf, column := f.column - 1 }

/-- The function `warn(...)`. -/
def warn (msg : String) (f : File) : File := { f with warnings := f.warnings ++ [msg] }

/-- The function `make_token(tmpl)`: the position is the current one of the file. -/
def make_token (tmpl : Token) (f : File) : Token × File :=
  ({ tmpl with file := f.name, line := f.line, column := f.column, count := f.ntok },
   { f with ntok := f.ntok + 1 })

/-- What a buffer holds as a C string: the characters before the first NUL. -/
def cstr (b : List Char) : List Char := b.takeWhile fun c => c ≠ Char.ofNat 0

def make_ident (p : List Char) (f : File) : Token × File :=
  make_token { kind := .TIDENT, space := false, sval := cstr p } f

def make_strtok (s : List Char) (enc : Enc) (f : File) : Token × File :=
  make_token { kind := .TSTRING, space := false, sval := cstr s, enc := enc } f

def make_keyword (id : KeywordId) (f : File) : Token × File :=
  make_token { kind := .TKEYWORD, space := false, id := some id } f

def make_number (s : List Char) (f : File) : Token × File :=
  make_token { kind := .TNUMBER, space := false, sval := cstr s } f

/-- Conversion of an `int` to `char` (signed, 8 bits). -/
def to_char (v : Int) : Int := (v + 128) % 256 - 128

/-- The function `make_char(c, enc)`; the parameter `c` has type `char`. -/
def make_char (c : Int) (enc : Enc) (f : File) : Token × File :=
  make_token { kind := .TCHAR, space := false, c := to_char c, enc := enc } f

/-- The value of a character read, as the `int` that `readc` returns; `EOF` is -1. -/
def code (c : Option Char) : Int :=
  match c with
  | some ch => ch.toNat
  | none => -1

def iswhitespace (c : Option Char) : Bool :=
  c = some ' ' || c = some '\t' || c = some (Char.ofNat 12) || c = some (Char.ofNat 11)

/-- The loop of `skip_whitespace`; `n` bounds the number of characters read. -/
def skip_whitespace_loop : Nat → Bool → File → Bool × File
  | 0, r, f => (r, f)
  | n + 1, r, f =>
    let c := readc f
    if iswhitespace c.1 then skip_whitespace_loop n true c.2
    else (r, unreadc c.1 c.2)

def skip_whitespace (f : File) : Bool × File :=
  skip_whitespace_loop (f.remaining + 1) false f

/-- The function `get()`, with `n` bounding the number of line splices. -/
def get_loop : Nat → File → Option Char × File
  | 0, f => (none, f)
  | n + 1, f =>
    let c := readc f
    if c.1 = some '\\' then
      let s := skip_whitespace c.2
      let c := readc s.2
      if c.1 = some '\n' then
        get_loop n (if s.1 then warn "backslash and newline separated by space" c.2 else c.2)
      else (some '\\', unreadc c.1 c.2)
    else c

def get (f : File) : Option Char × File := get_loop (f.remaining + 1) f

def peek (f : File) : Option Char × File :=
  let r := get f
  (r.1, unreadc r.1 r.2)

def next (expect : Char) (f : File) : Bool × File :=
  let c := get f
  if c.1 = some expect then (true, c.2)
  else (false, unreadc c.1 c.2)

/-- The loop of `skip_line`. -/
def skip_line_loop : Nat → File → File
  | 0, f => f
  | n + 1, f =>
    let c := get f
    if c.1 = none then c.2
    else if c.1 = some '\n' then unreadc c.1 c.2
    else skip_line_loop n c.2

def skip_line (f : File) : File := skip_line_loop (f.remaining + 1) f

/-- The loop of `skip_block_comment`; `asterisk_read` is the state. -/
def skip_block_comment_loop : Nat → Bool → File → Except Fatal File
  | 0, _, _ => .error (.error "premature end of block comment")
  | n + 1, asterisk_read, f =>
    let c := get f
    if c.1 = none then .error (.error "premature end of block comment")
    else if c.1 = some '*' then skip_block_comment_loop n true c.2
    else if asterisk_read ∧ c.1 = some '/' then .ok c.2
    else skip_block_comment_loop n false c.2

def skip_block_comment (f : File) : Except Fatal File :=
  skip_block_comment_loop (f.remaining + 1) false f

/-- The loop of `skip_space`; `r` is the result so far. -/
def skip_space_loop : Nat → Bool → File → Except Fatal (Bool × File)
  | 0, r, f => .ok (r, f)
  | n + 1, r, f =>
    let c := get f
    if c.1 = none then .ok (r, c.2)
    else if iswhitespace c.1 then skip_space_loop n true c.2
    else if c.1 = some '/' then
      let a := next '*' c.2
      if a.1 then do
        let f ← skip_block_comment a.2
        skip_space_loop n true f
      else
        let b := next '/' a.2
        if b.1 then skip_space_loop n true (skip_line b.2)
        else .ok (r, unreadc c.1 b.2)
    else .ok (r, unreadc c.1 c.2)

def skip_space (f : File) : Except Fatal (Bool × File) :=
  skip_space_loop (f.remaining + 1) false f

/-- Modelled from the C library in the "C" locale: `isdigit` on the `int` a
character read stands for. -/
def isdigit (c : Option Char) : Bool :=
  match c with
  | some ch => ch.isDigit
  | none => false

/-- Modelled from the C library in the "C" locale: `isalpha`. -/
def isalpha (c : Option Char) : Bool :=
  match c with
  | some ch => ch.isAlpha
  | none => false

/-- Modelled from the C library in the "C" locale: `isalnum`. -/
def isalnum (c : Option Char) : Bool :=
  match c with
  | some ch => ch.isAlphanum
  | none => false

/-- Modelled from the C library: `isxdigit`. -/
def isxdigit (c : Option Char) : Bool :=
  match c with
  | some ch => ch.isDigit || ('a' ≤ ch && ch ≤ 'f') || ('A' ≤ ch && ch ≤ 'F')
  | none => false

/-- Modelled from the C library: `strchr(s, c) != NULL` for a string `s` without
the character 0xFF.  The terminating NUL of `s` counts as part of the string, so
the character NUL is found in every string; `EOF` is converted to the character
0xFF, which is not found. -/
def strchr (s : List Char) (c : Option Char) : Bool :=
  match c with
  | some ch => ch = Char.ofNat 0 || s.contains ch
  | none => false

/-- The loop of `read_number(c)`: `b` is the buffer, `last` the character
written last. -/
def read_number_loop : Nat → List Char → Char → File → Token × File
  | 0, b, _, f => make_number b f
  | n + 1, b, last, f =>
    let c := get f
    let flonum := strchr ['e', 'E', 'p', 'P'] (some last) && strchr ['+', '-'] c.1
    if !isdigit c.1 && !isalpha c.1 && c.1 ≠ some '.' && !flonum then
      make_number b (unreadc c.1 c.2)
    else
      match c.1 with
      | some ch => read_number_loop n (b ++ [ch]) ch c.2
      | none => make_number b c.2

def read_number (c : Char) (f : File) : Token × File :=
  read_number_loop (f.remaining + 1) [c] c f

/-- The function `nextoct()`. -/
def nextoct (f : File) : Bool × File :=
  let c := peek f
  (match c.1 with
   | some ch => decide ('0' ≤ ch ∧ ch ≤ '7')
   | none => false, c.2)

/-- The function `read_octal_char(c)`. -/
def read_octal_char (c : Char) (f : File) : Int × File :=
  let r : Int := c.toNat - 48
  let o := nextoct f
  if !o.1 then (r, o.2)
  else
    let d := get o.2
    let r := r * 8 + (code d.1 - 48)
    let o := nextoct d.2
    if !o.1 then (r, o.2)
    else
      let d := get o.2
      (r * 8 + (code d.1 - 48), d.2)

/-- The value of a hexadecimal digit. -/
def hexval (ch : Char) : Option Int :=
  if '0' ≤ ch ∧ ch ≤ '9' then some (ch.toNat - 48)
  else if 'a' ≤ ch ∧ ch ≤ 'f' then some (ch.toNat - 97 + 10)
  else if 'A' ≤ ch ∧ ch ≤ 'F' then some (ch.toNat - 65 + 10)
  else none

/-- The loop of `read_hex_char`: `for (;; c = get())` with the digit `c` at hand. -/
def read_hex_char_loop : Nat → Int → Option Char → File → Int × File
  | 0, r, _, f => (r, f)
  | n + 1, r, c, f =>
    match c.bind hexval with
    | some v =>
      let d := get f
      read_hex_char_loop n (r * 16 + v) d.1 d.2
    | none => (r, unreadc c f)

def read_hex_char (f : File) : Except Fatal (Int × File) :=
  let c := get f
  if !isxdigit c.1 then
    .error (.error "\\x is not followed by a hexadecimal character")
  else .ok (read_hex_char_loop (f.remaining + 1) 0 c.1 c.2)

def is_valid_ucn (c : Nat) : Bool :=
  if 0xD800 ≤ c ∧ c ≤ 0xDFFF then false
  else 0xA0 ≤ c || c = 0x24 || c = 0x40 || c = 0x60

/-- The loop of `read_universal_char(len)` with `n` digits to go; `r` is an
`unsigned int`. -/
def read_universal_char_loop : Nat → Nat → File → Except Fatal (Nat × File)
  | 0, r, f => .ok (r, f)
  | n + 1, r, f =>
    let c := get f
    match c.1.bind hexval with
    | some v => read_universal_char_loop n ((r * 16 + v.toNat) % 2 ^ 32) c.2
    | none => .error (.error "invalid universal character")

/-- The function `read_universal_char(len)`; the result is converted to `int`. -/
def read_universal_char (len : Nat) (f : File) : Except Fatal (Int × File) := do
  let r ← read_universal_char_loop len 0 f
  if !is_valid_ucn r.1 then .error (.error "invalid universal character")
  else pure (if r.1 < 2 ^ 31 then (r.1 : Int) else (r.1 : Int) - 2 ^ 32, r.2)

/-- The function `read_escaped_char()`. -/
def read_escaped_char (f : File) : Except Fatal (Int × File) :=
  let c := get f
  match c.1 with
  | none => .error (.error "premature end of input")
  | some ch =>
    if ch = '\'' ∨ ch = '"' ∨ ch = '?' ∨ ch = '\\' then .ok (ch.toNat, c.2)
    else if ch = 'a' then .ok (7, c.2)
    else if ch = 'b' then .ok (8, c.2)
    else if ch = 'f' then .ok (12, c.2)
    else if ch = 'n' then .ok (10, c.2)
    else if ch = 'r' then .ok (13, c.2)
    else if ch = 't' then .ok (9, c.2)
    else if ch = 'v' then .ok (11, c.2)
    else if ch = 'e' then .ok (27, c.2)
    else if '0' ≤ ch ∧ ch ≤ '7' then .ok (read_octal_char ch c.2)
    else if ch = 'x' then read_hex_char c.2
    else if ch = 'u' then read_universal_char 4 c.2
    else if ch = 'U' then read_universal_char 8 c.2
    else .ok (ch.toNat, warn "unknown escape character" c.2)

/-- The function `read_char(enc)`. -/
def read_char (enc : Enc) (f : File) : Except Fatal (Token × File) := do
  let c := get f
  let r ← if c.1 = some '\\' then read_escaped_char c.2 else pure (code c.1, c.2)
  let c := get r.2
  if c.1 = none then .error (.error "premature end of input")
  else if c.1 ≠ some '\'' then .error (.error "unterminated string")
  else pure (make_char r.1 enc c.2)

/-- The character that `buf_write(b, c)` stores for the `int` `c`. -/
def to_byte (v : Int) : Char := Char.ofNat (v % 256).toNat

/-- The loop of `read_string(enc)`. -/
def read_string_loop : Nat → List Char → Enc → File → Except Fatal (Token × File)
  | 0, _, _, _ => .error (.error "Unterminated string")
  | n + 1, b, enc, f =>
    let c := get f
    if c.1 = none then .error (.error "Unterminated string")
    else if c.1 = some '"' then .ok (make_strtok b enc c.2)
    else if c.1 = some '\\' then do
      let r ← read_escaped_char c.2
      read_string_loop n (b ++ [to_byte r.1]) enc r.2
    else read_string_loop n (b ++ [to_byte (code c.1)]) enc c.2

def read_string (enc : Enc) (f : File) : Except Fatal (Token × File) :=
  read_string_loop (f.remaining + 1) [] enc f

/-- The loop of `read_ident(c)`. -/
def read_ident_loop : Nat → List Char → File → Token × File
  | 0, b, f => make_ident b f
  | n + 1, b, f =>
    let c := get f
    match c.1 with
    | some ch =>
      if isalnum (some ch) ∨ ch = '_' ∨ ch = '$' then read_ident_loop n (b ++ [ch]) c.2
      else make_ident b (unreadc c.1 c.2)
    | none => make_ident b (unreadc c.1 c.2)

def read_ident (c : Char) (f : File) : Token × File :=
  read_ident_loop (f.remaining + 1) [c] f

def read_rep (expect : Char) (t1 els : KeywordId) (f : File) : Token × File :=
  let n := next expect f
  make_keyword (if n.1 then t1 else els) n.2

def read_rep2 (expect1 : Char) (t1 : KeywordId) (expect2 : Char) (t2 : KeywordId) (els : Char)
    (f : File) : Token × File :=
  let n := next expect1 f
  if n.1 then make_keyword t1 n.2
  else
    let m := next expect2 n.2
    make_keyword (if m.1 then t2 else .ch els) m.2

/-- A freshly made token as the result of `do_read_token`. -/
def fresh (r : Token × File) : Except Fatal (TokPtr × File) := .ok (.fresh r.1, r.2)

/-- The same for the readers that can stop with a fatal error. -/
def freshE (r : Except Fatal (Token × File)) : Except Fatal (TokPtr × File) :=
  r.map fun p => (.fresh p.1, p.2)

/-- The function `do_read_token()`; the cases of its `switch` in the order of
the source. -/
def do_read_token (f : File) : Except Fatal (TokPtr × File) :=
  let r := get f
  let f := r.2
  match r.1 with
  | none => .ok (.null, f)
  | some c =>
    if c = ' ' ∨ c = '\t' ∨ c = Char.ofNat 11 ∨ c = Char.ofNat 12 then do
      let s ← skip_space f
      pure (.space_static, s.2)
    else if c = '\n' then .ok (.newline_static, f)
    else if c = 'L' ∨ c = 'U' then
      let enc := if c = 'L' then Enc.ENC_WCHAR else Enc.ENC_CHAR32
      let a := next '"' f
      if a.1 then freshE (read_string enc a.2)
      else
        let b := next '\'' a.2
        if b.1 then freshE (read_char enc b.2)
        else fresh (read_ident c b.2)
    else if c = 'u' then
      let a := next '"' f
      if a.1 then freshE (read_string .ENC_CHAR16 a.2)
      else
        let b := next '\'' a.2
        if b.1 then freshE (read_char .ENC_CHAR16 b.2)
        else
          let e := next '8' b.2
          if e.1 then
            let q := next '"' e.2
            if q.1 then freshE (read_string .ENC_UTF8 q.2)
            else fresh (read_ident c (unreadc (some '8') q.2))
          else fresh (read_ident c e.2)
    else if ('a' ≤ c ∧ c ≤ 't') ∨ ('v' ≤ c ∧ c ≤ 'z') ∨ ('A' ≤ c ∧ c ≤ 'K') ∨
        ('M' ≤ c ∧ c ≤ 'T') ∨ ('V' ≤ c ∧ c ≤ 'Z') ∨ c = '_' ∨ c = '$' then
      fresh (read_ident c f)
    else if '0' ≤ c ∧ c ≤ '9' then fresh (read_number c f)
    else if c = '/' then
      let a := next '/' f
      if a.1 then .ok (.space_static, skip_line a.2)
      else
        let b := next '*' a.2
        if b.1 then do
          let f ← skip_block_comment b.2
          pure (.space_static, f)
        else
          let e := next '=' b.2
          fresh (make_keyword (if e.1 then .OP_A_DIV else .ch '/') e.2)
    else if c = '.' then
      let p := peek f
      if isdigit p.1 then fresh (read_number c p.2)
      else
        let a := next '.' p.2
        if a.1 then
          let b := next '.' a.2
          if b.1 then fresh (make_keyword .KELLIPSIS b.2)
          else fresh (make_ident ['.', '.'] b.2)
        else fresh (make_keyword (.ch '.') a.2)
    else if c = '(' ∨ c = ')' ∨ c = ',' ∨ c = ';' ∨ c = '[' ∨ c = ']' ∨ c = '{' ∨
        c = '}' ∨ c = '?' ∨ c = '~' then
      fresh (make_keyword (.ch c) f)
    else if c = ':' then
      let a := next '>' f
      fresh (make_keyword (if a.1 then .ch ']' else .ch ':') a.2)
    else if c = '#' then
      let a := next '#' f
      fresh (make_keyword (if a.1 then .KSHARPSHARP else .ch '#') a.2)
    else if c = '+' then fresh (read_rep2 '+' .OP_INC '=' .OP_A_ADD '+' f)
    else if c = '-' then
      let a := next '-' f
      if a.1 then fresh (make_keyword .OP_DEC a.2)
      else
        let b := next '>' a.2
        if b.1 then fresh (make_keyword .OP_ARROW b.2)
        else
          let e := next '=' b.2
          if e.1 then fresh (make_keyword .OP_A_SUB e.2)
          else fresh (make_keyword (.ch '-') e.2)
    else if c = '*' then fresh (read_rep '=' .OP_A_MUL (.ch '*') f)
    else if c = '%' then
      let a := next '>' f
      if a.1 then fresh (make_keyword (.ch '}') a.2)
      else
        let b := next ':' a.2
        if b.1 then
          let e := next '%' b.2
          if e.1 then
            let q := next ':' e.2
            if q.1 then fresh (make_keyword .KSHARPSHARP q.2)
            else fresh (make_keyword (.ch '#') (unreadc (some '%') q.2))
          else fresh (make_keyword (.ch '#') e.2)
        else fresh (read_rep '=' .OP_A_MOD (.ch '%') b.2)
    else if c = '=' then fresh (read_rep '=' .OP_EQ (.ch '=') f)
    else if c = '!' then fresh (read_rep '=' .OP_NE (.ch '!') f)
    else if c = '&' then fresh (read_rep2 '&' .OP_LOGAND '=' .OP_A_AND '&' f)
    else if c = '|' then fresh (read_rep2 '|' .OP_LOGOR '=' .OP_A_OR '|' f)
    else if c = '^' then fresh (read_rep '=' .OP_A_XOR (.ch '^') f)
    else if c = '<' then
      let a := next '<' f
      if a.1 then fresh (read_rep '=' .OP_A_SAL .OP_SAL a.2)
      else
        let b := next '=' a.2
        if b.1 then fresh (make_keyword .OP_LE b.2)
        else
          let e := next ':' b.2
          if e.1 then fresh (make_keyword (.ch '[') e.2)
          else
            let q := next '%' e.2
            if q.1 then fresh (make_keyword (.ch '{') q.2)
            else fresh (make_keyword (.ch '<') q.2)
    else if c = '>' then
      let a := next '=' f
      if a.1 then fresh (make_keyword .OP_GE a.2)
      else
        let b := next '>' a.2
        if b.1 then fresh (read_rep '=' .OP_A_SAR .OP_SAR b.2)
        else fresh (make_keyword (.ch '>') b.2)
    else if c = '"' then freshE (read_string .ENC_NONE f)
    else if c = '\'' then freshE (read_char .ENC_NONE f)
    else .error (.error "Unexpected character")

/-- The lexer state: the current file, the two token stacks (top first) and the
current contents of the two static tokens. -/
structure Lexer where
  file : File
  buffer : List TokPtr := []
  altbuffer : Option (List TokPtr) := none
  space_token : Token := { kind := .TSPACE, space := false }
  newline_token : Token := { kind := .TNEWLINE, space := false }
  deriving DecidableEq, Repr

/-- The token a pointer refers to. -/
def Lexer.deref (s : Lexer) : TokPtr → Option Token
  | .null => none
  | .fresh t => some t
  | .space_static => some s.space_token
  | .newline_static => some s.newline_token

/-- The assignment `tok->space = v` through a token pointer. -/
def Lexer.set_space (s : Lexer) (p : TokPtr) (v : Bool) : TokPtr × Lexer :=
  match p with
  | .null => (p, s)
  | .fresh t => (.fresh { t with space := v }, s)
  | .space_static => (p, { s with space_token := { s.space_token with space := v } })
  | .newline_static => (p, { s with newline_token := { s.newline_token with space := v } })

/-- The assignment `tok->bol = v` through a token pointer. -/
def Lexer.set_bol (s : Lexer) (p : TokPtr) (v : Bool) : TokPtr × Lexer :=
  match p with
  | .null => (p, s)
  | .fresh t => (.fresh { t with bol := v }, s)
  | .space_static => (p, { s with space_token := { s.space_token with bol := v } })
  | .newline_static => (p, { s with newline_token := { s.newline_token with bol := v } })

/-- The function `unget_token(tok)`. -/
def unget_token (tok : TokPtr) (s : Lexer) : Lexer :=
  if tok = .null then s
  else match s.altbuffer with
    | some a => { s with altbuffer := some (tok :: a) }
    | none => { s with buffer := tok :: s.buffer }

/-- The loop `while (tok && tok->kind == TSPACE)` of `lex`, with `tok` the token
read last. -/
def lex_loop : Nat → TokPtr → Lexer → Except Fatal (TokPtr × Lexer)
  | 0, tok, s => .ok (tok, s)
  | n + 1, tok, s =>
    if (s.deref tok).map Token.kind = some .TSPACE then do
      let r ← do_read_token s.file
      let s := { s with file := r.2 }
      let w := s.set_space r.1 true
      lex_loop n w.1 w.2
    else .ok (tok, s)

/-- The function `lex()`. -/
def lex (s : Lexer) : Except Fatal (TokPtr × Lexer) :=
  match s.altbuffer with
  | some [] => .ok (.null, s)
  | some (t :: rest) => .ok (t, { s with altbuffer := some rest })
  | none =>
    match s.buffer with
    | t :: rest => .ok (t, { s with buffer := rest })
    | [] => do
      let bol := decide (s.file.column = 0)
      let r ← do_read_token s.file
      let w ← lex_loop (s.file.remaining + 1) r.1 { s with file := r.2 }
      pure (w.2.set_bol w.1 bol)

/-- The function `lex_string(s)`.  The string is read as a stream of its own:
`lex_string` pushes it, tests `peek() != EOF` after the token and pops it, so
the end of the string is seen as `EOF`. -/
def lex_string (s : List Char) : Except Fatal TokPtr := do
  let r ← do_read_token { input := s }
  if (peek r.2).1 ≠ none then .error (.error "unconsumed input")
  else pure r.1

/-- The tokens that `lex` delivers from a text until the end of input, at most
`n` of them. -/
def lex_all : Nat → Lexer → Except Fatal (List Token)
  | 0, _ => .ok []
  | n + 1, s => do
    let r ← lex s
    match r.2.deref r.1 with
    | none => pure []
    | some t => do
      let rest ← lex_all n r.2
      pure (t :: rest)

/-- The characters a file delivers from now on: the pushback, then the input. -/
def File.content (f : File) : List Char := f.buf ++ f.input

/-- The characters that `read_ident` accepts after the first. -/
def is_ident_char (c : Char) : Bool := c.isAlphanum || c = '_' || c = '$'

/-- The function `set_input_buffer(tokens)`; `none` is the null pointer. -/
def set_input_buffer (tokens : Option (List TokPtr)) (s : Lexer) : Lexer :=
  { s with altbuffer := tokens }

/-- The function `get_input_buffer()`. -/
def get_input_buffer (s : Lexer) : Option (List TokPtr) := s.altbuffer

/-- The calls `unget_token(t1)`, ..., `unget_token(tn)` for the list `[t1, ..., tn]`. -/
def unget_tokens : List TokPtr → Lexer → Lexer
  | [], s => s
  | t :: ts, s => unget_tokens ts (unget_token t s)

/-- The results of `n` calls of `lex` in a row, first call first, and the state
after them. -/
def lex_n : Nat → Lexer → Except Fatal (List TokPtr × Lexer)
  | 0, s => .ok ([], s)
  | n + 1, s => do
    let r ← lex s
    let rest ← lex_n n r.2
    pure (r.1 :: rest.1, rest.2)

/-- A call of `lex()` or of `unget_token(t)`. -/
inductive LexCall where
  | lex
  | unget (t : TokPtr)
  deriving DecidableEq, Repr

/-- A sequence of calls of `lex` and `unget_token`: the pointers the calls of
`lex` return, first call first, and the state after the last call. -/
def run_calls : List LexCall → Lexer → Except Fatal (List TokPtr × Lexer)
  | [], s => .ok ([], s)
  | .lex :: cs, s => do
    let r ← lex s
    let rest ← run_calls cs r.2
    pure (r.1 :: rest.1, rest.2)
  | .unget t :: cs, s => run_calls cs (unget_token t s)

/-- The tokens of a text as `lex` delivers them, with the flags they have when
`lex` returns them. -/
def lex_text (s : List Char) : Except Fatal (List Token) :=
  lex_all (s.length + 1) { file := { input := s } }
/-- The white space of `iswhitespace`, as a predicate on characters. -/
def is_blank (c : Char) : Bool := iswhitespace (some c)

/-- What `get` returns and what it leaves, on the characters a file still
delivers: a backslash, white space and a newline are skipped, a backslash
followed by white space and something else is returned and the white space is
gone, any other character is returned as it is. -/
def get_list_loop : Nat → List Char → Option Char × List Char
  | 0, l => (none, l)
  | _ + 1, [] => (none, [])
  | n + 1, c :: r =>
    if c = '\\' then
      if (r.dropWhile is_blank).head? = some '\n' then
        get_list_loop n (r.dropWhile is_blank).tail
      else (some '\\', r.dropWhile is_blank)
    else (some c, r)

/-- The same with the bound that `get` takes from the number of characters left. -/
def get_list (l : List Char) : Option Char × List Char := get_list_loop (l.length + 1) l

/-- The characters left after `unreadc(c)`. -/
def unget_list (c : Option Char) (l : List Char) : List Char :=
  match c with
  | some x => x :: l
  | none => l

/-- Successive calls of `get` return the characters of `s`; the result is the
file after the last of them. -/
def delivers : List Char → File → Option File
  | [], f => some f
  | c :: s, f => if (get f).1 = some c then delivers s (get f).2 else none

/-- The same on the characters a file still delivers. -/
def delivers_list : List Char → List Char → Option (List Char)
  | [], l => some l
  | c :: s, l => if (get_list l).1 = some c then delivers_list s (get_list l).2 else none
/-- The punctuators of C11 (6.4.6), each with the keyword id of its token: the
character itself for a punctuator of one character, the constant of keyword.h
otherwise; the six digraphs at the end have the ids of `[ ] { } # ##`. -/
def punctuators : List (List Char × KeywordId) :=
  [(['['], .ch '['), ([']'], .ch ']'), (['('], .ch '('), ([')'], .ch ')'),
   (['{'], .ch '{'), (['}'], .ch '}'), (['.'], .ch '.'), (['-', '>'], .OP_ARROW),
   (['+', '+'], .OP_INC), (['-', '-'], .OP_DEC), (['&'], .ch '&'), (['*'], .ch '*'),
   (['+'], .ch '+'), (['-'], .ch '-'), (['~'], .ch '~'), (['!'], .ch '!'),
   (['/'], .ch '/'), (['%'], .ch '%'), (['<', '<'], .OP_SAL), (['>', '>'], .OP_SAR),
   (['<'], .ch '<'), (['>'], .ch '>'), (['<', '='], .OP_LE), (['>', '='], .OP_GE),
   (['=', '='], .OP_EQ), (['!', '='], .OP_NE), (['^'], .ch '^'), (['|'], .ch '|'),
   (['&', '&'], .OP_LOGAND), (['|', '|'], .OP_LOGOR), (['?'], .ch '?'), ([':'], .ch ':'),
   ([';'], .ch ';'), (['.', '.', '.'], .KELLIPSIS), (['='], .ch '='),
   (['*', '='], .OP_A_MUL), (['/', '='], .OP_A_DIV), (['%', '='], .OP_A_MOD),
   (['+', '='], .OP_A_ADD), (['-', '='], .OP_A_SUB), (['<', '<', '='], .OP_A_SAL),
   (['>', '>', '='], .OP_A_SAR), (['&', '='], .OP_A_AND), (['^', '='], .OP_A_XOR),
   (['|', '='], .OP_A_OR), ([','], .ch ','), (['#'], .ch '#'), (['#', '#'], .KSHARPSHARP),
   (['<', ':'], .ch '['), ([':', '>'], .ch ']'), (['<', '%'], .ch '{'), (['%', '>'], .ch '}'),
   (['%', ':'], .ch '#'), (['%', ':', '%', ':'], .KSHARPSHARP)]

/-- The character `x` can extend `p` to a longer punctuator: `p` followed by `x`
begins a punctuator. -/
def can_extend (p : List Char) (x : Char) : Bool :=
  punctuators.any fun q => (p ++ [x]).isPrefixOf q.1

/-- The character `x` after the punctuator `p` begins a comment (`//`, `/*`) or
makes a number of it (`.` and a digit). -/
def begins_other_token (p : List Char) (x : Char) : Bool :=
  (p = ['/'] && (x = '/' || x = '*')) || (p = ['.'] && x.isDigit)
/-- What a result of `do_read_token` shows of a token made by `make_token`: its
kind and keyword id, and what `get` does next on the characters left. -/
def token_view (r : Except Fatal (TokPtr × File)) :
    Option (TokenKind × Option KeywordId × Option Char × List Char) :=
  match r with
  | .ok (.fresh t, f) => some (t.kind, t.id, get_list f.content)
  | _ => none
/-- The escapes of one letter with the values the claim lists for them. -/
def letter_escapes : List (Char × Int) :=
  [('a', 7), ('b', 8), ('f', 12), ('n', 10), ('r', 13), ('t', 9), ('v', 11), ('e', 27)]

/-- The characters that stand for themselves after a backslash. -/
def self_escapes : List Char := ['\'', '"', '?', '\\']

/-- An octal digit. -/
def is_octal (c : Char) : Bool := decide ('0' ≤ c ∧ c ≤ '7')

/-- The base-8 value of a row of octal digits. -/
def octal_value (ds : List Char) : Int :=
  ds.foldl (fun r d => r * 8 + ((d.toNat : Int) - 48)) 0
/-- A hexadecimal digit. -/
def is_hex_digit (c : Char) : Bool :=
  decide ('0' ≤ c ∧ c ≤ '9') || decide ('a' ≤ c ∧ c ≤ 'f') || decide ('A' ≤ c ∧ c ≤ 'F')

/-- The value of a hexadecimal digit. -/
def hex_digit_value (c : Char) : Nat :=
  if '0' ≤ c ∧ c ≤ '9' then c.toNat - 48
  else if 'a' ≤ c ∧ c ≤ 'f' then c.toNat - 87
  else c.toNat - 55

/-- The number that a row of hexadecimal digits denotes. -/
def hex_value (s : List Char) : Nat := s.foldl (fun r c => r * 16 + hex_digit_value c) 0

/-- The `int` that the `unsigned int` `v` is converted to. -/
def to_int32 (v : Nat) : Int := if v < 2 ^ 31 then (v : Int) else (v : Int) - 2 ^ 32
/-- The encoding prefixes of literals with the encoding that the claim gives
each; the empty prefix stands for a literal without prefix. -/
def enc_prefixes : List (List Char × Enc) :=
  [([], .ENC_NONE), (['L'], .ENC_WCHAR), (['u'], .ENC_CHAR16), (['U'], .ENC_CHAR32),
   (['u', '8'], .ENC_UTF8)]

/-- The text of a row of line splices: for every element `ws` of `sp` a
backslash, the white space `ws` and a newline. -/
def splices (sp : List (List Char)) : List Char :=
  sp.flatMap fun ws => '\\' :: ws ++ ['\n']

/-- A text begins with a line splice: a backslash, white space and a newline. -/
def starts_with_splice (r : List Char) : Bool :=
  match r with
  | c :: t => c = '\\' && (t.dropWhile is_blank).head? = some '\n'
  | [] => false
/-- The change of `stackpos` that goes with an emitted line: the `push` of
`push` and the store of `push_xmm` stand for +8, the `pop` of `pop` and the
load of `pop_xmm` for -8; every other line stands for 0. -/
def stack_effect : Instr → Int
  | .ins .push _ => 8
  | .ins .pop _ => -8
  | .ins .movsd [.reg (.xmm _), .ind .rsp] => 8
  | .ins .movsd [.ind .rsp, .reg (.xmm _)] => -8
  | _ => 0

/-- The sum of the changes of `stackpos` over a text. -/
def depth (t : List Instr) : Int := (t.map stack_effect).sum

/-- The generator goes from `g` to `g'` by appending a text over which
`stackpos` changes by `d` in all, following the lines of the text, and over no
prefix of which it changes by less than `lo`. -/
def Seg (lo d : Int) (g g' : Gen) : Prop :=
  g'.stackpos = g.stackpos + d ∧
    ∃ t, g'.out = g.out ++ t ∧ depth t = d ∧ ∀ pre, pre <+: t → lo ≤ depth pre

/-- An emitter that, whenever it succeeds, has appended a text over which
`stackpos` returns to its value at entry without falling below it. -/
def Bal (E : Gen → Emit) : Prop := ∀ g g', E g = .ok g' → Seg 0 0 g g'

/-- The same for an emitter that may be absent. -/
def BalO (E : Option (Gen → Emit)) : Prop := ∀ e, E = some e → Bal e

/-- The call `f(1, 2.5, g(3))` of `int f(int, ...)` with a nested call. -/
def nested_call : Node :=
  .funcall tInt "f"
    [.literal tInt 1 0 1, .literal tDouble 0 0x4004000000000000 2,
     .funcall tInt "g" [.literal tInt 3 0 3] (.mk .FUNC 0 none 0 false false [tInt])]
    (.mk .FUNC 0 none 0 false true [tInt])

/-- The generator state after emitting `nested_call` with `stackpos = 16`. -/
def nested_call_result : Gen :=
  match emit_expr nested_call { stackpos := 16 } with
  | .ok g => g
  | .error _ => {}

/-- Every emitter of the tree walk that can be entered at the node `n` is
balanced; for an `init` node this includes the walk of its value. -/
def AllBal (n : Node) : Prop :=
  Bal (emit_expr n) ∧ Bal (emit_addr n) ∧ Bal (emit_store n) ∧
    (∀ field off, Bal (emit_assign_struct_ref n field off)) ∧
    (∀ field off, Bal (emit_load_struct_ref n field off)) ∧
    (∀ v o t, n = .init v o t → Bal (emit_expr v))

/-- Every emitter of the tree walk that can be entered at the node list `l` is
balanced. -/
def AllBalL (l : List Node) : Prop :=
  (∀ off, Bal (emit_decl_init l off)) ∧ Bal (emit_compound_stmt l) ∧
    ∀ v ∈ l, Bal (emit_expr v)
/-- A state with `%rbp = 0x10000`, `%rsp = 0xff00` and at `-336(%rbp)` a
`va_list` with `gp_offset = 8`, `fp_offset = 48`, `overflow_arg_area = 0x10010`
and `reg_save_area = 0x10000 - 304`; the save slot of `%rsi` holds 7 and the
save slot of `%xmm0` the double 2.5. -/
def va_list_state : Machine :=
  { reg := fun r =>
      match r with
      | .rbp => 0x10000
      | .rsp => 0xff00
      | _ => 0,
    xmm := fun _ => 0,
    mem := store (store (store (store (store (store (fun _ => 0) 4 (0x10000 - 336) 8)
      4 (0x10000 - 336 + 4) 48) 8 (0x10000 - 336 + 8) 0x10010) 8 (0x10000 - 336 + 16)
      (0x10000 - 304)) 8 (0x10000 - 304 + 8) 7) 8 (0x10000 - 304 + 48) 0x4004000000000000,
    zf := none, lt := none }

/-- The fields `gp_offset`, `fp_offset`, `overflow_arg_area` and `reg_save_area`
of the `va_list` at `-336(%rbp)`. -/
def va_list_fields (m : Machine) : Nat × Nat × Nat × Nat :=
  (load m.mem 4 (0x10000 - 336), load m.mem 4 (0x10000 - 336 + 4),
    load m.mem 8 (0x10000 - 336 + 8), load m.mem 8 (0x10000 - 336 + 16))

/-! ## Theorems -/

set_option maxRecDepth 100000

/-! ### Auxiliary lemmas: the result monad, machine states, single instructions -/

theorem bind_eq_ok {α β : Type} (x : Except Fatal α) (f : α → Except Fatal β) (b : β) :
    (x >>= f) = .ok b ↔ ∃ a, x = .ok a ∧ f a = .ok b := by
  cases x with
  | error e => simp [bind, Except.bind]
  | ok a => simp [bind, Except.bind]

theorem wordMod8 : wordMod 8 = 18446744073709551616 := by decide

theorem wordMod_pos (w : Nat) : 0 < wordMod w := by
  unfold wordMod
  positivity

namespace Machine

theorem get_def (m : Machine) (r : R64) (w : Nat) : m.get r w = m.reg r % wordMod w := rfl

theorem get_lt (m : Machine) (r : R64) (w : Nat) : m.get r w < wordMod w :=
  Nat.mod_lt _ (wordMod_pos w)

theorem reg_set_same (m : Machine) (r : R64) (v : Nat) :
    (m.set r 8 v).reg r = v % wordMod 8 := by
  simp [set]

theorem reg_set_ne (m : Machine) (r r' : R64) (w v : Nat) (h : r ≠ r') :
    (m.set r' w v).reg r = m.reg r := by
  simp [set, h]

theorem get_set_same (m : Machine) (r : R64) (v : Nat) :
    (m.set r 8 v).get r 8 = v % wordMod 8 := by
  simp [get, reg_set_same]

theorem get_set_ne (m : Machine) (r r' : R64) (w w' v : Nat) (h : r ≠ r') :
    (m.set r' w v).get r w' = m.get r w' := by
  simp [get, reg_set_ne _ _ _ _ _ h]

theorem mem_set (m : Machine) (r : R64) (w v : Nat) : (m.set r w v).mem = m.mem := rfl

theorem xmm_set (m : Machine) (r : R64) (w v : Nat) : (m.set r w v).xmm = m.xmm := rfl

theorem get_flags (m : Machine) (z l : Option Bool) (r : R64) (w : Nat) :
    (m.flags z l).get r w = m.get r w := rfl

theorem mem_flags (m : Machine) (z l : Option Bool) : (m.flags z l).mem = m.mem := rfl

theorem xmm_flags (m : Machine) (z l : Option Bool) : (m.flags z l).xmm = m.xmm := rfl

theorem get_setMem (m : Machine) (f : Nat → Nat) (r : R64) (w : Nat) :
    (m.setMem f).get r w = m.get r w := rfl

theorem mem_setMem (m : Machine) (f : Nat → Nat) : (m.setMem f).mem = f := rfl

theorem xmm_setMem (m : Machine) (f : Nat → Nat) : (m.setMem f).xmm = m.xmm := rfl

theorem reg_setXmm (m : Machine) (b : Int) (v : Nat) : (m.setXmm b v).reg = m.reg := rfl

theorem get_setXmm (m : Machine) (b : Int) (v : Nat) (r : R64) (w : Nat) :
    (m.setXmm b v).get r w = m.get r w := rfl

theorem mem_setXmm (m : Machine) (b : Int) (v : Nat) : (m.setXmm b v).mem = m.mem := rfl

theorem xmm_setXmm_same (m : Machine) (b : Int) (v : Nat) : (m.setXmm b v).xmm b = v := by
  simp [setXmm]

theorem xmm_setXmm_ne (m : Machine) (a b : Int) (v : Nat) (h : a ≠ b) :
    (m.setXmm b v).xmm a = m.xmm a := by
  simp [setXmm, h]

end Machine

theorem run_cons (i : Instr) (rest : List Instr) (m : Machine) :
    run (i :: rest) m =
      match step i m with
      | some (m1, none) => run rest m1
      | r => r := rfl

theorem run_nil (m : Machine) : run [] m = some (m, none) := rfl

theorem run_append (a b : List Instr) (m : Machine) :
    run (a ++ b) m =
      match run a m with
      | some (m1, none) => run b m1
      | r => r := by
  induction a generalizing m with
  | nil => simp [run_nil]
  | cons i rest ih =>
    simp only [List.cons_append, run_cons]
    cases hs : step i m with
    | none => rfl
    | some r =>
      obtain ⟨m1, t⟩ := r
      cases t with
      | none => simp only [ih]
      | some l => rfl

theorem step_imul_imm_rax (n : Int) (m : Machine) :
    step (i2 .imul (.imm n) (.reg .rax)) m =
      some (((m.set .rax 8 (m.get .rax 8 * (n % (wordMod 8 : Int)).toNat % wordMod 8)).flags
        (some (decide (m.get .rax 8 * (n % (wordMod 8 : Int)).toNat % wordMod 8 = 0)))
        none).flags none none, none) := rfl

theorem step_mov_rax_rcx (m : Machine) :
    step (i2 .mov (.reg .rax) (.reg .rcx)) m = some (m.set .rcx 8 (m.get .rax 8), none) := rfl

theorem step_pop_rax (m : Machine) :
    step (i1 .pop (.reg .rax)) m =
      some ((m.set .rsp 8 (m.ea .rsp 8)).set .rax 8 (load m.mem 8 (m.get .rsp 8)), none) := rfl

theorem step_add_rcx_rax (m : Machine) :
    step (i2 .add (.reg .rcx) (.reg .rax)) m =
      some ((m.set .rax 8 ((m.get .rax 8 + m.get .rcx 8) % wordMod 8)).flags
        (some (decide ((m.get .rax 8 + m.get .rcx 8) % wordMod 8 = 0))) none, none) := rfl

theorem load_lt (mem : Nat → Nat) (n a : Nat) : load mem n a < wordMod n := by
  induction n generalizing a with
  | zero => simp [load, wordMod]
  | succ k ih =>
    have h := ih (a + 1)
    have hb : mem a % 256 < 256 := Nat.mod_lt _ (by decide)
    have hw : wordMod (k + 1) = 256 * wordMod k := by
      simp only [wordMod, Nat.mul_add, Nat.pow_add]
      norm_num
      ring
    simp only [load, hw]
    omega

theorem add_mul_mod_mod (p a s w : Nat) : (p % w + a * s % w) % w = (p + a * s) % w := by
  rw [← Nat.add_mod]

/-- The text with which `emit_pointer_arith` combines the saved pointer and the
right value, executed: `%rax` becomes pointer + value * size. -/
theorem run_pointer_arith_tail (m : Machine) (s : Int) (hs : 1 ≤ s) (hs2 : s < 2 ^ 64) :
    ∃ m', run ((if s > 1 then [i2 .imul (.imm s) (.reg .rax)] else []) ++
        [i2 .mov (.reg .rax) (.reg .rcx), i1 .pop (.reg .rax),
         i2 .add (.reg .rcx) (.reg .rax)]) m = some (m', none) ∧
      m'.get .rax 8 = (load m.mem 8 (m.get .rsp 8) + m.get .rax 8 * s.toNat) % wordMod 8 := by
  have hsn : (s % (wordMod 8 : Int)).toNat = s.toNat := by
    rw [wordMod8]
    have : s % (18446744073709551616 : Int) = s := Int.emod_eq_of_lt (by omega) (by omega)
    simp [this]
  have hne1 : R64.rsp ≠ R64.rax := by decide
  have hne2 : R64.rsp ≠ R64.rcx := by decide
  have hne3 : R64.rcx ≠ R64.rax := by decide
  have hne4 : R64.rcx ≠ R64.rsp := by decide
  by_cases h1 : s > 1
  · simp only [h1, if_true, List.singleton_append, run_cons, run_nil, step_imul_imm_rax,
      step_mov_rax_rcx, step_pop_rax, step_add_rcx_rax]
    refine ⟨_, rfl, ?_⟩
    simp only [Machine.get_flags, Machine.get_set_same, Machine.get_set_ne _ _ _ _ _ _ hne1,
      Machine.get_set_ne _ _ _ _ _ _ hne2, Machine.get_set_ne _ _ _ _ _ _ hne3,
      Machine.get_set_ne _ _ _ _ _ _ hne4, Machine.mem_set, Machine.mem_flags, hsn,
      Nat.mod_mod, add_mul_mod_mod]
  · have h1' : s = 1 := by omega
    subst h1'
    simp only [gt_iff_lt, lt_self_iff_false, if_false, List.nil_append, run_cons, run_nil,
      step_mov_rax_rcx, step_pop_rax, step_add_rcx_rax]
    refine ⟨_, rfl, ?_⟩
    simp only [Machine.get_flags, Machine.get_set_same, Machine.get_set_ne _ _ _ _ _ _ hne1,
      Machine.get_set_ne _ _ _ _ _ _ hne2, Machine.get_set_ne _ _ _ _ _ _ hne3,
      Machine.get_set_ne _ _ _ _ _ _ hne4, Machine.mem_set, Machine.mem_flags,
      Nat.mod_mod]
    have : (1 : Int).toNat = 1 := rfl
    rw [this, Nat.mul_one, Machine.get_def, ← Nat.add_mod]

theorem emit_expr_binop (op : NodeType) (ct : Ctype) (left right : Node) (g : Gen)
    (hop : is_binop op = true) :
    emit_expr (.binary op ct left right) g =
      emit_binop op ct left right (emit_expr left) (emit_expr right) g := by
  cases op <;> first | (simp [is_binop] at hop; done) | simp only [emit_expr]

theorem push_eq (r : Reg) (g : Gen) :
    push r g = { g with out := g.out ++ [i1 .push (.reg r)], stackpos := g.stackpos + 8 } := rfl

theorem pop_eq_ok (r : Reg) (g g' : Gen) :
    pop r g = .ok g' ↔ 0 ≤ g.stackpos - 8 ∧
      g' = { g with out := g.out ++ [i1 .pop (.reg r)], stackpos := g.stackpos - 8 } := by
  unfold pop
  simp only [emit, ge_iff_le]
  split
  · rename_i h
    constructor
    · intro e
      injection e with e
      exact ⟨h, e.symm⟩
    · rintro ⟨_, e⟩
      rw [e]
  · rename_i h
    constructor
    · intro e
      cases e
    · rintro ⟨h', _⟩
      exact absurd h' h

/-! ### Auxiliary lemmas: memory -/

theorem wordMod_succ (k : Nat) : wordMod (k + 1) = 256 * wordMod k := by
  simp only [wordMod, Nat.mul_add, Nat.pow_add]
  norm_num
  ring

theorem store_outside (mem : Nat → Nat) (n a v x : Nat) (h : x < a ∨ a + n ≤ x) :
    store mem n a v x = mem x := by
  induction n generalizing a v with
  | zero => rfl
  | succ k ih =>
    simp only [store]
    have hx : x ≠ a := by omega
    rw [if_neg hx]
    exact ih (a + 1) (v / 256) (by omega)

theorem load_congr (f g : Nat → Nat) (n a : Nat)
    (h : ∀ x, a ≤ x → x < a + n → f x = g x) : load f n a = load g n a := by
  induction n generalizing a with
  | zero => rfl
  | succ k ih =>
    simp only [load]
    rw [h a (Nat.le_refl a) (by omega), ih (a + 1) (fun x h1 h2 => h x (by omega) (by omega))]

theorem load_store_same (mem : Nat → Nat) (n a v : Nat) :
    load (store mem n a v) n a = v % wordMod n := by
  induction n generalizing a v mem with
  | zero => simp [load, wordMod, Nat.mod_one]
  | succ k ih =>
    have h1 : load (store mem (k + 1) a v) k (a + 1)
        = load (store mem k (a + 1) (v / 256)) k (a + 1) := by
      apply load_congr
      intro x hx1 _
      simp only [store]
      rw [if_neg (by omega)]
    simp only [load]
    rw [h1, ih]
    simp only [store, if_true, Nat.mod_mod, wordMod_succ]
    rw [Nat.mod_mul]

theorem store_congr_mod (mem : Nat → Nat) (n a v v' : Nat)
    (h : v % wordMod n = v' % wordMod n) : store mem n a v = store mem n a v' := by
  induction n generalizing a v v' with
  | zero => rfl
  | succ k ih =>
    rw [wordMod_succ, Nat.mod_mul, Nat.mod_mul] at h
    have hw := wordMod_pos k
    have hb : v % 256 = v' % 256 := by
      have h1 : v % 256 < 256 := Nat.mod_lt _ (by decide)
      have h2 : v' % 256 < 256 := Nat.mod_lt _ (by decide)
      omega
    have hq : v / 256 % wordMod k = v' / 256 % wordMod k := by omega
    funext x
    simp only [store, hb, ih (a + 1) _ _ hq]

theorem sext_mod (n v : Nat) : sext n (v % wordMod n) = sext n v := by
  simp only [sext, Nat.mod_mod]

theorem sext_lt (n v : Nat) (hn : n ≤ 8) : sext n v < wordMod 8 := by
  have hle : wordMod n ≤ wordMod 8 := Nat.pow_le_pow_right (by decide) (by omega)
  have hlt : v % wordMod n < wordMod n := Nat.mod_lt _ (wordMod_pos n)
  unfold sext
  split <;> omega

theorem sext_eight (v : Nat) : sext 8 v = v % wordMod 8 := by
  unfold sext
  split <;> simp

namespace Machine

theorem ea_lt (m : Machine) (r : R64) (d : Int) : m.ea r d < wordMod 8 := by
  unfold ea
  rw [wordMod8]
  have h := Int.emod_lt_of_pos ((m.reg r : Int) + d) (show (0 : Int) < 2 ^ 64 by norm_num)
  have h0 := Int.emod_nonneg ((m.reg r : Int) + d) (show (2 : Int) ^ 64 ≠ 0 by norm_num)
  omega

theorem ea_zero (m : Machine) (r : R64) : m.ea r 0 = m.get r 8 := by
  unfold ea get
  rw [wordMod8]
  simp only [Int.add_zero]
  norm_cast

theorem ea_set_ne (m : Machine) (r r' : R64) (w v : Nat) (d : Int) (h : r ≠ r') :
    (m.set r' w v).ea r d = m.ea r d := by
  simp [ea, reg_set_ne _ _ _ _ _ h]

end Machine

/-! ### Auxiliary lemmas: stores and loads through a pointer -/

theorem mod_wordMod8_mod (x n : Nat) (hn : n ≤ 8) : x % wordMod 8 % wordMod n = x % wordMod n :=
  Nat.mod_mod_of_dvd _ (Nat.pow_dvd_pow 2 (by omega))

theorem step_mov_ind_rsp_rcx (m : Machine) :
    step (i2 .mov (.ind .rsp) (.reg .rcx)) m =
      some (m.set .rcx 8 (load m.mem 8 (m.ea .rsp 0)), none) := rfl

theorem storesBytes_cl : StoresBytes .cl 1 := fun _ => rfl

theorem storesBytes_cx : StoresBytes .cx 2 := fun _ => rfl

theorem storesBytes_ecx : StoresBytes .ecx 4 := fun _ => rfl

theorem storesBytes_rcx : StoresBytes .rcx 8 := fun _ => rfl

theorem step_movs (mn : Mn) (n : Nat) (hn : n ≤ 8)
    (h : ∀ (m : Machine) (src dst : Operand), step (i2 mn src dst) m = stepMovs n src dst m) :
    LoadsBytes mn n := by
  intro m d b r hb
  refine ⟨m.set .rax 8 (sext n (load m.mem n (m.ea r d))), ?_, rfl, ?_⟩
  · have hrax : Reg.rax.view = some (R64.rax, 8) := rfl
    rw [h]
    simp only [stepMovs, Machine.read, Machine.addrOf, hb, Machine.write, hrax]
  · rw [Machine.get_set_same, Nat.mod_eq_of_lt (sext_lt _ _ hn)]

theorem loadsBytes_movsbq : LoadsBytes .movsbq 1 :=
  step_movs .movsbq 1 (by decide) (fun _ _ _ => rfl)

theorem loadsBytes_movswq : LoadsBytes .movswq 2 :=
  step_movs .movswq 2 (by decide) (fun _ _ _ => rfl)

theorem loadsBytes_movslq : LoadsBytes .movslq 4 :=
  step_movs .movslq 4 (by decide) (fun _ _ _ => rfl)

theorem loadsBytes_mov : LoadsBytes .mov 8 := by
  intro m d b r hb
  refine ⟨m.set .rax 8 (load m.mem 8 (m.ea r d)), ?_, rfl, ?_⟩
  · have h : step (i2 .mov (.mem d b) (.reg .rax)) m = stepMov 8 (.mem d b) (.reg .rax) m := rfl
    have hrax : Reg.rax.view = some (R64.rax, 8) := rfl
    rw [h]
    simp only [stepMov, Machine.read, Machine.addrOf, hb, Machine.write, hrax]
  · rw [Machine.get_set_same, sext_eight]

/-- The text after the pointer operand of a store through a pointer: it writes
the low `n` bytes of the saved value at the address in `%rax`. -/
theorem run_store_tail (creg : Reg) (n : Nat) (hn : n ≤ 8) (hs : StoresBytes creg n)
    (m : Machine) :
    ∃ m', run [i2 .mov (.ind .rsp) (.reg .rcx), i2 .mov (.reg creg) (.ind .rax),
        i1 .pop (.reg .rax)] m = some (m', none) ∧
      m'.mem = store m.mem n (m.get .rax 8) (load m.mem 8 (m.get .rsp 8)) := by
  simp only [run_cons, run_nil, step_mov_ind_rsp_rcx, hs _, step_pop_rax]
  refine ⟨_, rfl, ?_⟩
  simp only [Machine.mem_set, Machine.mem_setMem, Machine.ea_zero,
    Machine.get_set_ne _ .rax .rcx _ _ _ (by decide)]
  apply store_congr_mod
  rw [Machine.get_def, Machine.reg_set_same, mod_wordMod8_mod _ _ hn, Nat.mod_mod]

/-- The load through the pointer in `%rax`: it reads `n` bytes at that address
and sign-extends them. -/
theorem run_load_tail (inst : Mn) (n : Nat) (hl : LoadsBytes inst n) (m : Machine) :
    ∃ m', run [i2 inst (.mem 0 .rax) (.reg .rax)] m = some (m', none) ∧ m'.mem = m.mem ∧
      m'.get .rax 8 = sext n (load m.mem n (m.get .rax 8)) := by
  obtain ⟨m', h1, h2, h3⟩ := hl m 0 .rax .rax rfl
  refine ⟨m', ?_, h2, ?_⟩
  · simp only [run_cons, run_nil, h1]
  · rw [h3, Machine.ea_zero]

theorem step_lea_rbp_rax (d : Int) (m : Machine) :
    step (i2 .lea (.mem d .rbp) (.reg .rax)) m = some (m.set .rax 8 (m.ea .rbp d), none) := rfl

/-- A load of a local variable and the same load through its address give the
same value. -/
theorem run_load_via_addr (inst : Mn) (n : Nat) (hl : LoadsBytes inst n) (d : Int)
    (m : Machine) :
    ∃ m1 m2, run [i2 inst (.mem d .rbp) (.reg .rax)] m = some (m1, none) ∧
      run [i2 .lea (.mem d .rbp) (.reg .rax), i2 inst (.mem 0 .rax) (.reg .rax)] m
        = some (m2, none) ∧
      m1.get .rax 8 = m2.get .rax 8 ∧ m1.mem = m.mem ∧ m2.mem = m.mem ∧
      m1.get .rax 8 = sext n (load m.mem n (m.ea .rbp d)) := by
  obtain ⟨m1, h1, h2, h3⟩ := hl m d .rbp .rbp rfl
  obtain ⟨m2, k1, k2, k3⟩ := hl (m.set .rax 8 (m.ea .rbp d)) 0 .rax .rax rfl
  refine ⟨m1, m2, ?_, ?_, ?_, h2, ?_, h3⟩
  · simp only [run_cons, run_nil, h1]
  · simp only [run_cons, run_nil, step_lea_rbp_rax, k1]
  · rw [h3, k3, Machine.mem_set, Machine.ea_zero, Machine.get_set_same,
      Nat.mod_eq_of_lt (Machine.ea_lt _ _ _)]
  · rw [k2, Machine.mem_set]

theorem plain_int_facts (t : Ctype) (hk : is_plain_int t = true) :
    t.type ≠ .ARRAY ∧ t.type ≠ .FLOAT ∧ t.type ≠ .DOUBLE ∧ t.type ≠ .LDOUBLE ∧
      t.type ≠ .BOOL ∧ is_flotype t = false := by
  unfold is_plain_int at hk
  unfold is_flotype
  cases h : t.type <;> simp [h] at hk ⊢

theorem emit_lload_plain (t : Ctype) (inst : Mn) (b : Reg) (off : Int) (g : Gen)
    (hk : is_plain_int t = true) (hi : get_load_inst t = .ok inst) :
    emit_lload t b off g = .ok { g with out := g.out ++ [i2 inst (.mem off b) (.reg .rax)] } := by
  obtain ⟨h1, h2, h3, h4, _, _⟩ := plain_int_facts t hk
  simp only [emit_lload, h1, h2, h3, h4, if_false, or_self, hi, bind, Except.bind, pure,
    Except.pure, emit]

theorem emit_load_convert_plain (t : Ctype) (g : Gen) (hk : is_plain_int t = true) :
    emit_load_convert t t g = g := by
  obtain ⟨_, _, _, _, h5, h6⟩ := plain_int_facts t hk
  simp [emit_load_convert, h6, emit_toint, maybe_convert_bool, h5]

theorem store_deref_text (ct t : Ctype) (p : Node) (g g' : Gen) (creg : Reg)
    (hp : deref_ptr p.ctype = .ok t) (hc : get_int_reg t 'c' = .ok creg) :
    emit_store (.unary .AST_DEREF ct p) g = .ok g' ↔
      ∃ gp, emit_expr p { g with out := g.out ++ [i1 .push (.reg .rax)],
                                 stackpos := g.stackpos + 8 } = .ok gp ∧
        0 ≤ gp.stackpos - 8 ∧
        g' = { gp with
          out := gp.out ++ [i2 .mov (.ind .rsp) (.reg .rcx), i2 .mov (.reg creg) (.ind .rax),
            i1 .pop (.reg .rax)],
          stackpos := gp.stackpos - 8 } := by
  simp only [emit_store, emit_assign_deref, emit_assign_deref_int, bind_eq_ok, hp, hc, push_eq,
    pop_eq_ok]
  constructor
  · rintro ⟨gp, h1, t', ht', r, hr, hsp, hg'⟩
    injection ht' with ht'
    subst ht'
    rw [hc] at hr
    injection hr with hr
    subst hr
    refine ⟨gp, h1, by simpa [emit] using hsp, ?_⟩
    rw [hg']
    simp [emit]
  · rintro ⟨gp, h1, hsp, hg'⟩
    refine ⟨gp, h1, t, rfl, creg, hc, by simpa [emit] using hsp, ?_⟩
    rw [hg']
    simp [emit]

theorem load_deref_text (t : Ctype) (p : Node) (g g' : Gen) (inst : Mn)
    (hk : is_plain_int t = true) (hp : deref_ptr p.ctype = .ok t)
    (hi : get_load_inst t = .ok inst) :
    emit_expr (.unary .AST_DEREF t p) g = .ok g' ↔
      ∃ gp, emit_expr p g = .ok gp ∧
        g' = { gp with out := gp.out ++ [i2 inst (.mem 0 .rax) (.reg .rax)] } := by
  simp only [emit_expr, emit_deref, bind_eq_ok, hp]
  constructor
  · rintro ⟨gp, h1, t', ht', g2, hg2, hg'⟩
    injection ht' with ht'
    subst ht'
    rw [emit_lload_plain t inst _ _ _ hk hi] at hg2
    injection hg2 with hg2
    rw [emit_load_convert_plain t _ hk] at hg'
    simp only [pure, Except.pure] at hg'
    injection hg' with hg'
    exact ⟨gp, h1, by rw [← hg', ← hg2]⟩
  · rintro ⟨gp, h1, hg'⟩
    refine ⟨gp, h1, t, rfl, _, emit_lload_plain t inst _ _ _ hk hi, ?_⟩
    rw [emit_load_convert_plain t _ hk, hg']
    rfl

theorem emit_expr_lvar (t : Ctype) (name : String) (loff : Int) (init : Option (List Node))
    (id : Nat) (g : Gen) :
    emit_expr (.lvar t name loff init id) g =
      emit_lvar t loff id
        (match init with
          | some l => some (emit_decl_init l loff)
          | none => none) g := by
  cases init <;> rfl

theorem emit_addr_lvar (t : Ctype) (name : String) (loff : Int) (init : Option (List Node))
    (id : Nat) (g : Gen) :
    emit_addr (.lvar t name loff init id) g =
      (ensure_lvar_init id
        (match init with
          | some l => some (emit_decl_init l loff)
          | none => none) g >>= fun g =>
        pure (emit (i2 .lea (.mem loff .rbp) (.reg .rax)) g)) := by
  cases init <;> rfl

theorem emit_expr_deref (ct : Ctype) (p : Node) (g : Gen) :
    emit_expr (.unary .AST_DEREF ct p) g = emit_deref ct p (emit_expr p) g := by
  simp only [emit_expr]

theorem emit_expr_addr (ct : Ctype) (p : Node) (g : Gen) :
    emit_expr (.unary .AST_ADDR ct p) g = emit_addr p g := by
  simp only [emit_expr]

theorem load_lvar_text (t : Ctype) (name : String) (loff : Int) (init : Option (List Node))
    (id : Nat) (g ga : Gen) (inst : Mn) (hk : is_plain_int t = true)
    (hi : get_load_inst t = .ok inst)
    (h : emit_expr (.lvar t name loff init id) g = .ok ga) :
    ∃ g0 : Gen, ga = { g0 with out := g0.out ++ [i2 inst (.mem loff .rbp) (.reg .rax)] } ∧
      emit_expr (.unary .AST_DEREF t (.unary .AST_ADDR (Ctype.pointerTo t)
          (.lvar t name loff init id))) g =
        .ok { g0 with out := g0.out ++
          [i2 .lea (.mem loff .rbp) (.reg .rax), i2 inst (.mem 0 .rax) (.reg .rax)] } := by
  rw [emit_expr_lvar] at h
  unfold emit_lvar at h
  rw [bind_eq_ok] at h
  obtain ⟨g0, h0, hga⟩ := h
  rw [emit_lload_plain t inst _ _ _ hk hi] at hga
  injection hga with hga
  refine ⟨g0, hga.symm, ?_⟩
  have hd : deref_ptr (Node.unary .AST_ADDR (Ctype.pointerTo t)
      (.lvar t name loff init id)).ctype = .ok t := rfl
  rw [emit_expr_deref]
  unfold emit_deref
  rw [emit_expr_addr, emit_addr_lvar, h0, hd]
  simp only [bind, Except.bind, pure, Except.pure, emit_lload_plain t inst _ _ _ hk hi,
    emit_load_convert_plain t _ hk]
  simp [emit]

/-! ### Auxiliary lemmas: function calls -/

theorem emit_func_call_inv (isptr : Bool) (ctype : Ctype) (fname : String)
    (argtypes : Except Fatal (List Ctype)) (efptr : Gen → Emit)
    (eargs : List Ctype → Gen → Emit) (g g' : Gen)
    (h : emit_func_call isptr ctype fname argtypes efptr eargs g = .ok g') :
    ∃ (ts : List Ctype) (ireg xreg : Int) (g1 g2 g3 : Gen) (ir xr : Int) (g4 g5 : Gen)
      (ir2 xr2 : Int) (g6 : Gen),
      argtypes = .ok ts ∧ func_call_save ts 0 0 g = .ok (ireg, xreg, g1) ∧
      (if isptr = true then ∃ gf, efptr g1 = .ok gf ∧ g2 = push .rax gf else g2 = g1) ∧
      eargs ts g2 = .ok g3 ∧
      func_call_pop ts.reverse ireg xreg g3 = .ok (ir, xr, g4) ∧
      (if isptr = true then pop .rbx g4 = .ok g5 else g5 = g4) ∧
      func_call_restore ts.reverse ireg xreg
        { g5 with out := g5.out ++ call_text isptr fname xreg g5.stackpos }
          = .ok (ir2, xr2, g6) ∧
      g'.out = g6.out ++
        (if ctype.type = .FLOAT then [i2 .cvtps2pd (.reg (.xmm 0)) (.reg (.xmm 0))] else []) := by
  have hcall : ∀ (b : Bool) (x : Int) (g5 : Gen),
      (if (emit (if b = true then i1 .call (.star .rbx) else i1 .call (.target (.name fname)))
            (if (emit (i2 .mov (.imm x) (.reg .eax)) g5).stackpos.tmod 16 ≠ 0 then
              emit (i2 .sub (.imm 8) (.reg .rsp)) (emit (i2 .mov (.imm x) (.reg .eax)) g5)
            else emit (i2 .mov (.imm x) (.reg .eax)) g5)).stackpos.tmod 16 ≠ 0 then
          emit (i2 .add (.imm 8) (.reg .rsp))
            (emit (if b = true then i1 .call (.star .rbx) else i1 .call (.target (.name fname)))
              (if (emit (i2 .mov (.imm x) (.reg .eax)) g5).stackpos.tmod 16 ≠ 0 then
                emit (i2 .sub (.imm 8) (.reg .rsp)) (emit (i2 .mov (.imm x) (.reg .eax)) g5)
              else emit (i2 .mov (.imm x) (.reg .eax)) g5))
        else
          emit (if b = true then i1 .call (.star .rbx) else i1 .call (.target (.name fname)))
            (if (emit (i2 .mov (.imm x) (.reg .eax)) g5).stackpos.tmod 16 ≠ 0 then
              emit (i2 .sub (.imm 8) (.reg .rsp)) (emit (i2 .mov (.imm x) (.reg .eax)) g5)
            else emit (i2 .mov (.imm x) (.reg .eax)) g5)) =
        { g5 with out := g5.out ++ call_text b fname x g5.stackpos } := by
    intro b x g5
    cases b <;> by_cases hsp : g5.stackpos.tmod 16 = 0 <;> simp [call_text, emit, hsp]
  have hfin : ∀ (g6 : Gen),
      (if ctype.type = .FLOAT then
          (Except.ok (emit (i2 .cvtps2pd (.reg (.xmm 0)) (.reg (.xmm 0))) g6) : Emit)
        else Except.ok g6) = .ok g' →
      g'.out = g6.out ++
        (if ctype.type = .FLOAT then [i2 .cvtps2pd (.reg (.xmm 0)) (.reg (.xmm 0))] else []) := by
    intro g6 e
    by_cases hf : ctype.type = .FLOAT
    · simp only [hf, if_true] at e ⊢
      injection e with e
      rw [← e]
      rfl
    · simp only [hf, if_false] at e ⊢
      injection e with e
      rw [← e]
      simp
  cases isptr with
  | false =>
    simp only [emit_func_call, Bool.false_eq_true, if_false, bind_eq_ok, pure, Except.pure]
      at h
    obtain ⟨ts, hts, ⟨ireg, xreg, g1⟩, hsave, g2, hg2, g3, hargs, ⟨ir, xr, g4⟩, hpop, g5, hg5,
      ⟨ir2, xr2, g6⟩, hrest, hf⟩ := h
    injection hg2 with hg2
    injection hg5 with hg5
    have hc := hcall false xreg g5
    simp only [Bool.false_eq_true, if_false] at hc
    simp only [hc] at hrest
    exact ⟨ts, ireg, xreg, g1, g2, g3, ir, xr, g4, g5, ir2, xr2, g6, hts, hsave,
      by simpa using hg2.symm, hargs, hpop, by simpa using hg5.symm, hrest, hfin g6 hf⟩
  | true =>
    simp only [emit_func_call, if_true, bind_eq_ok, pure, Except.pure] at h
    obtain ⟨ts, hts, ⟨ireg, xreg, g1⟩, hsave, gf, hgf, g2, hg2, g3, hargs, ⟨ir, xr, g4⟩, hpop,
      g5, hg5, ⟨ir2, xr2, g6⟩, hrest, hf⟩ := h
    injection hg2 with hg2
    have hc := hcall true xreg g5
    simp only [if_true] at hc
    simp only [hc] at hrest
    exact ⟨ts, ireg, xreg, g1, g2, g3, ir, xr, g4, g5, ir2, xr2, g6, hts, hsave,
      by simpa using ⟨gf, hgf, hg2.symm⟩, hargs, hpop, by simpa using hg5, hrest, hfin g6 hf⟩

theorem pop_xmm_eq_ok (k : Int) (g g' : Gen) :
    pop_xmm k g = .ok g' ↔ 0 ≤ g.stackpos - 8 ∧
      g' = { g with out := g.out ++ [i2 .movsd (.ind .rsp) (.reg (.xmm k)),
                                      i2 .add (.imm 8) (.reg .rsp)],
                    stackpos := g.stackpos - 8 } := by
  unfold pop_xmm
  simp only [emit, ge_iff_le, List.append_assoc, List.singleton_append]
  split
  · rename_i h
    constructor
    · intro e
      injection e with e
      exact ⟨h, e.symm⟩
    · rintro ⟨_, e⟩
      rw [e]
  · rename_i h
    constructor
    · intro e
      cases e
    · rintro ⟨h', _⟩
      exact absurd h' h

theorem regAt_cases (i : Int) (r : Reg) (h : regAt i = .ok r) :
    (i = 0 ∧ r = .rdi) ∨ (i = 1 ∧ r = .rsi) ∨ (i = 2 ∧ r = .rdx) ∨ (i = 3 ∧ r = .rcx) ∨
      (i = 4 ∧ r = .r8) ∨ (i = 5 ∧ r = .r9) := by
  unfold regAt at h
  split at h
  · cases h
  · rename_i hi
    have h0 : 0 ≤ i := by omega
    obtain ⟨n, rfl⟩ := Int.eq_ofNat_of_zero_le h0
    simp only [Int.toNat_ofNat] at h
    match n, h with
    | 0, h => left; exact ⟨rfl, by cases h; rfl⟩
    | 1, h => right; left; exact ⟨rfl, by cases h; rfl⟩
    | 2, h => right; right; left; exact ⟨rfl, by cases h; rfl⟩
    | 3, h => right; right; right; left; exact ⟨rfl, by cases h; rfl⟩
    | 4, h => right; right; right; right; left; exact ⟨rfl, by cases h; rfl⟩
    | 5, h => right; right; right; right; right; exact ⟨rfl, by cases h; rfl⟩
    | k + 6, h => simp [REGS] at h

theorem regAt_view (i : Int) (r : Reg) (h : regAt i = .ok r) :
    ∃ p, r.view = some (p, 8) ∧ p ≠ .rsp := by
  rcases regAt_cases i r h with ⟨_, rfl⟩ | ⟨_, rfl⟩ | ⟨_, rfl⟩ | ⟨_, rfl⟩ | ⟨_, rfl⟩ | ⟨_, rfl⟩ <;>
    exact ⟨_, rfl, by decide⟩

theorem regAt_inj (i j : Int) (r r' : Reg) (p : R64) (hi : regAt i = .ok r)
    (hj : regAt j = .ok r') (hv : r.view = some (p, 8)) (hv' : r'.view = some (p, 8)) :
    i = j := by
  rcases regAt_cases i r hi with ⟨rfl, rfl⟩ | ⟨rfl, rfl⟩ | ⟨rfl, rfl⟩ | ⟨rfl, rfl⟩ | ⟨rfl, rfl⟩ |
      ⟨rfl, rfl⟩ <;>
    rcases regAt_cases j r' hj with ⟨rfl, rfl⟩ | ⟨rfl, rfl⟩ | ⟨rfl, rfl⟩ | ⟨rfl, rfl⟩ |
      ⟨rfl, rfl⟩ | ⟨rfl, rfl⟩ <;>
    first | rfl | (cases hv; cases hv')

theorem step_pop_arg (i : Int) (r : Reg) (p : R64) (m : Machine) (hi : regAt i = .ok r)
    (hv : r.view = some (p, 8)) :
    step (i1 .pop (.reg r)) m =
      some ((m.set .rsp 8 (m.ea .rsp 8)).set p 8 (load m.mem 8 (m.get .rsp 8)), none) := by
  rcases regAt_cases i r hi with ⟨_, rfl⟩ | ⟨_, rfl⟩ | ⟨_, rfl⟩ | ⟨_, rfl⟩ | ⟨_, rfl⟩ | ⟨_, rfl⟩ <;>
    (cases hv; rfl)

theorem step_movsd_rsp_xmm (k : Int) (m : Machine) :
    step (i2 .movsd (.ind .rsp) (.reg (.xmm k))) m =
      some (m.setXmm k (load m.mem 8 (m.ea .rsp 0)), none) := rfl

theorem step_add8_rsp (m : Machine) :
    step (i2 .add (.imm 8) (.reg .rsp)) m =
      some ((m.set .rsp 8 ((m.get .rsp 8 + ((8 : Int) % (wordMod 8 : Int)).toNat) % wordMod 8)).flags
        (some (decide ((m.get .rsp 8 + ((8 : Int) % (wordMod 8 : Int)).toNat) % wordMod 8 = 0)))
        none, none) := rfl

theorem Machine.ea_rsp_8 (m : Machine) : m.ea .rsp 8 = (m.get .rsp 8 + 8) % wordMod 8 := by
  unfold Machine.ea Machine.get
  rw [wordMod8]
  omega

theorem imm8_toNat : ((8 : Int) % (wordMod 8 : Int)).toNat = 8 := by
  rw [wordMod8]
  rfl

theorem slot_succ (x k : Nat) :
    ((x + 8) % wordMod 8 + 8 * k) % wordMod 8 = (x + 8 * (k + 1)) % wordMod 8 := by
  rw [wordMod8]
  omega

theorem slot_zero (m : Machine) : (m.get .rsp 8 + 8 * 0) % wordMod 8 = m.get .rsp 8 := by
  rw [Nat.mul_zero, Nat.add_zero]
  exact Nat.mod_eq_of_lt (m.get_lt _ _)

/-- The pops that load the argument registers: the text `P` they emit leaves
memory unchanged, advances `%rsp` over the popped quadwords, keeps the argument
registers with larger index, and moves the quadword at each stack slot into the
register of the matching argument. -/
theorem func_call_pop_sem (rs : List Ctype) :
    ∀ (ir xr : Int) (g : Gen) (ir' xr' : Int) (g4 : Gen),
      func_call_pop rs ir xr g = .ok (ir', xr', g4) →
      ∃ P : List Instr, g4.out = g.out ++ P ∧ ∀ m : Machine, ∃ m', run P m = some (m', none) ∧
        m'.mem = m.mem ∧
        m'.get .rsp 8 = (m.get .rsp 8 + 8 * rs.length) % wordMod 8 ∧
        (∀ b : Int, xr ≤ b → m'.xmm b = m.xmm b) ∧
        (∀ (i : Int) (r : Reg) (p : R64), ir ≤ i → regAt i = .ok r → r.view = some (p, 8) →
          m'.get p 8 = m.get p 8) ∧
        (∀ (a : List Ctype) (t : Ctype) (b : List Ctype), rs = a ++ t :: b →
          (is_flotype t = true →
            m'.xmm (xr - 1 - (a.countP is_flotype : Nat)) =
              load m.mem 8 ((m.get .rsp 8 + 8 * a.length) % wordMod 8)) ∧
          (is_flotype t = false →
            ∃ r p, regAt (ir - 1 - (a.countP (fun t => !is_flotype t) : Nat)) = .ok r ∧
              r.view = some (p, 8) ∧
              m'.get p 8 = load m.mem 8 ((m.get .rsp 8 + 8 * a.length) % wordMod 8))) := by
  induction rs with
  | nil =>
    intro ir xr g ir' xr' g4 h
    simp only [func_call_pop] at h
    injection h with h
    injection h with _ h
    injection h with _ h
    subst h
    refine ⟨[], by simp, fun m => ⟨m, rfl, rfl, ?_, fun _ _ => rfl, fun _ _ _ _ _ _ => rfl, ?_⟩⟩
    · simp [Nat.mod_eq_of_lt (m.get_lt _ _)]
    · intro a t b e
      exact absurd e (by simp)
  | cons t rest ih =>
    intro ir xr g ir' xr' g4 h
    by_cases hf : is_flotype t = true
    · simp only [func_call_pop, hf, if_true, bind_eq_ok, pop_xmm_eq_ok] at h
      obtain ⟨ga, ⟨_, hga⟩, h⟩ := h
      obtain ⟨P, hP, hsem⟩ := ih ir (xr - 1) ga ir' xr' g4 h
      refine ⟨[i2 .movsd (.ind .rsp) (.reg (.xmm (xr - 1))), i2 .add (.imm 8) (.reg .rsp)] ++ P,
        ?_, ?_⟩
      · rw [hP, hga]
        simp
      · intro m
        obtain ⟨m', hrun, hmem, hrsp, hx, hr, hsplit⟩ := hsem
          (((m.setXmm (xr - 1) (load m.mem 8 (m.ea .rsp 0))).set .rsp 8
            ((m.get .rsp 8 + ((8 : Int) % (wordMod 8 : Int)).toNat) % wordMod 8)).flags
            (some (decide ((m.get .rsp 8 + ((8 : Int) % (wordMod 8 : Int)).toNat)
              % wordMod 8 = 0))) none)
        simp only [Machine.mem_flags, Machine.mem_set, Machine.mem_setXmm, Machine.get_flags,
          Machine.get_set_same, Machine.xmm_flags, Machine.xmm_set, imm8_toNat, Nat.mod_mod,
          Machine.ea_zero] at hmem hrsp hx hr hsplit
        refine ⟨m', ?_, hmem, ?_, ?_, ?_, ?_⟩
        · rw [run_append]
          simp only [run_cons, run_nil, step_movsd_rsp_xmm, step_add8_rsp, Machine.get_setXmm]
          exact hrun
        · rw [hrsp, slot_succ]
          rfl
        · intro b hb
          rw [hx b (by omega), Machine.xmm_setXmm_ne _ _ _ _ (by omega)]
        · intro i r p hi hri hv
          obtain ⟨p', hv', hne⟩ := regAt_view i r hri
          rw [hv] at hv'
          injection hv' with hv'
          injection hv' with hv' _
          subst hv'
          rw [hr i r p hi hri hv, Machine.get_set_ne _ _ _ _ _ _ hne, Machine.get_setXmm]
        · intro a t' b e
          cases a with
          | nil =>
            simp only [List.nil_append, List.cons.injEq] at e
            obtain ⟨rfl, rfl⟩ := e
            refine ⟨fun _ => ?_, fun h0 => absurd hf (by simp [h0])⟩
            simp only [List.countP_nil, Nat.cast_zero, Int.sub_zero, List.length_nil]
            rw [hx (xr - 1) (Int.le_refl _), Machine.xmm_setXmm_same, slot_zero]
          | cons a0 a' =>
            simp only [List.cons_append, List.cons.injEq] at e
            obtain ⟨rfl, rfl⟩ := e
            obtain ⟨h1, h2⟩ := hsplit a' t' b rfl
            have hc : (List.countP is_flotype (t :: a') : Nat) = List.countP is_flotype a' + 1 := by
              simp [List.countP_cons, hf]
            have hc2 : (List.countP (fun t => !is_flotype t) (t :: a') : Nat)
                = List.countP (fun t => !is_flotype t) a' := by
              simp [List.countP_cons, hf]
            refine ⟨fun hft => ?_, fun hft => ?_⟩
            · have := h1 hft
              rw [slot_succ] at this
              rw [hc, List.length_cons, ← this]
              congr 1
              push_cast
              omega
            · obtain ⟨r, p, e1, e2, e3⟩ := h2 hft
              rw [slot_succ] at e3
              exact ⟨r, p, by rw [hc2]; exact e1, e2, by rw [List.length_cons]; exact e3⟩
    · have hf' : is_flotype t = false := by simpa using hf
      simp only [func_call_pop, hf', Bool.false_eq_true, if_false, bind_eq_ok, pop_eq_ok] at h
      obtain ⟨r0, hr0, ga, ⟨_, hga⟩, h⟩ := h
      obtain ⟨p0, hv0, hne0⟩ := regAt_view _ _ hr0
      obtain ⟨P, hP, hsem⟩ := ih (ir - 1) xr ga ir' xr' g4 h
      refine ⟨[i1 .pop (.reg r0)] ++ P, ?_, ?_⟩
      · rw [hP, hga]
        simp
      · intro m
        obtain ⟨m', hrun, hmem, hrsp, hx, hr, hsplit⟩ := hsem
          ((m.set .rsp 8 (m.ea .rsp 8)).set p0 8 (load m.mem 8 (m.get .rsp 8)))
        simp only [Machine.mem_set, Machine.xmm_set,
          Machine.get_set_ne _ .rsp p0 _ _ _ (Ne.symm hne0), Machine.get_set_same,
          Machine.ea_rsp_8, Nat.mod_mod] at hmem hrsp hx hr hsplit
        refine ⟨m', ?_, hmem, ?_, hx, ?_, ?_⟩
        · rw [run_append]
          simp only [run_cons, run_nil, step_pop_arg _ _ _ _ hr0 hv0]
          exact hrun
        · rw [hrsp, slot_succ]
          rfl
        · intro i r p hi hri hv
          have hne : p ≠ p0 := by
            intro e
            subst e
            have := regAt_inj _ _ _ _ _ hri hr0 hv hv0
            omega
          obtain ⟨p', hv', hnersp⟩ := regAt_view i r hri
          rw [hv] at hv'
          injection hv' with hv'
          injection hv' with hv' _
          subst hv'
          rw [hr i r p (by omega) hri hv, Machine.get_set_ne _ _ _ _ _ _ hne,
            Machine.get_set_ne _ _ _ _ _ _ hnersp]
        · intro a t' b e
          cases a with
          | nil =>
            simp only [List.nil_append, List.cons.injEq] at e
            obtain ⟨rfl, rfl⟩ := e
            refine ⟨fun h0 => absurd h0 hf, fun _ => ⟨r0, p0, ?_, hv0, ?_⟩⟩
            · simpa using hr0
            · rw [hr (ir - 1) r0 p0 (Int.le_refl _) hr0 hv0, Machine.get_set_same,
                Nat.mod_eq_of_lt (load_lt _ _ _), List.length_nil, slot_zero]
          | cons a0 a' =>
            simp only [List.cons_append, List.cons.injEq] at e
            obtain ⟨rfl, rfl⟩ := e
            obtain ⟨h1, h2⟩ := hsplit a' t' b rfl
            have hc : (List.countP is_flotype (t :: a') : Nat) = List.countP is_flotype a' := by
              simp [List.countP_cons, hf']
            have hc2 : (List.countP (fun t => !is_flotype t) (t :: a') : Nat)
                = List.countP (fun t => !is_flotype t) a' + 1 := by
              simp [List.countP_cons, hf']
            refine ⟨fun hft => ?_, fun hft => ?_⟩
            · have := h1 hft
              rw [slot_succ] at this
              rw [hc, List.length_cons]
              exact this
            · obtain ⟨r, p, e1, e2, e3⟩ := h2 hft
              rw [slot_succ] at e3
              refine ⟨r, p, ?_, e2, by rw [List.length_cons]; exact e3⟩
              rw [hc2, ← e1]
              congr 1
              push_cast
              omega

theorem func_call_save_counts (ts : List Ctype) :
    ∀ (ir xr : Int) (g : Gen) (ireg xreg : Int) (g1 : Gen),
      func_call_save ts ir xr g = .ok (ireg, xreg, g1) →
      ireg = ir + (ts.countP (fun t => !is_flotype t) : Nat) ∧
        xreg = xr + (ts.countP is_flotype : Nat) := by
  induction ts with
  | nil =>
    intro ir xr g ireg xreg g1 h
    simp only [func_call_save] at h
    injection h with h
    injection h with h1 h
    injection h with h2 _
    simp [← h1, ← h2]
  | cons t rest ih =>
    intro ir xr g ireg xreg g1 h
    by_cases hf : is_flotype t = true
    · simp only [func_call_save, hf, if_true] at h
      obtain ⟨h1, h2⟩ := ih _ _ _ _ _ _ h
      simp only [List.countP_cons, hf, Bool.not_true, Bool.false_eq_true, if_false, if_true,
        Nat.add_zero]
      exact ⟨h1, by rw [h2]; push_cast; omega⟩
    · have hf' : is_flotype t = false := by simpa using hf
      simp only [func_call_save, hf', Bool.false_eq_true, if_false, bind_eq_ok] at h
      obtain ⟨r, _, h⟩ := h
      obtain ⟨h1, h2⟩ := ih _ _ _ _ _ _ h
      simp only [List.countP_cons, hf', Bool.not_false, Bool.false_eq_true, if_false, if_true,
        Nat.add_zero]
      exact ⟨by rw [h1]; push_cast; omega, h2⟩

theorem emit_expr_call (node : Node) (args : List Node) (g : Gen)
    (hargs : call_args node = some args) :
    ∃ (ctype : Ctype) (fname : String) (efptr : Gen → Emit),
      emit_expr node g =
        emit_func_call (call_isptr node) ctype fname (call_argtypes node) efptr
          (emit_func_call_args args) g ∧
      (if call_isptr node = true then i1 .call (.star .rbx)
        else i1 .call (.target (.name fname))) = i1 .call (call_target node) := by
  cases node with
  | funcall ctype fname args' ftype =>
    simp only [call_args, Option.some.injEq] at hargs
    subst hargs
    exact ⟨ctype, fname, fun g => .ok g, by simp only [emit_expr, call_isptr, call_argtypes],
      rfl⟩
  | funcptr_call ctype fptr args' =>
    simp only [call_args, Option.some.injEq] at hargs
    subst hargs
    exact ⟨ctype, "", emit_expr fptr, by simp only [emit_expr, call_isptr, call_argtypes], rfl⟩
  | _ => simp [call_args] at hargs

theorem func_call_restore_out (rs : List Ctype) :
    ∀ (a b : Int) (ga : Gen) (a' b' : Int) (gb : Gen),
      func_call_restore rs a b ga = .ok (a', b', gb) → ∃ r, gb.out = ga.out ++ r := by
  induction rs with
  | nil =>
    intro a b ga a' b' gb hh
    simp only [func_call_restore] at hh
    injection hh with hh
    injection hh with _ hh
    injection hh with _ hh
    rw [hh]
    exact ⟨[], (List.append_nil _).symm⟩
  | cons t rest ih =>
    intro a b ga a' b' gb hh
    by_cases hf : is_flotype t = true
    · by_cases hx : b ≠ 1
      · simp only [func_call_restore, hf, if_true, hx, ne_eq, not_false_eq_true,
          bind_eq_ok, pop_xmm_eq_ok] at hh
        obtain ⟨gc, ⟨_, hgc⟩, hh⟩ := hh
        obtain ⟨r, hr⟩ := ih _ _ _ _ _ _ hh
        rw [hr, hgc]
        exact ⟨_, List.append_assoc _ _ _⟩
      · simp only [func_call_restore, hf, if_true, hx, if_false] at hh
        exact ih _ _ _ _ _ _ hh
    · have hf' : is_flotype t = false := by simpa using hf
      simp only [func_call_restore, hf', Bool.false_eq_true, if_false, bind_eq_ok,
        pop_eq_ok] at hh
      obtain ⟨r0, _, gc, ⟨_, hgc⟩, hh⟩ := hh
      obtain ⟨r, hr⟩ := ih _ _ _ _ _ _ hh
      rw [hr, hgc]
      exact ⟨_, List.append_assoc _ _ _⟩

/-! ### Auxiliary lemmas: frame offsets -/

theorem align_pos (n : Int) (h : 0 < n) : 0 < align n 8 := by
  unfold align
  have e : n.tmod 8 = n % 8 := Int.tmod_eq_emod (le_of_lt h) (by decide)
  simp only [e]
  split <;> omega

theorem set_loff_loff (v v' : Node) (off : Int) (h : set_loff v off = .ok v') :
    loff_of v' = off := by
  cases v <;> simp only [set_loff] at h <;> first | (injection h with h; subst h; rfl) | cases h

theorem ok_bind {α β : Type} (a : α) (f : α → Except Fatal β) :
    ((Except.ok a : Except Fatal α) >>= f) = f a := rfl

theorem prologue_params_cons_inv (v : Node) (vs : List Node) (off ireg xreg : Int) (g : Gen)
    (t : Ctype) (ps : List Node) (off' : Int) (g' : Gen) (ht : v.ctype = some t)
    (h : prologue_params (v :: vs) off ireg xreg g = .ok (ps, off', g')) :
    ∃ (g1 : Gen) (ireg1 xreg1 : Int) (v' : Node) (ps' : List Node),
      set_loff v (off - align t.size 8) = .ok v' ∧
      prologue_params vs (off - align t.size 8) ireg1 xreg1 g1 = .ok (ps', off', g') ∧
      ps = v' :: ps' := by
  rw [prologue_params] at h
  simp only [ht, the_ctype, ok_bind] at h
  split at h
  · simp only [pure, Except.pure, ok_bind, bind_eq_ok] at h
    obtain ⟨v', hv', ⟨ps', o, gg⟩, hrec, hfin⟩ := h
    injection hfin with hfin
    injection hfin with e1 e2
    injection e2 with e2 e3
    subst e1 e2 e3
    exact ⟨_, _, _, v', ps', hv', hrec, rfl⟩
  · split at h
    · simp only [pure, Except.pure, ok_bind, bind_eq_ok] at h
      obtain ⟨v', hv', ⟨ps', o, gg⟩, hrec, hfin⟩ := h
      injection hfin with hfin
      injection hfin with e1 e2
      injection e2 with e2 e3
      subst e1 e2 e3
      exact ⟨_, _, _, v', ps', hv', hrec, rfl⟩
    · simp only [pure, Except.pure, ok_bind, bind_eq_ok] at h
      obtain ⟨r, _, v', hv', ⟨ps', o, gg⟩, hrec, hfin⟩ := h
      injection hfin with hfin
      injection hfin with e1 e2
      injection e2 with e2 e3
      subst e1 e2 e3
      exact ⟨_, _, _, v', ps', hv', hrec, rfl⟩

theorem prologue_params_offsets (vs : List Node) :
    ∀ (off ireg xreg : Int) (g : Gen) (ps : List Node) (off' : Int) (g' : Gen),
      prologue_params vs off ireg xreg g = .ok (ps, off', g') →
      (∀ v ∈ vs, ∃ t, v.ctype = some t ∧ 0 < t.size) →
      off' ≤ off ∧ (∀ x ∈ ps.map loff_of, x < off ∧ off' ≤ x) ∧
        (ps.map loff_of).Pairwise (· > ·) ∧
        List.Forall₂ (fun v v' => set_loff v (loff_of v') = .ok v') vs ps := by
  induction vs with
  | nil =>
    intro off ireg xreg g ps off' g' h _
    simp only [prologue_params] at h
    injection h with h
    injection h with h1 h2
    injection h2 with h2 _
    subst h1 h2
    simp
  | cons v vs ih =>
    intro off ireg xreg g ps off' g' h hpos
    obtain ⟨t, ht, hsz⟩ := hpos v (List.mem_cons_self _ _)
    obtain ⟨g1, ireg1, xreg1, v', ps', hv', hrec, e⟩ :=
      prologue_params_cons_inv v vs off ireg xreg g t ps off' g' ht h
    subst e
    obtain ⟨hle, hmem, hpw, hf2⟩ := ih _ _ _ _ _ _ _ hrec
      (fun u hu => hpos u (List.mem_cons_of_mem _ hu))
    have ha := align_pos t.size hsz
    have hl := set_loff_loff _ _ _ hv'
    refine ⟨by omega, ?_, ?_, ?_⟩
    · intro x hx
      simp only [List.map_cons, List.mem_cons] at hx
      rcases hx with hx | hx
      · rw [hx, hl]
        omega
      · have := hmem x hx
        omega
    · simp only [List.map_cons, List.pairwise_cons]
      refine ⟨fun x hx => ?_, hpw⟩
      have := hmem x hx
      rw [hl]
      omega
    · exact List.Forall₂.cons (by rw [hl]; exact hv') hf2

theorem prologue_locals_offsets (vs : List Node) :
    ∀ (off la : Int) (ls : List Node) (off' la' : Int),
      prologue_locals vs off la = .ok (ls, off', la') →
      (∀ v ∈ vs, ∃ t, v.ctype = some t ∧ 0 < t.size) →
      off' ≤ off ∧ (∀ x ∈ ls.map loff_of, x < off ∧ off' ≤ x) ∧
        (ls.map loff_of).Pairwise (· > ·) ∧
        List.Forall₂ (fun v v' => set_loff v (loff_of v') = .ok v') vs ls := by
  induction vs with
  | nil =>
    intro off la ls off' la' h _
    simp only [prologue_locals] at h
    injection h with h
    injection h with h1 h2
    injection h2 with h2 _
    subst h1 h2
    simp
  | cons v vs ih =>
    intro off la ls off' la' h hpos
    obtain ⟨t, ht, hsz⟩ := hpos v (List.mem_cons_self _ _)
    rw [prologue_locals] at h
    simp only [ht, the_ctype, ok_bind, pure, Except.pure, bind_eq_ok] at h
    obtain ⟨v', hv', ⟨ls', off1, la1⟩, hrec, hfin⟩ := h
    dsimp only at hfin
    injection hfin with hfin
    injection hfin with e1 e2
    injection e2 with e2 e3
    subst e1 e2 e3
    obtain ⟨hle, hmem, hpw, hf2⟩ := ih _ _ _ _ _ hrec
      (fun u hu => hpos u (List.mem_cons_of_mem _ hu))
    have ha := align_pos t.size hsz
    have hl := set_loff_loff _ _ _ hv'
    refine ⟨by omega, ?_, ?_, ?_⟩
    · intro x hx
      simp only [List.map_cons, List.mem_cons] at hx
      rcases hx with hx | hx
      · rw [hx, hl]
        omega
      · have := hmem x hx
        omega
    · simp only [List.map_cons, List.pairwise_cons]
      refine ⟨fun x hx => ?_, hpw⟩
      have := hmem x hx
      rw [hl]
      omega
    · exact List.Forall₂.cons (by rw [hl]; exact hv') hf2

theorem emit_func_prologue_inv (func : Func) (g g' : Gen) (ps ls : List Node)
    (h : emit_func_prologue func g = .ok (ps, ls, g')) :
    ∃ (off0 : Int) (g0 : Gen) (off1 : Int) (g1 : Gen) (off2 la : Int),
      off0 ≤ 0 ∧ prologue_params func.params off0 0 0 g0 = .ok (ps, off1, g1) ∧
      prologue_locals func.localvars off1 0 = .ok (ls, off2, la) := by
  unfold emit_func_prologue at h
  simp only [ok_bind, pure, Except.pure] at h
  split at h
  · simp only [bind_eq_ok] at h
    obtain ⟨ga, _, ⟨ps', off1, g1⟩, hp, ⟨ls', off2, la⟩, hl, hfin⟩ := h
    dsimp only at hfin hl
    injection hfin with hfin
    injection hfin with e1 e2
    injection e2 with e2 _
    subst e1 e2
    exact ⟨_, _, off1, g1, off2, la, by simp [emit_regsave_area, REGAREA_SIZE], hp, hl⟩
  · simp only [bind_eq_ok] at h
    obtain ⟨⟨ps', off1, g1⟩, hp, ⟨ls', off2, la⟩, hl, hfin⟩ := h
    dsimp only at hfin hl
    injection hfin with hfin
    injection hfin with e1 e2
    injection e2 with e2 _
    subst e1 e2
    exact ⟨_, _, off1, g1, off2, la, le_refl _, hp, hl⟩

/-! ### Auxiliary lemmas: literals -/

theorem emit_expr_literal_known (n : Node) (id : Nat) (l : Label) (g : Gen)
    (hn : label_literal_id n = some id) (hg : g.labels.lookup id = some l) :
    emit_expr n g = .ok { g with out := g.out ++ [literal_load n l] } := by
  cases n with
  | literal ct ival fval id' =>
    simp only [label_literal_id] at hn
    split at hn
    · rename_i hf
      injection hn with hn
      subst hn
      simp only [emit_expr, emit_literal]
      have hk : ct.type = .FLOAT ∨ ct.type = .DOUBLE ∨ ct.type = .LDOUBLE := by
        simp only [is_flotype] at hf
        split at hf <;> simp_all
      rcases hk with hk | hk | hk <;> simp only [hk, hg, emit, literal_load]
    · cases hn
  | string ct sval id' =>
    simp only [label_literal_id] at hn
    injection hn with hn
    subst hn
    simp only [emit_expr, emit_literal_string, hg, emit, literal_load]
  | _ => simp [label_literal_id] at hn

theorem emit_expr_literal_first (n : Node) (id : Nat) (g : Gen)
    (hn : label_literal_id n = some id) (hg : g.labels.lookup id = none) :
    emit_expr n g = .ok { g with
      out := g.out ++ literal_def n (.L g.labelseq) ++ [literal_load n (.L g.labelseq)],
      labelseq := g.labelseq + 1,
      labels := (id, .L g.labelseq) :: g.labels } := by
  cases n with
  | literal ct ival fval id' =>
    simp only [label_literal_id] at hn
    split at hn
    · rename_i hf
      injection hn with hn
      subst hn
      simp only [emit_expr, emit_literal]
      have hk : ct.type = .FLOAT ∨ ct.type = .DOUBLE ∨ ct.type = .LDOUBLE := by
        simp only [is_flotype] at hf
        split at hf <;> simp_all
      rcases hk with hk | hk | hk <;>
        simp [hk, hg, emit, emit_label, make_label, literal_load, literal_def]
    · cases hn
  | string ct sval id' =>
    simp only [label_literal_id] at hn
    injection hn with hn
    subst hn
    simp [emit_expr, emit_literal_string, hg, emit, emit_label, make_label, literal_load,
      literal_def]
  | _ => simp [label_literal_id] at hn

theorem emit_compound_literal_known (n : Node) (id : Nat) (l : Label)
    (hn : label_literal_id n = some id) (k : Nat) :
    ∀ g : Gen, g.labels.lookup id = some l →
      emit_compound_stmt (List.replicate k n) g =
        .ok { g with out := g.out ++ List.replicate k (literal_load n l) } := by
  induction k with
  | zero =>
    intro g _
    simp [emit_compound_stmt]
  | succ k ih =>
    intro g hg
    rw [List.replicate_succ, emit_compound_stmt, emit_expr_literal_known n id l g hn hg]
    simp only [ok_bind]
    have h := ih { g with out := g.out ++ [literal_load n l] } hg
    rw [h]
    simp [List.replicate_succ]

/-! ### Auxiliary lemmas: the character source -/

theorem char_le_iff (a b : Char) : a ≤ b ↔ a.toNat ≤ b.toNat := by
  rw [Char.le_def]
  exact Iff.rfl

theorem char_eq_iff (a b : Char) : a = b ↔ a.toNat = b.toNat := by
  constructor
  · intro h
    rw [h]
  · intro h
    exact Char.ext (UInt32.ext h)

theorem File.remaining_eq (f : File) : f.remaining = f.content.length := by
  simp [File.remaining, File.content]

theorem File.content_advance (f : File) (c : Char) : (f.advance c).content = f.content := by
  unfold File.advance
  split <;> rfl

theorem readc_cons (f : File) (c : Char) (rest : List Char) (h : f.content = c :: rest) :
    (readc f).1 = some c ∧ (readc f).2.content = rest := by
  unfold readc
  cases hb : f.buf with
  | cons b bs =>
    simp only [File.content, hb, List.cons_append, List.cons.injEq] at h
    simp only [File.content_advance]
    exact ⟨by rw [h.1], by simp [File.content, h.2]⟩
  | nil =>
    simp only [File.content, hb, List.nil_append] at h
    simp only [h, File.content_advance]
    exact ⟨trivial, by simp [File.content, hb]⟩

theorem readc_nil (f : File) (h : f.content = []) : readc f = (none, f) := by
  unfold readc
  simp only [File.content, List.append_eq_nil] at h
  simp [h.1, h.2]

theorem unreadc_content (c : Char) (f : File) :
    (unreadc (some c) f).content = c :: f.content := by
  unfold unreadc
  by_cases hn : c = '\n' <;> simp [hn, File.content]

theorem unreadc_none (f : File) : unreadc none f = f := rfl

theorem make_token_content (tmpl : Token) (f : File) :
    (make_token tmpl f).2.content = f.content := rfl

theorem cstr_eq (b : List Char) (h : ∀ c ∈ b, c ≠ Char.ofNat 0) : cstr b = b := by
  unfold cstr
  rw [List.takeWhile_eq_self_iff]
  intro c hc
  simpa using h c hc

/-! ### Auxiliary lemmas: the shape of lexed tokens -/

theorem ident_char_ne_nul (c : Char) (h : is_ident_char c = true) : c ≠ Char.ofNat 0 := by
  intro e
  subst e
  revert h
  decide

theorem read_ident_loop_shape (n : Nat) :
    ∀ (b : List Char) (f : File), ∃ (s : List Char) (f' : File),
      (∀ x ∈ s, is_ident_char x = true) ∧ read_ident_loop n b f = make_ident (b ++ s) f' := by
  induction n with
  | zero =>
    intro b f
    exact ⟨[], f, by simp, by simp [read_ident_loop]⟩
  | succ n ih =>
    intro b f
    rw [read_ident_loop]
    cases hg : (get f).1 with
    | none => exact ⟨[], unreadc none (get f).2, by simp, by simp⟩
    | some ch =>
      simp only []
      by_cases hc : isalnum (some ch) = true ∨ ch = '_' ∨ ch = '$'
      · simp only [hc, if_true]
        obtain ⟨s, f', hs, he⟩ := ih (b ++ [ch]) (get f).2
        refine ⟨ch :: s, f', ?_, by rw [he]; simp⟩
        intro x hx
        rcases List.mem_cons.mp hx with hx | hx
        · subst hx
          simp only [is_ident_char, Bool.or_eq_true, decide_eq_true_eq]
          rcases hc with hc | hc | hc
          · exact Or.inl (Or.inl hc)
          · exact Or.inl (Or.inr hc)
          · exact Or.inr hc
        · exact hs x hx
      · simp only [hc, if_false]
        exact ⟨[], unreadc (some ch) (get f).2, by simp, by simp⟩

theorem read_string_loop_kind (n : Nat) :
    ∀ (b : List Char) (enc : Enc) (f : File) (t : Token) (f' : File),
      read_string_loop n b enc f = .ok (t, f') → t.kind = .TSTRING := by
  induction n with
  | zero =>
    intro b enc f t f' h
    simp [read_string_loop] at h
  | succ n ih =>
    intro b enc f t f' h
    rw [read_string_loop] at h
    by_cases h1 : (get f).1 = none
    · simp [h1] at h
    · by_cases h2 : (get f).1 = some '"'
      · simp only [h2, if_true] at h
        simp only [reduceCtorEq, if_false] at h
        injection h with h
        injection h with h _
        rw [← h]
      · by_cases h3 : (get f).1 = some '\\'
        · simp only [h1, h2, h3, if_true, if_false, bind_eq_ok] at h
          simp only [reduceCtorEq, if_false, Option.some.injEq, Char.reduceEq, bind_eq_ok] at h
          obtain ⟨r, _, h⟩ := h
          exact ih _ _ _ _ _ h
        · simp only [h1, h2, h3, if_false] at h
          exact ih _ _ _ _ _ h

theorem read_char_kind (enc : Enc) (f : File) (t : Token) (f' : File)
    (h : read_char enc f = .ok (t, f')) : t.kind = .TCHAR := by
  have key : ∀ (r : Int × File),
      (if (get r.2).1 = none then
          (Except.error (Fatal.error "premature end of input") : Except Fatal (Token × File))
        else if (get r.2).1 ≠ some '\'' then Except.error (Fatal.error "unterminated string")
        else pure (make_char r.1 enc (get r.2).2)) = .ok (t, f') → t.kind = .TCHAR := by
    intro r h
    by_cases h1 : (get r.2).1 = none
    · simp [h1] at h
    · by_cases h2 : (get r.2).1 ≠ some '\''
      · simp [h1, h2] at h
      · simp only [h1, h2, if_false, pure, Except.pure] at h
        injection h with h
        have e : t = (make_char r.1 enc (get r.2).2).1 := by rw [h]
        rw [e]
        rfl
  unfold read_char at h
  dsimp only at h
  by_cases hb : (get f).1 = some '\\'
  · simp only [hb, if_true, bind_eq_ok] at h
    obtain ⟨r, _, h⟩ := h
    exact key r h
  · simp only [hb, if_false, ok_bind] at h
    exact key (code (get f).1, (get f).2) h

theorem lex_unget (t : TokPtr) (s : Lexer) (h : t ≠ .null) :
    lex (unget_token t s) = .ok (t, s) := by
  obtain ⟨file, buffer, altbuffer, sp, nl⟩ := s
  unfold unget_token
  rw [if_neg h]
  cases altbuffer with
  | some a => rfl
  | none => rfl

theorem unget_tokens_append (ts1 ts2 : List TokPtr) :
    ∀ s : Lexer, unget_tokens (ts1 ++ ts2) s = unget_tokens ts2 (unget_tokens ts1 s) := by
  induction ts1 with
  | nil => intro s; rfl
  | cons t ts ih => intro s; exact ih (unget_token t s)

theorem unget_token_file (t : TokPtr) (s : Lexer) : (unget_token t s).file = s.file := by
  unfold unget_token
  split
  · rfl
  · split <;> rfl

theorem unget_tokens_file (ts : List TokPtr) : ∀ s : Lexer, (unget_tokens ts s).file = s.file := by
  induction ts with
  | nil => intro s; rfl
  | cons t ts ih => intro s; rw [unget_tokens, ih, unget_token_file]

theorem lex_n_unget_tokens (ts : List TokPtr) :
    ∀ s : Lexer, (∀ t ∈ ts, t ≠ .null) →
      lex_n ts.length (unget_tokens ts s) = .ok (ts.reverse, s) := by
  induction ts using List.reverseRecOn with
  | nil => intro s _; rfl
  | append_singleton ts t ih =>
    intro s h
    rw [unget_tokens_append, List.length_append, List.reverse_append]
    have ht : t ≠ .null := h t (by simp)
    show lex_n (ts.length + 1) (unget_token t (unget_tokens ts s)) = _
    rw [lex_n, lex_unget t _ ht]
    simp only [ok_bind]
    rw [ih s (fun u hu => h u (by simp [hu]))]
    rfl
theorem lex_alt (a : List TokPtr) (s : Lexer) :
    ∃ p a', lex (set_input_buffer (some a) s) = .ok (p, set_input_buffer (some a') s) := by
  cases a with
  | nil => exact ⟨.null, [], rfl⟩
  | cons t rest => exact ⟨t, rest, rfl⟩

theorem unget_alt (t : TokPtr) (a : List TokPtr) (s : Lexer) :
    ∃ a', unget_token t (set_input_buffer (some a) s) = set_input_buffer (some a') s := by
  unfold unget_token
  by_cases h : t = .null
  · exact ⟨a, by rw [if_pos h]⟩
  · exact ⟨t :: a, by rw [if_neg h]; rfl⟩

theorem run_calls_alt (cs : List LexCall) :
    ∀ (a : List TokPtr) (s : Lexer), ∃ ps a',
      run_calls cs (set_input_buffer (some a) s) = .ok (ps, set_input_buffer (some a') s) := by
  induction cs with
  | nil => intro a s; exact ⟨[], a, rfl⟩
  | cons c cs ih =>
    intro a s
    cases c with
    | lex =>
      obtain ⟨p, a1, h1⟩ := lex_alt a s
      obtain ⟨ps, a', h2⟩ := ih a1 s
      refine ⟨p :: ps, a', ?_⟩
      rw [run_calls, h1]
      simp only [ok_bind]
      rw [h2]
      rfl
    | unget t =>
      obtain ⟨a1, h1⟩ := unget_alt t a s
      obtain ⟨ps, a', h2⟩ := ih a1 s
      exact ⟨ps, a', by rw [run_calls, h1, h2]⟩
theorem set_bol_null (s : Lexer) (p : TokPtr) (v : Bool) :
    (s.set_bol p v).1 = .null ↔ p = .null := by
  cases p <;> simp [Lexer.set_bol]

theorem lex_source_inv (s s' : Lexer) (p : TokPtr) (ha : s.altbuffer = none)
    (hb : s.buffer = []) (h : lex s = .ok (p, s')) :
    ∃ (q : TokPtr) (w : Lexer), (p, s') = w.set_bol q (decide (s.file.column = 0)) := by
  unfold lex at h
  simp only [ha, hb, bind_eq_ok] at h
  obtain ⟨r, _, w, _, hw⟩ := h
  simp only [pure, Except.pure, Except.ok.injEq] at hw
  exact ⟨w.1, w.2, hw.symm⟩
/-! ### Auxiliary lemmas: `get` on the characters left -/

theorem skip_whitespace_loop_content (n : Nat) :
    ∀ (r : Bool) (f : File), f.content.length < n →
      (skip_whitespace_loop n r f).2.content = f.content.dropWhile is_blank := by
  induction n with
  | zero => intro r f h; cases h
  | succ n ih =>
    intro r f h
    rw [skip_whitespace_loop]
    cases hc : f.content with
    | nil =>
      rw [readc_nil f hc]
      simp [iswhitespace, unreadc_none, hc]
    | cons c rest =>
      have hr := readc_cons f c rest hc
      by_cases hw : iswhitespace (readc f).1 = true
      · rw [if_pos hw, ih true (readc f).2 (by rw [hr.2]; rw [hc] at h; simpa using h), hr.2]
        rw [hr.1] at hw
        simp [List.dropWhile, is_blank, hw]
      · rw [if_neg hw, hr.1, unreadc_content, hr.2]
        rw [hr.1] at hw
        simp [List.dropWhile, is_blank, hw]

theorem skip_whitespace_content (f : File) :
    (skip_whitespace f).2.content = f.content.dropWhile is_blank :=
  skip_whitespace_loop_content _ false f (by rw [File.remaining_eq]; omega)

theorem warn_content (m : String) (f : File) : (warn m f).content = f.content := rfl

theorem get_loop_list (n : Nat) :
    ∀ f : File, (get_loop n f).1 = (get_list_loop n f.content).1 ∧
      (get_loop n f).2.content = (get_list_loop n f.content).2 := by
  induction n with
  | zero => intro f; exact ⟨rfl, rfl⟩
  | succ n ih =>
    intro f
    rw [get_loop]
    cases hc : f.content with
    | nil =>
      rw [readc_nil f hc]
      simp [get_list_loop, hc]
    | cons c r =>
      have hr := readc_cons f c r hc
      have hs := skip_whitespace_content (readc f).2
      rw [hr.2] at hs
      rw [get_list_loop]
      by_cases hb : c = '\\'
      · have hb' : (readc f).1 = some '\\' := by rw [hr.1, hb]
        simp only [hb', if_pos hb, if_true]
        cases hd : r.dropWhile is_blank with
        | nil =>
          rw [hd] at hs
          rw [readc_nil _ hs]
          simp [unreadc_none, hs]
        | cons x r' =>
          rw [hd] at hs
          have hx := readc_cons _ x r' hs
          simp only [List.head?_cons, List.tail_cons, Option.some.injEq]
          by_cases hn : x = '\n'
          · have hn' : (readc (skip_whitespace (readc f).2).2).1 = some '\n' := by rw [hx.1, hn]
            simp only [hn', if_pos hn, if_true]
            have hcont : (if (skip_whitespace (readc f).2).1 = true then
              warn "backslash and newline separated by space"
                (readc (skip_whitespace (readc f).2).2).2
              else (readc (skip_whitespace (readc f).2).2).2).content = r' := by
              split
              · rw [warn_content, hx.2]
              · exact hx.2
            have := ih (if (skip_whitespace (readc f).2).1 = true then
              warn "backslash and newline separated by space"
                (readc (skip_whitespace (readc f).2).2).2
              else (readc (skip_whitespace (readc f).2).2).2)
            rw [hcont] at this
            exact this
          · have hn' : ¬ (readc (skip_whitespace (readc f).2).2).1 = some '\n' := by
              rw [hx.1]
              simpa using hn
            simp only [hn', if_neg hn, if_false]
            exact ⟨trivial, by rw [hx.1, unreadc_content, hx.2]⟩
      · have hb' : ¬ (readc f).1 = some '\\' := by
          rw [hr.1]
          simpa using hb
        simp only [hb', if_neg hb, if_false]
        exact hr

theorem get_fst (f : File) : (get f).1 = (get_list f.content).1 := by
  unfold get get_list
  rw [File.remaining_eq]
  exact (get_loop_list _ f).1

theorem get_content (f : File) : (get f).2.content = (get_list f.content).2 := by
  unfold get get_list
  rw [File.remaining_eq]
  exact (get_loop_list _ f).2

theorem get_list_nil : get_list [] = (none, []) := rfl

theorem get_list_cons (c : Char) (r : List Char) (h : c ≠ '\\') :
    get_list (c :: r) = (some c, r) := by
  unfold get_list
  rw [List.length_cons, get_list_loop, if_neg h]

theorem dropWhile_length_le (p : Char → Bool) (l : List Char) :
    (l.dropWhile p).length ≤ l.length := by
  induction l with
  | nil => simp
  | cons x l ih =>
    rw [List.dropWhile_cons]
    split
    · exact Nat.le_succ_of_le ih
    · exact Nat.le_refl _

theorem get_list_loop_none (n : Nat) :
    ∀ l : List Char, l.length < n → (get_list_loop n l).1 = none →
      (get_list_loop n l).2 = [] := by
  induction n with
  | zero => intro l h; cases h
  | succ n ih =>
    intro l h hn
    cases l with
    | nil => rfl
    | cons c r =>
      rw [get_list_loop] at hn ⊢
      by_cases hb : c = '\\'
      · rw [if_pos hb] at hn ⊢
        by_cases hd : (r.dropWhile is_blank).head? = some '\n'
        · rw [if_pos hd] at hn ⊢
          refine ih _ ?_ hn
          have h1 := dropWhile_length_le is_blank r
          have h2 : (r.dropWhile is_blank).tail.length ≤ (r.dropWhile is_blank).length := by
            simp
          simp only [List.length_cons] at h
          omega
        · rw [if_neg hd] at hn
          cases hn
      · rw [if_neg hb] at hn
        cases hn

theorem get_list_loop_shrink (n : Nat) :
    ∀ (l : List Char) (c : Char), (get_list_loop n l).1 = some c →
      (get_list_loop n l).2.length < l.length := by
  induction n with
  | zero => intro l c h; cases h
  | succ n ih =>
    intro l c h
    cases l with
    | nil => cases h
    | cons x r =>
      rw [get_list_loop] at h ⊢
      have h1 := dropWhile_length_le is_blank r
      by_cases hb : x = '\\'
      · rw [if_pos hb] at h ⊢
        by_cases hd : (r.dropWhile is_blank).head? = some '\n'
        · rw [if_pos hd] at h ⊢
          have := ih _ c h
          have h2 : (r.dropWhile is_blank).tail.length ≤ (r.dropWhile is_blank).length := by
            simp
          simp only [List.length_cons]
          omega
        · rw [if_neg hd]
          simp only [List.length_cons]
          omega
      · rw [if_neg hb]
        simp

theorem get_list_shrink (l : List Char) (c : Char) (h : (get_list l).1 = some c) :
    (get_list l).2.length < l.length := get_list_loop_shrink _ l c h

theorem dropWhile_idem (p : Char → Bool) (l : List Char) :
    (l.dropWhile p).dropWhile p = l.dropWhile p := by
  induction l with
  | nil => rfl
  | cons x l ih =>
    by_cases hx : p x = true
    · rw [List.dropWhile_cons_of_pos hx, ih]
    · rw [List.dropWhile_cons_of_neg hx, List.dropWhile_cons_of_neg hx]

theorem get_list_loop_backslash (n : Nat) :
    ∀ l : List Char, (get_list_loop n l).1 = some '\\' →
      (get_list_loop n l).2.dropWhile is_blank = (get_list_loop n l).2 ∧
      (get_list_loop n l).2.head? ≠ some '\n' := by
  induction n with
  | zero => intro l h; cases h
  | succ n ih =>
    intro l h
    cases l with
    | nil => cases h
    | cons x r =>
      rw [get_list_loop] at h ⊢
      by_cases hb : x = '\\'
      · rw [if_pos hb] at h ⊢
        by_cases hd : (r.dropWhile is_blank).head? = some '\n'
        · rw [if_pos hd] at h ⊢
          exact ih _ h
        · rw [if_neg hd]
          exact ⟨dropWhile_idem _ _, hd⟩
      · rw [if_neg hb] at h
        simp only [Option.some.injEq] at h
        exact absurd h hb

theorem get_list_backslash (r : List Char) (h1 : r.dropWhile is_blank = r)
    (h2 : r.head? ≠ some '\n') : get_list ('\\' :: r) = (some '\\', r) := by
  unfold get_list
  rw [List.length_cons, get_list_loop, if_pos rfl, h1, if_neg h2]

theorem get_list_unget (l : List Char) :
    get_list (unget_list (get_list l).1 (get_list l).2) = get_list l := by
  cases h : (get_list l).1 with
  | none =>
    have := get_list_loop_none _ l (Nat.lt_succ_self _) h
    have e : get_list l = (none, []) := Prod.ext h this
    rw [e]
    rfl
  | some c =>
    have e : get_list l = (some c, (get_list l).2) := Prod.ext h rfl
    show get_list (c :: (get_list l).2) = _
    by_cases hb : c = '\\'
    · subst hb
      obtain ⟨h1, h2⟩ := get_list_loop_backslash _ l h
      exact (get_list_backslash (get_list l).2 h1 h2).trans e.symm
    · rw [get_list_cons c _ hb]
      exact e.symm
theorem unreadc_content_opt (c : Option Char) (f : File) :
    (unreadc c f).content = unget_list c f.content := by
  cases c with
  | none => rfl
  | some x => exact unreadc_content x f

theorem next_fst (e : Char) (f : File) :
    (next e f).1 = decide ((get_list f.content).1 = some e) := by
  unfold next
  rw [← get_fst]
  by_cases h : (get f).1 = some e
  · simp [h]
  · simp [h]

theorem next_hit_file (e : Char) (f : File) (h : (get_list f.content).1 = some e) :
    next e f = (true, (get f).2) := by
  unfold next
  rw [← get_fst] at h
  simp [h]

theorem peek_fst (f : File) : (peek f).1 = (get_list f.content).1 := by
  unfold peek
  exact get_fst f

theorem peek_view (f : File) : get_list (peek f).2.content = get_list f.content := by
  unfold peek
  show get_list (unreadc (get f).1 (get f).2).content = _
  rw [unreadc_content_opt, get_fst, get_content]
  exact get_list_unget _

theorem delivers_to_list (s : List Char) :
    ∀ f g : File, delivers s f = some g → delivers_list s f.content = some g.content := by
  induction s with
  | nil =>
    intro f g h
    simp only [delivers, Option.some.injEq] at h
    rw [← h]
    rfl
  | cons c s ih =>
    intro f g h
    rw [delivers] at h
    rw [delivers_list]
    by_cases hc : (get f).1 = some c
    · rw [if_pos hc] at h
      rw [if_pos (by rw [← get_fst]; exact hc), ← get_content]
      exact ih _ _ h
    · rw [if_neg hc] at h
      cases h

theorem delivers_list_length (s : List Char) :
    ∀ l R : List Char, delivers_list s l = some R → s.length + R.length ≤ l.length := by
  induction s with
  | nil =>
    intro l R h
    simp only [delivers_list, Option.some.injEq] at h
    rw [h]
    simp
  | cons c s ih =>
    intro l R h
    rw [delivers_list] at h
    by_cases hc : (get_list l).1 = some c
    · rw [if_pos hc] at h
      have h1 := ih _ _ h
      have h2 := get_list_shrink l c hc
      simp only [List.length_cons]
      omega
    · rw [if_neg hc] at h
      cases h

theorem next_content (e : Char) (F : File) :
    (next e F).2.content =
      if (get_list F.content).1 = some e then (get_list F.content).2
      else unget_list (get_list F.content).1 (get_list F.content).2 := by
  by_cases h : (get_list F.content).1 = some e
  · rw [if_pos h, next_hit_file e F h, get_content]
  · rw [if_neg h]
    unfold next
    have h' : ¬ (get F).1 = some e := by rw [get_fst]; exact h
    simp only [h', if_false]
    rw [unreadc_content_opt, get_fst, get_content]

theorem peek_content (F : File) :
    (peek F).2.content = unget_list (get_list F.content).1 (get_list F.content).2 := by
  unfold peek
  show (unreadc (get F).1 (get F).2).content = _
  rw [unreadc_content_opt, get_fst, get_content]

theorem make_keyword_content (id : KeywordId) (F : File) :
    (make_keyword id F).2.content = F.content := rfl

theorem make_keyword_kind (id : KeywordId) (F : File) :
    (make_keyword id F).1.kind = .TKEYWORD := rfl

theorem make_keyword_id (id : KeywordId) (F : File) :
    (make_keyword id F).1.id = some id := rfl

theorem delivers_list_cons_iff (c : Char) (s l R : List Char) :
    delivers_list (c :: s) l = some R ↔
      (get_list l).1 = some c ∧ delivers_list s (get_list l).2 = some R := by
  rw [delivers_list]
  by_cases h : (get_list l).1 = some c
  · simp [h]
  · simp [h]

theorem delivers_list_nil_iff (l R : List Char) : delivers_list [] l = some R ↔ l = R := by
  simp [delivers_list]

theorem token_view_inv (r : Except Fatal (TokPtr × File)) (k : TokenKind)
    (i : Option KeywordId) (v : Option Char × List Char)
    (h : token_view r = some (k, i, v)) :
    ∃ t f', r = .ok (.fresh t, f') ∧ t.kind = k ∧ t.id = i ∧ get_list f'.content = v := by
  unfold token_view at h
  split at h
  · rename_i t f
    simp only [Option.some.injEq, Prod.mk.injEq] at h
    exact ⟨t, f, rfl, h.1, h.2.1, h.2.2⟩
  · cases h

theorem token_view_ok (t : Token) (f : File) :
    token_view (.ok (.fresh t, f)) = some (t.kind, t.id, get_list f.content) := rfl

theorem token_view_fresh (r : Token × File) :
    token_view (fresh r) = some (r.1.kind, r.1.id, get_list r.2.content) := rfl

theorem unget_list_some (c : Char) (l : List Char) : unget_list (some c) l = c :: l := rfl

theorem unget_list_none (l : List Char) : unget_list none l = l := rfl

theorem delivers_cons_iff (c : Char) (s : List Char) (f g : File) :
    delivers (c :: s) f = some g ↔ (get f).1 = some c ∧ delivers s (get f).2 = some g := by
  rw [delivers]
  by_cases h : (get f).1 = some c
  · simp [h]
  · simp [h]

theorem delivers_nil_iff (f g : File) : delivers [] f = some g ↔ f = g := by
  simp [delivers]
/-! ### Auxiliary lemmas: punctuators -/

theorem isdigit_some (c : Char) : isdigit (some c) = c.isDigit := rfl

set_option maxHeartbeats 4000000 in
theorem do_read_token_punct (pq : List Char × KeywordId) (f g : File)
    (hp : pq ∈ punctuators) (hd : delivers pq.1 f = some g)
    (hend : ∀ x, (get g).1 = some x →
      can_extend pq.1 x = false ∧ begins_other_token pq.1 x = false) :
    token_view (do_read_token f) = some (.TKEYWORD, some pq.2, get_list g.content) := by
  have hend' : ∀ x, (can_extend pq.1 x || begins_other_token pq.1 x) = true →
      (get_list g.content).1 ≠ some x := by
    intro x hx h
    have := hend x (by rw [get_fst]; exact h)
    simp [this.1, this.2] at hx
  clear hend
  have hdig : pq.1 = ['.'] → isdigit (get_list g.content).1 = false := by
    intro hp
    cases h : (get_list g.content).1 with
    | none => rfl
    | some x =>
      cases hx : x.isDigit with
      | false => exact hx
      | true => exact absurd h (hend' x (by simp [begins_other_token, hp, hx]))
  have hd' := delivers_to_list _ _ _ hd
  clear hd
  unfold punctuators at hp
  fin_cases hp <;>
  (simp only [delivers_list_cons_iff, delivers_list_nil_iff] at hd'
   simp [can_extend, punctuators, begins_other_token, forall_eq_or_imp] at hend'
   simp at hdig
   unfold do_read_token
   simp [hd', hend', hdig, read_rep, read_rep2, next_fst, next_content, get_fst, get_content,
     peek_fst, peek_content, get_list_unget, make_keyword_content, make_keyword_kind,
     make_keyword_id, token_view_fresh, token_view_ok, isdigit_some, unget_list_some,
     unget_list_none, get_list_cons, fresh])
/-! ### Auxiliary lemmas: escape sequences -/

theorem nextoct_fst (F : File) :
    (nextoct F).1 = match (get_list F.content).1 with
      | some ch => is_octal ch
      | none => false := by
  unfold nextoct
  simp only [peek_fst]
  cases (get_list F.content).1 <;> rfl

theorem nextoct_view (F : File) : get_list (nextoct F).2.content = get_list F.content := by
  unfold nextoct
  exact peek_view F

theorem is_octal_range (c : Char) (h : is_octal c = true) : 48 ≤ c.toNat ∧ c.toNat ≤ 55 := by
  simp only [is_octal, decide_eq_true_eq, char_le_iff] at h
  exact h

theorem code_some (c : Char) : code (some c) = c.toNat := rfl

theorem read_octal_char_list (d : Char) (ds : List Char) (F : File) (R : List Char)
    (hd : delivers_list ds F.content = some R) (ho : ∀ x ∈ ds, is_octal x = true)
    (hlen : ds.length ≤ 2)
    (hend : ds.length < 2 → ∀ x, (get_list R).1 = some x → is_octal x = false) :
    ∃ f', read_octal_char d F = (octal_value (d :: ds), f') ∧
      get_list f'.content = get_list R := by
  have hno : ∀ G : File, get_list G.content = get_list R →
      (∀ x, (get_list R).1 = some x → is_octal x = false) → (nextoct G).1 = false := by
    intro G hG hx
    rw [nextoct_fst, hG]
    cases h : (get_list R).1 with
    | none => rfl
    | some x => exact hx x h
  have hyes : ∀ (G : File) (y : Char), (get_list G.content).1 = some y → is_octal y = true →
      (nextoct G).1 = true ∧ (get (nextoct G).2).1 = some y ∧
        (get (nextoct G).2).2.content = (get_list G.content).2 := by
    intro G y hy hoy
    refine ⟨?_, ?_, ?_⟩
    · rw [nextoct_fst, hy]
      exact hoy
    · rw [get_fst, nextoct_view, hy]
    · rw [get_content, nextoct_view]
  unfold read_octal_char
  cases ds with
  | nil =>
    simp only [delivers_list, Option.some.injEq] at hd
    have h1 := hno F (by rw [hd]) (hend (by simp))
    simp only [h1, Bool.not_false, if_true]
    exact ⟨(nextoct F).2, by simp [octal_value], (nextoct_view F).trans (by rw [hd])⟩
  | cons y ds =>
    rw [delivers_list_cons_iff] at hd
    obtain ⟨h1, h2, h3⟩ := hyes F y hd.1 (ho y (List.mem_cons_self _ _))
    simp only [h1, Bool.not_true, Bool.false_eq_true, if_false, h2, code_some]
    cases ds with
    | nil =>
      have hd2 := hd.2
      simp only [delivers_list, Option.some.injEq] at hd2
      have h4 := hno (get (nextoct F).2).2 (by rw [h3, hd2]) (hend (by simp))
      simp only [h4, Bool.not_false, if_true]
      refine ⟨(nextoct (get (nextoct F).2).2).2, by simp [octal_value], ?_⟩
      rw [nextoct_view, h3, hd2]
    | cons z ds =>
      have hd2 := hd.2
      rw [delivers_list_cons_iff] at hd2
      obtain ⟨h4, h5, h6⟩ := hyes (get (nextoct F).2).2 z (by rw [h3]; exact hd2.1)
        (ho z (by simp))
      simp only [h4, Bool.not_true, Bool.false_eq_true, if_false, h5, code_some]
      cases ds with
      | nil =>
        have hd3 := hd2.2
        simp only [delivers_list, Option.some.injEq] at hd3
        refine ⟨(get (nextoct (get (nextoct F).2).2).2).2, by simp [octal_value], ?_⟩
        rw [h6, h3, hd3]
      | cons w ds => simp at hlen

theorem octal_value_bound (d : Char) (ds : List Char) (ho : ∀ x ∈ d :: ds, is_octal x = true)
    (hlen : ds.length ≤ 2) : 0 ≤ octal_value (d :: ds) ∧ octal_value (d :: ds) < 512 := by
  have hd := is_octal_range d (ho d (List.mem_cons_self _ _))
  cases ds with
  | nil =>
    simp only [octal_value, List.foldl]
    omega
  | cons y ds =>
    have hy := is_octal_range y (ho y (by simp))
    cases ds with
    | nil =>
      simp only [octal_value, List.foldl]
      omega
    | cons z ds =>
      have hz := is_octal_range z (ho z (by simp))
      cases ds with
      | nil =>
        simp only [octal_value, List.foldl]
        omega
      | cons w ds => simp at hlen
/-! ### Auxiliary lemmas: universal character names -/

theorem hexval_hex (c : Char) (h : is_hex_digit c = true) :
    hexval c = some (hex_digit_value c : Int) ∧ hex_digit_value c < 16 := by
  simp only [is_hex_digit, Bool.or_eq_true, decide_eq_true_eq] at h
  unfold hexval hex_digit_value
  by_cases h1 : '0' ≤ c ∧ c ≤ '9'
  · rw [if_pos h1, if_pos h1]
    simp only [char_le_iff] at h1
    have e1 : ('0').toNat = 48 := rfl
    have e2 : ('9').toNat = 57 := rfl
    refine ⟨?_, by omega⟩
    congr 1
    omega
  · rw [if_neg h1, if_neg h1]
    by_cases h2 : 'a' ≤ c ∧ c ≤ 'f'
    · rw [if_pos h2, if_pos h2]
      simp only [char_le_iff] at h2
      have e1 : ('a').toNat = 97 := rfl
      have e2 : ('f').toNat = 102 := rfl
      refine ⟨?_, by omega⟩
      congr 1
      omega
    · rw [if_neg h2, if_neg h2]
      have h3 : 'A' ≤ c ∧ c ≤ 'F' := by
        rcases h with (h | h) | h
        · exact absurd h h1
        · exact absurd h h2
        · exact h
      rw [if_pos h3]
      simp only [char_le_iff] at h3
      have e1 : ('A').toNat = 65 := rfl
      have e2 : ('F').toNat = 70 := rfl
      refine ⟨?_, by omega⟩
      congr 1
      omega

theorem hexval_some_hex (c : Char) (v : Int) (h : hexval c = some v) : is_hex_digit c = true := by
  unfold hexval at h
  simp only [is_hex_digit, Bool.or_eq_true, decide_eq_true_eq]
  by_cases h1 : '0' ≤ c ∧ c ≤ '9'
  · exact Or.inl (Or.inl h1)
  · rw [if_neg h1] at h
    by_cases h2 : 'a' ≤ c ∧ c ≤ 'f'
    · exact Or.inl (Or.inr h2)
    · rw [if_neg h2] at h
      by_cases h3 : 'A' ≤ c ∧ c ≤ 'F'
      · exact Or.inr h3
      · rw [if_neg h3] at h
        cases h

theorem universal_loop_of_delivers (s : List Char) :
    ∀ (f g : File) (r : Nat), delivers s f = some g → (∀ x ∈ s, is_hex_digit x = true) →
      read_universal_char_loop s.length r f =
        .ok (s.foldl (fun r c => (r * 16 + hex_digit_value c) % 2 ^ 32) r, g) := by
  induction s with
  | nil =>
    intro f g r hd _
    rw [delivers_nil_iff] at hd
    rw [hd]
    rfl
  | cons c s ih =>
    intro f g r hd hs
    rw [delivers_cons_iff] at hd
    have hc := hexval_hex c (hs c (List.mem_cons_self _ _))
    rw [List.length_cons, read_universal_char_loop]
    simp only [hd.1, Option.bind, hc.1]
    rw [ih (get f).2 g _ hd.2 (fun x hx => hs x (List.mem_cons_of_mem _ hx))]
    rfl

theorem universal_loop_inv (n : Nat) :
    ∀ (f g : File) (r q : Nat), read_universal_char_loop n r f = .ok (q, g) →
      ∃ s, delivers s f = some g ∧ s.length = n ∧ ∀ x ∈ s, is_hex_digit x = true := by
  induction n with
  | zero =>
    intro f g r q h
    simp only [read_universal_char_loop, Except.ok.injEq, Prod.mk.injEq] at h
    exact ⟨[], by rw [delivers_nil_iff]; exact h.2, rfl, by simp⟩
  | succ n ih =>
    intro f g r q h
    rw [read_universal_char_loop] at h
    cases hg : (get f).1 with
    | none =>
      simp only [hg, Option.bind] at h
      cases h
    | some c =>
      simp only [hg, Option.bind] at h
      cases hv : hexval c with
      | none =>
        simp only [hv] at h
        cases h
      | some v =>
        simp only [hv] at h
        obtain ⟨s, hd, hl, hs⟩ := ih _ _ _ _ h
        refine ⟨c :: s, ?_, by simp [hl], ?_⟩
        · rw [delivers_cons_iff]
          exact ⟨hg, hd⟩
        · intro x hx
          rcases List.mem_cons.mp hx with hx | hx
          · rw [hx]
            exact hexval_some_hex c v hv
          · exact hs x hx

theorem hex_fold_bound (s : List Char) :
    ∀ (r P : Nat), r < P → P * 16 ^ s.length ≤ 2 ^ 32 → (∀ x ∈ s, is_hex_digit x = true) →
      s.foldl (fun r c => (r * 16 + hex_digit_value c) % 2 ^ 32) r =
        s.foldl (fun r c => r * 16 + hex_digit_value c) r ∧
      s.foldl (fun r c => r * 16 + hex_digit_value c) r < P * 16 ^ s.length := by
  induction s with
  | nil =>
    intro r P hr _ _
    simp only [List.foldl, List.length_nil, pow_zero, Nat.mul_one]
    exact ⟨trivial, hr⟩
  | cons c s ih =>
    intro r P hr hP hs
    have hc := (hexval_hex c (hs c (List.mem_cons_self _ _))).2
    have hP' : P * 16 * 16 ^ s.length ≤ 2 ^ 32 := by
      rw [List.length_cons, pow_succ] at hP
      calc P * 16 * 16 ^ s.length = P * (16 ^ s.length * 16) := by ring
        _ ≤ 2 ^ 32 := hP
    have h1 : r * 16 + hex_digit_value c < P * 16 := by omega
    have hpos : 0 < 16 ^ s.length := Nat.pow_pos (by decide)
    have h2 : P * 16 ≤ 2 ^ 32 := by
      calc P * 16 = P * 16 * 1 := by ring
        _ ≤ P * 16 * 16 ^ s.length := Nat.mul_le_mul_left _ hpos
        _ ≤ 2 ^ 32 := hP'
    have hmod : (r * 16 + hex_digit_value c) % 2 ^ 32 = r * 16 + hex_digit_value c :=
      Nat.mod_eq_of_lt (by omega)
    obtain ⟨e1, e2⟩ := ih (r * 16 + hex_digit_value c) (P * 16) h1 hP'
      (fun x hx => hs x (List.mem_cons_of_mem _ hx))
    simp only [List.foldl, hmod]
    refine ⟨e1, ?_⟩
    rw [List.length_cons, pow_succ]
    calc List.foldl (fun r c => r * 16 + hex_digit_value c) (r * 16 + hex_digit_value c) s
        < P * 16 * 16 ^ s.length := e2
      _ = P * (16 ^ s.length * 16) := by ring

theorem hex_fold_eq (s : List Char) (hl : s.length ≤ 8) (hs : ∀ x ∈ s, is_hex_digit x = true) :
    s.foldl (fun r c => (r * 16 + hex_digit_value c) % 2 ^ 32) 0 = hex_value s ∧
      hex_value s < 2 ^ 32 := by
  have hp : 1 * 16 ^ s.length ≤ 2 ^ 32 := by
    rw [Nat.one_mul]
    calc 16 ^ s.length ≤ 16 ^ 8 := Nat.pow_le_pow_right (by decide) hl
      _ = 2 ^ 32 := by norm_num
  obtain ⟨e1, e2⟩ := hex_fold_bound s 0 1 (by decide) hp hs
  exact ⟨e1, Nat.lt_of_lt_of_le e2 hp⟩
/-! ### Auxiliary lemmas: literals and their encoding -/

theorem read_string_loop_enc (n : Nat) :
    ∀ (b : List Char) (enc : Enc) (f : File) (t : Token) (f' : File),
      read_string_loop n b enc f = .ok (t, f') → t.enc = enc := by
  induction n with
  | zero =>
    intro b enc f t f' h
    simp [read_string_loop] at h
  | succ n ih =>
    intro b enc f t f' h
    rw [read_string_loop] at h
    by_cases h1 : (get f).1 = none
    · simp [h1] at h
    · by_cases h2 : (get f).1 = some '"'
      · simp only [h2, if_true] at h
        simp only [reduceCtorEq, if_false] at h
        injection h with h
        injection h with h _
        rw [← h]
      · by_cases h3 : (get f).1 = some '\\'
        · simp only [h1, h2, h3, if_true, if_false, bind_eq_ok] at h
          simp only [reduceCtorEq, if_false, Option.some.injEq, Char.reduceEq, bind_eq_ok] at h
          obtain ⟨r, _, h⟩ := h
          exact ih _ _ _ _ _ h
        · simp only [h1, h2, h3, if_false] at h
          exact ih _ _ _ _ _ h

theorem read_char_enc (enc : Enc) (f : File) (t : Token) (f' : File)
    (h : read_char enc f = .ok (t, f')) : t.enc = enc := by
  have key : ∀ (r : Int × File),
      (if (get r.2).1 = none then
          (Except.error (Fatal.error "premature end of input") : Except Fatal (Token × File))
        else if (get r.2).1 ≠ some '\'' then Except.error (Fatal.error "unterminated string")
        else pure (make_char r.1 enc (get r.2).2)) = .ok (t, f') → t.enc = enc := by
    intro r h
    by_cases h1 : (get r.2).1 = none
    · simp [h1] at h
    · by_cases h2 : (get r.2).1 ≠ some '\''
      · simp [h1, h2] at h
      · simp only [h1, h2, if_false, pure, Except.pure] at h
        injection h with h
        have e : t = (make_char r.1 enc (get r.2).2).1 := by rw [h]
        rw [e]
        rfl
  unfold read_char at h
  dsimp only at h
  by_cases hb : (get f).1 = some '\\'
  · simp only [hb, if_true, bind_eq_ok] at h
    obtain ⟨r, _, h⟩ := h
    exact key r h
  · simp only [hb, if_false, ok_bind] at h
    exact key (code (get f).1, (get f).2) h

theorem read_string_loop_plain (body : List Char) :
    ∀ (n : Nat) (b : List Char) (enc : Enc) (f g : File),
      delivers (body ++ ['"']) f = some g → (∀ x ∈ body, x ≠ '"' ∧ x ≠ '\\') →
      body.length < n →
      read_string_loop n b enc f =
        .ok (make_strtok (b ++ body.map fun x => to_byte x.toNat) enc g) := by
  induction body with
  | nil =>
    intro n b enc f g hd _ hn
    cases n with
    | zero => cases hn
    | succ n =>
      simp only [List.nil_append, delivers_cons_iff, delivers_nil_iff] at hd
      rw [read_string_loop]
      simp [hd.1, hd.2]
  | cons x body ih =>
    intro n b enc f g hd hb hn
    cases n with
    | zero => cases hn
    | succ n =>
      rw [List.cons_append, delivers_cons_iff] at hd
      have hx := hb x (List.mem_cons_self _ _)
      rw [read_string_loop]
      simp only [hd.1, reduceCtorEq, if_false, Option.some.injEq, hx.1, hx.2, code_some]
      rw [ih n _ enc _ g hd.2 (fun y hy => hb y (List.mem_cons_of_mem _ hy))
        (by simpa using hn), List.map_cons, List.append_assoc, List.singleton_append]

theorem delivers_remaining (s : List Char) (f g : File) (h : delivers s f = some g) :
    s.length ≤ f.remaining := by
  have := delivers_list_length s _ _ (delivers_to_list s f g h)
  rw [File.remaining_eq]
  omega

theorem read_string_plain (body : List Char) (enc : Enc) (f g : File)
    (hd : delivers (body ++ ['"']) f = some g) (hb : ∀ x ∈ body, x ≠ '"' ∧ x ≠ '\\') :
    read_string enc f = .ok (make_strtok (body.map fun x => to_byte x.toNat) enc g) := by
  unfold read_string
  have := delivers_remaining _ _ _ hd
  rw [read_string_loop_plain body _ [] enc f g hd hb (by simp at this; omega)]
  rfl

theorem read_char_plain (c : Char) (enc : Enc) (f g : File)
    (hd : delivers [c, '\''] f = some g) (hc : c ≠ '\\') :
    read_char enc f = .ok (make_char c.toNat enc g) := by
  simp only [delivers_cons_iff, delivers_nil_iff] at hd
  unfold read_char
  have hb : ¬ (get f).1 = some '\\' := by
    rw [hd.1]
    simpa using hc
  simp only [hd.1, Option.some.injEq, if_neg hc, code_some]
  show (if (get (get f).2).1 = none then _ else _) = _
  simp only [hd.2.1, hd.2.2, reduceCtorEq, if_false, ne_eq, not_true_eq_false]
  rfl
theorem do_read_token_literal (pfx : List Char) (enc : Enc) (q : Char) (f g : File)
    (hm : (pfx, enc) ∈ enc_prefixes) (hq : q = '"' ∨ (q = '\'' ∧ pfx ≠ ['u', '8']))
    (hd : delivers (pfx ++ [q]) f = some g) :
    ∃ Q : File, Q.content = g.content ∧
      do_read_token f = freshE (if q = '"' then read_string enc Q else read_char enc Q) := by
  have hd' := delivers_to_list _ _ _ hd
  clear hd
  simp only [enc_prefixes, List.mem_cons, Prod.mk.injEq, List.mem_singleton, List.not_mem_nil,
    or_false] at hm
  rcases hm with ⟨rfl, rfl⟩ | ⟨rfl, rfl⟩ | ⟨rfl, rfl⟩ | ⟨rfl, rfl⟩ | ⟨rfl, rfl⟩ <;>
  rcases hq with rfl | ⟨rfl, hne⟩ <;>
  first
  | exact absurd rfl hne
  | (simp only [List.cons_append, List.nil_append, delivers_list_cons_iff,
       delivers_list_nil_iff] at hd'
     unfold do_read_token
     simp [hd', next_fst, get_fst, next_content, get_content, get_list_unget, unget_list_some,
       get_list_cons]
     refine ⟨_, ?_, rfl⟩
     simp [hd', next_fst, get_fst, next_content, get_content, get_list_unget, unget_list_some,
       get_list_cons])

theorem do_read_token_u8_ident (f g : File) (hd : delivers ['u', '8'] f = some g)
    (hq : (get g).1 ≠ some '"') :
    ∃ t f' s, do_read_token f = .ok (.fresh t, f') ∧ t.kind = .TIDENT ∧
      t.sval = 'u' :: '8' :: s := by
  have hd' := delivers_to_list _ _ _ hd
  rw [get_fst] at hq
  simp only [delivers_list_cons_iff, delivers_list_nil_iff] at hd'
  have key : ∃ (F : File) (r : List Char), F.content = '8' :: r ∧
      do_read_token f = fresh (read_ident 'u' F) := by
    unfold do_read_token
    simp [hd', hq, next_fst, get_fst, next_content, get_content, get_list_unget, unget_list_some,
      get_list_cons]
    refine ⟨_, ⟨_, unreadc_content _ _⟩, rfl⟩
  obtain ⟨F, r, hF, he⟩ := key
  have hg8 : (get F).1 = some '8' := by rw [get_fst, hF, get_list_cons _ _ (by decide)]
  have hid : (isalnum (some '8') = true ∨ '8' = '_' ∨ '8' = '$') := Or.inl (by decide)
  obtain ⟨s, f', hs, hl⟩ := read_ident_loop_shape F.remaining (['u'] ++ ['8']) (get F).2
  refine ⟨(make_ident (['u'] ++ ['8'] ++ s) f').1, (make_ident (['u'] ++ ['8'] ++ s) f').2, s,
    ?_, rfl, ?_⟩
  · rw [he]
    unfold read_ident
    rw [read_ident_loop]
    simp only [hg8, if_pos hid, hl]
    rfl
  · show cstr ('u' :: '8' :: s) = _
    apply cstr_eq
    intro x hx
    rcases List.mem_cons.mp hx with hx | hx
    · rw [hx]; decide
    · rcases List.mem_cons.mp hx with hx | hx
      · rw [hx]; decide
      · exact ident_char_ne_nul x (hs x hx)

theorem delivers_of_list (s : List Char) :
    ∀ (F : File) (R : List Char), delivers_list s F.content = some R →
      ∃ g, delivers s F = some g ∧ g.content = R := by
  induction s with
  | nil =>
    intro F R h
    rw [delivers_list_nil_iff] at h
    exact ⟨F, rfl, h⟩
  | cons c s ih =>
    intro F R h
    rw [delivers_list_cons_iff] at h
    obtain ⟨g, hg, hc⟩ := ih (get F).2 R (by rw [get_content]; exact h.2)
    exact ⟨g, by rw [delivers_cons_iff]; exact ⟨by rw [get_fst]; exact h.1, hg⟩, hc⟩

theorem delivers_list_append (s1 s2 : List Char) :
    ∀ (l R : List Char), delivers_list (s1 ++ s2) l = some R ↔
      ∃ M, delivers_list s1 l = some M ∧ delivers_list s2 M = some R := by
  induction s1 with
  | nil =>
    intro l R
    simp [delivers_list_nil_iff]
  | cons c s1 ih =>
    intro l R
    rw [List.cons_append, delivers_list_cons_iff, ih]
    constructor
    · rintro ⟨h1, M, h2, h3⟩
      exact ⟨M, by rw [delivers_list_cons_iff]; exact ⟨h1, h2⟩, h3⟩
    · rintro ⟨M, h2, h3⟩
      rw [delivers_list_cons_iff] at h2
      exact ⟨h2.1, M, h2.2, h3⟩

theorem freshE_ok (r : Token × File) : freshE (.ok r) = .ok (.fresh r.1, r.2) := rfl

theorem freshE_result (x : Except Fatal (Token × File)) (p : TokPtr) (f' : File)
    (h : freshE x = .ok (p, f')) : ∃ t, p = .fresh t ∧ x = .ok (t, f') := by
  cases x with
  | error e => cases h
  | ok r =>
    rw [freshE_ok] at h
    simp only [Except.ok.injEq, Prod.mk.injEq] at h
    exact ⟨r.1, h.1.symm, by rw [← h.2]⟩

/-! ### Auxiliary lemmas: `skip_cond_incl` -/

theorem advance_warnings (f : File) (c : Char) : (f.advance c).warnings = f.warnings := by
  unfold File.advance
  split <;> rfl

theorem readc_warnings (f : File) : (readc f).2.warnings = f.warnings := by
  unfold readc
  split
  · exact advance_warnings _ _
  · split
    · exact advance_warnings _ _
    · rfl

theorem unreadc_warnings (c : Option Char) (f : File) : (unreadc c f).warnings = f.warnings := by
  unfold unreadc
  split
  · rfl
  · split <;> rfl

theorem skip_whitespace_loop_flag (n : Nat) :
    ∀ (r : Bool) (f : File), f.content.length < n →
      (skip_whitespace_loop n r f).1 = (r || (f.content.head?.any is_blank)) ∧
      (skip_whitespace_loop n r f).2.warnings = f.warnings := by
  induction n with
  | zero => intro r f h; cases h
  | succ n ih =>
    intro r f h
    rw [skip_whitespace_loop]
    cases hc : f.content with
    | nil =>
      rw [readc_nil f hc]
      simp [iswhitespace, unreadc_none]
    | cons c rest =>
      have hr := readc_cons f c rest hc
      by_cases hw : iswhitespace (readc f).1 = true
      · rw [if_pos hw]
        obtain ⟨h1, h2⟩ := ih true (readc f).2 (by rw [hr.2]; rw [hc] at h; simpa using h)
        rw [h1, h2, readc_warnings]
        rw [hr.1] at hw
        simp [is_blank, hw]
      · rw [if_neg hw]
        rw [hr.1] at hw
        simp [is_blank, hw, unreadc_warnings, readc_warnings]

theorem skip_whitespace_flag (f : File) :
    (skip_whitespace f).1 = f.content.head?.any is_blank ∧
      (skip_whitespace f).2.warnings = f.warnings := by
  have h := skip_whitespace_loop_flag (f.remaining + 1) false f (by rw [File.remaining_eq]; omega)
  simpa [skip_whitespace] using h

theorem dropWhile_blanks (ws rest : List Char) (h : ∀ x ∈ ws, is_blank x = true) :
    (ws ++ '\n' :: rest).dropWhile is_blank = '\n' :: rest := by
  induction ws with
  | nil => simp [List.dropWhile, is_blank, iswhitespace]
  | cons w ws ih =>
    have hw := h w (List.mem_cons_self _ _)
    simp only [List.cons_append, List.dropWhile, hw]
    exact ih (fun x hx => h x (List.mem_cons_of_mem _ hx))

theorem get_loop_splices (r : List Char) (hr : starts_with_splice r = false)
    (sp : List (List Char)) :
    ∀ (n : Nat) (f : File), sp.length < n → (∀ ws ∈ sp, ∀ x ∈ ws, is_blank x = true) →
      f.content = splices sp ++ r →
      (get_loop n f).1 = r.head? ∧
      (get_loop n f).2.warnings = f.warnings ++
        (sp.filter fun ws => ws ≠ []).map
          (fun _ => "backslash and newline separated by space") ∧
      (get_loop n f).2.content = if r.head? = some '\\' then r.tail.dropWhile is_blank
        else r.tail := by
  induction sp with
  | nil =>
    intro n f hn _ hf
    obtain ⟨n, rfl⟩ : ∃ k, n = k + 1 := ⟨n - 1, by simp at hn; omega⟩
    simp only [splices, List.flatMap_nil, List.nil_append] at hf
    rw [get_loop]
    cases r with
    | nil =>
      rw [readc_nil f hf]
      simp [hf]
    | cons c t =>
      have hc := readc_cons f c t hf
      by_cases hb : c = '\\'
      · have hb' : (readc f).1 = some '\\' := by rw [hc.1, hb]
        simp only [hb', if_true]
        have hs := skip_whitespace_content (readc f).2
        rw [hc.2] at hs
        have hnl : (t.dropWhile is_blank).head? ≠ some '\n' := by
          simpa [starts_with_splice, hb] using hr
        have hnot : ¬ (readc (skip_whitespace (readc f).2).2).1 = some '\n' := by
          cases hd : t.dropWhile is_blank with
          | nil =>
            rw [hd] at hs
            rw [readc_nil _ hs]
            simp
          | cons x t' =>
            rw [hd] at hs hnl
            rw [(readc_cons _ x t' hs).1]
            simpa using hnl
        rw [if_neg hnot]
        refine ⟨by simp [hb], ?_, ?_⟩
        · simp [unreadc_warnings, readc_warnings, (skip_whitespace_flag _).2]
        · simp only [List.head?_cons, hb, if_true, List.tail_cons]
          cases hd : t.dropWhile is_blank with
          | nil =>
            rw [hd] at hs
            rw [readc_nil _ hs]
            simp [unreadc_none, hs]
          | cons x t' =>
            rw [hd] at hs
            have hx := readc_cons _ x t' hs
            rw [hx.1, unreadc_content, hx.2]
      · have hb' : ¬ (readc f).1 = some '\\' := by
          rw [hc.1]
          simpa using hb
        simp only [hb', if_false]
        refine ⟨by simp [hc.1], by simp [readc_warnings], ?_⟩
        simp [hc.2, hb]
  | cons ws sp ih =>
    intro n f hn hbl hf
    obtain ⟨n, rfl⟩ : ∃ k, n = k + 1 := ⟨n - 1, by simp at hn; omega⟩
    have hws := hbl ws (List.mem_cons_self _ _)
    have hf' : f.content = '\\' :: (ws ++ '\n' :: (splices sp ++ r)) := by
      rw [hf]
      simp [splices]
    rw [get_loop]
    have hc := readc_cons f _ _ hf'
    have hs := skip_whitespace_content (readc f).2
    rw [hc.2, dropWhile_blanks ws _ hws] at hs
    have hx := readc_cons _ _ _ hs
    have hfl := skip_whitespace_flag (readc f).2
    rw [hc.2] at hfl
    simp only [hc.1, if_true, hx.1]
    have hcont : (if (skip_whitespace (readc f).2).1 = true then
        warn "backslash and newline separated by space"
          (readc (skip_whitespace (readc f).2).2).2
        else (readc (skip_whitespace (readc f).2).2).2).content = splices sp ++ r := by
      split
      · rw [warn_content, hx.2]
      · exact hx.2
    obtain ⟨h1, h2, h3⟩ := ih n _ (by simpa using hn)
      (fun w hw => hbl w (List.mem_cons_of_mem _ hw)) hcont
    refine ⟨h1, ?_, h3⟩
    rw [h2]
    cases ws with
    | nil =>
      have : (skip_whitespace (readc f).2).1 = false := by
        rw [hfl.1]
        simp [is_blank, iswhitespace]
      simp [this, readc_warnings, hfl.2]
    | cons w ws =>
      have : (skip_whitespace (readc f).2).1 = true := by
        rw [hfl.1]
        simpa using hws w (List.mem_cons_self _ _)
      simp [this, warn, readc_warnings, hfl.2]
/-! ### Auxiliary lemmas: block comments -/

theorem delivers_append (s1 s2 : List Char) :
    ∀ (f g : File), delivers (s1 ++ s2) f = some g ↔
      ∃ m, delivers s1 f = some m ∧ delivers s2 m = some g := by
  induction s1 with
  | nil =>
    intro f g
    simp [delivers]
  | cons c s ih =>
    intro f g
    simp only [List.cons_append, delivers_cons_iff, ih]
    constructor
    · rintro ⟨h1, m, h2, h3⟩
      exact ⟨m, ⟨h1, h2⟩, h3⟩
    · rintro ⟨m, ⟨h1, h2⟩, h3⟩
      exact ⟨h1, m, h2, h3⟩

theorem close_infix_cons (c : Char) (l : List Char) :
    ['*', '/'] <:+: c :: l ↔ (c = '*' ∧ l.head? = some '/') ∨ ['*', '/'] <:+: l := by
  rw [List.infix_cons_iff]
  constructor
  · rintro (h | h)
    · left
      cases l with
      | nil => simp at h
      | cons d l =>
        simp only [List.cons_prefix_cons] at h
        exact ⟨h.1.symm, by simpa using h.2.1.symm⟩
    · exact Or.inr h
  · rintro (⟨h1, h2⟩ | h)
    · left
      cases l with
      | nil => simp at h2
      | cons d l =>
        simp only [List.head?_cons, Option.some.injEq] at h2
        subst h1 h2
        simp
    · exact Or.inr h

theorem skip_block_comment_loop_of_delivers (s : List Char) :
    ∀ (n : Nat) (ast : Bool) (f g : File), delivers (s ++ ['/']) f = some g →
      ((if ast then ['*'] else []) ++ s).getLast? = some '*' →
      ¬ ['*', '/'] <:+: (if ast then ['*'] else []) ++ s → s.length < n →
      skip_block_comment_loop n ast f = .ok g := by
  induction s with
  | nil =>
    intro n ast f g hd hl _ hn
    obtain ⟨n, rfl⟩ : ∃ k, n = k + 1 := ⟨n - 1, by simp at hn; omega⟩
    simp only [List.nil_append, delivers_cons_iff, delivers_nil_iff] at hd
    have ha : ast = true := by
      cases ast
      · simp at hl
      · rfl
    rw [skip_block_comment_loop]
    simp [hd.1, ha, hd.2]
  | cons c s ih =>
    intro n ast f g hd hl hi hn
    obtain ⟨n, rfl⟩ : ∃ k, n = k + 1 := ⟨n - 1, by simp at hn; omega⟩
    simp only [List.cons_append, delivers_cons_iff] at hd
    rw [skip_block_comment_loop]
    simp only [hd.1, reduceCtorEq, if_false, Option.some.injEq]
    have hl' : (c :: s).getLast? = some '*' := by
      rw [List.getLast?_append_of_ne_nil _ (by simp)] at hl
      exact hl
    by_cases hc : c = '*'
    · rw [if_pos hc]
      refine ih n true _ g hd.2 ?_ ?_ (by simpa using hn)
      · subst hc
        simpa using hl'
      · intro hin
        apply hi
        subst hc
        cases ast
        · simpa using hin
        · simp only [if_true, List.singleton_append]
          exact (close_infix_cons _ _).2 (Or.inr (by simpa using hin))
    · rw [if_neg hc]
      by_cases hq : ast = true ∧ c = '/'
      · exfalso
        apply hi
        obtain ⟨h1, h2⟩ := hq
        subst h1 h2
        simp only [if_true, List.singleton_append]
        exact (close_infix_cons _ _).2 (Or.inl ⟨rfl, rfl⟩)
      · rw [if_neg hq]
        have hs : s ≠ [] := by
          intro h0
          subst h0
          simp at hl'
          exact hc hl'
        refine ih n false _ g hd.2 ?_ ?_ (by simpa using hn)
        · simpa [List.getLast?_cons_cons, hs] using
            (show (c :: s).getLast? = s.getLast? by
              cases s with
              | nil => exact absurd rfl hs
              | cons d s => rfl) ▸ hl'
        · intro hin
          apply hi
          have h1 : ['*', '/'] <:+: c :: s :=
            (close_infix_cons _ _).2 (Or.inr (by simpa using hin))
          cases ast
          · simpa using h1
          · simp only [if_true, List.singleton_append]
            exact (close_infix_cons _ _).2 (Or.inr h1)
theorem close_not_infix_star : ¬ ['*', '/'] <:+: ['*'] := by
  intro h
  have := h.length_le
  simp at this

theorem skip_block_comment_loop_inv (n : Nat) :
    ∀ (ast : Bool) (f g : File), skip_block_comment_loop n ast f = .ok g →
      ∃ s, delivers (s ++ ['/']) f = some g ∧
        ((if ast then ['*'] else []) ++ s).getLast? = some '*' ∧
        ¬ ['*', '/'] <:+: (if ast then ['*'] else []) ++ s := by
  induction n with
  | zero =>
    intro ast f g h
    simp [skip_block_comment_loop] at h
  | succ n ih =>
    intro ast f g h
    rw [skip_block_comment_loop] at h
    cases hg : (get f).1 with
    | none => simp [hg] at h
    | some c =>
      simp only [hg, reduceCtorEq, if_false, Option.some.injEq] at h
      by_cases hc : c = '*'
      · rw [if_pos hc] at h
        obtain ⟨s, hd, hl, hi⟩ := ih true _ g h
        simp only [if_true, List.singleton_append] at hl hi
        refine ⟨'*' :: s, ?_, ?_, ?_⟩
        · simp only [List.cons_append, delivers_cons_iff]
          exact ⟨by rw [hg, hc], hd⟩
        · rw [List.getLast?_append_of_ne_nil _ (by simp)]
          exact hl
        · cases ast
          · simpa using hi
          · simp only [if_true, List.singleton_append]
            rw [close_infix_cons]
            rintro (⟨_, h2⟩ | h2)
            · simp at h2
            · exact hi h2
      · rw [if_neg hc] at h
        by_cases hq : ast = true ∧ c = '/'
        · rw [if_pos hq] at h
          injection h with h
          obtain ⟨h1, h2⟩ := hq
          subst h1 h2
          refine ⟨[], ?_, by simp, by simpa using close_not_infix_star⟩
          simp only [List.nil_append, delivers_cons_iff, delivers_nil_iff]
          exact ⟨hg, h⟩
        · rw [if_neg hq] at h
          obtain ⟨s, hd, hl, hi⟩ := ih false _ g h
          simp only [Bool.false_eq_true, if_false, List.nil_append] at hl hi
          have hs : s ≠ [] := by
            intro h0
            subst h0
            simp at hl
          refine ⟨c :: s, ?_, ?_, ?_⟩
          · simp only [List.cons_append, delivers_cons_iff]
            exact ⟨hg, hd⟩
          · rw [List.getLast?_append_of_ne_nil _ (by simp)]
            cases s with
            | nil => exact absurd rfl hs
            | cons d s => exact hl
          · have h1 : ¬ ['*', '/'] <:+: c :: s := by
              rw [close_infix_cons]
              rintro (⟨h2, _⟩ | h2)
              · exact hc h2
              · exact hi h2
            cases ast
            · simpa using h1
            · simp only [if_true, List.singleton_append]
              rw [close_infix_cons]
              rintro (⟨_, h2⟩ | h2)
              · simp only [List.head?_cons, Option.some.injEq] at h2
                exact hq ⟨rfl, h2⟩
              · exact h1 h2

theorem skip_block_comment_ok_iff (f g : File) :
    skip_block_comment f = .ok g ↔
      ∃ s, delivers (s ++ ['*', '/']) f = some g ∧ ¬ ['*', '/'] <:+: s ++ ['*'] := by
  constructor
  · intro h
    obtain ⟨s, hd, hl, hi⟩ := skip_block_comment_loop_inv _ false f g h
    simp only [Bool.false_eq_true, if_false, List.nil_append] at hl hi
    obtain ⟨s0, rfl⟩ : ∃ s0, s = s0 ++ ['*'] := List.getLast?_eq_some_iff.1 hl
    refine ⟨s0, ?_, hi⟩
    simpa using hd
  · rintro ⟨s, hd, hi⟩
    have hd' : delivers ((s ++ ['*']) ++ ['/']) f = some g := by simpa using hd
    have hlen := delivers_remaining _ _ _ hd
    refine skip_block_comment_loop_of_delivers (s ++ ['*']) _ false f g hd' (by simp) (by simpa using hi)
      ?_
    simp only [List.length_append, List.length_cons, List.length_nil] at hlen ⊢
    omega

theorem first_close (n : Nat) :
    ∀ (s : List Char) (f g : File), s.length ≤ n → delivers (s ++ ['*', '/']) f = some g →
      ∃ s' g', delivers (s' ++ ['*', '/']) f = some g' ∧ ¬ ['*', '/'] <:+: s' ++ ['*'] := by
  induction n with
  | zero =>
    intro s f g hn hd
    have : s = [] := List.length_eq_zero.1 (by omega)
    subst this
    exact ⟨[], g, hd, by simpa using close_not_infix_star⟩
  | succ n ih =>
    intro s f g hn hd
    by_cases hi : ['*', '/'] <:+: s ++ ['*']
    · obtain ⟨a, b, hab⟩ := hi
      have hb : b ≠ [] := by
        intro h0
        subst h0
        have := congrArg List.getLast? hab
        simp at this
      obtain ⟨b0, x, rfl⟩ : ∃ b0 x, b = b0 ++ [x] := by
        rcases List.eq_nil_or_concat b with h0 | ⟨b0, x, h0⟩
        · exact absurd h0 hb
        · exact ⟨b0, x, by simpa using h0⟩
      have hs : s = a ++ ['*', '/'] ++ b0 := by
        have h1 : (a ++ ['*', '/'] ++ b0) ++ [x] = s ++ ['*'] := by simpa using hab
        exact (List.append_inj' h1 rfl).1.symm
      subst hs
      rw [List.append_assoc, delivers_append] at hd
      obtain ⟨m, hm, _⟩ := hd
      refine ih a f m ?_ hm
      simp only [List.length_append, List.length_cons, List.length_nil] at hn
      omega
    · exact ⟨s, g, hd, hi⟩
/-! ### Auxiliary lemmas: `stackpos` along the emitted text -/

theorem depth_nil : depth [] = 0 := rfl

theorem depth_cons (i : Instr) (t : List Instr) : depth (i :: t) = stack_effect i + depth t := by
  simp [depth]

theorem depth_append (a b : List Instr) : depth (a ++ b) = depth a + depth b := by
  simp [depth]

theorem depth_singleton (i : Instr) : depth [i] = stack_effect i := by
  simp [depth]

theorem effect_i2 (m : Mn) (a b : Operand) (h1 : m ≠ .push) (h2 : m ≠ .pop) (h3 : m ≠ .movsd) :
    stack_effect (i2 m a b) = 0 := by
  cases m <;> first | rfl | exact absurd rfl h1 | exact absurd rfl h2 | exact absurd rfl h3

theorem effect_i1 (m : Mn) (a : Operand) (h1 : m ≠ .push) (h2 : m ≠ .pop) :
    stack_effect (i1 m a) = 0 := by
  cases m <;> first | rfl | exact absurd rfl h1 | exact absurd rfl h2 |
    (cases a <;> first | rfl | (rename_i r; cases r <;> rfl))

theorem seg_same (g g' : Gen) (ho : g'.out = g.out) (hs : g'.stackpos = g.stackpos) :
    Seg 0 0 g g' :=
  ⟨by rw [hs]; simp, [], by rw [ho]; simp, rfl, fun pre hp => by
    rw [List.prefix_nil] at hp
    rw [hp]
    exact le_refl _⟩

theorem seg_refl (g : Gen) : Seg 0 0 g g := seg_same g g rfl rfl

theorem seg_trans (lo lo1 lo2 a b : Int) (g g1 g2 : Gen) (h1 : Seg lo1 a g g1)
    (h2 : Seg lo2 b g1 g2) (hl1 : lo ≤ lo1) (hl2 : lo ≤ a + lo2) : Seg lo (a + b) g g2 := by
  obtain ⟨hs1, t1, ho1, hd1, hp1⟩ := h1
  obtain ⟨hs2, t2, ho2, hd2, hp2⟩ := h2
  refine ⟨by rw [hs2, hs1]; omega, t1 ++ t2, by rw [ho2, ho1, List.append_assoc], ?_, ?_⟩
  · rw [depth_append, hd1, hd2]
  · intro pre hpre
    rcases List.prefix_or_prefix_of_prefix hpre (List.prefix_append t1 t2) with h | h
    · have := hp1 pre h
      omega
    · obtain ⟨p2, rfl⟩ := h
      have h3 : p2 <+: t2 := (List.prefix_append_right_inj t1).1 hpre
      have := hp2 p2 h3
      rw [depth_append, hd1]
      omega

theorem seg_mono (lo lo' d : Int) (g g' : Gen) (h : Seg lo d g g') (hl : lo' ≤ lo) :
    Seg lo' d g g' := by
  obtain ⟨hs, t, ho, hd, hp⟩ := h
  exact ⟨hs, t, ho, hd, fun pre hpre => le_trans hl (hp pre hpre)⟩

theorem seg_bal (g g1 g2 : Gen) (h1 : Seg 0 0 g g1) (h2 : Seg 0 0 g1 g2) : Seg 0 0 g g2 := by
  have := seg_trans 0 0 0 0 0 g g1 g2 h1 h2 (le_refl _) (le_refl _)
  simpa using this

theorem seg_one (i : Instr) (g g' : Gen) (ho : g'.out = g.out ++ [i])
    (hs : g'.stackpos = g.stackpos + stack_effect i) :
    Seg (min 0 (stack_effect i)) (stack_effect i) g g' := by
  refine ⟨hs, [i], ho, depth_singleton i, ?_⟩
  intro pre hpre
  rw [List.prefix_cons_iff] at hpre
  rcases hpre with rfl | ⟨t, rfl, ht⟩
  · exact min_le_left _ _
  · rw [List.prefix_nil] at ht
    subst ht
    rw [depth_singleton]
    exact min_le_right _ _

theorem seg_emit (i : Instr) (h : stack_effect i = 0) (g : Gen) : Seg 0 0 g (emit i g) := by
  have := seg_one i g (emit i g) rfl (by rw [h]; simp [emit])
  rw [h] at this
  simpa using this

theorem seg_push (r : Reg) (g : Gen) : Seg 0 8 g (push r g) := by
  have := seg_one (i1 .push (.reg r)) g (push r g) rfl rfl
  exact this

theorem seg_pop (r : Reg) (g g' : Gen) (h : pop r g = .ok g') : Seg (-8) (-8) g g' := by
  rw [pop_eq_ok] at h
  obtain ⟨_, rfl⟩ := h
  exact seg_one (i1 .pop (.reg r)) g _ rfl rfl

theorem seg_push_xmm (k : Int) (g : Gen) : Seg 0 8 g (push_xmm k g) := by
  have h1 := seg_emit (i2 .sub (.imm 8) (.reg .rsp)) rfl g
  have h2 : Seg 0 8 (emit (i2 .sub (.imm 8) (.reg .rsp)) g) (push_xmm k g) :=
    seg_one (i2 .movsd (.reg (.xmm k)) (.ind .rsp)) (emit (i2 .sub (.imm 8) (.reg .rsp)) g)
      (push_xmm k g) rfl rfl
  have := seg_trans 0 0 0 0 8 g _ _ h1 h2 (le_refl _) (by decide)
  simpa using this

theorem seg_pop_xmm (k : Int) (g g' : Gen) (h : pop_xmm k g = .ok g') : Seg (-8) (-8) g g' := by
  rw [pop_xmm_eq_ok] at h
  obtain ⟨_, rfl⟩ := h
  refine ⟨rfl, _, rfl, rfl, ?_⟩
  intro pre hpre
  rw [List.prefix_cons_iff] at hpre
  rcases hpre with rfl | ⟨t, rfl, ht⟩
  · decide
  · rw [List.prefix_cons_iff] at ht
    rcases ht with rfl | ⟨t', rfl, ht'⟩
    · exact le_of_eq rfl
    · rw [List.prefix_nil] at ht'
      subst ht'
      exact le_of_eq rfl
theorem st_emit (d : Int) (g g1 : Gen) (i : Instr) (h : Seg 0 d g g1) (he : stack_effect i = 0)
    (h0 : 0 ≤ d) : Seg 0 d g (emit i g1) := by
  have := seg_trans 0 0 0 d 0 g g1 _ h (seg_emit i he g1) (le_refl _) (by omega)
  simpa using this

theorem st_bal (d : Int) (g g1 g2 : Gen) (h : Seg 0 d g g1) (h2 : Seg 0 0 g1 g2) (h0 : 0 ≤ d) :
    Seg 0 d g g2 := by
  have := seg_trans 0 0 0 d 0 g g1 _ h h2 (le_refl _) (by omega)
  simpa using this

theorem st_push (d d' : Int) (g g1 : Gen) (r : Reg) (h : Seg 0 d g g1) (hd : d' = d + 8)
    (h0 : 0 ≤ d) : Seg 0 d' g (push r g1) := by
  rw [hd]
  exact seg_trans 0 0 0 d 8 g g1 _ h (seg_push r g1) (le_refl _) (by omega)

theorem st_push_xmm (d d' : Int) (g g1 : Gen) (k : Int) (h : Seg 0 d g g1) (hd : d' = d + 8)
    (h0 : 0 ≤ d) : Seg 0 d' g (push_xmm k g1) := by
  rw [hd]
  exact seg_trans 0 0 0 d 8 g g1 _ h (seg_push_xmm k g1) (le_refl _) (by omega)

theorem st_pop (d d' : Int) (g g1 g2 : Gen) (r : Reg) (h : Seg 0 d g g1)
    (hp : pop r g1 = .ok g2) (hd : d' = d - 8) (h0 : 8 ≤ d) : Seg 0 d' g g2 := by
  rw [hd]
  exact seg_trans 0 0 (-8) d (-8) g g1 _ h (seg_pop r g1 g2 hp) (le_refl _) (by omega)

theorem st_pop_xmm (d d' : Int) (g g1 g2 : Gen) (k : Int) (h : Seg 0 d g g1)
    (hp : pop_xmm k g1 = .ok g2) (hd : d' = d - 8) (h0 : 8 ≤ d) : Seg 0 d' g g2 := by
  rw [hd]
  exact seg_trans 0 0 (-8) d (-8) g g1 _ h (seg_pop_xmm k g1 g2 hp) (le_refl _) (by omega)

theorem st_seg (d e d' : Int) (g g1 g2 : Gen) (h : Seg 0 d g g1) (h2 : Seg 0 e g1 g2)
    (hd : d' = d + e) (h0 : 0 ≤ d) : Seg 0 d' g g2 := by
  rw [hd]
  exact seg_trans 0 0 0 d e g g1 _ h h2 (le_refl _) (by omega)

theorem st_neg (d e d' : Int) (g g1 g2 : Gen) (h : Seg 0 d g g1) (h2 : Seg e e g1 g2)
    (hd : d' = d + e) (h0 : 0 ≤ d + e) : Seg 0 d' g g2 := by
  rw [hd]
  exact seg_trans 0 0 e d e g g1 _ h h2 (le_refl _) h0

theorem get_load_inst_effect (t : Ctype) (inst : Mn) (a b : Operand)
    (h : get_load_inst t = .ok inst) : stack_effect (i2 inst a b) = 0 := by
  unfold get_load_inst at h
  repeat' split at h
  all_goals first | (injection h with h; subst h; rfl) | cases h

theorem emit_gload_bal (t : Ctype) (l : Label) (off : Int) : Bal (emit_gload t l off) := by
  intro g g' h
  unfold emit_gload at h
  split at h
  · split at h <;> (injection h with h; subst h; exact seg_emit _ (by rfl) g)
  · simp only [bind_eq_ok, pure, Except.pure] at h
    obtain ⟨inst, hi, h⟩ := h
    injection h with h
    subst h
    exact seg_emit _ (get_load_inst_effect t inst _ _ hi) g

theorem emit_toint_seg (t : Ctype) (g : Gen) : Seg 0 0 g (emit_toint t g) := by
  unfold emit_toint
  split
  · exact seg_refl g
  · exact seg_emit _ (by rfl) g

theorem emit_todouble_seg (t : Ctype) (g : Gen) : Seg 0 0 g (emit_todouble t g) := by
  unfold emit_todouble
  split
  · exact seg_refl g
  · exact seg_emit _ (by rfl) g

theorem emit_lload_bal (t : Ctype) (b : Reg) (off : Int) : Bal (emit_lload t b off) := by
  intro g g' h
  unfold emit_lload at h
  split at h
  · injection h with h
    subst h
    exact seg_emit _ (by rfl) g
  · split at h
    · injection h with h
      subst h
      exact seg_emit _ (by rfl) g
    · split at h
      · injection h with h
        subst h
        exact seg_emit _ (by rfl) g
      · simp only [bind_eq_ok, pure, Except.pure] at h
        obtain ⟨inst, hi, h⟩ := h
        injection h with h
        subst h
        exact seg_emit _ (get_load_inst_effect t inst _ _ hi) g

theorem maybe_convert_bool_seg (t : Ctype) (g : Gen) : Seg 0 0 g (maybe_convert_bool t g) := by
  unfold maybe_convert_bool
  split
  · exact st_emit 0 g _ _ (seg_emit _ (by rfl) g) (by rfl) (le_refl _)
  · exact seg_refl g

theorem emit_gsave_bal (v : Label) (t : Ctype) (off : Int) : Bal (emit_gsave v t off) := by
  intro g g' h
  unfold emit_gsave at h
  split at h
  · cases h
  · simp only [bind_eq_ok, pure, Except.pure] at h
    obtain ⟨reg, _, h⟩ := h
    split at h <;>
      (injection h with h
       subst h
       exact st_emit 0 g _ _ (maybe_convert_bool_seg t g) (by rfl) (le_refl _))

theorem emit_lsave_bal (t : Ctype) (off : Int) : Bal (emit_lsave t off) := by
  intro g g' h
  unfold emit_lsave at h
  split at h
  · exact st_pop_xmm 8 0 g _ g' 0
      (st_emit 8 g _ _ (st_emit 8 g _ _ (st_emit 8 g _ _ (seg_push_xmm 0 g) (by rfl) (by decide)) (by rfl)
        (by decide)) (by rfl) (by decide)) h rfl (le_refl _)
  · split at h
    · injection h with h
      subst h
      exact seg_emit _ (by rfl) g
    · simp only [bind_eq_ok, pure, Except.pure] at h
      obtain ⟨reg, _, h⟩ := h
      injection h with h
      subst h
      exact st_emit 0 g _ _ (maybe_convert_bool_seg t g) (by rfl) (le_refl _)

theorem emit_assign_deref_int_seg (t : Ctype) (off : Int) (g g' : Gen)
    (h : emit_assign_deref_int t off g = .ok g') : Seg (-8) (-8) g g' := by
  unfold emit_assign_deref_int at h
  simp only [bind_eq_ok, pure, Except.pure] at h
  obtain ⟨reg, _, h⟩ := h
  have h1 : Seg 0 0 g (if off ≠ 0 then emit (i2 .mov (.reg reg) (.mem off .rax))
      (emit (i2 .mov (.ind .rsp) (.reg .rcx)) g)
      else emit (i2 .mov (.reg reg) (.ind .rax)) (emit (i2 .mov (.ind .rsp) (.reg .rcx)) g)) := by
    split <;> exact st_emit 0 g _ _ (seg_emit _ (by rfl) g) (by rfl) (le_refl _)
  have := seg_trans (-8) 0 (-8) 0 (-8) g _ g' h1 (seg_pop _ _ _ h) (by decide) (by decide)
  simpa using this

theorem emit_zero_filler_l_seg (n : Nat) :
    ∀ (s e : Int) (g : Gen), Seg 0 0 g (emit_zero_filler_l n s e g).2 := by
  induction n with
  | zero => intro s e g; exact seg_refl g
  | succ n ih =>
    intro s e g
    rw [emit_zero_filler_l]
    split
    · exact seg_bal g _ _ (seg_emit _ (by rfl) g) (ih _ _ _)
    · exact seg_refl g

theorem emit_zero_filler_b_seg (n : Nat) :
    ∀ (s e : Int) (g : Gen), Seg 0 0 g (emit_zero_filler_b n s e g) := by
  induction n with
  | zero => intro s e g; exact seg_refl g
  | succ n ih =>
    intro s e g
    rw [emit_zero_filler_b]
    split
    · exact seg_bal g _ _ (seg_emit _ (by rfl) g) (ih _ _ _)
    · exact seg_refl g

theorem emit_zero_filler_seg (s e : Int) (g : Gen) : Seg 0 0 g (emit_zero_filler s e g) := by
  unfold emit_zero_filler
  exact seg_bal g _ _ (emit_zero_filler_l_seg _ _ _ _) (emit_zero_filler_b_seg _ _ _ _)

theorem ensure_lvar_init_bal (id : Nat) (init : Option (Gen → Emit)) (hi : BalO init) :
    Bal (ensure_lvar_init id init) := by
  intro g g' h
  unfold ensure_lvar_init at h
  cases init with
  | none =>
    injection h with h
    subst h
    exact seg_refl g
  | some run =>
    simp only at h
    split at h
    · injection h with h
      subst h
      exact seg_refl g
    · simp only [bind_eq_ok, pure, Except.pure] at h
      obtain ⟨g1, h1, h⟩ := h
      injection h with h
      subst h
      exact seg_bal g g1 _ (hi run rfl g g1 h1) (seg_same _ _ rfl rfl)

theorem emit_load_convert_seg (a b : Ctype) (g : Gen) : Seg 0 0 g (emit_load_convert a b g) := by
  unfold emit_load_convert
  split
  · exact emit_todouble_seg _ _
  · exact seg_bal g _ _ (emit_toint_seg _ _) (maybe_convert_bool_seg _ _)

theorem emit_save_convert_seg (a b : Ctype) (g : Gen) : Seg 0 0 g (emit_save_convert a b g) := by
  unfold emit_save_convert
  repeat' split
  all_goals first | exact seg_emit _ (by rfl) g | exact emit_load_convert_seg _ _ _ | exact seg_refl g

theorem emit_ret_seg (g : Gen) : Seg 0 0 g (emit_ret g) :=
  st_emit 0 g _ _ (seg_emit _ (by rfl) g) (by rfl) (le_refl _)

theorem emit_save_literal_bal (ival : Int) (fval : Nat) (t : Ctype) (off : Int) :
    Bal (emit_save_literal ival fval t off) := by
  intro g g' h
  unfold emit_save_literal at h
  split at h
  all_goals first
    | (injection h with h
       subst h
       first
         | exact seg_emit _ (by rfl) g
         | exact st_emit 0 g _ _ (seg_emit _ (by rfl) g) (by rfl) (le_refl _))
    | cases h

theorem emit_copy_loop_seg (m : Mn) (h1 : m ≠ .push) (h2 : m ≠ .pop) (h3 : m ≠ .movsd)
    (step : Int) (n : Nat) :
    ∀ (i size : Int) (g : Gen), Seg 0 0 g (emit_copy_loop m step n i size g).2 := by
  induction n with
  | zero => intro i size g; exact seg_refl g
  | succ n ih =>
    intro i size g
    rw [emit_copy_loop]
    split
    · exact seg_bal g _ _
        (st_emit 0 g _ _ (seg_emit _ (effect_i2 m _ _ h1 h2 h3) g) (effect_i2 m _ _ h1 h2 h3)
          (le_refl _)) (ih _ _ _)
    · exact seg_refl g

theorem emit_je_seg (l : Label) (g : Gen) : Seg 0 0 g (emit_je l g) :=
  st_emit 0 g _ _ (seg_emit _ (by rfl) g) (by rfl) (le_refl _)

theorem emit_label_seg (l : Label) (g : Gen) : Seg 0 0 g (emit_label l g) := seg_emit _ (by rfl) g

theorem emit_jmp_seg (l : Label) (g : Gen) : Seg 0 0 g (emit_jmp l g) := seg_emit _ (by rfl) g

theorem make_label_seg (g : Gen) : Seg 0 0 g (make_label g).2 := seg_same _ _ rfl rfl
theorem emit_assign_deref_bal (operand : Node) (eo : Gen → Emit) (ho : Bal eo) :
    Bal (emit_assign_deref operand eo) := by
  intro g g' h
  unfold emit_assign_deref at h
  simp only [bind_eq_ok] at h
  obtain ⟨g1, h1, t, _, h2⟩ := h
  exact st_neg 8 (-8) 0 g g1 g' (st_bal 8 g _ g1 (seg_push .rax g) (ho _ _ h1) (by decide))
    (emit_assign_deref_int_seg _ _ _ _ h2) rfl (by decide)

theorem emit_pointer_arith_bal (op : NodeType) (left right : Node) (el er : Gen → Emit)
    (hl : Bal el) (hr : Bal er) : Bal (emit_pointer_arith op left right el er) := by
  intro g g' h
  unfold emit_pointer_arith at h
  simp only [bind_eq_ok, pure, Except.pure] at h
  obtain ⟨g1, h1, g2, h2, t, _, g3, h3, h4⟩ := h
  injection h4 with h4
  subst h4
  have s2 : Seg 0 8 g g2 :=
    st_bal 8 g _ g2 (st_push 0 8 g g1 .rax (hl _ _ h1) rfl (le_refl _)) (hr _ _ h2) (by decide)
  have s3 : Seg 0 8 g (if t.size > 1 then emit (i2 .imul (.imm t.size) (.reg .rax)) g2 else g2) := by
    split
    · exact st_emit 8 g g2 _ s2 (by rfl) (by decide)
    · exact s2
  exact st_emit 0 g g3 _ (st_pop 8 0 g _ g3 .rax (st_emit 8 g _ _ s3 (by rfl) (by decide)) h3 rfl
    (le_refl _)) (by rfl) (le_refl _)

theorem emit_comp_bal (inst : Mn) (h1 : inst ≠ .push) (h2 : inst ≠ .pop) (left right : Node)
    (el er : Gen → Emit) (hl : Bal el) (hr : Bal er) : Bal (emit_comp inst left right el er) := by
  intro g g' h
  unfold emit_comp at h
  simp only [bind_eq_ok] at h
  obtain ⟨lt, _, rt, _, h⟩ := h
  split at h
  · simp only [bind_eq_ok, pure, Except.pure] at h
    obtain ⟨g1, e1, g2, e2, g3, e3, y, e4, e5⟩ := h
    injection e4 with e4
    injection e5 with e5
    subst e4 e5
    exact st_emit 0 g _ _ (st_emit 0 g _ _ (st_emit 0 g g3 _ (st_pop_xmm 8 0 g _ g3 1
      (st_bal 8 g _ _ (st_bal 8 g _ g2 (st_push_xmm 0 8 g _ 0
        (st_bal 0 g g1 _ (hl _ _ e1) (emit_todouble_seg _ _) (le_refl _)) rfl (le_refl _))
        (hr _ _ e2) (by decide)) (emit_todouble_seg _ _) (by decide)) e3 rfl (le_refl _))
      (by rfl) (le_refl _)) (effect_i1 inst _ h1 h2) (le_refl _)) (by rfl) (le_refl _)
  · simp only [bind_eq_ok, pure, Except.pure] at h
    obtain ⟨g1, e1, g2, e2, g3, e3, y, e4, e5⟩ := h
    injection e4 with e4
    injection e5 with e5
    subst e4 e5
    exact st_emit 0 g _ _ (st_emit 0 g _ _ (st_emit 0 g g3 _ (st_pop 8 0 g _ g3 .rcx
      (st_bal 8 g _ _ (st_bal 8 g _ g2 (st_push 0 8 g _ .rax
        (st_bal 0 g g1 _ (hl _ _ e1) (emit_toint_seg _ _) (le_refl _)) rfl (le_refl _))
        (hr _ _ e2) (by decide)) (emit_toint_seg _ _) (by decide)) e3 rfl (le_refl _))
      (by rfl) (le_refl _)) (effect_i1 inst _ h1 h2) (le_refl _)) (by rfl) (le_refl _)

theorem int_arith_op_effect (type : NodeType) (m : Mn) (a b : Operand)
    (h : int_arith_op type = .ok (some m)) : stack_effect (i2 m a b) = 0 := by
  unfold int_arith_op at h
  split at h
  all_goals first
    | (injection h with h
       injection h with h
       subst h
       rfl)
    | cases h

theorem emit_binop_int_arith_bal (type : NodeType) (left right : Node) (el er : Gen → Emit)
    (hl : Bal el) (hr : Bal er) : Bal (emit_binop_int_arith type left right el er) := by
  intro g g' h
  unfold emit_binop_int_arith at h
  simp only [bind_eq_ok, pure, Except.pure] at h
  obtain ⟨op, hop, g1, e1, lt, _, g2, e2, rt, _, g3, e3, h4⟩ := h
  have s3 : Seg 0 0 g g3 :=
    st_pop 8 0 g _ g3 .rax (st_emit 8 g _ _ (st_bal 8 g _ _ (st_bal 8 g _ g2
      (st_push 0 8 g _ .rax (st_bal 0 g g1 _ (hl _ _ e1) (emit_toint_seg _ _) (le_refl _)) rfl
        (le_refl _)) (hr _ _ e2) (by decide)) (emit_toint_seg _ _) (by decide)) (by rfl)
      (by decide)) e3 rfl (le_refl _)
  split at h4
  · split at h4
    · injection h4 with h4
      subst h4
      exact st_emit 0 g _ _ (st_emit 0 g _ _ (st_emit 0 g g3 _ s3 (by rfl) (le_refl _)) (by rfl)
        (le_refl _)) (by rfl) (le_refl _)
    · injection h4 with h4
      subst h4
      exact st_emit 0 g _ _ (st_emit 0 g g3 _ s3 (by rfl) (le_refl _)) (by rfl) (le_refl _)
  · split at h4
    · rename_i m
      split at h4 <;>
        (injection h4 with h4
         subst h4
         exact st_emit 0 g g3 _ s3 (int_arith_op_effect type m _ _ hop) (le_refl _))
    · cases h4

theorem float_arith_op_effect (type : NodeType) (m : Mn) (a b : Operand)
    (h : float_arith_op type = .ok m) : stack_effect (i2 m a b) = 0 := by
  unfold float_arith_op at h
  split at h
  all_goals first
    | (injection h with h
       subst h
       rfl)
    | cases h

theorem emit_binop_float_arith_bal (type : NodeType) (left right : Node) (el er : Gen → Emit)
    (hl : Bal el) (hr : Bal er) : Bal (emit_binop_float_arith type left right el er) := by
  intro g g' h
  unfold emit_binop_float_arith at h
  simp only [bind_eq_ok, pure, Except.pure] at h
  obtain ⟨op, hop, g1, e1, lt, _, g2, e2, rt, _, g3, e3, h4⟩ := h
  injection h4 with h4
  subst h4
  exact st_emit 0 g g3 _ (st_pop_xmm 8 0 g _ g3 0 (st_emit 8 g _ _ (st_bal 8 g _ _
    (st_bal 8 g _ g2 (st_push_xmm 0 8 g _ 0
      (st_bal 0 g g1 _ (hl _ _ e1) (emit_todouble_seg _ _) (le_refl _)) rfl (le_refl _))
      (hr _ _ e2) (by decide)) (emit_todouble_seg _ _) (by decide)) (by rfl) (by decide)) e3 rfl
    (le_refl _)) (float_arith_op_effect type op _ _ hop) (le_refl _)

theorem emit_binop_bal (type : NodeType) (ctype : Ctype) (left right : Node) (el er : Gen → Emit)
    (hl : Bal el) (hr : Bal er) : Bal (emit_binop type ctype left right el er) := by
  intro g g' h
  unfold emit_binop at h
  split at h
  · exact emit_pointer_arith_bal _ _ _ _ _ hl hr _ _ h
  · split at h
    · exact emit_comp_bal _ (by decide) (by decide) _ _ _ _ hl hr _ _ h
    · exact emit_comp_bal _ (by decide) (by decide) _ _ _ _ hl hr _ _ h
    · exact emit_comp_bal _ (by decide) (by decide) _ _ _ _ hl hr _ _ h
    · exact emit_comp_bal _ (by decide) (by decide) _ _ _ _ hl hr _ _ h
    · exact emit_comp_bal _ (by decide) (by decide) _ _ _ _ hl hr _ _ h
    · exact emit_comp_bal _ (by decide) (by decide) _ _ _ _ hl hr _ _ h
    · split at h
      · exact emit_binop_int_arith_bal _ _ _ _ _ hl hr _ _ h
      · split at h
        · exact emit_binop_float_arith_bal _ _ _ _ _ hl hr _ _ h
        · cases h

theorem emit_copy_struct_bal (left : Node) (al ar : Gen → Emit) (hl : Bal al) (hr : Bal ar) :
    Bal (emit_copy_struct left al ar) := by
  intro g g' h
  unfold emit_copy_struct at h
  simp only [bind_eq_ok] at h
  obtain ⟨g1, e1, g2, e2, t, _, g3, e3, e4⟩ := h
  have s2 : Seg 0 16 g g2 :=
    st_bal 16 g _ g2 (st_emit 16 g g1 _ (st_bal 16 g _ g1
      (st_push 8 16 g _ .r11 (seg_push .rcx g) rfl (by decide)) (hr _ _ e1) (by decide)) (by rfl)
      (by decide)) (hl _ _ e2) (by decide)
  have s3 := st_bal 16 g g2 _ s2 (emit_copy_loop_seg .movq (by decide) (by decide) (by decide) 8
    t.size.toNat 0 t.size g2) (by decide)
  have s4 := st_bal 16 g _ _ s3 (emit_copy_loop_seg .movl (by decide) (by decide) (by decide) 4
    t.size.toNat (emit_copy_loop .movq 8 t.size.toNat 0 t.size g2).1 t.size
    (emit_copy_loop .movq 8 t.size.toNat 0 t.size g2).2) (by decide)
  have s5 := st_bal 16 g _ _ s4 (emit_copy_loop_seg .movb (by decide) (by decide) (by decide) 1
    t.size.toNat (emit_copy_loop .movl 4 t.size.toNat
      (emit_copy_loop .movq 8 t.size.toNat 0 t.size g2).1 t.size
      (emit_copy_loop .movq 8 t.size.toNat 0 t.size g2).2).1 t.size
    (emit_copy_loop .movl 4 t.size.toNat
      (emit_copy_loop .movq 8 t.size.toNat 0 t.size g2).1 t.size
      (emit_copy_loop .movq 8 t.size.toNat 0 t.size g2).2).2) (by decide)
  exact st_pop 8 0 g g3 g' .rcx (st_pop 16 8 g _ g3 .r11 s5 e3 rfl (by decide)) e4 rfl (le_refl _)

theorem emit_pre_inc_dec_bal (op : Mn) (h1 : op ≠ .push) (h2 : op ≠ .pop) (h3 : op ≠ .movsd)
    (eo so : Gen → Emit) (ho : Bal eo) (hs : Bal so) : Bal (emit_pre_inc_dec op eo so) := by
  intro g g' h
  unfold emit_pre_inc_dec at h
  simp only [bind_eq_ok] at h
  obtain ⟨g1, e1, e2⟩ := h
  exact st_bal 0 g _ g' (st_emit 0 g g1 _ (ho _ _ e1) (effect_i2 op _ _ h1 h2 h3) (le_refl _))
    (hs _ _ e2) (le_refl _)

theorem emit_post_inc_dec_bal (op : Mn) (h1 : op ≠ .push) (h2 : op ≠ .pop) (h3 : op ≠ .movsd)
    (eo so : Gen → Emit) (ho : Bal eo) (hs : Bal so) : Bal (emit_post_inc_dec op eo so) := by
  intro g g' h
  unfold emit_post_inc_dec at h
  simp only [bind_eq_ok] at h
  obtain ⟨g1, e1, g2, e2, e3⟩ := h
  exact st_pop 8 0 g g2 g' .rax (st_bal 8 g _ g2 (st_emit 8 g _ _
    (st_push 0 8 g g1 .rax (ho _ _ e1) rfl (le_refl _)) (effect_i2 op _ _ h1 h2 h3) (by decide))
    (hs _ _ e2) (by decide)) e3 rfl (le_refl _)
theorem depth_zero (t : List Instr) (h : ∀ i ∈ t, stack_effect i = 0) : depth t = 0 := by
  induction t with
  | nil => rfl
  | cons i t ih =>
    rw [depth_cons, h i (List.mem_cons_self _ _), ih (fun j hj => h j (List.mem_cons_of_mem _ hj))]
    rfl

theorem seg_text (t : List Instr) (g g' : Gen) (ho : g'.out = g.out ++ t)
    (hs : g'.stackpos = g.stackpos) (h : ∀ i ∈ t, stack_effect i = 0) : Seg 0 0 g g' := by
  refine ⟨by rw [hs]; simp, t, ho, depth_zero t h, ?_⟩
  intro pre hpre
  rw [depth_zero pre (fun i hi => h i (hpre.subset hi))]

theorem seg_pops (k : Nat) (g g1 g2 : Gen) (h1 : Seg (-8) (-8) g g1)
    (h2 : Seg (-(8 * (k : Int))) (-(8 * (k : Int))) g1 g2) :
    Seg (-(8 * ((k + 1 : Nat) : Int))) (-(8 * ((k + 1 : Nat) : Int))) g g2 := by
  have := seg_trans (-(8 * ((k + 1 : Nat) : Int))) (-8) (-(8 * (k : Int))) (-8) (-(8 * (k : Int)))
    g g1 g2 h1 h2 (by push_cast; omega) (by push_cast; omega)
  have e : (-8 : Int) + -(8 * (k : Int)) = -(8 * ((k + 1 : Nat) : Int)) := by
    push_cast
    omega
  rw [e] at this
  exact this

theorem func_call_save_seg (ts : List Ctype) :
    ∀ (ir xr : Int) (g : Gen) (ireg xreg : Int) (g1 : Gen),
      func_call_save ts ir xr g = .ok (ireg, xreg, g1) → 0 ≤ xr →
      Seg 0 (8 * ((ts.countP (fun t => !is_flotype t) +
        (if xr > 0 then ts.countP is_flotype else ts.countP is_flotype - 1) : Nat) : Int)) g g1 := by
  induction ts with
  | nil =>
    intro ir xr g ireg xreg g1 h _
    simp only [func_call_save] at h
    injection h with h
    injection h with _ h
    injection h with _ h
    subst h
    have := seg_refl g
    split <;> simpa using this
  | cons t ts ih =>
    intro ir xr g ireg xreg g1 h hx
    by_cases hf : is_flotype t = true
    · simp only [func_call_save, hf, if_true] at h
      have hrec := ih _ _ _ _ _ _ h (by omega)
      rw [if_pos (by omega)] at hrec
      by_cases hp : xr > 0
      · simp only [hp, if_true] at hrec ⊢
        have := st_seg 8 _ (8 * ((List.countP (fun t => !is_flotype t) (t :: ts) +
          List.countP is_flotype (t :: ts) : Nat) : Int)) g _ g1 (seg_push_xmm xr g) hrec
          (by simp [List.countP_cons, hf]; omega) (by decide)
        exact this
      · simp only [hp, if_false] at hrec ⊢
        have e : (List.countP (fun t => !is_flotype t) (t :: ts) +
            (List.countP is_flotype (t :: ts) - 1) : Nat) =
            List.countP (fun t => !is_flotype t) ts + List.countP is_flotype ts := by
          simp [List.countP_cons, hf]
        rw [e]
        exact hrec
    · have hf' : is_flotype t = false := by simpa using hf
      simp only [func_call_save, hf', Bool.false_eq_true, if_false, bind_eq_ok] at h
      obtain ⟨r, _, h⟩ := h
      have hrec := ih _ _ _ _ _ _ h hx
      refine st_seg 8 _ _ g _ g1 (seg_push r g) hrec ?_ (by decide)
      by_cases hp : xr > 0 <;> simp [hp, List.countP_cons, hf'] <;> omega

theorem func_call_pop_seg (rs : List Ctype) :
    ∀ (ir xr : Int) (g : Gen) (ir' xr' : Int) (g' : Gen),
      func_call_pop rs ir xr g = .ok (ir', xr', g') →
      Seg (-(8 * (rs.length : Int))) (-(8 * (rs.length : Int))) g g' := by
  induction rs with
  | nil =>
    intro ir xr g ir' xr' g' h
    simp only [func_call_pop] at h
    injection h with h
    injection h with _ h
    injection h with _ h
    subst h
    simpa using seg_refl g
  | cons t rs ih =>
    intro ir xr g ir' xr' g' h
    by_cases hf : is_flotype t = true
    · simp only [func_call_pop, hf, if_true, bind_eq_ok] at h
      obtain ⟨ga, hga, h⟩ := h
      exact seg_pops rs.length g ga g' (seg_pop_xmm _ _ _ hga) (ih _ _ _ _ _ _ h)
    · have hf' : is_flotype t = false := by simpa using hf
      simp only [func_call_pop, hf', Bool.false_eq_true, if_false, bind_eq_ok] at h
      obtain ⟨r, _, ga, hga, h⟩ := h
      exact seg_pops rs.length g ga g' (seg_pop _ _ _ hga) (ih _ _ _ _ _ _ h)

theorem func_call_restore_seg (rs : List Ctype) :
    ∀ (ireg xreg : Int) (g : Gen) (a b : Int) (g' : Gen),
      func_call_restore rs ireg xreg g = .ok (a, b, g') →
      (xreg = (rs.countP is_flotype : Nat) ∨ rs.countP is_flotype = 0) →
      Seg (-(8 * ((rs.countP (fun t => !is_flotype t) + (rs.countP is_flotype - 1) : Nat) : Int)))
        (-(8 * ((rs.countP (fun t => !is_flotype t) + (rs.countP is_flotype - 1) : Nat) : Int)))
        g g' := by
  induction rs with
  | nil =>
    intro ireg xreg g a b g' h _
    simp only [func_call_restore] at h
    injection h with h
    injection h with _ h
    injection h with _ h
    subst h
    simpa using seg_refl g
  | cons t rs ih =>
    intro ireg xreg g a b g' h hx
    by_cases hf : is_flotype t = true
    · have hx' : xreg = ((rs.countP is_flotype + 1 : Nat) : Int) := by
        rcases hx with hx | hx
        · rw [hx]
          simp [List.countP_cons, hf]
        · simp [List.countP_cons, hf] at hx
      by_cases h1 : xreg ≠ 1
      · simp only [func_call_restore, hf, if_true, h1, ne_eq, not_false_eq_true, bind_eq_ok] at h
        obtain ⟨ga, hga, h⟩ := h
        have hrec := ih _ _ _ _ _ _ h (Or.inl (by rw [hx']; push_cast; omega))
        have hc : 1 ≤ rs.countP is_flotype := by
          rcases Nat.eq_zero_or_pos (rs.countP is_flotype) with h0 | h0
          · exfalso
            apply h1
            rw [hx', h0]
            rfl
          · exact h0
        have e : (List.countP (fun t => !is_flotype t) (t :: rs) +
            (List.countP is_flotype (t :: rs) - 1) : Nat) =
            (List.countP (fun t => !is_flotype t) rs + (List.countP is_flotype rs - 1)) + 1 := by
          simp [List.countP_cons, hf]
          omega
        rw [e]
        exact seg_pops _ g ga g' (seg_pop_xmm _ _ _ hga) hrec
      · have h1' : xreg = 1 := not_not.1 h1
        simp only [func_call_restore, hf, if_true, h1', ne_eq, not_true_eq_false, if_false] at h
        have hc : rs.countP is_flotype = 0 := by
          rw [h1'] at hx'
          have : (1 : Int) = ((rs.countP is_flotype + 1 : Nat) : Int) := hx'
          omega
        have hrec := ih _ _ _ _ _ _ h (Or.inr hc)
        have e : (List.countP (fun t => !is_flotype t) (t :: rs) +
            (List.countP is_flotype (t :: rs) - 1) : Nat) =
            List.countP (fun t => !is_flotype t) rs + (List.countP is_flotype rs - 1) := by
          simp [List.countP_cons, hf, hc]
        rw [e]
        exact hrec
    · have hf' : is_flotype t = false := by simpa using hf
      simp only [func_call_restore, hf', Bool.false_eq_true, if_false, bind_eq_ok] at h
      obtain ⟨r, _, ga, hga, h⟩ := h
      have hrec := ih _ _ _ _ _ _ h (by
        rcases hx with hx | hx
        · left
          rw [hx]
          simp [List.countP_cons, hf']
        · right
          simpa [List.countP_cons, hf'] using hx)
      have e : (List.countP (fun t => !is_flotype t) (t :: rs) +
          (List.countP is_flotype (t :: rs) - 1) : Nat) =
          (List.countP (fun t => !is_flotype t) rs + (List.countP is_flotype rs - 1)) + 1 := by
        simp [List.countP_cons, hf']
        omega
      rw [e]
      exact seg_pops _ g ga g' (seg_pop _ _ _ hga) hrec

theorem get_arg_types_length (vs : List Node) :
    ∀ (ps ts : List Ctype), get_arg_types vs ps = .ok ts → ts.length = vs.length := by
  induction vs with
  | nil =>
    intro ps ts h
    simp only [get_arg_types] at h
    injection h with h
    subst h
    rfl
  | cons v vs ih =>
    intro ps ts h
    cases ps with
    | nil =>
      simp only [get_arg_types, bind_eq_ok, pure, Except.pure] at h
      obtain ⟨t, _, r, hr, h⟩ := h
      injection h with h
      rw [← h, List.length_cons, ih _ _ hr, List.length_cons]
    | cons p ps =>
      simp only [get_arg_types, bind_eq_ok, pure, Except.pure] at h
      obtain ⟨r, hr, h⟩ := h
      injection h with h
      rw [← h, List.length_cons, ih _ _ hr, List.length_cons]
theorem emit_func_call_args_seg (vs : List Node) :
    ∀ (ts : List Ctype) (g g' : Gen), (∀ v ∈ vs, Bal (emit_expr v)) →
      emit_func_call_args vs ts g = .ok g' → Seg 0 (8 * (vs.length : Int)) g g' := by
  induction vs with
  | nil =>
    intro ts g g' _ h
    simp only [emit_func_call_args] at h
    injection h with h
    subst h
    simpa using seg_refl g
  | cons v vs ih =>
    intro ts g g' hb h
    rw [emit_func_call_args] at h
    simp only [bind_eq_ok] at h
    obtain ⟨g1, e1, h⟩ := h
    cases ts with
    | nil =>
      simp only [bind_eq_ok] at h
      obtain ⟨y, hy, _⟩ := h
      cases hy
    | cons ptype ts' =>
    simp only [pure, Except.pure, ok_bind, bind_eq_ok] at h
    obtain ⟨vt, _, h⟩ := h
    have hrec := ih _ _ _ (fun u hu => hb u (List.mem_cons_of_mem _ hu)) h
    have s1 : Seg 0 0 g (emit_save_convert ptype vt g1) :=
      st_bal 0 g g1 _ (hb v (List.mem_cons_self _ _) _ _ e1) (emit_save_convert_seg _ _ _)
        (le_refl _)
    have s2 : Seg 0 8 g (if is_flotype ptype = true then push_xmm 0 (emit_save_convert ptype vt g1)
        else push .rax (emit_save_convert ptype vt g1)) := by
      split
      · exact st_push_xmm 0 8 g _ 0 s1 rfl (le_refl _)
      · exact st_push 0 8 g _ .rax s1 rfl (le_refl _)
    refine st_seg 8 _ _ g _ g' s2 hrec ?_ (by decide)
    rw [List.length_cons]
    push_cast
    omega

theorem call_text_effect (isptr : Bool) (fname : String) (x sp : Int) :
    ∀ i ∈ call_text isptr fname x sp, stack_effect i = 0 := by
  intro i hi
  unfold call_text at hi
  simp only [List.mem_append, List.mem_singleton] at hi
  rcases hi with ((hi | hi) | hi) | hi
  · subst hi
    rfl
  · split at hi
    · simp only [List.mem_singleton] at hi
      subst hi
      rfl
    · cases hi
  · subst hi
    cases isptr <;> rfl
  · split at hi
    · simp only [List.mem_singleton] at hi
      subst hi
      rfl
    · cases hi

theorem emit_func_call_inv_seg (isptr : Bool) (ctype : Ctype) (fname : String)
    (argtypes : Except Fatal (List Ctype)) (efptr : Gen → Emit)
    (eargs : List Ctype → Gen → Emit) (g g' : Gen)
    (h : emit_func_call isptr ctype fname argtypes efptr eargs g = .ok g') :
    ∃ (ts : List Ctype) (ireg xreg : Int) (g1 g2 g3 : Gen) (ir xr : Int) (g4 g5 g5' : Gen)
      (ir2 xr2 : Int) (g6 : Gen),
      argtypes = .ok ts ∧ func_call_save ts 0 0 g = .ok (ireg, xreg, g1) ∧
      (if isptr = true then ∃ gf, efptr g1 = .ok gf ∧ g2 = push .rax gf else g2 = g1) ∧
      eargs ts g2 = .ok g3 ∧
      func_call_pop ts.reverse ireg xreg g3 = .ok (ir, xr, g4) ∧
      (if isptr = true then pop .rbx g4 = .ok g5 else g5 = g4) ∧
      Seg 0 0 g5 g5' ∧
      func_call_restore ts.reverse ireg xreg g5' = .ok (ir2, xr2, g6) ∧
      Seg 0 0 g6 g' := by
  have hmid : ∀ (b : Bool) (x : Int) (g5 : Gen),
      Seg 0 0 g5
        (if (emit (if b = true then i1 .call (.star .rbx) else i1 .call (.target (.name fname)))
            (if (emit (i2 .mov (.imm x) (.reg .eax)) g5).stackpos.tmod 16 ≠ 0 then
              emit (i2 .sub (.imm 8) (.reg .rsp)) (emit (i2 .mov (.imm x) (.reg .eax)) g5)
            else emit (i2 .mov (.imm x) (.reg .eax)) g5)).stackpos.tmod 16 ≠ 0 then
          emit (i2 .add (.imm 8) (.reg .rsp))
            (emit (if b = true then i1 .call (.star .rbx) else i1 .call (.target (.name fname)))
              (if (emit (i2 .mov (.imm x) (.reg .eax)) g5).stackpos.tmod 16 ≠ 0 then
                emit (i2 .sub (.imm 8) (.reg .rsp)) (emit (i2 .mov (.imm x) (.reg .eax)) g5)
              else emit (i2 .mov (.imm x) (.reg .eax)) g5))
        else
          emit (if b = true then i1 .call (.star .rbx) else i1 .call (.target (.name fname)))
            (if (emit (i2 .mov (.imm x) (.reg .eax)) g5).stackpos.tmod 16 ≠ 0 then
              emit (i2 .sub (.imm 8) (.reg .rsp)) (emit (i2 .mov (.imm x) (.reg .eax)) g5)
            else emit (i2 .mov (.imm x) (.reg .eax)) g5)) := by
    intro b x g5
    have e : (if (emit (if b = true then i1 .call (.star .rbx)
              else i1 .call (.target (.name fname)))
            (if (emit (i2 .mov (.imm x) (.reg .eax)) g5).stackpos.tmod 16 ≠ 0 then
              emit (i2 .sub (.imm 8) (.reg .rsp)) (emit (i2 .mov (.imm x) (.reg .eax)) g5)
            else emit (i2 .mov (.imm x) (.reg .eax)) g5)).stackpos.tmod 16 ≠ 0 then
          emit (i2 .add (.imm 8) (.reg .rsp))
            (emit (if b = true then i1 .call (.star .rbx) else i1 .call (.target (.name fname)))
              (if (emit (i2 .mov (.imm x) (.reg .eax)) g5).stackpos.tmod 16 ≠ 0 then
                emit (i2 .sub (.imm 8) (.reg .rsp)) (emit (i2 .mov (.imm x) (.reg .eax)) g5)
              else emit (i2 .mov (.imm x) (.reg .eax)) g5))
        else
          emit (if b = true then i1 .call (.star .rbx) else i1 .call (.target (.name fname)))
            (if (emit (i2 .mov (.imm x) (.reg .eax)) g5).stackpos.tmod 16 ≠ 0 then
              emit (i2 .sub (.imm 8) (.reg .rsp)) (emit (i2 .mov (.imm x) (.reg .eax)) g5)
            else emit (i2 .mov (.imm x) (.reg .eax)) g5)) =
        { g5 with out := g5.out ++ call_text b fname x g5.stackpos } := by
      cases b <;> by_cases hsp : g5.stackpos.tmod 16 = 0 <;> simp [call_text, emit, hsp]
    rw [e]
    exact seg_text _ _ _ rfl rfl (call_text_effect _ _ _ _)
  have hfin : ∀ (g6 : Gen),
      (if ctype.type = .FLOAT then
          (Except.ok (emit (i2 .cvtps2pd (.reg (.xmm 0)) (.reg (.xmm 0))) g6) : Emit)
        else Except.ok g6) = .ok g' → Seg 0 0 g6 g' := by
    intro g6 e
    split at e
    · injection e with e
      subst e
      exact seg_emit _ (by rfl) g6
    · injection e with e
      subst e
      exact seg_refl g6
  cases isptr with
  | false =>
    simp only [emit_func_call, Bool.false_eq_true, if_false, bind_eq_ok, pure, Except.pure]
      at h
    obtain ⟨ts, hts, ⟨ireg, xreg, g1⟩, hsave, g2, hg2, g3, hargs, ⟨ir, xr, g4⟩, hpop, g5, hg5,
      ⟨ir2, xr2, g6⟩, hrest, hf⟩ := h
    injection hg2 with hg2
    injection hg5 with hg5
    have hc := hmid false xreg g5
    simp only [Bool.false_eq_true, if_false] at hc
    exact ⟨ts, ireg, xreg, g1, g2, g3, ir, xr, g4, g5, _, ir2, xr2, g6, hts, hsave,
      by simpa using hg2.symm, hargs, hpop, by simpa using hg5.symm, hc, hrest, hfin g6 hf⟩
  | true =>
    simp only [emit_func_call, if_true, bind_eq_ok, pure, Except.pure] at h
    obtain ⟨ts, hts, ⟨ireg, xreg, g1⟩, hsave, gf, hgf, g2, hg2, g3, hargs, ⟨ir, xr, g4⟩, hpop,
      g5, hg5, ⟨ir2, xr2, g6⟩, hrest, hf⟩ := h
    injection hg2 with hg2
    have hc := hmid true xreg g5
    simp only [if_true] at hc
    exact ⟨ts, ireg, xreg, g1, g2, g3, ir, xr, g4, g5, _, ir2, xr2, g6, hts, hsave,
      by simpa using ⟨gf, hgf, hg2.symm⟩, hargs, hpop, by simpa using hg5, hc, hrest, hfin g6 hf⟩

theorem emit_func_call_bal (isptr : Bool) (ctype : Ctype) (fname : String) (args : List Node)
    (ps : Except Fatal (List Ctype)) (efptr : Gen → Emit)
    (hps : ∀ ts, ps = .ok ts → ts.length = args.length) (hf : Bal efptr)
    (ha : ∀ v ∈ args, Bal (emit_expr v)) :
    Bal (emit_func_call isptr ctype fname ps efptr (emit_func_call_args args)) := by
  intro g g' h
  obtain ⟨ts, ireg, xreg, g1, g2, g3, ir, xr, g4, g5, g5', ir2, xr2, g6, hts, hsave, hptr, hargs,
    hpop, hrbx, scall, hrest, sfin⟩ := emit_func_call_inv_seg _ _ _ _ _ _ _ _ h
  have hlen := hps ts hts
  have hcnt := func_call_save_counts ts 0 0 g ireg xreg g1 hsave
  have ssave := func_call_save_seg ts 0 0 g ireg xreg g1 hsave (le_refl _)
  simp only [gt_iff_lt, lt_self_iff_false, if_false] at ssave
  have sargs := emit_func_call_args_seg args ts g2 g3 ha hargs
  have spop := func_call_pop_seg ts.reverse ireg xreg g3 ir xr g4 hpop
  have srest := func_call_restore_seg ts.reverse ireg xreg _ ir2 xr2 g6 hrest
    (Or.inl (by rw [hcnt.2, List.countP_reverse]; simp))
  rw [List.length_reverse, hlen] at spop
  simp only [List.countP_reverse] at srest
  generalize hS : ((List.countP (fun t => !is_flotype t) ts +
    (List.countP is_flotype ts - 1) : Nat) : Int) = S at ssave srest
  have hS0 : 0 ≤ S := by rw [← hS]; exact Int.natCast_nonneg _
  generalize hN : (args.length : Int) = N at sargs spop
  have hN0 : 0 ≤ N := by rw [← hN]; exact Int.natCast_nonneg _
  cases isptr with
  | false =>
    simp only [Bool.false_eq_true, if_false] at hptr hrbx
    subst hptr hrbx
    have s3 : Seg 0 (8 * S + 8 * N) g g3 := st_seg _ _ _ g _ g3 ssave sargs rfl (by omega)
    have s4 : Seg 0 (8 * S) g g5 := st_neg _ _ _ g _ g5 s3 spop (by omega) (by omega)
    have s5 : Seg 0 (8 * S) g g5' := st_bal _ g _ _ s4 scall (by omega)
    have s6 : Seg 0 0 g g6 := st_neg _ _ _ g _ g6 s5 srest (by omega) (by omega)
    exact seg_bal g g6 g' s6 sfin
  | true =>
    simp only [if_true] at hptr hrbx
    obtain ⟨gf, hgf, rfl⟩ := hptr
    have s2 : Seg 0 (8 * S + 8) g (push .rax gf) :=
      st_push _ _ g gf .rax (st_bal _ g _ gf ssave (hf _ _ hgf) (by omega)) rfl (by omega)
    have s3 : Seg 0 (8 * S + 8 + 8 * N) g g3 := st_seg _ _ _ g _ g3 s2 sargs rfl (by omega)
    have s4 : Seg 0 (8 * S + 8) g g4 := st_neg _ _ _ g _ g4 s3 spop (by omega) (by omega)
    have s5 : Seg 0 (8 * S) g g5' :=
      st_bal _ g _ _ (st_pop _ _ g g4 g5 .rbx s4 hrbx (by omega) (by omega)) scall (by omega)
    have s6 : Seg 0 0 g g6 := st_neg _ _ _ g _ g6 s5 srest (by omega) (by omega)
    exact seg_bal g g6 g' s6 sfin
theorem seg_upd (g g1 g2 : Gen) (h : Seg 0 0 g g1) (ho : g2.out = g1.out)
    (hs : g2.stackpos = g1.stackpos) : Seg 0 0 g g2 :=
  seg_bal g g1 g2 h (seg_same g1 g2 ho hs)

theorem emit_literal_bal (ctype : Ctype) (ival : Int) (fval : Nat) (id : Nat) :
    Bal (emit_literal ctype ival fval id) := by
  intro g g' h
  unfold emit_literal at h
  split at h
  all_goals first
    | (injection h with h
       subst h
       exact seg_emit _ (by rfl) g)
    | (split at h
       · injection h with h
         subst h
         exact seg_emit _ (by rfl) g
       · injection h with h
         subst h
         exact st_emit 0 g _ _ (st_emit 0 g _ _ (st_emit 0 g _ _ (st_emit 0 g _ _
           (st_emit 0 g _ _ (st_emit 0 g _ _ (seg_same g _ rfl rfl) (by rfl) (le_refl _))
           (by rfl) (le_refl _)) (by rfl) (le_refl _)) (by rfl) (le_refl _)) (by rfl) (le_refl _))
           (by rfl) (le_refl _))
    | cases h

theorem emit_literal_string_seg (sval : String) (id : Nat) (g : Gen) :
    Seg 0 0 g (emit_literal_string sval id g) := by
  unfold emit_literal_string
  split
  · exact seg_emit _ (by rfl) g
  · exact st_emit 0 g _ _ (st_emit 0 g _ _ (st_emit 0 g _ _ (st_emit 0 g _ _
      (st_emit 0 g _ _ (seg_same g _ rfl rfl) (by rfl) (le_refl _)) (by rfl) (le_refl _))
      (by rfl) (le_refl _)) (by rfl) (le_refl _)) (by rfl) (le_refl _)

theorem emit_lvar_bal (ctype : Ctype) (loff : Int) (id : Nat) (init : Option (Gen → Emit))
    (hi : BalO init) : Bal (emit_lvar ctype loff id init) := by
  intro g g' h
  unfold emit_lvar at h
  simp only [bind_eq_ok] at h
  obtain ⟨g1, e1, e2⟩ := h
  exact seg_bal g g1 g' (ensure_lvar_init_bal id init hi _ _ e1) (emit_lload_bal _ _ _ _ _ e2)

theorem emit_gvar_bal (ctype : Ctype) (glabel : Label) : Bal (emit_gvar ctype glabel) :=
  emit_gload_bal ctype glabel 0

theorem emit_decl_bal (declvar : Node) (init : Option (Int → Gen → Emit))
    (hi : ∀ run, init = some run → ∀ off, Bal (run off)) : Bal (emit_decl declvar init) := by
  intro g g' h
  unfold emit_decl at h
  cases init with
  | none =>
    injection h with h
    subst h
    exact seg_refl g
  | some run =>
    cases declvar <;> first
      | cases h
      | exact seg_bal g _ g' (emit_zero_filler_seg _ _ g) (hi run rfl _ _ _ h)

theorem emit_deref_bal (ctype : Ctype) (operand : Node) (eo : Gen → Emit) (ho : Bal eo) :
    Bal (emit_deref ctype operand eo) := by
  intro g g' h
  unfold emit_deref at h
  simp only [bind_eq_ok, pure, Except.pure] at h
  obtain ⟨g1, e1, t, _, g2, e2, e3⟩ := h
  injection e3 with e3
  subst e3
  exact seg_bal g g2 _ (seg_bal g g1 g2 (ho _ _ e1) (emit_lload_bal _ _ _ _ _ e2))
    (emit_load_convert_seg _ _ _)

theorem emit_opt_bal (e : Option (Gen → Emit)) (he : BalO e) : Bal (emit_opt e) := by
  intro g g' h
  unfold emit_opt at h
  cases e with
  | none =>
    injection h with h
    subst h
    exact seg_refl g
  | some run => exact he run rfl _ _ h

theorem make_label_split (g : Gen) (p : Label × Gen) (h : make_label g = p) : Seg 0 0 g p.2 := by
  subst h
  exact make_label_seg g

theorem opt_run_bal (e : Option (Gen → Emit)) (he : BalO e) (g g' : Gen)
    (h : (match e with
      | some run => run g
      | none => pure g) = .ok g') : Seg 0 0 g g' := by
  cases e with
  | none =>
    injection h with h
    subst h
    exact seg_refl g
  | some run => exact he run rfl _ _ h

theorem emit_ternary_bal (ec : Gen → Emit) (et ee : Option (Gen → Emit)) (hc : Bal ec)
    (ht : BalO et) (he : BalO ee) : Bal (emit_ternary ec et ee) := by
  intro g g' h
  unfold emit_ternary at h
  simp only [bind_eq_ok] at h
  obtain ⟨g1, e1, h⟩ := h
  generalize hm : make_label g1 = p at h
  obtain ⟨ne, g2⟩ := p
  have s2 : Seg 0 0 g g2 := seg_bal g g1 g2 (hc _ _ e1) (make_label_split _ _ hm)
  dsimp only at h
  have key : ∀ g3, Seg 0 0 g g3 → (match ee with
      | some run =>
        match make_label g3 with
        | (end_, g) => do
          let g ← run (emit_label ne (emit_jmp end_ g))
          pure (emit_label end_ g)
      | none => pure (emit_label ne g3)) = .ok g' → Seg 0 0 g g' := by
    intro g3 s3 h
    cases ee with
    | none =>
      injection h with h
      subst h
      exact seg_bal g g3 _ s3 (emit_label_seg _ _)
    | some run =>
      dsimp only at h
      generalize hm : make_label g3 = p at h
      obtain ⟨end_, g4⟩ := p
      dsimp only at h
      simp only [bind_eq_ok, pure, Except.pure] at h
      obtain ⟨g5, e5, e6⟩ := h
      injection e6 with e6
      subst e6
      exact seg_bal g g5 _ (seg_bal g _ g5 (seg_bal g g4 _ (seg_bal g g3 g4 s3
        (make_label_split _ _ hm)) (seg_bal _ _ _ (emit_jmp_seg _ _) (emit_label_seg _ _)))
        (he run rfl _ _ e5)) (emit_label_seg _ _)
  cases et with
  | none =>
    simp only [bind_eq_ok, pure, Except.pure] at h
    obtain ⟨g3, e3, h⟩ := h
    injection e3 with e3
    subst e3
    exact key _ (seg_bal g g2 _ s2 (emit_je_seg _ _)) h
  | some run =>
    simp only [bind_eq_ok] at h
    obtain ⟨g3, e3, h⟩ := h
    exact key g3 (seg_bal g _ g3 (seg_bal g g2 _ s2 (emit_je_seg _ _)) (ht run rfl _ _ e3)) h
theorem emit_for_bal (einit econd estep ebody : Option (Gen → Emit)) (h1 : BalO einit)
    (h2 : BalO econd) (h3 : BalO estep) (h4 : BalO ebody) :
    Bal (emit_for einit econd estep ebody) := by
  intro g g' h
  unfold emit_for at h
  simp only [bind_eq_ok] at h
  obtain ⟨g1, e1, h⟩ := h
  generalize hm1 : make_label g1 = p1 at h
  obtain ⟨begin_, g2⟩ := p1
  dsimp only at h
  generalize hm2 : make_label g2 = p2 at h
  obtain ⟨step, g3⟩ := p2
  dsimp only at h
  generalize hm3 : make_label g3 = p3 at h
  obtain ⟨end_, g4⟩ := p3
  dsimp only at h
  have s4 : Seg 0 0 g g4 := seg_bal g g3 g4 (seg_bal g g2 g3 (seg_bal g g1 g2
    (emit_opt_bal _ h1 _ _ e1) (make_label_split _ _ hm1)) (make_label_split _ _ hm2))
    (make_label_split _ _ hm3)
  have s5 := seg_bal g _ _ (seg_upd g g4 { g4 with lbreak := some end_, lcontinue := some step }
    s4 rfl rfl) (emit_label_seg begin_ _)
  have key : ∀ g5, Seg 0 0 g g5 → (do
      let g ← emit_opt ebody g5
      let g ← emit_opt estep (emit_label step g)
      pure { emit_label end_ (emit_jmp begin_ g) with
        lbreak := g4.lbreak, lcontinue := g4.lcontinue } : Emit) = .ok g' → Seg 0 0 g g' := by
    intro g5 s5 h
    simp only [bind_eq_ok, pure, Except.pure] at h
    obtain ⟨g6, e6, g7, e7, e8⟩ := h
    injection e8 with e8
    subst e8
    exact seg_upd g _ _ (seg_bal g g7 _ (seg_bal g _ g7 (seg_bal g g6 _ (seg_bal g g5 g6 s5
      (emit_opt_bal _ h4 _ _ e6)) (emit_label_seg _ _)) (emit_opt_bal _ h3 _ _ e7))
      (seg_bal _ _ _ (emit_jmp_seg _ _) (emit_label_seg _ _))) rfl rfl
  cases econd with
  | none => exact key _ s5 h
  | some run =>
    simp only [bind_eq_ok, pure, Except.pure] at h
    obtain ⟨g6, e6, g7, e7, h⟩ := h
    injection e7 with e7
    subst e7
    exact key (emit_je end_ g6) (seg_bal g _ _ (seg_bal g _ g6 s5 (h2 run rfl _ _ e6))
      (emit_je_seg _ _)) (by simpa only [bind_eq_ok, pure, Except.pure] using h)

theorem emit_while_bal (econd : Gen → Emit) (ebody : Option (Gen → Emit)) (h1 : Bal econd)
    (h2 : BalO ebody) : Bal (emit_while econd ebody) := by
  intro g g' h
  unfold emit_while at h
  generalize hm1 : make_label g = p1 at h
  obtain ⟨begin_, g2⟩ := p1
  dsimp only at h
  generalize hm2 : make_label g2 = p2 at h
  obtain ⟨end_, g3⟩ := p2
  dsimp only at h
  simp only [bind_eq_ok, pure, Except.pure] at h
  obtain ⟨g4, e4, g5, e5, e6⟩ := h
  injection e6 with e6
  subst e6
  have s3 : Seg 0 0 g g3 := seg_bal g g2 g3 (make_label_split _ _ hm1) (make_label_split _ _ hm2)
  have s4 := seg_bal g _ g4 (seg_bal g _ _ (seg_upd g g3
    { g3 with lbreak := some end_, lcontinue := some begin_ } s3 rfl rfl)
    (emit_label_seg begin_ _)) (h1 _ _ e4)
  exact seg_upd g _ _ (seg_bal g g5 _ (seg_bal g _ g5 (seg_bal g g4 _ s4 (emit_je_seg _ _))
    (emit_opt_bal _ h2 _ _ e5)) (seg_bal _ _ _ (emit_jmp_seg _ _) (emit_label_seg _ _))) rfl rfl

theorem emit_do_bal (econd : Gen → Emit) (ebody : Option (Gen → Emit)) (h1 : Bal econd)
    (h2 : BalO ebody) : Bal (emit_do econd ebody) := by
  intro g g' h
  unfold emit_do at h
  generalize hm1 : make_label g = p1 at h
  obtain ⟨begin_, g2⟩ := p1
  dsimp only at h
  generalize hm2 : make_label g2 = p2 at h
  obtain ⟨end_, g3⟩ := p2
  dsimp only at h
  simp only [bind_eq_ok, pure, Except.pure] at h
  obtain ⟨g4, e4, g5, e5, e6⟩ := h
  injection e6 with e6
  subst e6
  have s3 : Seg 0 0 g g3 := seg_bal g g2 g3 (make_label_split _ _ hm1) (make_label_split _ _ hm2)
  have s4 := seg_bal g _ g4 (seg_bal g _ _ (seg_upd g g3
    { g3 with lbreak := some end_, lcontinue := some begin_ } s3 rfl rfl)
    (emit_label_seg begin_ _)) (emit_opt_bal _ h2 _ _ e4)
  exact seg_upd g _ _ (seg_bal g g5 _ (seg_bal g g4 g5 s4 (h1 _ _ e5))
    (seg_bal _ _ _ (emit_je_seg _ _) (seg_bal _ _ _ (emit_jmp_seg _ _) (emit_label_seg _ _))))
    rfl rfl

theorem emit_switch_bal (eexpr : Gen → Emit) (ebody : Option (Gen → Emit)) (h1 : Bal eexpr)
    (h2 : BalO ebody) : Bal (emit_switch eexpr ebody) := by
  intro g g' h
  unfold emit_switch at h
  simp only [bind_eq_ok] at h
  obtain ⟨g1, e1, h⟩ := h
  generalize hm1 : make_label g1 = p1 at h
  obtain ⟨l1, g2⟩ := p1
  dsimp only at h
  generalize hm2 : make_label { g2 with lswitch := some l1 } = p2 at h
  obtain ⟨l2, g3⟩ := p2
  dsimp only at h
  obtain ⟨g4, e4, h⟩ := h
  have s3 : Seg 0 0 g g3 := seg_bal g _ g3 (seg_upd g g2 { g2 with lswitch := some l1 }
    (seg_bal g g1 g2 (h1 _ _ e1) (make_label_split _ _ hm1)) rfl rfl) (make_label_split _ _ hm2)
  have s4 := seg_bal g _ g4 (seg_bal g _ _ (seg_upd g g3 { g3 with lbreak := some l2 } s3 rfl rfl)
    (emit_jmp_seg l1 _)) (emit_opt_bal _ h2 _ _ e4)
  split at h
  · simp only [pure, Except.pure, ok_bind] at h
    split at h
    · injection h with h
      subst h
      exact seg_upd g _ _ (seg_bal g g4 _ s4 (seg_bal _ _ _ (emit_label_seg _ _)
        (emit_label_seg _ _))) rfl rfl
    · simp [bind, Except.bind] at h
  · simp [bind, Except.bind] at h
theorem emit_case_bal (casebeg caseend : Int) : Bal (emit_case casebeg caseend) := by
  intro g g' h
  unfold emit_case at h
  split at h
  · cases h
  · generalize hm1 : make_label g = p1 at h
    obtain ⟨skip, g2⟩ := p1
    dsimp only at h
    generalize hm2 : make_label (emit_label _ (emit_jmp skip g2)) = p2 at h
    obtain ⟨next, g3⟩ := p2
    dsimp only at h
    injection h with h
    subst h
    have s3 : Seg 0 0 g g3 := seg_bal g _ g3 (seg_bal g g2 _ (make_label_split _ _ hm1)
      (seg_bal _ _ _ (emit_jmp_seg _ _) (emit_label_seg _ _))) (make_label_split _ _ hm2)
    have s4 := seg_bal g _ _ (seg_upd g g3 { g3 with lswitch := some next } s3 rfl rfl)
      (seg_emit (i2 .cmp (.imm casebeg) (.reg .eax)) (by rfl) _)
    refine seg_bal g _ _ ?_ (emit_label_seg _ _)
    split
    · exact seg_bal g _ _ s4 (seg_emit _ (by rfl) _)
    · exact seg_bal g _ _ (seg_bal g _ _ (seg_bal g _ _ s4 (seg_emit _ (by rfl) _))
        (seg_emit _ (by rfl) _)) (seg_emit _ (by rfl) _)

theorem emit_default_bal : Bal emit_default := by
  intro g g' h
  unfold emit_default at h
  split at h
  · cases h
  · injection h with h
    subst h
    exact seg_upd g _ _ (seg_bal g _ _ (emit_label_seg _ _) (make_label_seg _)) rfl rfl

theorem emit_goto_seg (l : Label) (g : Gen) : Seg 0 0 g (emit_goto l g) := emit_jmp_seg l g

theorem emit_return_bal (ctype : Ctype) (retval : Option Node) (eret : Option (Gen → Emit))
    (he : BalO eret) : Bal (emit_return ctype retval eret) := by
  intro g g' h
  unfold emit_return at h
  split at h
  · simp only [bind_eq_ok, pure, Except.pure] at h
    obtain ⟨g2, e2, t, _, g3, e3, e4⟩ := h
    injection e3 with e3
    injection e4 with e4
    subst e3 e4
    exact seg_bal g _ _ (seg_bal g g2 _ (he _ rfl _ _ e2) (emit_save_convert_seg _ _ _))
      (emit_ret_seg _)
  · injection h with h
    subst h
    exact emit_ret_seg g

theorem emit_break_bal : Bal emit_break := by
  intro g g' h
  unfold emit_break at h
  split at h
  · cases h
  · injection h with h
    subst h
    exact emit_jmp_seg _ g

theorem emit_continue_bal : Bal emit_continue := by
  intro g g' h
  unfold emit_continue at h
  split at h
  · cases h
  · injection h with h
    subst h
    exact emit_jmp_seg _ g

theorem emit_va_start_bal (eap : Gen → Emit) (ha : Bal eap) : Bal (emit_va_start eap) := by
  intro g g' h
  unfold emit_va_start at h
  simp only [bind_eq_ok] at h
  obtain ⟨g1, e1, e2⟩ := h
  exact st_pop 8 0 g _ g' .rcx (st_emit 8 g _ _ (st_emit 8 g _ _ (st_emit 8 g _ _ (st_emit 8 g _ _
    (st_push 0 8 g g1 .rcx (ha _ _ e1) rfl (le_refl _)) (by rfl) (by decide)) (by rfl) (by decide))
    (by rfl) (by decide)) (by rfl) (by decide)) e2 rfl (le_refl _)

theorem emit_va_arg_bal (ctype : Ctype) (eap : Gen → Emit) (ha : Bal eap) :
    Bal (emit_va_arg ctype eap) := by
  intro g g' h
  unfold emit_va_arg at h
  simp only [bind_eq_ok] at h
  obtain ⟨g1, e1, g2, e2, e3⟩ := h
  have s1 : Seg 0 16 g (emit (i2 .mov (.mem 16 .rax) (.reg .rcx))
      (push .rbx (push .rcx (emit (i0 .nop) g1)))) :=
    st_emit 16 g _ _ (st_push 8 16 g _ .rbx (st_push 0 8 g _ .rcx (st_emit 0 g g1 _ (ha _ _ e1)
      (by rfl) (le_refl _)) rfl (le_refl _)) rfl (by decide)) (by rfl) (by decide)
  refine st_pop 8 0 g g2 g' .rcx (st_pop 16 8 g _ g2 .rbx ?_ e2 rfl (by decide)) e3 rfl (le_refl _)
  split
  · exact st_emit 16 g _ _ (st_emit 16 g _ _ (st_emit 16 g _ _ (st_emit 16 g _ _ (st_emit 16 g _ _
      s1 (by rfl) (by decide)) (by rfl) (by decide)) (by rfl) (by decide)) (by rfl) (by decide))
      (by rfl) (by decide)
  · exact st_emit 16 g _ _ (st_emit 16 g _ _ (st_emit 16 g _ _ (st_emit 16 g _ _ (st_emit 16 g _ _
      s1 (by rfl) (by decide)) (by rfl) (by decide)) (by rfl) (by decide)) (by rfl) (by decide))
      (by rfl) (by decide)

theorem emit_logand_bal (el er : Gen → Emit) (hl : Bal el) (hr : Bal er) :
    Bal (emit_logand el er) := by
  intro g g' h
  unfold emit_logand at h
  generalize hm1 : make_label g = p1 at h
  obtain ⟨end_, g1⟩ := p1
  dsimp only at h
  simp only [bind_eq_ok, pure, Except.pure] at h
  obtain ⟨g2, e2, g3, e3, e4⟩ := h
  injection e4 with e4
  subst e4
  have s2 := st_emit 0 g _ _ (st_emit 0 g _ _ (st_emit 0 g g2 (i2 .test (.reg .rax) (.reg .rax))
    (seg_bal g g1 g2 (make_label_split _ _ hm1) (hl _ _ e2)) (by rfl) (le_refl _))
    (by rfl : stack_effect (i2 .mov (.imm 0) (.reg .rax)) = 0) (le_refl _))
    (by rfl : stack_effect (i1 .je (.target end_)) = 0) (le_refl _)
  exact seg_bal g _ _ (st_emit 0 g _ _ (st_emit 0 g _ _ (st_emit 0 g _ _ (st_emit 0 g g3 _
    (seg_bal g _ g3 s2 (hr _ _ e3)) (by rfl) (le_refl _)) (by rfl) (le_refl _)) (by rfl)
    (le_refl _)) (by rfl) (le_refl _)) (emit_label_seg _ _)

theorem emit_logor_bal (el er : Gen → Emit) (hl : Bal el) (hr : Bal er) :
    Bal (emit_logor el er) := by
  intro g g' h
  unfold emit_logor at h
  generalize hm1 : make_label g = p1 at h
  obtain ⟨end_, g1⟩ := p1
  dsimp only at h
  simp only [bind_eq_ok, pure, Except.pure] at h
  obtain ⟨g2, e2, g3, e3, e4⟩ := h
  injection e4 with e4
  subst e4
  have s2 := st_emit 0 g _ _ (st_emit 0 g _ _ (st_emit 0 g g2 (i2 .test (.reg .rax) (.reg .rax))
    (seg_bal g g1 g2 (make_label_split _ _ hm1) (hl _ _ e2)) (by rfl) (le_refl _))
    (by rfl : stack_effect (i2 .mov (.imm 1) (.reg .rax)) = 0) (le_refl _))
    (by rfl : stack_effect (i1 .jne (.target end_)) = 0) (le_refl _)
  exact seg_bal g _ _ (st_emit 0 g _ _ (st_emit 0 g _ _ (st_emit 0 g _ _ (st_emit 0 g g3 _
    (seg_bal g _ g3 s2 (hr _ _ e3)) (by rfl) (le_refl _)) (by rfl) (le_refl _)) (by rfl)
    (le_refl _)) (by rfl) (le_refl _)) (emit_label_seg _ _)

theorem emit_lognot_bal (eo : Gen → Emit) (ho : Bal eo) : Bal (emit_lognot eo) := by
  intro g g' h
  unfold emit_lognot at h
  simp only [bind_eq_ok, pure, Except.pure] at h
  obtain ⟨g1, e1, e2⟩ := h
  injection e2 with e2
  subst e2
  exact st_emit 0 g _ _ (st_emit 0 g _ _ (st_emit 0 g g1 _ (ho _ _ e1) (by rfl) (le_refl _))
    (by rfl) (le_refl _)) (by rfl) (le_refl _)

theorem emit_bitand_bal (el er : Gen → Emit) (hl : Bal el) (hr : Bal er) :
    Bal (emit_bitand el er) := by
  intro g g' h
  unfold emit_bitand at h
  simp only [bind_eq_ok, pure, Except.pure] at h
  obtain ⟨g1, e1, g2, e2, g3, e3, e4⟩ := h
  injection e4 with e4
  subst e4
  exact st_emit 0 g g3 _ (st_pop 8 0 g g2 g3 .rcx (st_bal 8 g _ g2
    (st_push 0 8 g g1 .rax (hl _ _ e1) rfl (le_refl _)) (hr _ _ e2) (by decide)) e3 rfl
    (le_refl _)) (by rfl) (le_refl _)

theorem emit_bitor_bal (el er : Gen → Emit) (hl : Bal el) (hr : Bal er) :
    Bal (emit_bitor el er) := by
  intro g g' h
  unfold emit_bitor at h
  simp only [bind_eq_ok, pure, Except.pure] at h
  obtain ⟨g1, e1, g2, e2, g3, e3, e4⟩ := h
  injection e4 with e4
  subst e4
  exact st_emit 0 g g3 _ (st_pop 8 0 g g2 g3 .rcx (st_bal 8 g _ g2
    (st_push 0 8 g g1 .rax (hl _ _ e1) rfl (le_refl _)) (hr _ _ e2) (by decide)) e3 rfl
    (le_refl _)) (by rfl) (le_refl _)

theorem emit_bitnot_bal (el : Gen → Emit) (hl : Bal el) : Bal (emit_bitnot el) := by
  intro g g' h
  unfold emit_bitnot at h
  simp only [bind_eq_ok, pure, Except.pure] at h
  obtain ⟨g1, e1, e2⟩ := h
  injection e2 with e2
  subst e2
  exact st_emit 0 g g1 _ (hl _ _ e1) (by rfl) (le_refl _)

theorem emit_cast_bal (ctype : Ctype) (operand : Node) (eo : Gen → Emit) (ho : Bal eo) :
    Bal (emit_cast ctype operand eo) := by
  intro g g' h
  unfold emit_cast at h
  simp only [bind_eq_ok, pure, Except.pure] at h
  obtain ⟨g1, e1, t, _, e2⟩ := h
  injection e2 with e2
  subst e2
  exact seg_bal g g1 _ (ho _ _ e1) (emit_load_convert_seg _ _ _)

theorem emit_comma_bal (el er : Gen → Emit) (hl : Bal el) (hr : Bal er) :
    Bal (emit_comma el er) := by
  intro g g' h
  unfold emit_comma at h
  simp only [bind_eq_ok] at h
  obtain ⟨g1, e1, e2⟩ := h
  exact seg_bal g g1 g' (hl _ _ e1) (hr _ _ e2)

theorem emit_assign_bal (ctype : Ctype) (left right : Node) (er sl al ar : Gen → Emit)
    (h1 : Bal er) (h2 : Bal sl) (h3 : Bal al) (h4 : Bal ar) :
    Bal (emit_assign ctype left right er sl al ar) := by
  intro g g' h
  unfold emit_assign at h
  simp only [bind_eq_ok] at h
  obtain ⟨lt, _, h⟩ := h
  split at h
  · exact emit_copy_struct_bal left al ar h3 h4 _ _ h
  · simp only [bind_eq_ok] at h
    obtain ⟨g1, e1, rt, _, e2⟩ := h
    exact seg_bal g _ g' (seg_bal g g1 _ (h1 _ _ e1) (emit_load_convert_seg _ _ _)) (h2 _ _ e2)
theorem bal_congr (E F : Gen → Emit) (h : ∀ g, E g = F g) (hF : Bal F) : Bal E :=
  fun g g' e => hF g g' (by rw [← h]; exact e)

theorem bal_error (E : Gen → Emit) (h : ∀ g, ∃ e, E g = .error e) : Bal E := by
  intro g g' e
  obtain ⟨x, hx⟩ := h g
  rw [hx] at e
  cases e

theorem bal_ok (E : Gen → Emit) (f : Gen → Gen) (h : ∀ g, E g = .ok (f g))
    (hf : ∀ g, Seg 0 0 g (f g)) : Bal E := by
  intro g g' e
  rw [h] at e
  injection e with e
  subst e
  exact hf g

theorem bal_bind (A B : Gen → Emit) (hA : Bal A) (hB : Bal B) : Bal (fun g => A g >>= B) := by
  intro g g' e
  simp only [bind_eq_ok] at e
  obtain ⟨g1, e1, e2⟩ := e
  exact seg_bal g g1 g' (hA _ _ e1) (hB _ _ e2)

theorem balO_expr (o : Option Node) (h : ∀ n, o = some n → AllBal n) :
    BalO (match o with
      | some n => some (emit_expr n)
      | none => none) := by
  intro e he
  cases o with
  | none => cases he
  | some n =>
    injection he with he
    subst he
    exact (h n rfl).1

theorem balO_init (o : Option (List Node)) (loff : Int) (h : ∀ l, o = some l → AllBalL l) :
    BalO (match o with
      | some l => some (emit_decl_init l loff)
      | none => none) := by
  intro e he
  cases o with
  | none => cases he
  | some l =>
    injection he with he
    subst he
    exact (h l rfl).1 loff

theorem allbal_literal (c : Ctype) (i : Int) (f : Nat) (id : Nat) : AllBal (.literal c i f id) :=
  ⟨emit_literal_bal c i f id, bal_error _ (fun _ => ⟨_, rfl⟩), bal_error _ (fun _ => ⟨_, rfl⟩),
    fun _ _ => bal_error _ (fun _ => ⟨_, rfl⟩), fun _ _ => bal_error _ (fun _ => ⟨_, rfl⟩),
    fun _ _ _ h => by cases h⟩

theorem allbal_string (c : Ctype) (s : String) (id : Nat) : AllBal (.string c s id) :=
  ⟨bal_ok _ (emit_literal_string s id) (fun _ => rfl) (emit_literal_string_seg s id),
    bal_error _ (fun _ => ⟨_, rfl⟩), bal_error _ (fun _ => ⟨_, rfl⟩),
    fun _ _ => bal_error _ (fun _ => ⟨_, rfl⟩), fun _ _ => bal_error _ (fun _ => ⟨_, rfl⟩),
    fun _ _ _ h => by cases h⟩

theorem allbal_lvar (c : Ctype) (nm : String) (loff : Int) (init : Option (List Node)) (id : Nat)
    (h : ∀ l, init = some l → AllBalL l) : AllBal (.lvar c nm loff init id) := by
  have hi := ensure_lvar_init_bal id _ (balO_init init loff h)
  refine ⟨?_, ?_, ?_, ?_, ?_, fun _ _ _ h => by cases h⟩
  · exact bal_congr _ _ (fun g => by cases init <;> rfl) (emit_lvar_bal c loff id _ (balO_init init loff h))
  · exact bal_congr _ _ (fun g => by cases init <;> rfl) (bal_bind _ _ hi
      (bal_ok _ (emit (i2 .lea (.mem loff .rbp) (.reg .rax))) (fun _ => rfl)
        (fun g => seg_emit _ (by rfl) g)))
  · exact bal_congr _ _ (fun g => by cases init <;> rfl) (bal_bind _ _ hi (emit_lsave_bal c loff))
  · intro field off
    exact bal_congr _ _ (fun g => by cases init <;> rfl)
      (bal_bind _ _ hi (emit_lsave_bal field (loff + field.offset + off)))
  · intro field off
    exact bal_congr _ _ (fun g => by cases init <;> rfl)
      (bal_bind _ _ hi (emit_lload_bal field .rbp (loff + field.offset + off)))

theorem allbal_gvar (c : Ctype) (nm : String) (l : Label) : AllBal (.gvar c nm l) :=
  ⟨emit_gvar_bal c l,
    bal_ok _ (emit (i2 .lea (.rip l) (.reg .rax))) (fun _ => rfl) (fun g => seg_emit _ (by rfl) g),
    emit_gsave_bal (.name nm) c 0, fun field off => emit_gsave_bal (.name nm) field _,
    fun field off => emit_gload_bal field (.name nm) _, fun _ _ _ h => by cases h⟩

theorem allbal_funcall (c : Ctype) (fname : String) (args : List Node) (ftype : Ctype)
    (h : AllBalL args) : AllBal (.funcall c fname args ftype) :=
  ⟨emit_func_call_bal false c fname args _ _ (fun ts hts => get_arg_types_length _ _ _ hts)
      (bal_ok _ id (fun _ => rfl) seg_refl) h.2.2,
    bal_error _ (fun _ => ⟨_, rfl⟩), bal_error _ (fun _ => ⟨_, rfl⟩),
    fun _ _ => bal_error _ (fun _ => ⟨_, rfl⟩), fun _ _ => bal_error _ (fun _ => ⟨_, rfl⟩),
    fun _ _ _ h => by cases h⟩

theorem allbal_funcptr_call (c : Ctype) (fptr : Node) (args : List Node) (hf : AllBal fptr)
    (h : AllBalL args) : AllBal (.funcptr_call c fptr args) :=
  ⟨emit_func_call_bal true c "" args _ _ (fun ts hts => by
      simp only [bind_eq_ok] at hts
      obtain ⟨t, _, hts⟩ := hts
      exact get_arg_types_length _ _ _ hts) hf.1 h.2.2,
    bal_error _ (fun _ => ⟨_, rfl⟩), bal_error _ (fun _ => ⟨_, rfl⟩),
    fun _ _ => bal_error _ (fun _ => ⟨_, rfl⟩), fun _ _ => bal_error _ (fun _ => ⟨_, rfl⟩),
    fun _ _ _ h => by cases h⟩

theorem allbal_decl (declvar : Node) (declinit : Option (List Node))
    (h : ∀ l, declinit = some l → AllBalL l) : AllBal (.decl declvar declinit) := by
  refine ⟨?_, bal_error _ (fun _ => ⟨_, rfl⟩), bal_error _ (fun _ => ⟨_, rfl⟩),
    fun _ _ => bal_error _ (fun _ => ⟨_, rfl⟩), fun _ _ => bal_error _ (fun _ => ⟨_, rfl⟩),
    fun _ _ _ h => by cases h⟩
  refine bal_congr _ (emit_decl declvar (match declinit with
    | some l => some (emit_decl_init l)
    | none => none)) (fun g => by cases declinit <;> rfl) (emit_decl_bal declvar _ ?_)
  intro run hr off
  cases declinit with
  | none => cases hr
  | some l =>
    injection hr with hr
    subst hr
    exact (h l rfl).1 off

theorem allbal_init (v : Node) (o : Int) (t : Ctype) (h : AllBal v) : AllBal (.init v o t) :=
  ⟨bal_error _ (fun _ => ⟨_, rfl⟩), bal_error _ (fun _ => ⟨_, rfl⟩),
    bal_error _ (fun _ => ⟨_, rfl⟩), fun _ _ => bal_error _ (fun _ => ⟨_, rfl⟩),
    fun _ _ => bal_error _ (fun _ => ⟨_, rfl⟩), fun v' o' t' e => by
      injection e with e1 e2 e3
      subst e1
      exact h.1⟩
theorem allbal_unary (type : NodeType) (c : Ctype) (operand : Node) (h : AllBal operand) :
    AllBal (.unary type c operand) := by
  have hpush : Bal (fun g => emit_expr operand (push .rax g) >>= fun g =>
      emit_assign_deref_int c 0 g) := by
    intro g g' e
    simp only [bind_eq_ok] at e
    obtain ⟨g1, e1, e2⟩ := e
    exact st_neg 8 (-8) 0 g g1 g' (st_bal 8 g _ g1 (seg_push .rax g) (h.1 _ _ e1) (by decide))
      (emit_assign_deref_int_seg _ _ _ _ e2) rfl (by decide)
  refine ⟨?_, ?_, ?_, ?_, ?_, fun _ _ _ h => by cases h⟩
  · cases type
    case AST_ADDR => exact h.2.1
    case AST_DEREF => exact emit_deref_bal c operand _ h.1
    case OP_PRE_INC =>
      exact emit_pre_inc_dec_bal .add (by decide) (by decide) (by decide) _ _ h.1 h.2.2.1
    case OP_PRE_DEC =>
      exact emit_pre_inc_dec_bal .sub (by decide) (by decide) (by decide) _ _ h.1 h.2.2.1
    case OP_POST_INC =>
      exact emit_post_inc_dec_bal .add (by decide) (by decide) (by decide) _ _ h.1 h.2.2.1
    case OP_POST_DEC =>
      exact emit_post_inc_dec_bal .sub (by decide) (by decide) (by decide) _ _ h.1 h.2.2.1
    case not => exact emit_lognot_bal _ h.1
    case tilde => exact emit_bitnot_bal _ h.1
    case OP_CAST => exact emit_cast_bal c operand _ h.1
    all_goals exact bal_error _ (fun _ => ⟨_, rfl⟩)
  · cases type
    case AST_DEREF => exact h.1
    all_goals exact bal_error _ (fun _ => ⟨_, rfl⟩)
  · cases type
    case AST_DEREF => exact emit_assign_deref_bal operand _ h.1
    all_goals exact bal_error _ (fun _ => ⟨_, rfl⟩)
  · intro field off
    cases type
    case AST_DEREF =>
      intro g g' e
      have e' : (emit_expr operand (push .rax g) >>= fun g =>
        emit_assign_deref_int field (field.offset + off) g) = .ok g' := e
      simp only [bind_eq_ok] at e'
      obtain ⟨g1, e1, e2⟩ := e'
      exact st_neg 8 (-8) 0 g g1 g' (st_bal 8 g _ g1 (seg_push .rax g) (h.1 _ _ e1) (by decide))
        (emit_assign_deref_int_seg _ _ _ _ e2) rfl (by decide)
    all_goals exact bal_error _ (fun _ => ⟨_, rfl⟩)
  · intro field off
    cases type
    case AST_DEREF => exact bal_bind _ _ h.1 (emit_lload_bal field .rax (field.offset + off))
    all_goals exact bal_error _ (fun _ => ⟨_, rfl⟩)

theorem allbal_binary (type : NodeType) (c : Ctype) (left right : Node) (hl : AllBal left)
    (hr : AllBal right) : AllBal (.binary type c left right) := by
  refine ⟨?_, bal_error _ (fun _ => ⟨_, rfl⟩), bal_error _ (fun _ => ⟨_, rfl⟩),
    fun _ _ => bal_error _ (fun _ => ⟨_, rfl⟩), fun _ _ => bal_error _ (fun _ => ⟨_, rfl⟩),
    fun _ _ _ h => by cases h⟩
  cases type
  case amp => exact emit_bitand_bal _ _ hl.1 hr.1
  case bar => exact emit_bitor_bal _ _ hl.1 hr.1
  case OP_LOGAND => exact emit_logand_bal _ _ hl.1 hr.1
  case OP_LOGOR => exact emit_logor_bal _ _ hl.1 hr.1
  case comma => exact emit_comma_bal _ _ hl.1 hr.1
  case assign => exact emit_assign_bal c left right _ _ _ _ hr.1 hl.2.2.1 hl.2.1 hr.2.1
  all_goals first
    | exact bal_error _ (fun _ => ⟨_, rfl⟩)
    | exact emit_binop_bal _ c left right _ _ hl.1 hr.1

theorem allbal_ternary (c : Option Ctype) (cond : Node) (thn els : Option Node)
    (hc : AllBal cond) (ht : ∀ n, thn = some n → AllBal n) (he : ∀ n, els = some n → AllBal n) :
    AllBal (.ternary c cond thn els) := by
  refine ⟨?_, bal_error _ (fun _ => ⟨_, rfl⟩), bal_error _ (fun _ => ⟨_, rfl⟩),
    fun _ _ => bal_error _ (fun _ => ⟨_, rfl⟩), fun _ _ => bal_error _ (fun _ => ⟨_, rfl⟩),
    fun _ _ _ h => by cases h⟩
  exact bal_congr _ _ (fun g => by cases thn <;> cases els <;> rfl)
    (emit_ternary_bal _ _ _ hc.1 (balO_expr thn ht) (balO_expr els he))

theorem allbal_for (a b c d : Option Node) (ha : ∀ n, a = some n → AllBal n)
    (hb : ∀ n, b = some n → AllBal n) (hc : ∀ n, c = some n → AllBal n)
    (hd : ∀ n, d = some n → AllBal n) : AllBal (.for_ a b c d) := by
  refine ⟨?_, bal_error _ (fun _ => ⟨_, rfl⟩), bal_error _ (fun _ => ⟨_, rfl⟩),
    fun _ _ => bal_error _ (fun _ => ⟨_, rfl⟩), fun _ _ => bal_error _ (fun _ => ⟨_, rfl⟩),
    fun _ _ _ h => by cases h⟩
  exact bal_congr _ _ (fun g => by cases a <;> cases b <;> cases c <;> cases d <;> rfl)
    (emit_for_bal _ _ _ _ (balO_expr a ha) (balO_expr b hb) (balO_expr c hc) (balO_expr d hd))

theorem allbal_while (cond : Node) (body : Option Node) (hc : AllBal cond)
    (hb : ∀ n, body = some n → AllBal n) : AllBal (.while_ cond body) := by
  refine ⟨?_, bal_error _ (fun _ => ⟨_, rfl⟩), bal_error _ (fun _ => ⟨_, rfl⟩),
    fun _ _ => bal_error _ (fun _ => ⟨_, rfl⟩), fun _ _ => bal_error _ (fun _ => ⟨_, rfl⟩),
    fun _ _ _ h => by cases h⟩
  exact bal_congr _ _ (fun g => by cases body <;> rfl)
    (emit_while_bal _ _ hc.1 (balO_expr body hb))

theorem allbal_do (cond : Node) (body : Option Node) (hc : AllBal cond)
    (hb : ∀ n, body = some n → AllBal n) : AllBal (.do_ cond body) := by
  refine ⟨?_, bal_error _ (fun _ => ⟨_, rfl⟩), bal_error _ (fun _ => ⟨_, rfl⟩),
    fun _ _ => bal_error _ (fun _ => ⟨_, rfl⟩), fun _ _ => bal_error _ (fun _ => ⟨_, rfl⟩),
    fun _ _ _ h => by cases h⟩
  exact bal_congr _ _ (fun g => by cases body <;> rfl)
    (emit_do_bal _ _ hc.1 (balO_expr body hb))

theorem allbal_switch (e : Node) (body : Option Node) (hc : AllBal e)
    (hb : ∀ n, body = some n → AllBal n) : AllBal (.switch e body) := by
  refine ⟨?_, bal_error _ (fun _ => ⟨_, rfl⟩), bal_error _ (fun _ => ⟨_, rfl⟩),
    fun _ _ => bal_error _ (fun _ => ⟨_, rfl⟩), fun _ _ => bal_error _ (fun _ => ⟨_, rfl⟩),
    fun _ _ _ h => by cases h⟩
  exact bal_congr _ _ (fun g => by cases body <;> rfl)
    (emit_switch_bal _ _ hc.1 (balO_expr body hb))

theorem allbal_plain (n : Node) (he : Bal (emit_expr n)) (h1 : ∀ g, ∃ e, emit_addr n g = .error e)
    (h2 : ∀ g, ∃ e, emit_store n g = .error e)
    (h3 : ∀ f o g, ∃ e, emit_assign_struct_ref n f o g = .error e)
    (h4 : ∀ f o g, ∃ e, emit_load_struct_ref n f o g = .error e)
    (h5 : ∀ v o t, n ≠ .init v o t) : AllBal n :=
  ⟨he, bal_error _ h1, bal_error _ h2, fun f o => bal_error _ (h3 f o),
    fun f o => bal_error _ (h4 f o), fun v o t e => absurd e (h5 v o t)⟩

theorem allbal_case (a b : Int) : AllBal (.case a b) :=
  allbal_plain _ (emit_case_bal a b) (fun _ => ⟨_, rfl⟩) (fun _ => ⟨_, rfl⟩)
    (fun _ _ _ => ⟨_, rfl⟩) (fun _ _ _ => ⟨_, rfl⟩) (fun _ _ _ h => by cases h)

theorem allbal_default : AllBal .default :=
  allbal_plain _ emit_default_bal (fun _ => ⟨_, rfl⟩) (fun _ => ⟨_, rfl⟩)
    (fun _ _ _ => ⟨_, rfl⟩) (fun _ _ _ => ⟨_, rfl⟩) (fun _ _ _ h => by cases h)

theorem allbal_goto (l : Label) : AllBal (.goto l) :=
  allbal_plain _ (bal_ok _ (emit_goto l) (fun _ => rfl) (emit_goto_seg l)) (fun _ => ⟨_, rfl⟩)
    (fun _ => ⟨_, rfl⟩) (fun _ _ _ => ⟨_, rfl⟩) (fun _ _ _ => ⟨_, rfl⟩) (fun _ _ _ h => by cases h)

theorem allbal_label (l : Option Label) : AllBal (.label l) := by
  refine allbal_plain _ ?_ (fun _ => ⟨_, rfl⟩)
    (fun _ => ⟨_, rfl⟩) (fun _ _ _ => ⟨_, rfl⟩) (fun _ _ _ => ⟨_, rfl⟩) (fun _ _ _ h => by cases h)
  cases l with
  | none => exact bal_ok _ id (fun _ => rfl) seg_refl
  | some l => exact bal_ok _ (emit_label l) (fun _ => rfl) (emit_label_seg l)

theorem allbal_ret (c : Ctype) (retval : Option Node) (h : ∀ n, retval = some n → AllBal n) :
    AllBal (.ret c retval) := by
  refine allbal_plain _ ?_ (fun _ => ⟨_, rfl⟩)
    (fun _ => ⟨_, rfl⟩) (fun _ _ _ => ⟨_, rfl⟩) (fun _ _ _ => ⟨_, rfl⟩) (fun _ _ _ h => by cases h)
  exact bal_congr _ _ (fun g => by cases retval <;> rfl)
    (emit_return_bal c retval _ (balO_expr retval h))

theorem allbal_break : AllBal .break_ :=
  allbal_plain _ emit_break_bal (fun _ => ⟨_, rfl⟩) (fun _ => ⟨_, rfl⟩)
    (fun _ _ _ => ⟨_, rfl⟩) (fun _ _ _ => ⟨_, rfl⟩) (fun _ _ _ h => by cases h)

theorem allbal_continue : AllBal .continue_ :=
  allbal_plain _ emit_continue_bal (fun _ => ⟨_, rfl⟩) (fun _ => ⟨_, rfl⟩)
    (fun _ _ _ => ⟨_, rfl⟩) (fun _ _ _ => ⟨_, rfl⟩) (fun _ _ _ h => by cases h)

theorem allbal_compound (l : List Node) (h : AllBalL l) : AllBal (.compound_stmt l) :=
  allbal_plain _ h.2.1 (fun _ => ⟨_, rfl⟩) (fun _ => ⟨_, rfl⟩)
    (fun _ _ _ => ⟨_, rfl⟩) (fun _ _ _ => ⟨_, rfl⟩) (fun _ _ _ h => by cases h)

theorem allbal_struct_ref (c : Ctype) (struc : Node) (h : AllBal struc) :
    AllBal (.struct_ref c struc) :=
  ⟨h.2.2.2.2.1 c 0,
    bal_bind _ _ h.2.1 (bal_ok _ (emit (i2 .add (.imm c.offset) (.reg .rax))) (fun _ => rfl)
      (fun g => seg_emit _ (by rfl) g)),
    h.2.2.2.1 c 0, fun field off => h.2.2.2.1 field (off + c.offset),
    fun field off => h.2.2.2.2.1 field (c.offset + off), fun _ _ _ h => by cases h⟩

theorem allbal_va_start (ap : Node) (h : AllBal ap) : AllBal (.va_start ap) :=
  allbal_plain _ (emit_va_start_bal _ h.1) (fun _ => ⟨_, rfl⟩) (fun _ => ⟨_, rfl⟩)
    (fun _ _ _ => ⟨_, rfl⟩) (fun _ _ _ => ⟨_, rfl⟩) (fun _ _ _ h => by cases h)

theorem allbal_va_arg (c : Ctype) (ap : Node) (h : AllBal ap) : AllBal (.va_arg c ap) :=
  allbal_plain _ (emit_va_arg_bal c _ h.1) (fun _ => ⟨_, rfl⟩) (fun _ => ⟨_, rfl⟩)
    (fun _ _ _ => ⟨_, rfl⟩) (fun _ _ _ => ⟨_, rfl⟩) (fun _ _ _ h => by cases h)

theorem allbalL_nil : AllBalL [] :=
  ⟨fun _ => bal_ok _ id (fun _ => rfl) seg_refl, bal_ok _ id (fun _ => rfl) seg_refl,
    fun v hv => by cases hv⟩

theorem allbalL_cons (v : Node) (vs : List Node) (hv : AllBal v) (hvs : AllBalL vs) :
    AllBalL (v :: vs) := by
  refine ⟨?_, bal_bind _ _ hv.1 hvs.2.1, ?_⟩
  · intro off
    cases v
    case init initval initoff totype =>
      have hi := hv.2.2.2.2.2 initval initoff totype rfl
      cases initval
      case literal c i f id =>
        exact bal_bind _ _ (emit_save_literal_bal i f totype (initoff + off)) (hvs.1 off)
      all_goals exact bal_bind _ _ hi (bal_bind _ _ (emit_lsave_bal totype (initoff + off))
        (hvs.1 off))
    all_goals exact bal_error _ (fun _ => ⟨_, rfl⟩)
  · intro w hw
    rcases List.mem_cons.1 hw with rfl | hw
    · exact hv.1
    · exact hvs.2.2 w hw
mutual

theorem node_allbal : ∀ n : Node, AllBal n
  | .literal c i f id => allbal_literal c i f id
  | .string c s id => allbal_string c s id
  | .lvar c nm loff init id => allbal_lvar c nm loff init id (fun l hl => by
      subst hl
      exact list_allbal l)
  | .gvar c nm l => allbal_gvar c nm l
  | .funcall c fname args ftype => allbal_funcall c fname args ftype (list_allbal args)
  | .funcptr_call c fptr args => allbal_funcptr_call c fptr args (node_allbal fptr) (list_allbal args)
  | .decl declvar declinit => allbal_decl declvar declinit (fun l hl => by
      subst hl
      exact list_allbal l)
  | .init v o t => allbal_init v o t (node_allbal v)
  | .unary type c operand => allbal_unary type c operand (node_allbal operand)
  | .binary type c left right => allbal_binary type c left right (node_allbal left) (node_allbal right)
  | .ternary c cond thn els => allbal_ternary c cond thn els (node_allbal cond)
      (fun n hn => by
        subst hn
        exact node_allbal n)
      (fun n hn => by
        subst hn
        exact node_allbal n)
  | .for_ a b c d => allbal_for a b c d
      (fun n hn => by
        subst hn
        exact node_allbal n)
      (fun n hn => by
        subst hn
        exact node_allbal n)
      (fun n hn => by
        subst hn
        exact node_allbal n)
      (fun n hn => by
        subst hn
        exact node_allbal n)
  | .while_ cond body => allbal_while cond body (node_allbal cond) (fun n hn => by
      subst hn
      exact node_allbal n)
  | .do_ cond body => allbal_do cond body (node_allbal cond) (fun n hn => by
      subst hn
      exact node_allbal n)
  | .switch e body => allbal_switch e body (node_allbal e) (fun n hn => by
      subst hn
      exact node_allbal n)
  | .case a b => allbal_case a b
  | .default => allbal_default
  | .goto l => allbal_goto l
  | .label l => allbal_label l
  | .ret c retval => allbal_ret c retval (fun n hn => by
      subst hn
      exact node_allbal n)
  | .break_ => allbal_break
  | .continue_ => allbal_continue
  | .compound_stmt l => allbal_compound l (list_allbal l)
  | .struct_ref c struc => allbal_struct_ref c struc (node_allbal struc)
  | .va_start ap => allbal_va_start ap (node_allbal ap)
  | .va_arg c ap => allbal_va_arg c ap (node_allbal ap)

theorem list_allbal : ∀ l : List Node, AllBalL l
  | [] => allbalL_nil
  | v :: vs => allbalL_cons v vs (node_allbal v) (list_allbal vs)

end

theorem depth_dvd (t : List Instr) : (8 : Int) ∣ depth t := by
  induction t with
  | nil => exact dvd_zero _
  | cons i t ih =>
    rw [depth_cons]
    refine dvd_add ?_ ih
    unfold stack_effect
    split <;> decide
/-! ### Auxiliary lemmas: the frame the prologue lays out -/

theorem read_char_inv (enc : Enc) (f : File) (t : Token) (f' : File)
    (h : read_char enc f = .ok (t, f')) :
    ∃ (v : Int) (k : File), (get k).1 = some '\'' ∧ (t, f') = make_char v enc (get k).2 ∧
      (((get f).1 = some '\\' ∧ read_escaped_char (get f).2 = .ok (v, k)) ∨
        (∃ c, (get f).1 = some c ∧ c ≠ '\\' ∧ v = c.toNat ∧ k = (get f).2)) := by
  have key : ∀ (r : Int × File),
      (if (get r.2).1 = none then
          (Except.error (Fatal.error "premature end of input") : Except Fatal (Token × File))
        else if (get r.2).1 ≠ some '\'' then Except.error (Fatal.error "unterminated string")
        else pure (make_char r.1 enc (get r.2).2)) = .ok (t, f') →
      (get r.2).1 = some '\'' ∧ (t, f') = make_char r.1 enc (get r.2).2 := by
    intro r h
    by_cases h1 : (get r.2).1 = none
    · simp [h1] at h
    · by_cases h2 : (get r.2).1 ≠ some '\''
      · simp [h1, h2] at h
      · simp only [h1, h2, if_false, pure, Except.pure] at h
        injection h with h
        exact ⟨not_not.1 h2, h.symm⟩
  unfold read_char at h
  dsimp only at h
  by_cases hb : (get f).1 = some '\\'
  · simp only [hb, if_true, bind_eq_ok] at h
    obtain ⟨r, hr, h⟩ := h
    obtain ⟨h1, h2⟩ := key r h
    exact ⟨r.1, r.2, h1, h2, Or.inl ⟨hb, hr⟩⟩
  · simp only [hb, if_false, ok_bind] at h
    obtain ⟨h1, h2⟩ := key (code (get f).1, (get f).2) h
    cases hc : (get f).1 with
    | none =>
      exfalso
      have hn : f.content = [] ∨ True := Or.inr trivial
      have h0 : (get_list f.content).1 = none := by rw [← get_fst, hc]
      have h3 : (get_list f.content).2 = [] :=
        get_list_loop_none _ _ (by simp) h0
      have h4 : (get (get f).2).1 = none := by
        rw [get_fst, get_content, h3]
        rfl
      dsimp only at h1
      rw [h4] at h1
      cases h1
    | some c =>
      refine ⟨c.toNat, (get f).2, h1, ?_, Or.inr ⟨c, rfl, ?_, rfl, rfl⟩⟩
      · rw [hc] at h2
        exact h2
      · intro hcc
        apply hb
        rw [hc, hcc]

theorem read_char_escape (enc : Enc) (f k : File) (v : Int) (hb : (get f).1 = some '\\')
    (hr : read_escaped_char (get f).2 = .ok (v, k)) (hq : (get k).1 = some '\'') :
    read_char enc f = .ok (make_char v enc (get k).2) := by
  unfold read_char
  simp only [hb, if_true, hr, ok_bind]
  show (if (get k).1 = none then _ else _) = _
  simp only [hq, reduceCtorEq, if_false, ne_eq, not_true_eq_false]
  rfl

theorem to_char_facts (v : Int) :
    -128 ≤ to_char v ∧ to_char v ≤ 127 ∧ (to_char v - v) % 256 = 0 ∧
      (0 ≤ v → v ≤ 127 → to_char v = v) ∧ (128 ≤ v → v ≤ 255 → to_char v = v - 256) := by
  unfold to_char
  omega

/-! ### The claims -/

/-- C1 (defect of `emit_va_arg`): in
`void f(int n, ...) { va_list ap; va_start(ap, n); va_arg(ap, int); va_arg(ap, double); }`
called with `n = 1`, the variadic arguments `7` and `2.5` and `%al = 1`, the
prologue places `ap` at `-336(%rbp)` and `va_start` sets `gp_offset = 8`,
`fp_offset = 48`; the integer `va_arg` returns 7 but its 8-byte store
`mov %rbx, (%rax)` leaves `fp_offset = 0`, so the floating `va_arg` loads the
save slot of `%rdi` (the value 1) instead of the slot of `%xmm0`. -/
theorem va_arg_int_then_double_reads_rdi_slot :
    local_offsets (va_int_double 0) = some [-336] ∧
    ((func_text (va_int_double 1)).bind fun t => (exec t 200 0 entry_state).map fun m =>
      (load m.mem 4 (0x10000 - 336), load m.mem 4 (0x10000 - 336 + 4),
        load m.mem 8 (0x10000 - 336 + 16))) = some (8, 48, 0x10000 - 304) ∧
    ((func_text (va_int_double 2)).bind fun t => (exec t 200 0 entry_state).map fun m =>
      (m.reg .rax, load m.mem 4 (0x10000 - 336), load m.mem 4 (0x10000 - 336 + 4)))
      = some (7, 16, 0) ∧
    ((func_text (va_int_double 3)).bind fun t => (exec t 200 0 entry_state).map fun m =>
      m.xmm 0) = some 1 ∧
    entry_state.xmm 0 = 0x4004000000000000 := by
  refine ⟨by decide!, by decide!, by decide!, by decide!, by decide!⟩

/-- C2 (defect of `emit_func_prologue`): for `void f(void) { int a; int b; }`
the sizes rounded up to 8 sum to 16, but the prologue emits `sub $24, %rsp`
(it accumulates the running offsets -8 and -16), and executing it leaves
`%rsp` 24 bytes below `%rbp`. -/
theorem prologue_two_locals_reserves_24 :
    frame_size two_locals = 16 ∧
    func_text two_locals = some
      [.text, .global "f", .label (.name "f"), i0 .nop, i1 .push (.reg .rbp),
       i2 .mov (.reg .rsp) (.reg .rbp), i2 .sub (.imm 24) (.reg .rsp)] ∧
    ((func_text two_locals).bind fun t => (exec t 100 0 entry_state).map fun m =>
      (m.reg .rbp : Int) - m.reg .rsp) = some 24 := by
  refine ⟨by decide!, by decide!, by decide!⟩

/-- C3 (defect of `emit_func_prologue` and `emit_func_call`): for
`int f(int x) { g(); }` entered with `%rsp` congruent to 8 modulo 16, no
`sub $8, %rsp` is emitted before `call g` (the prologue leaves `stackpos = 32`),
and the pushes of `%rbp` and `%rdi` leave `%rsp` congruent to 8 modulo 16 at
the `call`. -/
theorem call_misaligned_with_one_param :
    entry_state.reg .rsp % 16 = 8 ∧
    func_text one_param_call = some
      [.text, .global "f", .label (.name "f"), i0 .nop, i1 .push (.reg .rbp),
       i2 .mov (.reg .rsp) (.reg .rbp), i1 .push (.reg .rdi),
       i2 .mov (.imm 0) (.reg .eax), i1 .call (.target (.name "g"))] ∧
    ((func_text one_param_call).bind fun t => (run (before_call t) entry_state).map fun r =>
      r.1.reg .rsp % 16) = some 8 := by
  refine ⟨by decide!, by decide!, by decide!⟩

/-- C4: for a binary node of pointer type whose left operand points to a type `t`
of size `s`, emission succeeds exactly when the left operand is emitted, `%rax` is
pushed, the right operand is emitted and the `stackpos` assertion of the final
`pop` holds; the text after the right operand is then `imul $s, %rax` exactly
when `s > 1` (nothing when `s = 1`), followed by `mov %rax, %rcx; pop %rax;
add %rcx, %rax`.  Executed in a state where `%rax` holds the right value and the
stack top the saved pointer, that text leaves pointer + value * `s` in `%rax`. -/
theorem pointer_arith_scaling (op : NodeType) (ct : Ctype) (left right : Node) (t : Ctype)
    (g g' : Gen) (hop : is_binop op = true) (hct : ct.type = .PTR)
    (ht : deref_ptr left.ctype = .ok t) :
    (emit_expr (.binary op ct left right) g = .ok g' ↔
      ∃ gl gr, emit_expr left g = .ok gl ∧
        emit_expr right { gl with out := gl.out ++ [i1 .push (.reg .rax)],
                                  stackpos := gl.stackpos + 8 } = .ok gr ∧
        0 ≤ gr.stackpos - 8 ∧
        g' = { gr with
          out := gr.out ++
            ((if t.size > 1 then [i2 .imul (.imm t.size) (.reg .rax)] else []) ++
              [i2 .mov (.reg .rax) (.reg .rcx), i1 .pop (.reg .rax),
               i2 .add (.reg .rcx) (.reg .rax)]),
          stackpos := gr.stackpos - 8 }) ∧
    (1 ≤ t.size → t.size < 2 ^ 64 → ∀ m : Machine,
      ∃ m', run ((if t.size > 1 then [i2 .imul (.imm t.size) (.reg .rax)] else []) ++
          [i2 .mov (.reg .rax) (.reg .rcx), i1 .pop (.reg .rax),
           i2 .add (.reg .rcx) (.reg .rax)]) m = some (m', none) ∧
        m'.get .rax 8 =
          (load m.mem 8 (m.get .rsp 8) + m.get .rax 8 * t.size.toNat) % wordMod 8) := by
  refine ⟨?_, fun h1 h2 m => run_pointer_arith_tail m t.size h1 h2⟩
  rw [emit_expr_binop _ _ _ _ _ hop]
  simp only [emit_binop, hct, if_true, emit_pointer_arith, bind_eq_ok, ht, push_eq, pop_eq_ok]
  constructor
  · rintro ⟨gl, hl, gr, hr, t', ht', g4, ⟨hsp, hg4⟩, hg'⟩
    injection ht' with ht'
    subst ht'
    refine ⟨gl, gr, hl, hr, ?_, ?_⟩
    · by_cases hs : t.size > 1 <;> simpa [hs, emit] using hsp
    · simp only [pure, Except.pure] at hg'
      injection hg' with hg'
      rw [← hg', hg4]
      by_cases hs : t.size > 1 <;> simp [hs, emit]
  · rintro ⟨gl, gr, hl, hr, hsp, hg'⟩
    refine ⟨gl, hl, gr, hr, t, rfl, _, ⟨?_, rfl⟩, ?_⟩
    · by_cases hs : t.size > 1 <;> simpa [hs, emit] using hsp
    · simp only [pure, Except.pure]
      rw [hg']
      by_cases hs : t.size > 1 <;> simp [hs, emit]

/-- Witness for C4: `p + 2` with `int *p` emits `imul $4, %rax` before the
combining instruction, and the final text computes pointer + value * 4. -/
theorem pointer_arith_scaling_witness :
    emit_expr p_plus_2 {} = .ok
      { out := [i2 .mov (.mem (-8) .rbp) (.reg .rax), i1 .push (.reg .rax),
          i2 .mov (.imm 2) (.reg .rax), i2 .imul (.imm 4) (.reg .rax),
          i2 .mov (.reg .rax) (.reg .rcx), i1 .pop (.reg .rax),
          i2 .add (.reg .rcx) (.reg .rax)] } ∧
    ∃ m', run ([i2 .imul (.imm 4) (.reg .rax)] ++
        [i2 .mov (.reg .rax) (.reg .rcx), i1 .pop (.reg .rax),
         i2 .add (.reg .rcx) (.reg .rax)]) entry_state = some (m', none) ∧
      m'.get .rax 8 =
        (load entry_state.mem 8 (entry_state.get .rsp 8) + entry_state.get .rax 8 * 4) %
          wordMod 8 :=
  have h := pointer_arith_scaling .plus (Ctype.pointerTo tInt) ptr_p (.literal tInt 2 0 3) tInt {}
    { out := [i2 .mov (.mem (-8) .rbp) (.reg .rax), i1 .push (.reg .rax),
        i2 .mov (.imm 2) (.reg .rax), i2 .imul (.imm 4) (.reg .rax),
        i2 .mov (.reg .rax) (.reg .rcx), i1 .pop (.reg .rax),
        i2 .add (.reg .rcx) (.reg .rax)] }
    (by decide) (by decide) rfl
  ⟨h.1.mpr ⟨{ out := [i2 .mov (.mem (-8) .rbp) (.reg .rax)] },
      { out := [i2 .mov (.mem (-8) .rbp) (.reg .rax), i1 .push (.reg .rax),
          i2 .mov (.imm 2) (.reg .rax)], stackpos := 8 },
      by decide!, by decide!, by decide, by decide!⟩,
    h.2 (by decide) (by decide) entry_state⟩

/-- C5 (defect of `emit_pointer_arith`): for `p - 2` with `int *p` the combining
instruction is `add %rcx, %rax`; executed with `p = 1000` the text leaves 1008
in `%rax`, where pointer minus scaled integer is 992. -/
theorem pointer_minus_emits_add :
    (emit_expr p_minus_2 {}).text = some
      [i2 .mov (.mem (-8) .rbp) (.reg .rax), i1 .push (.reg .rax),
       i2 .mov (.imm 2) (.reg .rax), i2 .imul (.imm 4) (.reg .rax),
       i2 .mov (.reg .rax) (.reg .rcx), i1 .pop (.reg .rax),
       i2 .add (.reg .rcx) (.reg .rax)] ∧
    ((emit_expr p_minus_2 {}).text.bind fun t => (run t (frame_state 1000)).map fun r =>
      r.1.reg .rax) = some 1008 := by
  refine ⟨by decide!, by decide!⟩

/-- C6 (counterexample): `_Bool` is an integer type of size 1, and for `_Bool *q`
holding the address 0x8000 the statements `*q = 2; *q;` leave the byte 1 at that
address and 1 in `%rax`, while 2 truncated to one byte and sign-extended is 2. -/
theorem bool_deref_store_reads_one :
    is_inttype tBool = true ∧
    ((deref_ptr ptr_q.ctype).toOption.map fun t => (t.type, t.size)) = some (.BOOL, 1) ∧
    ((emit_expr bool_write_read {}).text.bind fun t =>
      (run t (frame_state 0x8000)).map fun r => (r.1.mem 0x8000, r.1.get .rax 8))
        = some (1, 1) ∧
    sext 1 (load (store (fun _ => 0) 1 0x8000 2) 1 0x8000) = 2 := by
  refine ⟨by decide!, by decide!, by decide!, by decide!⟩

/-- C6 (amended): for a pointer `p` to `char`, `short`, `int`, `long` or
`long long` of size 1, 2, 4 or 8, the store `*p = ...` emits the pointer operand
between `push %rax` and `mov (%rsp), %rcx; mov %cl|%cx|%ecx|%rcx, (%rax);
pop %rax`, which writes exactly `size` bytes of the saved value at the address in
`%rax`; the load `*p` emits the operand and one `movsbq|movswq|movslq|mov
0(%rax), %rax`, which reads `size` bytes at the address in `%rax` and
sign-extends them; a read after a write at the same address yields the written
value truncated to `size` bytes and sign-extended; and a load through `&a`
yields what the direct load of the local `a` yields. -/
theorem deref_store_then_load (t : Ctype) (p : Node) (g g' : Gen)
    (hk : is_plain_int t = true)
    (hsz : t.size = 1 ∨ t.size = 2 ∨ t.size = 4 ∨ t.size = 8)
    (hp : deref_ptr p.ctype = .ok t) :
    ∃ creg inst, get_int_reg t 'c' = .ok creg ∧ get_load_inst t = .ok inst ∧
      (emit_store (.unary .AST_DEREF t p) g = .ok g' ↔
        ∃ gp, emit_expr p { g with out := g.out ++ [i1 .push (.reg .rax)],
                                   stackpos := g.stackpos + 8 } = .ok gp ∧
          0 ≤ gp.stackpos - 8 ∧
          g' = { gp with
            out := gp.out ++ [i2 .mov (.ind .rsp) (.reg .rcx),
              i2 .mov (.reg creg) (.ind .rax), i1 .pop (.reg .rax)],
            stackpos := gp.stackpos - 8 }) ∧
      (emit_expr (.unary .AST_DEREF t p) g = .ok g' ↔
        ∃ gp, emit_expr p g = .ok gp ∧
          g' = { gp with out := gp.out ++ [i2 inst (.mem 0 .rax) (.reg .rax)] }) ∧
      (∀ m : Machine, ∃ m', run [i2 .mov (.ind .rsp) (.reg .rcx),
            i2 .mov (.reg creg) (.ind .rax), i1 .pop (.reg .rax)] m = some (m', none) ∧
          m'.mem = store m.mem t.size.toNat (m.get .rax 8) (load m.mem 8 (m.get .rsp 8))) ∧
      (∀ m : Machine, ∃ m', run [i2 inst (.mem 0 .rax) (.reg .rax)] m = some (m', none) ∧
          m'.mem = m.mem ∧
          m'.get .rax 8 = sext t.size.toNat (load m.mem t.size.toNat (m.get .rax 8))) ∧
      (∀ (mem : Nat → Nat) (a v x : Nat), x < a ∨ a + t.size.toNat ≤ x →
          store mem t.size.toNat a v x = mem x) ∧
      (∀ (mem : Nat → Nat) (a v : Nat),
          sext t.size.toNat (load (store mem t.size.toNat a v) t.size.toNat a)
            = sext t.size.toNat v) ∧
      (∀ (name : String) (loff : Int) (init : Option (List Node)) (id : Nat) (ga : Gen),
          emit_expr (.lvar t name loff init id) g = .ok ga →
          ∃ g0 : Gen, ga = { g0 with out := g0.out ++ [i2 inst (.mem loff .rbp) (.reg .rax)] } ∧
            emit_expr (.unary .AST_DEREF t (.unary .AST_ADDR (Ctype.pointerTo t)
                (.lvar t name loff init id))) g =
              .ok { g0 with out := g0.out ++
                [i2 .lea (.mem loff .rbp) (.reg .rax), i2 inst (.mem 0 .rax) (.reg .rax)] } ∧
            ∀ m : Machine, ∃ m1 m2,
              run [i2 inst (.mem loff .rbp) (.reg .rax)] m = some (m1, none) ∧
              run [i2 .lea (.mem loff .rbp) (.reg .rax),
                i2 inst (.mem 0 .rax) (.reg .rax)] m = some (m2, none) ∧
              m1.get .rax 8 = m2.get .rax 8 ∧ m1.mem = m.mem ∧ m2.mem = m.mem ∧
              m1.get .rax 8 = sext t.size.toNat (load m.mem t.size.toNat (m.ea .rbp loff))) := by
  obtain ⟨creg, inst, n, hn, hnz, hc, hi, hs, hl⟩ : ∃ (creg : Reg) (inst : Mn) (n : Nat),
      n ≤ 8 ∧ t.size.toNat = n ∧ get_int_reg t 'c' = .ok creg ∧ get_load_inst t = .ok inst ∧
        StoresBytes creg n ∧ LoadsBytes inst n := by
    rcases hsz with h | h | h | h
    · exact ⟨.cl, .movsbq, 1, by decide, by rw [h]; rfl, by simp [get_int_reg, h],
        by simp [get_load_inst, h], storesBytes_cl, loadsBytes_movsbq⟩
    · exact ⟨.cx, .movswq, 2, by decide, by rw [h]; rfl, by simp [get_int_reg, h],
        by simp [get_load_inst, h], storesBytes_cx, loadsBytes_movswq⟩
    · exact ⟨.ecx, .movslq, 4, by decide, by rw [h]; rfl, by simp [get_int_reg, h],
        by simp [get_load_inst, h], storesBytes_ecx, loadsBytes_movslq⟩
    · exact ⟨.rcx, .mov, 8, by decide, by rw [h]; rfl, by simp [get_int_reg, h],
        by simp [get_load_inst, h], storesBytes_rcx, loadsBytes_mov⟩
  refine ⟨creg, inst, hc, hi, store_deref_text t t p g g' creg hp hc,
    load_deref_text t p g g' inst hk hp hi, ?_, ?_, ?_, ?_, ?_⟩
  · rw [hnz]
    exact run_store_tail creg n hn hs
  · rw [hnz]
    exact run_load_tail inst n hl
  · rw [hnz]
    exact fun mem a v x hx => store_outside mem n a v x hx
  · rw [hnz]
    intro mem a v
    rw [load_store_same, sext_mod]
  · intro name loff init id ga hga
    obtain ⟨g0, h1, h2⟩ := load_lvar_text t name loff init id g ga inst hk hi hga
    refine ⟨g0, h1, h2, ?_⟩
    rw [hnz]
    exact run_load_via_addr inst n hl loff

/-- Witness for C6: `int *p`, where the store moves `%ecx` and the load is
`movslq`. -/
theorem deref_store_then_load_witness :
    is_plain_int tInt = true ∧ deref_ptr ptr_p.ctype = .ok tInt ∧
    ∃ creg inst, get_int_reg tInt 'c' = .ok creg ∧ get_load_inst tInt = .ok inst ∧
      (∀ m : Machine, ∃ m', run [i2 .mov (.ind .rsp) (.reg .rcx),
            i2 .mov (.reg creg) (.ind .rax), i1 .pop (.reg .rax)] m = some (m', none) ∧
          m'.mem = store m.mem 4 (m.get .rax 8) (load m.mem 8 (m.get .rsp 8))) ∧
      (∀ (mem : Nat → Nat) (a v : Nat), sext 4 (load (store mem 4 a v) 4 a) = sext 4 v) :=
  have h := deref_store_then_load tInt ptr_p {} {} rfl (Or.inr (Or.inr (Or.inl rfl))) rfl
  ⟨rfl, rfl, h.elim fun creg h => h.elim fun inst h =>
    ⟨creg, inst, h.1, h.2.1, h.2.2.2.2.1, h.2.2.2.2.2.2.2.1⟩⟩

/-- C7 (defect of `emit_assign_struct_ref` and `emit_load_struct_ref`): for the
member `s.f` (offset 4) of a static local structure whose node has the name `s`
and the assembler label `.L9`, the store and the load address the symbol `s`
while `emit_addr` computes the address from `.L9`. -/
theorem struct_ref_on_gvar_uses_varname :
    (emit_store static_struct_f {}).text = some
      [i2 .mov (.reg .eax) (.ripd (.name "s") 4)] ∧
    (emit_expr static_struct_f {}).text = some
      [i2 .movslq (.ripd (.name "s") 4) (.reg .rax)] ∧
    (emit_addr static_struct_f {}).text = some
      [i2 .lea (.rip (.L 9)) (.reg .rax), i2 .add (.imm 4) (.reg .rax)] := by
  refine ⟨by decide!, by decide!, by decide!⟩

/-- C9: for every call node that is emitted successfully, the text that follows
the pops loading the argument registers (and, for a call through a pointer, the
`pop %rbx` of the callee address) is `mov $n, %eax`, an optional `sub $8, %rsp`
and then the `call`, where `n` counts the arguments whose passing type is
floating; `n` is 0 when no passing type is floating. -/
theorem call_sets_eax_to_xmm_count (node : Node) (args : List Node) (ts : List Ctype)
    (g g' : Gen) (hargs : call_args node = some args) (hts : call_argtypes node = .ok ts)
    (h : emit_expr node g = .ok g') :
    ∃ (g2 g3 g4 : Gen) (ir xr : Int) (P : List Instr) (sp : Int) (post : List Instr),
      emit_func_call_args args ts g2 = .ok g3 ∧
      func_call_pop ts.reverse (ts.countP (fun t => !is_flotype t) : Nat)
        (ts.countP is_flotype : Nat) g3 = .ok (ir, xr, g4) ∧
      g4.out = g3.out ++ P ∧
      g'.out = g3.out ++ P ++ (if call_isptr node = true then [i1 .pop (.reg .rbx)] else []) ++
        [i2 .mov (.imm (ts.countP is_flotype : Nat)) (.reg .eax)] ++
        (if sp.tmod 16 ≠ 0 then [i2 .sub (.imm 8) (.reg .rsp)] else []) ++
        [i1 .call (call_target node)] ++ post ∧
      ((∀ t ∈ ts, is_flotype t = false) →
        i2 .mov (.imm (ts.countP is_flotype : Nat)) (.reg .eax) =
          i2 .mov (.imm 0) (.reg .eax)) := by
  obtain ⟨ctype, fname, efptr, he, htarget⟩ := emit_expr_call node args g hargs
  rw [he] at h
  obtain ⟨ts', ireg, xreg, g1, g2, g3, ir, xr, g4, g5, ir2, xr2, g6, e1, hsave, _, hargs', hpop,
    hg5, hrest, hout⟩ := emit_func_call_inv _ _ _ _ _ _ _ _ h
  rw [hts] at e1
  injection e1 with e1
  subst e1
  obtain ⟨hireg, hxreg⟩ := func_call_save_counts ts 0 0 g ireg xreg g1 hsave
  simp only [Int.zero_add] at hireg hxreg
  subst hireg hxreg
  obtain ⟨P, hP, _⟩ := func_call_pop_sem _ _ _ _ _ _ _ hpop
  obtain ⟨r6, h6⟩ := func_call_restore_out _ _ _ _ _ _ _ hrest
  have h5 : g5.out = g4.out ++ (if call_isptr node = true then [i1 .pop (.reg .rbx)] else []) := by
    by_cases hp : call_isptr node = true
    · simp only [hp, if_true, pop_eq_ok] at hg5
      rw [hg5.2, if_pos hp]
    · simp only [hp, Bool.false_eq_true, if_false] at hg5
      rw [hg5, if_neg hp, List.append_nil]
  refine ⟨g2, g3, g4, ir, xr, P, g5.stackpos,
    (if g5.stackpos.tmod 16 ≠ 0 then [i2 .add (.imm 8) (.reg .rsp)] else []) ++ r6 ++
      (if ctype.type = .FLOAT then [i2 .cvtps2pd (.reg (.xmm 0)) (.reg (.xmm 0))] else []),
    hargs', hpop, hP, ?_, ?_⟩
  · rw [hout, h6]
    simp only [call_text, htarget, h5, hP, List.append_assoc]
  · intro hall
    have h0 : ts.countP is_flotype = 0 := by
      rw [List.countP_eq_zero]
      intro t ht
      simp [hall t ht]
    rw [h0]
    rfl

/-- Witness for C9: `f(1, 2.5, 3)` passes one argument in an xmm register, and
`mov $1, %eax` stands between the pops and `call f`. -/
theorem call_sets_eax_to_xmm_count_witness :
    emit_expr call_f {} = .ok call_f_result ∧
    ∃ (front : List Instr) (sp : Int) (post : List Instr),
      call_f_result.out = front ++
        [i2 .mov (.imm 1) (.reg .eax)] ++
        (if sp.tmod 16 ≠ 0 then [i2 .sub (.imm 8) (.reg .rsp)] else []) ++
        [i1 .call (.target (.name "f"))] ++ post := by
  have h : emit_expr call_f {} = .ok call_f_result := by decide!
  obtain ⟨g2, g3, g4, ir, xr, P, sp, post, _, _, _, hout, _⟩ :=
    call_sets_eax_to_xmm_count call_f
      [.literal tInt 1 0 1, .literal tDouble 0 0x4004000000000000 2, .literal tInt 3 0 3]
      [tInt, tDouble, ctype_int] {} call_f_result rfl rfl h
  exact ⟨h, g3.out ++ P ++ [], sp, post, hout⟩

/-- C11 (defect of `emit_default`): in
`switch (1) { default: 10; break; case 1: 20; break; }` the dispatch `jmp .L0`
reaches the label that `default` defines before the test of `case 1` is
reached, so the default body runs (10 in `%rax`) although `case 1` matches; with
`default` placed last the matching case runs (20). -/
theorem switch_default_before_matching_case :
    (emit_expr switch_default_first {}).text = some
      [i2 .mov (.imm 1) (.reg .rax), i1 .jmp (.target (.L 0)),
       .label (.L 0), i2 .mov (.imm 10) (.reg .rax), i1 .jmp (.target (.L 1)),
       i1 .jmp (.target (.L 3)), .label (.L 2), i2 .cmp (.imm 1) (.reg .eax),
       i1 .jne (.target (.L 4)), .label (.L 3), i2 .mov (.imm 20) (.reg .rax),
       i1 .jmp (.target (.L 1)), .label (.L 4), .label (.L 1)] ∧
    ((emit_expr switch_default_first {}).text.bind fun t =>
      (exec t 100 0 entry_state).map fun m => m.get .rax 8) = some 10 ∧
    ((emit_expr switch_default_last {}).text.bind fun t =>
      (exec t 100 0 entry_state).map fun m => m.get .rax 8) = some 20 := by
  refine ⟨by decide!, by decide!, by decide!⟩

/-- C12 (defect of `emit_do`): in `do { continue; } while (0);` the jump of
`continue` goes to `.L0`, the label in front of the body, not to the evaluation
of the controlling expression, which starts two lines later; the loop never
reaches its condition.  In `while (0) { continue; }` the same label stands in
front of the controlling expression. -/
theorem do_continue_skips_condition :
    (emit_expr do_continue {}).text = some
      [.label (.L 0), i1 .jmp (.target (.L 0)),
       i2 .mov (.imm 0) (.reg .rax), i2 .test (.reg .rax) (.reg .rax),
       i1 .je (.target (.L 1)), i1 .jmp (.target (.L 0)), .label (.L 1)] ∧
    ((emit_expr do_continue {}).text.bind fun t => exec t 1000 0 entry_state).isNone = true ∧
    (emit_expr while_continue {}).text = some
      [.label (.L 0), i2 .mov (.imm 0) (.reg .rax), i2 .test (.reg .rax) (.reg .rax),
       i1 .je (.target (.L 1)), i1 .jmp (.target (.L 0)), i1 .jmp (.target (.L 0)),
       .label (.L 1)] := by
  refine ⟨by decide!, by decide!, by decide!⟩

/-- C13 (defect of `emit_copy_struct`): for the assignment of a 12-byte structure
the first loop (`i < size`, step 8) runs for `i = 0` and `i = 8`, so the second
`movq` pair moves the bytes 8..15; the loops for 4 and 1 bytes emit nothing.
Executed, the byte behind the source (offset 12) lands behind the destination. -/
theorem copy_struct_12_moves_16_bytes :
    (emit_expr struct12_assign {}).text = some
      [i1 .push (.reg .rcx), i1 .push (.reg .r11),
       i2 .lea (.mem (-32) .rbp) (.reg .rax), i2 .mov (.reg .rax) (.reg .rcx),
       i2 .lea (.mem (-16) .rbp) (.reg .rax),
       i2 .movq (.mem 0 .rcx) (.reg .r11), i2 .movq (.reg .r11) (.mem 0 .rax),
       i2 .movq (.mem 8 .rcx) (.reg .r11), i2 .movq (.reg .r11) (.mem 8 .rax),
       i1 .pop (.reg .r11), i1 .pop (.reg .rcx)] ∧
    copy_state.mem (0x10000 - 16 + 12) = 0 ∧
    ((emit_expr struct12_assign {}).text.bind fun t =>
      (run t copy_state).map fun r => r.1.mem (0x10000 - 16 + 12)) = some 0xAA := by
  refine ⟨by decide!, by decide!, by decide!⟩

/-- C14 (defect of `emit_data_int`): for
`struct { char a; int b; int c; } g = { 1, 2, 3 };` (12 bytes, initializers at the
offsets 0, 4 and 8) the running offset is advanced by the size of each scalar
but not by the padding emitted before it.  The padding before `c` is therefore
three bytes again, `.long 3` starts at byte 11, three more bytes follow, and the
directives after the label total 18 bytes. -/
theorem data_padding_not_counted :
    (emit_global_var global_struct {}).text = some
      [.data (some 0), .global "g", .label (.name "g"),
       .word 1 1, .word 1 0, .word 1 0, .word 1 0, .word 4 2,
       .word 1 0, .word 1 0, .word 1 0, .word 4 3,
       .word 1 0, .word 1 0, .word 1 0] ∧
    (emit_global_var global_struct {}).text.map data_size = some 18 ∧
    ((emit_global_var global_struct {}).text.map fun t => data_offset t 4) = some 4 ∧
    ((emit_global_var global_struct {}).text.map fun t => data_offset t 8) = some 11 := by
  refine ⟨by decide!, by decide!, by decide!, by decide!⟩

/-- C15 (counterexample): in `void f(void) { int b; char a[0]; }` the variable
`a` of size 0 gets the offset -8 of `b`, and in `void f(void) { char a[0]; }` it
gets the offset 0. -/
theorem zero_size_local_shares_loff :
    frame_offsets zero_size_local = some [-8, -8] ∧
    frame_offsets only_zero_size_local = some [0] := by
  refine ⟨by decide!, by decide!⟩

/-- C15 (amended): when every parameter and every local variable of a function
has a positive size and `emit_func_prologue` succeeds, the nodes it returns are
the parameters and local variables with `loff` replaced, their offsets are
strictly decreasing in the order parameters, then local variables (so no two are
equal), and every offset is negative. -/
theorem prologue_loffs_negative_distinct (func : Func) (g g' : Gen) (ps ls : List Node)
    (hpos : ∀ v ∈ func.params ++ func.localvars, ∃ t, v.ctype = some t ∧ 0 < t.size)
    (h : emit_func_prologue func g = .ok (ps, ls, g')) :
    List.Forall₂ (fun v v' => set_loff v (loff_of v') = .ok v') func.params ps ∧
    List.Forall₂ (fun v v' => set_loff v (loff_of v') = .ok v') func.localvars ls ∧
    ((ps ++ ls).map loff_of).Pairwise (· > ·) ∧
    ((ps ++ ls).map loff_of).Nodup ∧
    ∀ x ∈ (ps ++ ls).map loff_of, x < 0 := by
  obtain ⟨off0, g0, off1, g1, off2, la, hoff0, hp, hl⟩ := emit_func_prologue_inv func g g' ps ls h
  obtain ⟨hle1, hm1, hpw1, hf1⟩ := prologue_params_offsets _ _ _ _ _ _ _ _ hp
    (fun v hv => hpos v (List.mem_append_left _ hv))
  obtain ⟨hle2, hm2, hpw2, hf2⟩ := prologue_locals_offsets _ _ _ _ _ _ hl
    (fun v hv => hpos v (List.mem_append_right _ hv))
  have hpw : ((ps ++ ls).map loff_of).Pairwise (· > ·) := by
    rw [List.map_append, List.pairwise_append]
    refine ⟨hpw1, hpw2, fun a ha b hb => ?_⟩
    have := hm1 a ha
    have := hm2 b hb
    omega
  refine ⟨hf1, hf2, hpw, ?_, ?_⟩
  · exact hpw.imp (fun h => ne_of_gt h)
  · intro x hx
    rw [List.map_append, List.mem_append] at hx
    rcases hx with hx | hx
    · have := hm1 x hx
      omega
    · have := hm2 x hx
      omega

/-- Witness for C15: `void f(int x, double y) { int a; char b; }` gets the
offsets -8, -16, -24, -32. -/
theorem prologue_loffs_negative_distinct_witness :
    frame_offsets params_and_locals = some [-8, -16, -24, -32] ∧
    ∃ (ps ls : List Node) (g' : Gen),
      emit_func_prologue params_and_locals { stackpos := 0 } = .ok (ps, ls, g') ∧
      ((ps ++ ls).map loff_of).Nodup ∧ ∀ x ∈ (ps ++ ls).map loff_of, x < 0 := by
  refine ⟨by decide!, ?_⟩
  have hex : ∃ r, emit_func_prologue params_and_locals { stackpos := 0 } = .ok r := by
    cases hr : emit_func_prologue params_and_locals { stackpos := 0 } with
    | ok r => exact ⟨r, rfl⟩
    | error e =>
      have hn : frame_offsets params_and_locals = none := by
        simp only [frame_offsets, hr]
      have hs : frame_offsets params_and_locals = some [-8, -16, -24, -32] := by decide!
      rw [hn] at hs
      cases hs
  obtain ⟨⟨ps, ls, g'⟩, hr⟩ := hex
  have h := prologue_loffs_negative_distinct params_and_locals { stackpos := 0 } g' ps ls
    (by
      intro v hv
      simp only [params_and_locals, List.mem_append, List.mem_cons, List.mem_singleton,
        List.not_mem_nil, or_false] at hv
      rcases hv with (hv | hv) | (hv | hv) <;> subst hv
      · exact ⟨tInt, rfl, by decide⟩
      · exact ⟨tDouble, rfl, by decide⟩
      · exact ⟨tInt, rfl, by decide⟩
      · exact ⟨tChar, rfl, by decide⟩) hr
  exact ⟨ps, ls, g', hr, h.2.2.2.1, h.2.2.2.2⟩

/-- C16: let `n` be a floating literal or a string node whose label is not yet
set.  Emitting `n` any number `k + 1` of times in a row succeeds and appends the
label definition with its data directive once, at the first emission, with the
fresh label `l`, and `k + 1` loads, all from `l`; the definition of `l` occurs
exactly once in the appended text.  In every state in which the label `l'` of `n`
is set, an emission appends only the load from `l'` and keeps the label. -/
theorem literal_label_emitted_once (n : Node) (id : Nat) (g : Gen) (k : Nat)
    (hn : label_literal_id n = some id) (hg : g.labels.lookup id = none) :
    (∃ g', emit_expr (.compound_stmt (List.replicate (k + 1) n)) g = .ok g' ∧
      g'.out = g.out ++ literal_def n (.L g.labelseq) ++
        List.replicate (k + 1) (literal_load n (.L g.labelseq)) ∧
      (literal_def n (.L g.labelseq) ++
        List.replicate (k + 1) (literal_load n (.L g.labelseq))).count
          (.label (.L g.labelseq)) = 1 ∧
      g'.labels.lookup id = some (.L g.labelseq)) ∧
    (∀ (g2 : Gen) (l' : Label), g2.labels.lookup id = some l' →
      emit_expr n g2 = .ok { g2 with out := g2.out ++ [literal_load n l'] }) := by
  refine ⟨?_, fun g2 l' h2 => emit_expr_literal_known n id l' g2 hn h2⟩
  have h1 := emit_expr_literal_first n id g hn hg
  have h2 := emit_compound_literal_known n id (.L g.labelseq) hn k
    { g with
      out := g.out ++ literal_def n (.L g.labelseq) ++ [literal_load n (.L g.labelseq)],
      labelseq := g.labelseq + 1,
      labels := (id, .L g.labelseq) :: g.labels }
    (by simp [List.lookup])
  refine ⟨{ g with
      out := g.out ++ literal_def n (.L g.labelseq) ++
        List.replicate (k + 1) (literal_load n (.L g.labelseq)),
      labelseq := g.labelseq + 1,
      labels := (id, .L g.labelseq) :: g.labels }, ?_, rfl, ?_, ?_⟩
  · rw [emit_expr, List.replicate_succ, emit_compound_stmt, h1]
    simp only [ok_bind]
    rw [h2]
    simp [List.replicate_succ]
  · have hload : ∀ m : Nat, (List.replicate m (literal_load n (.L g.labelseq))).count
        (.label (.L g.labelseq)) = 0 := by
      intro m
      rw [List.count_eq_zero]
      intro hmem
      have := List.eq_of_mem_replicate hmem
      cases n <;> simp [literal_load, i2] at this
    rw [List.count_append, hload]
    cases n with
    | literal ct ival fval id' => simp [literal_def, List.count_cons]
    | string ct sval id' => simp [literal_def, List.count_cons]
    | _ => simp [label_literal_id] at hn
  · simp [List.lookup]

/-- Witness for C16: the literal `2.5` emitted three times from the initial
state. -/
theorem literal_label_emitted_once_witness :
    label_literal_id lit_2_5 = some 7 ∧
    ∃ g', emit_expr (.compound_stmt (List.replicate 3 lit_2_5)) {} = .ok g' ∧
      g'.out = [.data none, .label (.L 0), .word 4 0, .word 4 0x40040000, .text,
        i2 .movsd (.rip (.L 0)) (.reg (.xmm 0)), i2 .movsd (.rip (.L 0)) (.reg (.xmm 0)),
        i2 .movsd (.rip (.L 0)) (.reg (.xmm 0))] :=
  have h := (literal_label_emitted_once lit_2_5 7 {} 2 rfl rfl).1
  ⟨rfl, h.elim fun g' hg' => ⟨g', hg'.1, hg'.2.1.trans (by decide!)⟩⟩

/-- C17 (defect of `emit_save_literal` and `emit_data_int`): the declaration
`double x = 1.0;` of a local variable is emitted as two `movl` after the zero filling, and the global
`double g = 1.0;` as one `.quad`; with `long double` in place of `double` both
stop with a fatal error, since neither `switch` has a case for `CTYPE_LDOUBLE`.
Loading the variable is the same `movsd` for both types. -/
theorem long_double_initializer_is_fatal :
    (emit_expr (float_decl tDouble) {}).text = some
      [i2 .movl (.imm 0) (.mem (-8) .rbp), i2 .movl (.imm 0) (.mem (-4) .rbp),
       i2 .movl (.imm 0) (.mem (-8) .rbp), i2 .movl (.imm 0x3ff00000) (.mem (-4) .rbp)] ∧
    emit_expr (float_decl tLDouble) {} = .error (.error "internal error") ∧
    (emit_global_var (global_float tDouble) {}).text = some
      [.data (some 0), .global "g", .label (.name "g"), .word 8 0x3ff0000000000000] ∧
    emit_global_var (global_float tLDouble) {} = .error (.error "don't know how to handle") ∧
    (emit_expr (.lvar tLDouble "x" (-8) none 1) {}).text =
      (emit_expr (.lvar tDouble "x" (-8) none 1) {}).text := by
  refine ⟨by decide!, by decide!, by decide!, by decide!, by decide!⟩

/-- C18 (defect of `emit_gload` and `emit_gsave`): for a global variable of type
`double` the load is `mov d+0(%rip), %rax` and the store is `mov %rax, d(%rip)`;
neither names `%xmm0`.  For a local variable of the same type the load and the
store are `movsd` with `%xmm0`. -/
theorem global_double_uses_rax :
    (emit_expr (global_d tDouble) {}).text =
      some [i2 .mov (.ripd (.name "d") 0) (.reg .rax)] ∧
    (emit_store (global_d tDouble) {}).text =
      some [i2 .mov (.reg .rax) (.rip (.name "d"))] ∧
    (emit_expr (.lvar tDouble "x" (-8) none 1) {}).text =
      some [i2 .movsd (.mem (-8) .rbp) (.reg (.xmm 0))] ∧
    (emit_store (.lvar tDouble "x" (-8) none 1) {}).text =
      some [i2 .movsd (.reg (.xmm 0)) (.mem (-8) .rbp)] := by
  refine ⟨by decide!, by decide!, by decide!, by decide!⟩

/-- C19 (defect of `make_token`): `make_token` takes the line and column of the
file at the moment of the call, which every reader makes after it has read the
whole token.  In the file `a.c` with the text `ab cd` the tokens `ab` and `cd`,
which start at the columns 0 and 3 of line 1, get the columns 2 and 5; in the
text `a`, backslash, newline, `b` the identifier `ab` starts at line 1, column 0
and gets line 2, column 1.  The file name is the one of the file. -/
theorem token_position_is_scan_end :
    ((lex_all 10 { file := { name := "a.c", input := ['a', 'b', ' ', 'c', 'd'] } }).toOption.map
      fun ts => ts.map fun t => (t.sval, t.file, t.line, t.column)) =
        some [(['a', 'b'], "a.c", 1, 2), (['c', 'd'], "a.c", 1, 5)] ∧
    ((lex_all 10 { file := { name := "a.c", input := ['a', '\\', '\n', 'b'] } }).toOption.map
      fun ts => ts.map fun t => (t.sval, t.file, t.line, t.column)) =
        some [(['a', 'b'], "a.c", 2, 1)] := by
  refine ⟨by decide!, by decide!⟩

/-- C21: after `unget_token(t1)`, ..., `unget_token(tn)` with tokens that are not
null, on top of any earlier calls `ts1` and in any state (the active buffer being
the alternate one if it is installed, the primary one otherwise), the next `n`
calls of `lex` succeed and return `tn`, ..., `t1`, the pointers that were pushed;
the state after them is the state before the `n` calls of `unget_token`, so the
buffer is as it was and the character source, which no `unget_token` touches, has
not been read.  As this holds for every split of the pushed tokens, it describes
the state after every one of the calls of `lex`.  `unget_token(NULL)` changes
nothing. -/
theorem unget_then_lex_is_lifo (s : Lexer) (ts1 ts : List TokPtr)
    (h : ∀ t ∈ ts, t ≠ .null) :
    lex_n ts.length (unget_tokens (ts1 ++ ts) s) = .ok (ts.reverse, unget_tokens ts1 s) ∧
    lex_n ts.length (unget_tokens ts s) = .ok (ts.reverse, s) ∧
    (unget_tokens (ts1 ++ ts) s).file = s.file ∧
    unget_token .null s = s := by
  refine ⟨?_, lex_n_unget_tokens ts s h, unget_tokens_file _ s, rfl⟩
  rw [unget_tokens_append]
  exact lex_n_unget_tokens ts _ h

/-- Witness for C21: an identifier and a keyword pushed onto the primary buffer
that already holds a number. -/
theorem unget_then_lex_is_lifo_witness :
    lex_n 2 (unget_tokens
        [.fresh { kind := .TIDENT, sval := ['x'] }, .fresh { kind := .TKEYWORD, id := some .OP_INC }]
        { file := { input := ['y'] }, buffer := [.fresh { kind := .TNUMBER, sval := ['1'] }] }) =
      .ok ([.fresh { kind := .TKEYWORD, id := some .OP_INC }, .fresh { kind := .TIDENT, sval := ['x'] }],
        { file := { input := ['y'] }, buffer := [.fresh { kind := .TNUMBER, sval := ['1'] }] }) :=
  (unget_then_lex_is_lifo
    { file := { input := ['y'] }, buffer := [.fresh { kind := .TNUMBER, sval := ['1'] }] } []
    [.fresh { kind := .TIDENT, sval := ['x'] }, .fresh { kind := .TKEYWORD, id := some .OP_INC }]
    (by decide)).2.1
/-- C22: with an alternate buffer `a` installed by `set_input_buffer`, every
sequence of calls of `lex` and `unget_token` succeeds and ends in a state that
differs from the state `s` before the installation in the alternate buffer only:
the primary buffer, the character source and the two static tokens are those of
`s`.  After `set_input_buffer(NULL)` the state is the one that
`set_input_buffer(NULL)` gives from `s` itself, so `lex` and every later call
return what they would have returned without the alternate buffer. -/
theorem altbuffer_calls_leave_primary_stream (s : Lexer) (a : List TokPtr)
    (cs : List LexCall) :
    ∃ ps s', run_calls cs (set_input_buffer (some a) s) = .ok (ps, s') ∧
      s'.buffer = s.buffer ∧ s'.file = s.file ∧
      s'.space_token = s.space_token ∧ s'.newline_token = s.newline_token ∧
      set_input_buffer none s' = set_input_buffer none s ∧
      lex (set_input_buffer none s') = lex (set_input_buffer none s) := by
  obtain ⟨ps, a', h⟩ := run_calls_alt cs a s
  exact ⟨ps, _, h, rfl, rfl, rfl, rfl, rfl, rfl⟩
/-- C23 (defect of `lex`): every newline is the one static `newline_token`, and
`tok->space = true` is written into it when a space token precedes a newline;
nothing resets it.  In the text of a blank, a newline and a newline the second
newline token has `space` set although nothing stands between it and the first;
in the text `a`, newline, `b`, blank, newline, `c`, newline the newline after `c`
has it set as well.  In the text `a`, newline, newline, blank, `b`, where no blank
comes before a newline, both newline tokens have the flag clear and `b` has it
set. -/
theorem newline_token_keeps_space_flag :
    ((lex_text [' ', '\n', '\n']).toOption.map fun ts => ts.map fun t => (t.kind, t.space)) =
      some [(.TNEWLINE, true), (.TNEWLINE, true)] ∧
    ((lex_text ['a', '\n', 'b', ' ', '\n', 'c', '\n']).toOption.map
      fun ts => ts.map fun t => (t.kind, t.sval, t.space)) =
      some [(.TIDENT, ['a'], false), (.TNEWLINE, [], false), (.TIDENT, ['b'], false),
        (.TNEWLINE, [], true), (.TIDENT, ['c'], false), (.TNEWLINE, [], true)] ∧
    ((lex_text ['a', '\n', '\n', ' ', 'b']).toOption.map
      fun ts => ts.map fun t => (t.kind, t.sval, t.space)) =
      some [(.TIDENT, ['a'], false), (.TNEWLINE, [], false), (.TNEWLINE, [], false),
        (.TIDENT, ['b'], true)] := by
  refine ⟨by decide!, by decide!, by decide!⟩
/-- C24 (counterexample): in the text of two blanks, `x`, a blank and `y` the
identifier `x` starts at column 2 and has `bol` set, as the column was 0 when `lex`
was called; `y` has it clear. -/
theorem indented_token_has_bol :
    ((lex_text [' ', ' ', 'x', ' ', 'y']).toOption.map
      fun ts => ts.map fun t => (t.sval, t.bol)) = some [(['x'], true), (['y'], false)] := by
  decide!

/-- C24 (amended): when `lex` reads from the character source (no alternate
buffer, the primary buffer empty) and returns a token, the `bol` flag of that
token is true exactly when the column of the character source is 0 at the moment
of the call, before the whitespace and the comments in front of the token are
skipped. -/
theorem lex_bol_is_column_at_call (s s' : Lexer) (p : TokPtr) (ha : s.altbuffer = none)
    (hb : s.buffer = []) (h : lex s = .ok (p, s')) (hp : p ≠ .null) :
    ∃ t, s'.deref p = some t ∧ (t.bol = true ↔ s.file.column = 0) := by
  obtain ⟨q, w, hq⟩ := lex_source_inv s s' p ha hb h
  have h1 : p = (w.set_bol q (decide (s.file.column = 0))).1 := congrArg Prod.fst hq
  have h2 : s' = (w.set_bol q (decide (s.file.column = 0))).2 := congrArg Prod.snd hq
  have hq0 : q ≠ .null := by
    intro e
    apply hp
    rw [h1]
    exact (set_bol_null w q _).mpr e
  rw [h1, h2]
  cases q with
  | null => exact absurd rfl hq0
  | fresh t => exact ⟨_, rfl, by simp⟩
  | space_static => exact ⟨_, rfl, by simp [Lexer.set_bol]⟩
  | newline_static => exact ⟨_, rfl, by simp [Lexer.set_bol]⟩

/-- Witness for C24: the first call of `lex` on the text of two blanks and `x`. -/
theorem lex_bol_is_column_at_call_witness :
    ∃ t, Lexer.deref { file := { input := [], column := 3, ntok := 1 } }
        (.fresh { kind := .TIDENT, line := 1, column := 3, space := true, bol := true,
                  sval := ['x'] }) = some t ∧
      (t.bol = true ↔ (0 : Nat) = 0) :=
  lex_bol_is_column_at_call { file := { input := [' ', ' ', 'x'] } }
    { file := { input := [], column := 3, ntok := 1 } }
    (.fresh { kind := .TIDENT, line := 1, column := 3, space := true, bol := true, sval := ['x'] })
    rfl rfl (by rfl) (by decide)
/-- C26 (defect of `read_number`): `strchr("+-", c)` is not null for the
character NUL, which it finds at the end of the string, and so is
`strchr("eEpP", last)`.  In the text `1e`, NUL, `+2;` the longest prefix of the
claimed form is `1e`; `read_number` goes on after it, takes the NUL and, with the
NUL as `last`, the `+`, and then the `2`: the token has the text `1e` (the buffer
holds a NUL after it) and the next character to read is the `;`.  With `#` in the
place of the NUL the number ends before it, and a NUL after `1x` is left unread. -/
theorem number_swallows_nul :
    ((do_read_token { input := ['1', 'e', Char.ofNat 0, '+', '2', ';'] }).toOption.map
      fun r => (r.1, r.2.content)) =
      some (.fresh { kind := .TNUMBER, line := 1, column := 5, sval := ['1', 'e'] }, [';']) ∧
    ((do_read_token { input := ['1', 'e', '#', '+', '2', ';'] }).toOption.map
      fun r => (r.1, r.2.content)) =
      some (.fresh { kind := .TNUMBER, line := 1, column := 2, sval := ['1', 'e'] },
        ['#', '+', '2', ';']) ∧
    ((do_read_token { input := ['1', 'x', Char.ofNat 0, '+', '2', ';'] }).toOption.map
      fun r => (r.1, r.2.content)) =
      some (.fresh { kind := .TNUMBER, line := 1, column := 2, sval := ['1', 'x'] },
        [Char.ofNat 0, '+', '2', ';']) := by
  refine ⟨by decide!, by decide!, by decide!⟩
/-- C27 (counterexample): `/` followed by `/` or `*` and `.` followed by a digit
are punctuators followed by a character that cannot extend them to a longer
punctuator, and `do_read_token` returns no keyword token for them: `//x` and
`/*x*/` give the static space token, `.5x` gives one number token. -/
theorem slash_and_dot_are_not_always_keywords :
    can_extend ['/'] '/' = false ∧ can_extend ['/'] '*' = false ∧ can_extend ['.'] '5' = false ∧
    ((do_read_token { input := ['/', '/', 'x'] }).toOption.map fun r => (r.1, r.2.content)) =
      some (.space_static, []) ∧
    ((do_read_token { input := ['/', '*', 'x', '*', '/', 'y'] }).toOption.map
      fun r => (r.1, r.2.content)) = some (.space_static, ['y']) ∧
    ((do_read_token { input := ['.', '5', 'x', ';'] }).toOption.map fun r => (r.1, r.2.content)) =
      some (.fresh { kind := .TNUMBER, line := 1, column := 3, sval := ['.', '5', 'x'] }, [';']) := by
  refine ⟨by decide, by decide, by decide, by decide!, by decide!, by decide!⟩

/-- C27 (amended): let `p` be a C11 punctuator or digraph with the keyword id `id`
of the table `punctuators`, let successive calls of `get` deliver the characters
of `p` from `f`, leaving `g`, and let the character that `get` delivers next from
`g`, if there is one, neither begin with `p` a longer punctuator nor make a
comment or a number of it (`/` before `/` or `*`, `.` before a digit).  Then
`do_read_token` succeeds with one token made by `make_token`, of kind `TKEYWORD`
and with the id `id`, and the next call of `get` afterwards returns what it
returns on `g` and leaves the same characters: the characters of `p` are
consumed and no others. -/
theorem punctuator_longest_match (p : List Char) (id : KeywordId) (f g : File)
    (hp : (p, id) ∈ punctuators) (hd : delivers p f = some g)
    (hend : ∀ x, (get g).1 = some x →
      can_extend p x = false ∧ begins_other_token p x = false) :
    ∃ t f', do_read_token f = .ok (.fresh t, f') ∧ t.kind = .TKEYWORD ∧ t.id = some id ∧
      (get f').1 = (get g).1 ∧ (get f').2.content = (get g).2.content := by
  obtain ⟨t, f', h, hk, hi, hv⟩ :=
    token_view_inv _ _ _ _ (do_read_token_punct (p, id) f g hp hd hend)
  exact ⟨t, f', h, hk, hi, by rw [get_fst, get_fst, hv], by rw [get_content, get_content, hv]⟩

/-- Witness for C27: the digraph `%:%:` before `a`, and `<` before `-`. -/
theorem punctuator_longest_match_witness :
    (∃ t f', do_read_token { input := ['%', ':', '%', ':', 'a'] } = .ok (.fresh t, f') ∧
      t.kind = .TKEYWORD ∧ t.id = some .KSHARPSHARP ∧
      (get f').1 = (get { input := ['a'], column := 4 }).1 ∧
      (get f').2.content = (get { input := ['a'], column := 4 }).2.content) ∧
    (∃ t f', do_read_token { input := ['<', '-'] } = .ok (.fresh t, f') ∧
      t.kind = .TKEYWORD ∧ t.id = some (.ch '<') ∧
      (get f').1 = (get { input := ['-'], column := 1 }).1 ∧
      (get f').2.content = (get { input := ['-'], column := 1 }).2.content) :=
  ⟨punctuator_longest_match ['%', ':', '%', ':'] .KSHARPSHARP
      { input := ['%', ':', '%', ':', 'a'] } { input := ['a'], column := 4 }
      (by decide) (by rfl) (by decide!),
    punctuator_longest_match ['<'] (.ch '<') { input := ['<', '-'] }
      { input := ['-'], column := 1 } (by decide) (by rfl) (by decide!)⟩
/-- C28 (counterexample): the characters `x`, `u` and `U` after the backslash are
not returned unchanged.  On `x41;` the result is 65, without a warning, and `;`
is left; on `xg` and on `u0041` `read_escaped_char` stops with a fatal error; at
the end of the input it does so as well. -/
theorem hex_and_universal_escapes_are_not_returned :
    ((read_escaped_char { input := ['x', '4', '1', ';'] }).toOption.map
      fun r => (r.1, r.2.content, r.2.warnings)) = some (65, [';'], []) ∧
    read_escaped_char { input := ['x', 'g'] } =
      .error (.error "\\x is not followed by a hexadecimal character") ∧
    read_escaped_char { input := ['u', '0', '0', '4', '1'] } =
      .error (.error "invalid universal character") ∧
    read_escaped_char { input := [] } = .error (.error "premature end of input") := by
  refine ⟨by decide!, by rfl, by rfl, by rfl⟩

/-- C28 (amended): `read_escaped_char` reads the character `ch` after the
backslash with `get`.  For the letters `a b f n r t v e` it returns 7, 8, 12, 10,
13, 9, 11, 27, for `'`, `"`, `?` and the backslash the character itself, in both
cases leaving the file as `get` left it.  For an octal digit followed by at most
two more octal digits, and by no octal digit if there are fewer than two more, it
returns their base-8 value, which is below 512, and the next `get` afterwards
returns what follows the digits: a fourth octal digit is not read.  Any other
character except `x`, `u` and `U` is returned with the warning "unknown escape
character". -/
theorem read_escaped_char_values :
    (∀ (f : File) (ch : Char) (v : Int), (ch, v) ∈ letter_escapes → (get f).1 = some ch →
      read_escaped_char f = .ok (v, (get f).2)) ∧
    (∀ (f : File) (ch : Char), ch ∈ self_escapes → (get f).1 = some ch →
      read_escaped_char f = .ok (ch.toNat, (get f).2)) ∧
    (∀ (f g : File) (d : Char) (ds : List Char), delivers (d :: ds) f = some g →
      (∀ x ∈ d :: ds, is_octal x = true) → ds.length ≤ 2 →
      (ds.length < 2 → ∀ x, (get g).1 = some x → is_octal x = false) →
      ∃ f', read_escaped_char f = .ok (octal_value (d :: ds), f') ∧
        0 ≤ octal_value (d :: ds) ∧ octal_value (d :: ds) < 512 ∧
        (get f').1 = (get g).1 ∧ (get f').2.content = (get g).2.content) ∧
    (∀ (f : File) (ch : Char), (get f).1 = some ch → ch ∉ letter_escapes.map Prod.fst →
      ch ∉ self_escapes → is_octal ch = false → ch ≠ 'x' → ch ≠ 'u' → ch ≠ 'U' →
      read_escaped_char f = .ok (ch.toNat, warn "unknown escape character" (get f).2)) := by
  refine ⟨?_, ?_, ?_, ?_⟩
  · intro f ch v hm hg
    have key : ∀ p ∈ letter_escapes, (get f).1 = some p.1 →
        read_escaped_char f = .ok (p.2, (get f).2) := by
      intro p hp
      unfold letter_escapes at hp
      unfold read_escaped_char
      fin_cases hp <;> (intro h; simp at h; simp [h])
    exact key (ch, v) hm hg
  · intro f ch hm hg
    unfold self_escapes at hm
    unfold read_escaped_char
    fin_cases hm <;> simp [hg]
  · intro f g d ds hd ho hlen hend
    rw [delivers_cons_iff] at hd
    have hdl := delivers_to_list _ _ _ hd.2
    have hod := ho d (List.mem_cons_self _ _)
    obtain ⟨f', he, hv⟩ := read_octal_char_list d ds (get f).2 g.content hdl
      (fun x hx => ho x (List.mem_cons_of_mem _ hx)) hlen
      (fun h x hx => hend h x (by rw [get_fst]; exact hx))
    have hb := octal_value_bound d ds ho hlen
    have hr := is_octal_range d hod
    have hoct : '0' ≤ d ∧ d ≤ '7' := by simpa [is_octal] using hod
    refine ⟨f', ?_, hb.1, hb.2, by rw [get_fst, get_fst, hv], by rw [get_content, get_content, hv]⟩
    unfold read_escaped_char
    simp only [hd.1]
    have n1 : ¬ (d = '\'' ∨ d = '"' ∨ d = '?' ∨ d = '\\') := by
      simp only [char_eq_iff]
      have : ('\'').toNat = 39 := rfl
      have : ('"').toNat = 34 := rfl
      have : ('?').toNat = 63 := rfl
      have : ('\\').toNat = 92 := rfl
      omega
    have n2 : ∀ e : Char, 96 < e.toNat → ¬ d = e := by
      intro e he h
      rw [h] at hr
      omega
    rw [if_neg n1, if_neg (n2 'a' (by decide)), if_neg (n2 'b' (by decide)),
      if_neg (n2 'f' (by decide)), if_neg (n2 'n' (by decide)), if_neg (n2 'r' (by decide)),
      if_neg (n2 't' (by decide)), if_neg (n2 'v' (by decide)), if_neg (n2 'e' (by decide)),
      if_pos hoct, he]
  · intro f ch hg h1 h2 h3 hx hu hU
    unfold read_escaped_char
    simp only [hg]
    simp only [letter_escapes, List.map, List.mem_cons, List.mem_singleton, List.not_mem_nil,
      or_false, not_or] at h1
    simp only [self_escapes, List.mem_cons, List.mem_singleton, List.not_mem_nil, or_false,
      not_or] at h2
    have h3' : ¬ ('0' ≤ ch ∧ ch ≤ '7') := by simpa [is_octal] using h3
    simp [h1, h2, h3', hx, hu, hU]

/-- Witness for C28: the escapes `\n`, `\?`, `\101` before `7` and `\q`. -/
theorem read_escaped_char_values_witness :
    read_escaped_char { input := ['n', 'x'] } = .ok (10, (get { input := ['n', 'x'] }).2) ∧
    read_escaped_char { input := ['?'] } = .ok (63, (get { input := ['?'] }).2) ∧
    (∃ f', read_escaped_char { input := ['1', '0', '1', '7'] } = .ok (octal_value ['1', '0', '1'], f') ∧
      0 ≤ octal_value ['1', '0', '1'] ∧ octal_value ['1', '0', '1'] < 512 ∧
      (get f').1 = (get { input := ['7'], column := 3 }).1 ∧
      (get f').2.content = (get { input := ['7'], column := 3 }).2.content) ∧
    read_escaped_char { input := ['q'] } =
      .ok (113, warn "unknown escape character" (get { input := ['q'] }).2) :=
  ⟨read_escaped_char_values.1 { input := ['n', 'x'] } 'n' 10 (by decide) (by rfl),
    read_escaped_char_values.2.1 { input := ['?'] } '?' (by decide) (by rfl),
    read_escaped_char_values.2.2.1 { input := ['1', '0', '1', '7'] }
      { input := ['7'], column := 3 } '1' ['0', '1'] (by rfl) (by decide) (by decide) (by decide),
    read_escaped_char_values.2.2.2 { input := ['q'] } 'q' (by rfl) (by decide) (by decide)
      (by decide) (by decide) (by decide) (by decide)⟩
/-- C29 (counterexample): the result of `read_universal_char` is an `int`.  The
eight digits `ffffffff` denote 4294967295, which is neither a surrogate nor
below 0xA0, and the value returned is -1. -/
theorem universal_char_result_is_int :
    hex_value ['f', 'f', 'f', 'f', 'f', 'f', 'f', 'f'] = 4294967295 ∧
    is_valid_ucn 4294967295 = true ∧
    read_universal_char 8 { input := ['f', 'f', 'f', 'f', 'f', 'f', 'f', 'f', ';'] } =
      .ok (-1, { input := [';'], column := 8 }) := by
  refine ⟨by decide, by decide, by rfl⟩

/-- C29 (amended): for `len` up to 8, so for the 4 of `\u` and the 8 of `\U`,
`read_universal_char(len)` returns `r` and leaves the file `f'` exactly when
`len` successive calls of `get` deliver hexadecimal digits `s` and leave `f'`,
the number `v` they denote is not in 0xD800..0xDFFF and is at least 0xA0 or one
of 0x24, 0x40, 0x60, and `r` is `v` converted to `int`; when there are no such
digits the result is a fatal error.  The `int` is `v` itself below 2^31, which
covers every `\u` and every code point, and has the 32-bit pattern of `v`
always. -/
theorem read_universal_char_iff (len : Nat) (hlen : len ≤ 8) (f : File) :
    (∀ (r : Int) (f' : File), read_universal_char len f = .ok (r, f') ↔
      ∃ s, delivers s f = some f' ∧ s.length = len ∧ (∀ x ∈ s, is_hex_digit x = true) ∧
        ¬ (0xD800 ≤ hex_value s ∧ hex_value s ≤ 0xDFFF) ∧
        (0xA0 ≤ hex_value s ∨ hex_value s = 0x24 ∨ hex_value s = 0x40 ∨ hex_value s = 0x60) ∧
        r = to_int32 (hex_value s)) ∧
    ((¬ ∃ s g, delivers s f = some g ∧ s.length = len ∧ (∀ x ∈ s, is_hex_digit x = true) ∧
        ¬ (0xD800 ≤ hex_value s ∧ hex_value s ≤ 0xDFFF) ∧
        (0xA0 ≤ hex_value s ∨ hex_value s = 0x24 ∨ hex_value s = 0x40 ∨ hex_value s = 0x60)) →
      ∃ e, read_universal_char len f = .error e) ∧
    (∀ v : Nat, v < 2 ^ 32 → to_int32 v % 2 ^ 32 = v ∧ (v < 2 ^ 31 → to_int32 v = v)) := by
  have hvalid : ∀ v : Nat, is_valid_ucn v = true ↔
      (¬ (0xD800 ≤ v ∧ v ≤ 0xDFFF) ∧ (0xA0 ≤ v ∨ v = 0x24 ∨ v = 0x40 ∨ v = 0x60)) := by
    intro v
    unfold is_valid_ucn
    by_cases h : 0xD800 ≤ v ∧ v ≤ 0xDFFF
    · simp [h]
    · simp [h, or_assoc]
  have key : ∀ (r : Int) (f' : File), read_universal_char len f = .ok (r, f') ↔
      ∃ s, delivers s f = some f' ∧ s.length = len ∧ (∀ x ∈ s, is_hex_digit x = true) ∧
        ¬ (0xD800 ≤ hex_value s ∧ hex_value s ≤ 0xDFFF) ∧
        (0xA0 ≤ hex_value s ∨ hex_value s = 0x24 ∨ hex_value s = 0x40 ∨ hex_value s = 0x60) ∧
        r = to_int32 (hex_value s) := by
    intro r f'
    constructor
    · intro h
      unfold read_universal_char at h
      rw [bind_eq_ok] at h
      obtain ⟨⟨q, g⟩, hl, h⟩ := h
      obtain ⟨s, hd, hsl, hs⟩ := universal_loop_inv len f g 0 q hl
      have hq := universal_loop_of_delivers s f g 0 hd hs
      rw [hsl, hl] at hq
      simp only [Except.ok.injEq, Prod.mk.injEq, and_true] at hq
      have hv := hex_fold_eq s (by rw [hsl]; exact hlen) hs
      rw [hv.1] at hq
      subst hq
      dsimp only at h
      by_cases hval : is_valid_ucn (hex_value s) = true
      · simp only [hval, Bool.not_true, Bool.false_eq_true, if_false, pure, Except.pure,
          Except.ok.injEq, Prod.mk.injEq] at h
        refine ⟨s, by rw [← h.2]; exact hd, hsl, hs, ((hvalid _).mp hval).1,
          ((hvalid _).mp hval).2, ?_⟩
        rw [← h.1]
        rfl
      · simp only [hval, Bool.not_false, if_true] at h
        cases h
    · rintro ⟨s, hd, hsl, hs, hv1, hv2, hr⟩
      have hq := universal_loop_of_delivers s f f' 0 hd hs
      have hv := hex_fold_eq s (by rw [hsl]; exact hlen) hs
      rw [hsl, hv.1] at hq
      unfold read_universal_char
      rw [hq]
      simp only [ok_bind, (hvalid _).mpr ⟨hv1, hv2⟩, Bool.not_true, Bool.false_eq_true, if_false]
      rw [hr]
      rfl
  refine ⟨key, ?_, ?_⟩
  · intro hno
    cases h : read_universal_char len f with
    | error e => exact ⟨e, rfl⟩
    | ok p =>
      exfalso
      obtain ⟨s, hd, hsl, hs, hv1, hv2, _⟩ := (key p.1 p.2).mp h
      exact hno ⟨s, p.2, hd, hsl, hs, hv1, hv2⟩
  · intro v hv
    unfold to_int32
    constructor
    · split <;> omega
    · intro h
      rw [if_pos h]

/-- Witness for C29: the four digits `00e9` before `x` give 0xE9 and leave `x`. -/
theorem read_universal_char_iff_witness :
    read_universal_char 4 { input := ['0', '0', 'e', '9', 'x'] } =
      .ok (233, { input := ['x'], column := 4 }) :=
  ((read_universal_char_iff 4 (by decide) { input := ['0', '0', 'e', '9', 'x'] }).1 233
      { input := ['x'], column := 4 }).mpr
    ⟨['0', '0', 'e', '9'], by rfl, rfl, by decide, by decide, by decide, by decide⟩
/-- C30: let `pfx` be one of the prefixes L, u, U, u8 or the empty prefix, with
the encoding `enc` the claim gives it (WCHAR, CHAR16, CHAR32, UTF8, NONE), and let
`get` deliver from `f` the prefix and then a quote `q`, a double quote or, except
after u8, a single quote.  Then every token `do_read_token` returns is made by
`make_token`, has the kind `TSTRING` after a double quote and `TCHAR` after a single
quote, and the encoding `enc`.  It does return one when the literal is plain:
for a string body without double quote and backslash up to the closing quote the
token has the bytes of the body as its text, for a single character other than
the backslash between single quotes it has that character as its value.  When
`get` delivers `u8` and then no double quote, `do_read_token` returns an
identifier whose text starts with `u8`. -/
theorem literal_prefix_gives_encoding :
    (∀ (pfx : List Char) (enc : Enc) (q : Char) (f g : File) (p : TokPtr) (f' : File),
      (pfx, enc) ∈ enc_prefixes → (q = '"' ∨ (q = '\'' ∧ pfx ≠ ['u', '8'])) →
      delivers (pfx ++ [q]) f = some g → do_read_token f = .ok (p, f') →
      ∃ t, p = .fresh t ∧ t.kind = (if q = '"' then .TSTRING else .TCHAR) ∧ t.enc = enc) ∧
    (∀ (pfx : List Char) (enc : Enc) (body : List Char) (f g : File),
      (pfx, enc) ∈ enc_prefixes → delivers (pfx ++ ['"'] ++ (body ++ ['"'])) f = some g →
      (∀ x ∈ body, x ≠ '"' ∧ x ≠ '\\') →
      ∃ t f', do_read_token f = .ok (.fresh t, f') ∧ t.kind = .TSTRING ∧ t.enc = enc ∧
        t.sval = cstr (body.map fun x => to_byte x.toNat) ∧ f'.content = g.content) ∧
    (∀ (pfx : List Char) (enc : Enc) (c : Char) (f g : File),
      (pfx, enc) ∈ enc_prefixes → pfx ≠ ['u', '8'] →
      delivers (pfx ++ ['\''] ++ [c, '\'']) f = some g → c ≠ '\\' →
      ∃ t f', do_read_token f = .ok (.fresh t, f') ∧ t.kind = .TCHAR ∧ t.enc = enc ∧
        t.c = to_char c.toNat ∧ f'.content = g.content) ∧
    (∀ f g : File, delivers ['u', '8'] f = some g → (get g).1 ≠ some '"' →
      ∃ t f' s, do_read_token f = .ok (.fresh t, f') ∧ t.kind = .TIDENT ∧
        t.sval = 'u' :: '8' :: s) := by
  refine ⟨?_, ?_, ?_, do_read_token_u8_ident⟩
  · intro pfx enc q f g p f' hm hq hd h
    obtain ⟨Q, _, he⟩ := do_read_token_literal pfx enc q f g hm hq hd
    rw [he] at h
    obtain ⟨t, hp, hx⟩ := freshE_result _ _ _ h
    refine ⟨t, hp, ?_⟩
    by_cases hq' : q = '"'
    · rw [if_pos hq'] at hx ⊢
      exact ⟨read_string_loop_kind _ _ _ _ _ _ hx, read_string_loop_enc _ _ _ _ _ _ hx⟩
    · rw [if_neg hq'] at hx ⊢
      exact ⟨read_char_kind _ _ _ _ hx, read_char_enc _ _ _ _ hx⟩
  · intro pfx enc body f g hm hd hb
    have hdl := delivers_to_list _ _ _ hd
    rw [delivers_list_append] at hdl
    obtain ⟨M, h1, h2⟩ := hdl
    obtain ⟨g1, hg1, hc1⟩ := delivers_of_list _ f M h1
    obtain ⟨Q, hQ, he⟩ := do_read_token_literal pfx enc '"' f g1 hm (Or.inl rfl) hg1
    obtain ⟨g2, hg2, hc2⟩ := delivers_of_list (body ++ ['"']) Q g.content
      (by rw [hQ, hc1]; exact h2)
    rw [if_pos rfl, read_string_plain body enc Q g2 hg2 hb] at he
    exact ⟨_, _, he, rfl, rfl, rfl, hc2⟩
  · intro pfx enc c f g hm hne hd hc
    have hdl := delivers_to_list _ _ _ hd
    rw [delivers_list_append] at hdl
    obtain ⟨M, h1, h2⟩ := hdl
    obtain ⟨g1, hg1, hc1⟩ := delivers_of_list _ f M h1
    obtain ⟨Q, hQ, he⟩ := do_read_token_literal pfx enc '\'' f g1 hm (Or.inr ⟨rfl, hne⟩) hg1
    obtain ⟨g2, hg2, hc2⟩ := delivers_of_list [c, '\''] Q g.content
      (by rw [hQ, hc1]; exact h2)
    rw [if_neg (by decide), read_char_plain c enc Q g2 hg2 hc] at he
    exact ⟨_, _, he, rfl, rfl, rfl, hc2⟩

/-- Witness for C30: the literals `u8"a"`, `L'b'` and `U"c"`, and `u8'd'`, which
begins with the identifier `u8`. -/
theorem literal_prefix_gives_encoding_witness :
    (∃ t, (TokPtr.fresh
        { kind := .TSTRING, line := 1, column := 5, sval := ['a'], enc := .ENC_UTF8 }) = .fresh t ∧
      t.kind = (if '"' = '"' then TokenKind.TSTRING else .TCHAR) ∧ t.enc = .ENC_UTF8) ∧
    (∃ t f', do_read_token { input := ['U', '"', 'c', '"', ';'] } = .ok (.fresh t, f') ∧
      t.kind = .TSTRING ∧ t.enc = .ENC_CHAR32 ∧
      t.sval = cstr (['c'].map fun x => to_byte x.toNat) ∧
      f'.content = File.content { input := [';'], column := 4 }) ∧
    (∃ t f', do_read_token { input := ['L', '\'', 'b', '\''] } = .ok (.fresh t, f') ∧
      t.kind = .TCHAR ∧ t.enc = .ENC_WCHAR ∧ t.c = to_char ('b').toNat ∧
      f'.content = File.content { input := [], column := 4 }) ∧
    (∃ t f' s, do_read_token { input := ['u', '8', '\'', 'd', '\''] } = .ok (.fresh t, f') ∧
      t.kind = .TIDENT ∧ t.sval = 'u' :: '8' :: s) :=
  ⟨literal_prefix_gives_encoding.1 ['u', '8'] .ENC_UTF8 '"' { input := ['u', '8', '"', 'a', '"'] }
      { input := ['a', '"'], column := 3 }
      (.fresh { kind := .TSTRING, line := 1, column := 5, sval := ['a'], enc := .ENC_UTF8 })
      { input := [], column := 5, ntok := 1 } (by decide) (by decide) (by rfl) (by rfl),
    literal_prefix_gives_encoding.2.1 ['U'] .ENC_CHAR32 ['c'] { input := ['U', '"', 'c', '"', ';'] }
      { input := [';'], column := 4 } (by decide) (by rfl) (by decide),
    literal_prefix_gives_encoding.2.2.1 ['L'] .ENC_WCHAR 'b' { input := ['L', '\'', 'b', '\''] }
      { input := [], column := 4 } (by decide) (by decide) (by rfl) (by decide),
    literal_prefix_gives_encoding.2.2.2 { input := ['u', '8', '\'', 'd', '\''] }
      { input := ['\'', 'd', '\''], column := 2 } (by rfl) (by decide!)⟩
/-- C32: when the characters a file delivers are a row of line splices (each a
backslash, white space `ws`, a newline) followed by a text `r` that does not
begin with a line splice, `get` returns the first character of `r` (the end of
input when `r` is empty), so never the backslash of a splice; it adds the
warning once for every splice with non-empty white space and no other warning.
When the character returned is not a backslash, the rest of `r` is left. -/
theorem get_hides_line_splices (sp : List (List Char)) (r : List Char) (f : File)
    (hb : ∀ ws ∈ sp, ∀ x ∈ ws, is_blank x = true) (hr : starts_with_splice r = false)
    (hf : f.content = splices sp ++ r) :
    (get f).1 = r.head? ∧
    (get f).2.warnings = f.warnings ++
      (sp.filter fun ws => ws ≠ []).map (fun _ => "backslash and newline separated by space") ∧
    (r.head? ≠ some '\\' → (get f).2.content = r.tail) := by
  have hn : sp.length < f.remaining + 1 := by
    have h1 : sp.length ≤ (splices sp).length := by
      clear hb hf
      induction sp with
      | nil => simp
      | cons ws sp ih =>
        simp only [splices, List.flatMap_cons, List.length_append, List.length_cons,
          List.length_nil] at ih ⊢
        omega
    rw [File.remaining_eq, hf, List.length_append]
    omega
  obtain ⟨h1, h2, h3⟩ := get_loop_splices r hr sp _ f hn hb hf
  refine ⟨h1, h2, fun hne => ?_⟩
  rw [if_neg hne] at h3
  exact h3

/-- Witness for C32: on the text backslash, newline, backslash, blank, newline,
`x`, `y` the call of `get` returns `x`, leaves `y` and warns once. -/
theorem get_hides_line_splices_witness :
    (get { input := ['\\', '\n', '\\', ' ', '\n', 'x', 'y'] }).1 = some 'x' ∧
    (get { input := ['\\', '\n', '\\', ' ', '\n', 'x', 'y'] }).2.warnings =
      ["backslash and newline separated by space"] ∧
    (get { input := ['\\', '\n', '\\', ' ', '\n', 'x', 'y'] }).2.content = ['y'] := by
  have h := get_hides_line_splices [[], [' ']] ['x', 'y']
    { input := ['\\', '\n', '\\', ' ', '\n', 'x', 'y'] } (by decide) (by decide) (by decide)
  exact ⟨h.1, h.2.1, h.2.2 (by decide)⟩
/-- C34: `skip_block_comment`, called after `/*` has been read, returns with the
file `g` exactly when the calls of `get` deliver some text `s`, then `*/`, and
leave `g`, where this `*/` is the first one (`s` followed by `*` does not
contain `*/`); nothing after the `/` is consumed.  It stops with a fatal error
exactly when no text followed by `*/` can be delivered, and the error is
"premature end of block comment".  After `/*` the rest `/` of `/*/` is an
error, the rest `**/x` of `/***/x` is skipped up to `x`. -/
theorem skip_block_comment_first_close :
    (∀ f g : File, skip_block_comment f = .ok g ↔
      ∃ s, delivers (s ++ ['*', '/']) f = some g ∧ ¬ ['*', '/'] <:+: s ++ ['*']) ∧
    (∀ f : File, (∃ e, skip_block_comment f = .error e) ↔
      ¬ ∃ s g, delivers (s ++ ['*', '/']) f = some g) ∧
    (∀ (f : File) (e : Fatal), skip_block_comment f = .error e →
      e = .error "premature end of block comment") ∧
    (skip_block_comment { input := ['/'] }).toOption = none ∧
    (skip_block_comment { input := ['*', '*', '/', 'x'] }).toOption.map File.content =
      some ['x'] := by
  refine ⟨skip_block_comment_ok_iff, ?_, ?_, by decide!, by decide!⟩
  · intro f
    constructor
    · rintro ⟨e, he⟩ ⟨s, g, hd⟩
      obtain ⟨s', g', hd', hi⟩ := first_close s.length s f g (le_refl _) hd
      rw [(skip_block_comment_ok_iff f g').2 ⟨s', hd', hi⟩] at he
      cases he
    · intro h
      cases hr : skip_block_comment f with
      | error e => exact ⟨e, rfl⟩
      | ok g =>
        obtain ⟨s, hd, _⟩ := (skip_block_comment_ok_iff f g).1 hr
        exact absurd ⟨s, g, hd⟩ h
  · intro f e
    unfold skip_block_comment
    generalize f.remaining + 1 = n
    generalize false = ast
    induction n generalizing ast f with
    | zero =>
      intro h
      simp only [skip_block_comment_loop] at h
      injection h with h
      exact h.symm
    | succ n ih =>
      intro h
      rw [skip_block_comment_loop] at h
      split at h
      · injection h with h
        exact h.symm
      · split at h
        · exact ih _ _ h
        · split at h
          · cases h
          · exact ih _ _ h
/-- C35: whenever `emit_expr` completes on a node, `stackpos` is back at its
value at entry and the call has only appended lines to the output; along these
lines, counting +8 for each `push`/`push_xmm` and -8 for each `pop`/`pop_xmm`
(the only operations that change `stackpos`, as the last five conjuncts record),
the running change is a multiple of 8 and never negative, so `stackpos` stays a
multiple of 8 when it was one at entry and never falls below its entry value,
hence never below 0. -/
theorem emit_expr_keeps_stackpos (n : Node) (g g' : Gen) (h : emit_expr n g = .ok g') :
    g'.stackpos = g.stackpos ∧
      (∃ t, g'.out = g.out ++ t ∧ depth t = 0 ∧
        ∀ pre, pre <+: t →
          0 ≤ depth pre ∧ (8 : Int) ∣ depth pre ∧
            (0 ≤ g.stackpos → 0 ≤ g.stackpos + depth pre) ∧
            ((8 : Int) ∣ g.stackpos → (8 : Int) ∣ g.stackpos + depth pre)) ∧
      (∀ i g0, (emit i g0).stackpos = g0.stackpos ∧ (emit i g0).out = g0.out ++ [i]) ∧
      (∀ r g0, (push r g0).out = g0.out ++ [i1 .push (.reg r)] ∧
        (push r g0).stackpos = g0.stackpos + depth [i1 .push (.reg r)]) ∧
      (∀ r g0 g1, pop r g0 = .ok g1 → g1.out = g0.out ++ [i1 .pop (.reg r)] ∧
        g1.stackpos = g0.stackpos + depth [i1 .pop (.reg r)] ∧ 0 ≤ g1.stackpos) ∧
      (∀ k g0, (push_xmm k g0).out =
          g0.out ++ [i2 .sub (.imm 8) (.reg .rsp), i2 .movsd (.reg (.xmm k)) (.ind .rsp)] ∧
        (push_xmm k g0).stackpos = g0.stackpos +
          depth [i2 .sub (.imm 8) (.reg .rsp), i2 .movsd (.reg (.xmm k)) (.ind .rsp)]) ∧
      (∀ k g0 g1, pop_xmm k g0 = .ok g1 →
        g1.out = g0.out ++ [i2 .movsd (.ind .rsp) (.reg (.xmm k)), i2 .add (.imm 8) (.reg .rsp)] ∧
        g1.stackpos = g0.stackpos +
          depth [i2 .movsd (.ind .rsp) (.reg (.xmm k)), i2 .add (.imm 8) (.reg .rsp)] ∧
        0 ≤ g1.stackpos) := by
  obtain ⟨hs, t, ho, hd, hp⟩ := (node_allbal n).1 g g' h
  refine ⟨by simpa using hs, ⟨t, ho, hd, fun pre hpre => ?_⟩, fun i g0 => ⟨rfl, rfl⟩,
    fun r g0 => ⟨rfl, rfl⟩, ?_, fun k g0 => ⟨by simp [push_xmm, emit], rfl⟩, ?_⟩
  · have h0 := hp pre hpre
    have h8 := depth_dvd pre
    exact ⟨h0, h8, fun hg => by omega, fun hg => dvd_add hg h8⟩
  · intro r g0 g1 e
    rw [pop_eq_ok] at e
    obtain ⟨e0, rfl⟩ := e
    exact ⟨rfl, rfl, e0⟩
  · intro k g0 g1 e
    rw [pop_xmm_eq_ok] at e
    obtain ⟨e0, rfl⟩ := e
    exact ⟨by simp, rfl, e0⟩

/-- C35, witness: the nested call `f(1, 2.5, g(3))` entered with `stackpos = 16`. -/
theorem emit_expr_keeps_stackpos_witness :
    emit_expr nested_call { stackpos := 16 } = .ok nested_call_result ∧
      nested_call_result.stackpos = 16 ∧
      (nested_call_result.out.map stack_effect).filter (· ≠ 0) =
        [8, 8, 8, 8, 8, 8, -8, -8, 8, -8, -8, -8, -8, -8] :=
  ⟨by decide!,
    (emit_expr_keeps_stackpos nested_call { stackpos := 16 } nested_call_result (by decide!)).1,
    by decide!⟩
/-- C37 (defect of `emit_va_arg`): the text emitted for `va_arg(ap, int)` ends
its update with the 8-byte store `mov %rbx, (%rax)`.  Executed on a `va_list`
with `gp_offset = 8` and `fp_offset = 48` it returns the saved `%rsi` (7) and
sets `gp_offset = 16`, but it also overwrites `fp_offset` with 0; the pointers
at offsets 8 and 16 are unchanged.  The text for `va_arg(ap, double)` returns
the saved `%xmm0` and changes `fp_offset` alone, to 64. -/
theorem va_arg_int_clears_fp_offset :
    (emit_expr (.va_arg tInt va_ap) {}).text = some
      [i2 .lea (.mem (-336) .rbp) (.reg .rax), i0 .nop, i1 .push (.reg .rcx),
       i1 .push (.reg .rbx), i2 .mov (.mem 16 .rax) (.reg .rcx),
       i2 .mov (.ind .rax) (.reg .ebx), i2 .add (.reg .rbx) (.reg .rcx),
       i2 .add (.imm 8) (.reg .ebx), i2 .mov (.reg .rbx) (.ind .rax),
       i2 .mov (.ind .rcx) (.reg .rax), i1 .pop (.reg .rbx), i1 .pop (.reg .rcx)] ∧
    va_list_fields va_list_state = (8, 48, 0x10010, 0x10000 - 304) ∧
    ((emit_expr (.va_arg tInt va_ap) {}).text.bind fun t =>
      (exec t 100 0 va_list_state).map fun m => (m.reg .rax, va_list_fields m)) =
      some (7, 16, 0, 0x10010, 0x10000 - 304) ∧
    ((emit_expr (.va_arg tDouble va_ap) {}).text.bind fun t =>
      (exec t 100 0 va_list_state).map fun m => (m.xmm 0, va_list_fields m)) =
      some (0x4004000000000000, 8, 64, 0x10010, 0x10000 - 304) := by
  refine ⟨by decide!, by decide!, by decide!, by decide!⟩
/-- C38 (defect of `get`): on the input backslash, blank, `x` the call of `get`
returns the backslash and leaves only `x` to be read, so the next call returns
`x` and the blank is lost (`skip_whitespace` has consumed it and only the
character after it is pushed back).  In the string literal `"a\ b"` the escape
is therefore read as `\b`: the token is the same as for `"a\b"`. -/
theorem get_drops_blank_after_backslash :
    (get { input := ['\\', ' ', 'x'] }).1 = some '\\' ∧
    (get { input := ['\\', ' ', 'x'] }).2.content = ['x'] ∧
    (get (get { input := ['\\', ' ', 'x'] }).2).1 = some 'x' ∧
    (get (get { input := ['\\', ' ', 'x'] }).2).1 ≠ some ' ' ∧
    ((lex_string ['"', 'a', '\\', ' ', 'b', '"']).toOption.bind fun p =>
      (Lexer.deref { file := {} } p).map fun t => (t.kind, t.sval)) =
      some (.TSTRING, ['a', Char.ofNat 8]) ∧
    ((lex_string ['"', 'a', '\\', 'b', '"']).toOption.bind fun p =>
      (Lexer.deref { file := {} } p).map fun t => (t.kind, t.sval)) =
      some (.TSTRING, ['a', Char.ofNat 8]) := by
  refine ⟨by decide!, by decide!, by decide!, by decide!, by decide!, by decide!⟩
/-- C39 (defect of `emit_save_literal`): for a `long`, `long long` or pointer
literal the two `movl` immediates are the low and the high 32 bits of the value
taken as an unsigned 64-bit number, and so are those of a double literal whose
bit pattern has the sign bit clear.  For a double literal with the sign bit set
the high word is the signed shift `*p >> 32` printed with `%lu`: it is the high
32 bits plus `2^64 - 2^32`, which is not below `2^32`; for `-1.0` the emitted
lines are `movl $0, -8(%rbp)` and `movl $18446744072634761216, -4(%rbp)`. -/
theorem double_literal_high_word_out_of_range :
    (∀ (ival : Int) (fval : Nat) (off : Int) (g : Gen) (sz : Int) (p : Option Ctype) (o : Int)
        (st va : Bool) (ps : List Ctype),
      (emit_save_literal ival fval (.mk .LONG sz p o st va ps) off g =
          .ok (emit (i2 .movl (.imm (ival % 2 ^ 64 / 2 ^ 32)) (.mem (off + 4) .rbp))
            (emit (i2 .movl (.imm (ival % 2 ^ 64 % 2 ^ 32)) (.mem off .rbp)) g)) ∧
        emit_save_literal ival fval (.mk .LLONG sz p o st va ps) off g =
          emit_save_literal ival fval (.mk .LONG sz p o st va ps) off g ∧
        emit_save_literal ival fval (.mk .PTR sz p o st va ps) off g =
          emit_save_literal ival fval (.mk .LONG sz p o st va ps) off g) ∧
      0 ≤ ival % 2 ^ 64 % 2 ^ 32 ∧ ival % 2 ^ 64 % 2 ^ 32 < 2 ^ 32 ∧
      0 ≤ ival % 2 ^ 64 / 2 ^ 32 ∧ ival % 2 ^ 64 / 2 ^ 32 < 2 ^ 32 ∧
      ival % 2 ^ 64 % 2 ^ 32 + 2 ^ 32 * (ival % 2 ^ 64 / 2 ^ 32) = ival % 2 ^ 64) ∧
    (∀ (ival : Int) (bits : Nat) (off : Int) (g : Gen) (sz : Int) (p : Option Ctype) (o : Int)
        (st va : Bool) (ps : List Ctype),
      emit_save_literal ival (bits % 2 ^ 63) (.mk .DOUBLE sz p o st va ps) off g =
        .ok (emit (i2 .movl (.imm ((bits % 2 ^ 63 : Nat) / 2 ^ 32)) (.mem (off + 4) .rbp))
          (emit (i2 .movl (.imm ((bits % 2 ^ 63 : Nat) % 2 ^ 32)) (.mem off .rbp)) g)) ∧
      ((bits % 2 ^ 63 : Nat) : Int) / 2 ^ 32 < 2 ^ 32) ∧
    (∀ (ival : Int) (bits : Nat) (off : Int) (g : Gen) (sz : Int) (p : Option Ctype) (o : Int)
        (st va : Bool) (ps : List Ctype),
      emit_save_literal ival (2 ^ 63 + bits % 2 ^ 63) (.mk .DOUBLE sz p o st va ps) off g =
        .ok (emit (i2 .movl (.imm (((2 ^ 63 + bits % 2 ^ 63 : Nat) : Int) / 2 ^ 32 +
            (2 ^ 64 - 2 ^ 32))) (.mem (off + 4) .rbp))
          (emit (i2 .movl (.imm ((2 ^ 63 + bits % 2 ^ 63 : Nat) % 2 ^ 32)) (.mem off .rbp)) g)) ∧
      (2 : Int) ^ 32 ≤ ((2 ^ 63 + bits % 2 ^ 63 : Nat) : Int) / 2 ^ 32 + (2 ^ 64 - 2 ^ 32)) ∧
    (emit_save_literal 0 0xBFF0000000000000 tDouble (-8) {}).text =
      some [i2 .movl (.imm 0) (.mem (-8) .rbp),
        i2 .movl (.imm 18446744072634761216) (.mem (-4) .rbp)] := by
  refine ⟨?_, ?_, ?_, by decide!⟩
  · intro ival fval off g sz p o st va ps
    refine ⟨⟨?_, rfl, rfl⟩, ?_⟩
    · simp only [emit_save_literal, Ctype.type, fmt_lu]
      congr 3 <;> congr 2 <;> (norm_num; omega)
    · norm_num
      omega
  · intro ival bits off g sz p o st va ps
    have hb : bits % 2 ^ 63 < 2 ^ 63 := Nat.mod_lt _ (by norm_num)
    refine ⟨?_, by norm_num; omega⟩
    simp only [emit_save_literal, Ctype.type, fmt_lu]
    have e : (bits % 2 ^ 63) % 2 ^ 64 = bits % 2 ^ 63 := Nat.mod_eq_of_lt (by omega)
    rw [e, if_pos hb]
    congr 3 <;> congr 2 <;> (norm_num; omega)
  · intro ival bits off g sz p o st va ps
    have hb : bits % 2 ^ 63 < 2 ^ 63 := Nat.mod_lt _ (by norm_num)
    refine ⟨?_, by norm_num; omega⟩
    simp only [emit_save_literal, Ctype.type, fmt_lu]
    have e : (2 ^ 63 + bits % 2 ^ 63) % 2 ^ 64 = 2 ^ 63 + bits % 2 ^ 63 :=
      Nat.mod_eq_of_lt (by omega)
    rw [e, if_neg (by omega)]
    congr 3 <;> congr 2 <;> (norm_num; omega)
/-- C40: let a character literal begin with one of the prefixes (none, `L`, `u`,
`U`) and the quote.  `do_read_token` passes what follows to `read_char` with the
encoding of the prefix.  If a character `c` other than the backslash and the
closing quote follow, the token is `make_char(c)`; if a backslash, an escape
sequence that `read_escaped_char` reads as `v`, and the closing quote follow,
it is `make_char(v)`; and whenever `read_char` returns a token it is one of these
two.  The payload of `make_char(v)` is `v` converted to `char`: a value between
-128 and 127 that differs from `v` by a multiple of 256, equal to `v` for
`0 ≤ v ≤ 127` and to `v - 256` for `128 ≤ v ≤ 255`. -/
theorem char_literal_payload (pfx : List Char) (enc : Enc) (f g : File)
    (hm : (pfx, enc) ∈ enc_prefixes) (hp : pfx ≠ ['u', '8'])
    (hd : delivers (pfx ++ ['\'']) f = some g) :
    ∃ Q : File, Q.content = g.content ∧ do_read_token f = freshE (read_char enc Q) ∧
      (∀ (c : Char) (k : File), c ≠ '\\' → delivers [c, '\''] Q = some k →
        read_char enc Q = .ok (make_char c.toNat enc k)) ∧
      (∀ (v : Int) (h k : File), (get Q).1 = some '\\' →
        read_escaped_char (get Q).2 = .ok (v, h) → delivers ['\''] h = some k →
        read_char enc Q = .ok (make_char v enc k)) ∧
      (∀ (t : Token) (f' : File), read_char enc Q = .ok (t, f') →
        ∃ (v : Int) (h k : File), delivers ['\''] h = some k ∧ (t, f') = make_char v enc k ∧
          (((get Q).1 = some '\\' ∧ read_escaped_char (get Q).2 = .ok (v, h)) ∨
            (∃ c, c ≠ '\\' ∧ v = c.toNat ∧ delivers [c] Q = some h))) ∧
      ∀ (v : Int) (k : File), (make_char v enc k).1.kind = .TCHAR ∧
        (make_char v enc k).1.enc = enc ∧ (make_char v enc k).1.c = to_char v ∧
        -128 ≤ to_char v ∧ to_char v ≤ 127 ∧ (to_char v - v) % 256 = 0 ∧
        (0 ≤ v → v ≤ 127 → to_char v = v) ∧ (128 ≤ v → v ≤ 255 → to_char v = v - 256) := by
  obtain ⟨Q, hQ, hdo⟩ := do_read_token_literal pfx enc '\'' f g hm (Or.inr ⟨rfl, hp⟩) hd
  simp only [show ('\'' = '"') = False from by decide, if_false] at hdo
  refine ⟨Q, hQ, hdo, ?_, ?_, ?_, ?_⟩
  · intro c k hc hk
    exact read_char_plain c enc Q k hk hc
  · intro v h k hb hr hk
    simp only [delivers_cons_iff, delivers_nil_iff] at hk
    rw [read_char_escape enc Q h v hb hr hk.1, hk.2]
  · intro t f' ht
    obtain ⟨v, k, hq, he, hv⟩ := read_char_inv enc Q t f' ht
    refine ⟨v, k, (get k).2, ?_, he, ?_⟩
    · simp only [delivers_cons_iff, delivers_nil_iff]
      exact ⟨hq, trivial⟩
    · rcases hv with hv | ⟨c, h1, h2, h3, h4⟩
      · exact Or.inl hv
      · refine Or.inr ⟨c, h2, h3, ?_⟩
        simp only [delivers_cons_iff, delivers_nil_iff]
        exact ⟨h1, h4.symm⟩
  · intro v k
    exact ⟨rfl, rfl, rfl, to_char_facts v⟩

/-- Witness for C40: `L'\xff'` is read by `read_char` with the encoding of `L`,
and its token is a character constant with the payload -1; the payload of
`'a'` is 97. -/
theorem char_literal_payload_witness :
    (∃ Q : File, Q.content = ['\\', 'x', 'f', 'f', '\''] ∧
      do_read_token { input := ['L', '\'', '\\', 'x', 'f', 'f', '\''] } =
        freshE (read_char .ENC_WCHAR Q)) ∧
    ((do_read_token { input := ['L', '\'', '\\', 'x', 'f', 'f', '\''] }).toOption.bind fun r =>
      (Lexer.deref { file := {} } r.1).map fun t => (t.kind, t.enc, t.c)) =
      some (.TCHAR, .ENC_WCHAR, -1) ∧
    ((do_read_token { input := ['\'', 'a', '\''] }).toOption.bind fun r =>
      (Lexer.deref { file := {} } r.1).map fun t => (t.kind, t.enc, t.c)) =
      some (.TCHAR, .ENC_NONE, 97) := by
  refine ⟨?_, by decide!, by decide!⟩
  obtain ⟨Q, hQ, hdo, _⟩ := char_literal_payload ['L'] .ENC_WCHAR
    { input := ['L', '\'', '\\', 'x', 'f', 'f', '\''] }
    { input := ['\\', 'x', 'f', 'f', '\''], column := 2 } (by decide) (by decide) (by decide)
  exact ⟨Q, hQ, hdo⟩

end Cc8
